import Mathlib

/-!
# polynomial_conv: a shallow embedding

Embedding of `pySurfaceHierarchy/src/TangentParam/polynomial_conv.cpp`.

Conventions of the embedding.

* `double` and `float` values are elements of a linearly ordered field `α`
  (instantiated with `ℚ` for evaluation); in the functions named as in the
  source the decimal literals are the exact decimal numbers and the
  arithmetic is exact.
* Rounding is modelled in the sections on floating point: `to_double` and
  `to_float` round to the nearest binary64 and binary32 number, ties to even,
  with an unbounded exponent range (no overflow, no underflow, no
  subnormal numbers), and no operation is fused. The definitions with the
  suffix `_fp` are the functions and loops of the source with every constant
  and every operation rounded to `double` and every assignment to a `float`
  container rounded to `float`. The statements on the precision of the stored
  values (the barycentric weights, the round trip, the sum of the weights and
  the exactness of the rule) are made for these.
* `int` values are unbounded integers: signed overflow is undefined in C++,
  so the embedding describes the runs in which no `int` computation overflows.
  Loop counters and container positions, which never go below zero, are
  natural numbers.
* Pointers into the half-edge mesh are addresses (`Nat`) into three heaps;
  only `HE_edge::face` is tested against null in the source, so only it is an
  `Option`.
* `do { ... } while (...)` loops over the pointer graph take a fuel argument
  and return `none` when it runs out.
* A read outside the bounds of a container (undefined in C++) yields a default
  value and a write outside the bounds leaves the container unchanged.
* `std::sqrt`, `is_valid` (param_util.h) and `get_axis_map_p2p` (param_util.h)
  are not part of the translated file and are parameters (`Extern`).
-/

namespace PolynomialConv

/-! ## Vectors (the `Geex::vec2` / `Geex::vec3` value types) -/

/-- Modelled from the spec: `Geex::vec2`, whose header is not among the
sources; a pair of coordinates, component `0` is `x` and component `1` is `y`. -/
structure vec2 (α : Type) where
  x : α
  y : α
deriving DecidableEq

/-- Modelled from the spec: `Geex::vec3`, whose header is not among the
sources; a triple of coordinates. -/
structure vec3 (α : Type) where
  x : α
  y : α
  z : α
deriving DecidableEq

/-- Library operations that the translated file calls but does not define. -/
structure Extern (α : Type) where
  /-- The function `std::sqrt`. -/
  sqrt : α → α
  /-- The function `is_valid` of param_util.h (finiteness test of a double). -/
  is_valid : α → Bool
  /-- The function `get_axis_map_p2p` of param_util.h: the axis alignment
  between two vertices, from their normals, the axis count and their axes. -/
  get_axis_map_p2p : vec3 α → vec3 α → Int → List (vec3 α) → List (vec3 α) → Int

section Vectors

variable {α : Type} [LinearOrderedField α]

namespace vec2

/-- Sum `a + b`. -/
def add (a b : vec2 α) : vec2 α := ⟨a.x + b.x, a.y + b.y⟩

/-- Difference `a - b`. -/
def sub (a b : vec2 α) : vec2 α := ⟨a.x - b.x, a.y - b.y⟩

/-- Scalar multiple `s * v` (also written `v * s` in the source). -/
def smul (s : α) (v : vec2 α) : vec2 α := ⟨s * v.x, s * v.y⟩

/-- Quotient `v / s`. -/
def sdiv (v : vec2 α) (s : α) : vec2 α := ⟨v.x / s, v.y / s⟩

/-- Component `v[i]`. -/
def get (v : vec2 α) (i : Nat) : α :=
  match i with
  | 0 => v.x
  | _ => v.y

/-- Euclidean length `v.length()`. -/
def length (E : Extern α) (v : vec2 α) : α := E.sqrt (v.x * v.x + v.y * v.y)

end vec2

namespace vec3

/-- Sum `a + b`. -/
def add (a b : vec3 α) : vec3 α := ⟨a.x + b.x, a.y + b.y, a.z + b.z⟩

/-- Difference `a - b`. -/
def sub (a b : vec3 α) : vec3 α := ⟨a.x - b.x, a.y - b.y, a.z - b.z⟩

/-- Scalar multiple `s * v`. -/
def smul (s : α) (v : vec3 α) : vec3 α := ⟨s * v.x, s * v.y, s * v.z⟩

/-- Component `v[i]`. -/
def get (v : vec3 α) (i : Nat) : α :=
  match i with
  | 0 => v.x
  | 1 => v.y
  | _ => v.z

/-- Inner product `dot(a, b)`. -/
def dot (a b : vec3 α) : α := a.x * b.x + a.y * b.y + a.z * b.z

/-- Vector product `cross(a, b)`. -/
def cross (a b : vec3 α) : vec3 α :=
  ⟨a.y * b.z - a.z * b.y, a.z * b.x - a.x * b.z, a.x * b.y - a.y * b.x⟩

/-- Euclidean length `v.length()`. -/
def length (E : Extern α) (v : vec3 α) : α := E.sqrt (v.x * v.x + v.y * v.y + v.z * v.z)

end vec3

end Vectors

/-! ## quadrature_degree4 (lines 18-56) -/

section Quadrature

variable {α : Type} [LinearOrderedField α]

/-- The lambda `triarea2d` of `quadrature_degree4`. -/
def triarea2d (v0 v1 v2 : vec2 α) : α :=
  let v01 := v1.sub v0
  let v02 := v2.sub v0
  0.5 * abs (v01.x * v02.y - v01.y * v02.x)

/-- The table `pos_blend[6][2]`. -/
def pos_blend : List (List α) :=
  [ [0.10810301816807, 0.445948490915965],
    [0.445948490915965, 0.445948490915965],
    [0.445948490915965, 0.10810301816807],
    [0.816847572980459, 0.091576213509771],
    [0.091576213509771, 0.091576213509771],
    [0.091576213509771, 0.816847572980459] ]

/-- The table `bary_weights[6]`. -/
def bary_weights : List (vec3 α) :=
  [ ⟨0.445948490915965, 0.10810301816807, 0.445948490915965⟩,
    ⟨0.10810301816807, 0.445948490915965, 0.445948490915965⟩,
    ⟨0.445948490915965, 0.445948490915965, 0.10810301816807⟩,
    ⟨0.09157621350977004, 0.816847572980459, 0.09157621350977101⟩,
    ⟨0.8168475729804581, 0.09157621350977101, 0.09157621350977101⟩,
    ⟨0.09157621350977004, 0.09157621350977101, 0.816847572980459⟩ ]

/-- The three output parameters of `quadrature_degree4`. -/
structure QuadOut (α : Type) where
  weights : List α
  points : List (vec2 α)
  baryweights : List (vec3 α)

/-- Entry `pos_blend[i][j]`. -/
def pos_blend_at (i j : Nat) : α := ((pos_blend (α := α)).getD i []).getD j 0

/-- The function `quadrature_degree4`. `weights` and `points` are resized to 6
and every one of the 6 entries is assigned, so their incoming contents do
not matter; the 6 barycentric triples are appended to the incoming
`baryweights`. -/
def quadrature_degree4 (v0 v1 v2 : vec2 α) (baryweights : List (vec3 α)) : QuadOut α :=
  let area := triarea2d v0 v1 v2
  let w012 : α := 0.223381589678011 * area
  let w345 : α := 0.109951743655322 * area
  { weights := [w012, w012, w012, w345, w345, w345]
    points := (List.range 6).map (fun i =>
      (v0.add ((v1.sub v0).smul (pos_blend_at i 0))).add ((v2.sub v0).smul (pos_blend_at i 1)))
    baryweights := baryweights ++ bary_weights }

/-! ## cubic_poly_term (lines 59-66) -/

/-- The table `xmap`. -/
def xmap : List Nat := [0, 0, 1, 0, 1, 2, 0, 1, 2, 3]

/-- The table `ymap`. -/
def ymap : List Nat := [0, 1, 0, 2, 1, 0, 3, 2, 1, 0]

/-- The function `cubic_poly_term`: `val` starts at 1 and is multiplied
`xmap[term]` times by `coord_x`, then `ymap[term]` times by `coord_y`. -/
def cubic_poly_term (term : Nat) (coord_x coord_y : α) : α :=
  let val : α := 1
  let val := (List.range (xmap.getD term 0)).foldl (fun val _ => val * coord_x) val
  let val := (List.range (ymap.getD term 0)).foldl (fun val _ => val * coord_y) val
  val

/-! ## robust_normalize (lines 94-101) -/

/-- The function `robust_normalize`. -/
def robust_normalize (E : Extern α) (v : vec2 α) (threshold : α) : vec2 α :=
  let len := v.length E
  if len < threshold then ⟨0, 0⟩ else v.smul (1 / len)

end Quadrature

/-! ## The sample offset (lines 200 and 234) -/

/-- The expression `((face * 3 + corner) * axis_num + axis) * 6 + qua_itr`. -/
def sample_offset (axis_num face corner axis qua_itr : Nat) : Nat :=
  ((face * 3 + corner) * axis_num + axis) * 6 + qua_itr

/-- The expression `face_num * 3 * axis_num * 6` (`fvaq_num`, line 111). -/
def fvaq_num (face_num axis_num : Nat) : Nat := face_num * 3 * axis_num * 6

/-! ## The half-edge mesh (`Geex::Mesh3D`, consumed read-only) -/

/-- Modelled from the spec: `Geex::HE_vert` (header not among the sources).
`edge` is the address of one outgoing half-edge. -/
structure HE_vert (α : Type) where
  id : Int
  pos : vec3 α
  normal : vec3 α
  edge : Nat

/-- Modelled from the spec: `Geex::HE_edge` (header not among the sources).
`vert`, `next`, `prev` and `pair` are addresses; `face` is null on the outer
side of a boundary edge. -/
structure HE_edge where
  vert : Nat
  face : Option Nat
  next : Nat
  prev : Nat
  pair : Nat

/-- Modelled from the spec: `Geex::HE_face` (header not among the sources).
`edge` is the address of one half-edge of the face. -/
structure HE_face where
  id : Int
  edge : Nat

/-- Modelled from the spec: `Geex::Mesh3D` (header not among the sources):
the two counts, the two accessors `get_vertex` and `get_face` (from a
position to an address), and the three heaps the addresses point into. -/
structure Mesh3D (α : Type) where
  num_of_vertices : Nat
  num_of_faces : Nat
  get_vertex : Nat → Nat
  get_face : Nat → Nat
  vert : Nat → HE_vert α
  edge : Nat → HE_edge
  face : Nat → HE_face

/-- Modelled from the spec: `COOEntry<float>` (header not among the sources):
a (row, column, value) triple built by `COOEntry(row, col, val)`. -/
structure COOEntry (α : Type) where
  row : Int
  col : Int
  val : α
deriving DecidableEq

/-- One diagnostic written to `std::cout` by lines 217-218: the face
position, the term, the quadrature weight, the monomial value and the two
coordinates of the quadrature point. -/
structure CoutLine (α : Type) where
  face : Nat
  term : Nat
  weight : α
  poly : α
  pt_x : α
  pt_y : α
deriving DecidableEq

/-- The eight output parameters of `polynomial_conv`, and what it wrote to
`std::cout`. -/
structure Outputs (α : Type) where
  S_fv : List (COOEntry α)
  S_vf : List (COOEntry α)
  D_fw : List (List α)
  D_patchinput : List (List α)
  S_fv_index : List Int
  S_fv_value : List α
  S_vf_index : List Int
  S_vf_value : List α
  cout : List (CoutLine α)

section Mesh

variable {α : Type} [LinearOrderedField α]

instance : Inhabited (COOEntry α) := ⟨⟨0, 0, 0⟩⟩

instance : Inhabited (vec2 α) := ⟨⟨0, 0⟩⟩

instance : Inhabited (vec3 α) := ⟨⟨0, 0, 0⟩⟩

/-- The call `v.resize(n, d)` of a `std::vector`. -/
def resize {β : Type} (v : List β) (n : Nat) (d : β) : List β :=
  v.take n ++ List.replicate (n - v.length) d

/-! ## fv_corner (lines 69-80) and f_corners (lines 83-91) -/

/-- The `do ... while` loop of `fv_corner`, entered with `edge` and `corner`. -/
def fv_corner_loop (mesh : Mesh3D α) (face vert : Nat) : Nat → Nat → Int → Option Int
  | 0, _, _ => none
  | fuel + 1, edge, corner =>
    if (mesh.edge edge).vert = vert then some corner
    else
      let corner := corner + 1
      let edge := (mesh.edge edge).next
      if edge ≠ (mesh.face face).edge then fv_corner_loop mesh face vert fuel edge corner
      else some (-1)

/-- The function `fv_corner`: the corner of `vert` in `face`, or `-1`. -/
def fv_corner (fuel : Nat) (mesh : Mesh3D α) (face vert : Nat) : Option Int :=
  fv_corner_loop mesh face vert fuel (mesh.face face).edge 0

/-- The `do ... while` loop of `f_corners`, entered with `edge` and `vts`. -/
def f_corners_loop (mesh : Mesh3D α) (face : Nat) : Nat → Nat → List Nat → Option (List Nat)
  | 0, _, _ => none
  | fuel + 1, edge, vts =>
    let vts := vts ++ [(mesh.edge edge).vert]
    let edge := (mesh.edge edge).next
    if edge ≠ (mesh.face face).edge then f_corners_loop mesh face fuel edge vts
    else some vts

/-- The function `f_corners`: the vertices of a face in the order of its corners. -/
def f_corners (fuel : Nat) (mesh : Mesh3D α) (face : Nat) : Option (List Nat) :=
  f_corners_loop mesh face fuel (mesh.face face).edge []

/-! ## polynomial_conv, first loop (lines 119-164) -/

/-- The lambda `tri_area3d`. -/
def tri_area3d (E : Extern α) (a b c : vec3 α) : α :=
  ((b.sub a).cross (c.sub a)).length E * 0.5

/-- The summand of line 135 for the face `f`: `tri_area3d` of the positions of
`feh->vert`, `feh->next->vert` and `feh->prev->vert`, with `feh = f->edge`. -/
def face_area (E : Extern α) (mesh : Mesh3D α) (f : Nat) : α :=
  let feh := (mesh.face f).edge
  tri_area3d E (mesh.vert (mesh.edge feh).vert).pos
    (mesh.vert (mesh.edge (mesh.edge feh).next).vert).pos
    (mesh.vert (mesh.edge (mesh.edge feh).prev).vert).pos

/-- The step `eh = eh->pair->next` of the two ring loops. -/
def ring_next (mesh : Mesh3D α) (eh : Nat) : Nat := (mesh.edge (mesh.edge eh).pair).next

/-- The `do ... while` loop of lines 130-139, which adds up `ring_area`;
`start` is `vh->edge`. -/
def ring_area_loop (E : Extern α) (mesh : Mesh3D α) (start : Nat) : Nat → Nat → α → Option α
  | 0, _, _ => none
  | fuel + 1, eh, ring_area =>
    let ring_area :=
      match (mesh.edge eh).face with
      | some f => ring_area + face_area E mesh f
      | none => ring_area
    let eh := ring_next mesh eh
    if eh ≠ start then ring_area_loop E mesh start fuel eh ring_area else some ring_area

/-- The `do ... while` loop of lines 149-162, which pushes one entry per
face of the ring onto `S_vf`, `S_vf_index` and `S_vf_value`; `vh` is the
address of the vertex and `fuel0` the fuel handed to `fv_corner`. -/
def svf_ring_loop (fuel0 : Nat) (mesh : Mesh3D α) (axis_num : Int) (vh : Nat) (axis : Int) :
    Nat → Nat → Outputs α → Option (Outputs α)
  | 0, _, _ => none
  | fuel + 1, eh, out =>
    let step : Option (Outputs α) :=
      match (mesh.edge eh).face with
      | some face =>
        (fv_corner fuel0 mesh face vh).map (fun corner =>
          let entry : COOEntry α :=
            ⟨(mesh.vert vh).id * axis_num + axis,
             ((mesh.face face).id * 3 + corner) * axis_num + axis, 1.0⟩
          { out with
            S_vf := out.S_vf ++ [entry]
            S_vf_index := out.S_vf_index ++ [entry.row] ++ [entry.col]
            S_vf_value := out.S_vf_value ++ [entry.val] })
      | none => some out
    step.bind (fun out =>
      let eh := ring_next mesh eh
      if eh ≠ (mesh.vert vh).edge then svf_ring_loop fuel0 mesh axis_num vh axis fuel eh out
      else some out)

/-- The loop `for (int axis = 0; axis < axis_num; axis++)` of lines 146-163,
over the remaining axes `axes_left`. -/
def svf_axis_loop (fuel : Nat) (mesh : Mesh3D α) (axis_num : Int) (vh : Nat) :
    List Nat → Outputs α → Option (Outputs α)
  | [], out => some out
  | axis :: axes_left, out =>
    (svf_ring_loop fuel mesh axis_num vh axis fuel (mesh.vert vh).edge out).bind
      (svf_axis_loop fuel mesh axis_num vh axes_left)

/-- The loop `for (int vitr = 0; ...)` of lines 121-164 over the remaining
positions `vitrs`; the state is `ring_ref_scale` and the outputs. A vertex
whose ring area is not valid or is below `1e-10` is skipped (`continue`). -/
def vertex_loop (fuel : Nat) (E : Extern α) (mesh : Mesh3D α) (axis_num : Nat) :
    List Nat → List α × Outputs α → Option (List α × Outputs α)
  | [], st => some st
  | vitr :: vitrs, (ring_ref_scale, out) =>
    let vh := mesh.get_vertex vitr
    (ring_area_loop E mesh (mesh.vert vh).edge fuel (mesh.vert vh).edge 0).bind (fun ring_area =>
      if (!E.is_valid ring_area) || ring_area < 1e-10 then
        vertex_loop fuel E mesh axis_num vitrs (ring_ref_scale, out)
      else
        let ring_ref_scale := ring_ref_scale.set vitr (E.sqrt ring_area)
        (svf_axis_loop fuel mesh axis_num vh (List.range axis_num) out).bind (fun out =>
          vertex_loop fuel E mesh axis_num vitrs (ring_ref_scale, out)))

/-! ## polynomial_conv, second loop (lines 168-250) -/

/-- The entry whose three fields lines 204-206 assign at `S_fv[offset * 3 + i]`. -/
def scatter_entry (mesh : Mesh3D α) (axis_num : Nat) (vts : List Nat) (corner axis : Nat)
    (axis_offset : List Int) (qua_bary_weights : List (vec3 α)) (qua_itr offset i : Nat) :
    COOEntry α :=
  { row := (offset : Int)
    col := (mesh.vert (vts.getD ((corner + i) % 3) 0)).id * (axis_num : Int)
      + Int.tmod ((axis : Int) + axis_offset.getD i 0) (axis_num : Int)
    val := (qua_bary_weights.getD qua_itr default).get i }

/-- The loop `for (int i = 0; i < 3; i++)` of lines 202-210: the three
scatter entries of the sample `offset`, and their mirror in `S_fv_index` and
`S_fv_value`. -/
def scatter_loop (mesh : Mesh3D α) (axis_num : Nat) (vts : List Nat) (corner axis : Nat)
    (axis_offset : List Int) (qua_bary_weights : List (vec3 α)) (qua_itr offset : Nat)
    (out : Outputs α) : Outputs α :=
  (List.range 3).foldl (fun out i =>
    let k := offset * 3 + i
    let S_fv := out.S_fv.set k { out.S_fv.getD k default with row := (offset : Int) }
    let S_fv := S_fv.set k { S_fv.getD k default with
      col := (mesh.vert (vts.getD ((corner + i) % 3) 0)).id * (axis_num : Int)
        + Int.tmod ((axis : Int) + axis_offset.getD i 0) (axis_num : Int) }
    let S_fv := S_fv.set k { S_fv.getD k default with
      val := (qua_bary_weights.getD qua_itr default).get i }
    let S_fv_index := out.S_fv_index.set (k * 2 + 0) (S_fv.getD k default).row
    let S_fv_index := S_fv_index.set (k * 2 + 1) (S_fv.getD k default).col
    let S_fv_value := out.S_fv_value.set k (S_fv.getD k default).val
    { out with S_fv := S_fv, S_fv_index := S_fv_index, S_fv_value := S_fv_value }) out

/-- The loop `for (int i = 0; i < 10; i++)` of lines 212-220: the row
`D_fw[offset]`, and one diagnostic for every stored entry above `1e+02`. -/
def dfw_loop (face : Nat) (qua_pts : List (vec2 α)) (qua_weights : List α)
    (qua_itr offset : Nat) (out : Outputs α) : Outputs α :=
  (List.range 10).foldl (fun out i =>
    let pt := qua_pts.getD qua_itr default
    let D_fw := out.D_fw.set offset
      ((out.D_fw.getD offset []).set i
        (cubic_poly_term i (pt.get 0) (pt.get 1) * qua_weights.getD qua_itr 0))
    let out := { out with D_fw := D_fw }
    if (D_fw.getD offset []).getD i 0 > 1e+02 then
      { out with cout := out.cout ++
          [⟨face, i, qua_weights.getD qua_itr 0, cubic_poly_term i (pt.get 0) (pt.get 1),
            pt.get 0, pt.get 1⟩] }
    else out) out

/-- The loop `for (int qua_itr = 0; qua_itr < 6; qua_itr++)` of lines 198-221. -/
def quad_loop (mesh : Mesh3D α) (axis_num face : Nat) (vts : List Nat) (corner axis : Nat)
    (axis_offset : List Int) (Q : QuadOut α) (out : Outputs α) : Outputs α :=
  (List.range 6).foldl (fun out qua_itr =>
    let offset := sample_offset axis_num face corner axis qua_itr
    let out := scatter_loop mesh axis_num vts corner axis axis_offset Q.baryweights qua_itr offset out
    dfw_loop face Q.points Q.weights qua_itr offset out) out

/-- The loop `for (int qua_itr = 0; qua_itr < 6; qua_itr++)` of lines 232-247:
the row `D_patchinput[offset]`. -/
def patch_loop (use_patch_height : Bool) (axis_num face corner axis : Nat)
    (qua_bary_weights : List (vec3 α)) (local_nmls : List (vec3 α)) (local_hgts : List α)
    (out : Outputs α) : Outputs α :=
  (List.range 6).foldl (fun out qua_itr =>
    let offset := sample_offset axis_num face corner axis qua_itr
    let acc : vec3 α × α := (List.range 3).foldl (fun acc i =>
      (acc.1.add ((local_nmls.getD i default).smul ((qua_bary_weights.getD qua_itr default).get i)),
       acc.2 + (qua_bary_weights.getD qua_itr default).get i * local_hgts.getD i 0)) (⟨0, 0, 0⟩, 0.0)
    let qua_nml := acc.1
    let qua_hgt := acc.2
    let row := out.D_patchinput.getD offset []
    let row := ((row.set 0 (qua_nml.get 0)).set 1 (qua_nml.get 1)).set 2 (qua_nml.get 2)
    let row := if use_patch_height then row.set 3 qua_hgt else row
    { out with D_patchinput := out.D_patchinput.set offset row }) out

/-- The local `frame[2]` of lines 186-187 for the corner vertex `fv`. -/
def frame (mesh : Mesh3D α) (axes : List (List (vec3 α))) (fv axis : Nat) : List (vec3 α) :=
  let frame0 := (axes.getD (mesh.vert fv).id.toNat []).getD axis default
  [frame0, (mesh.vert fv).normal.cross frame0]

/-- The local `pts_2d[3]` of lines 189-191; `scale` is `ring_ref_scale[fv->id]`. -/
def pts_2d (E : Extern α) (frame : List (vec3 α)) (edge01 edge02 : vec3 α) (scale : α) :
    List (vec2 α) :=
  [ ⟨0, 0⟩,
    ((robust_normalize E
        ⟨edge01.dot (frame.getD 0 default), edge01.dot (frame.getD 1 default)⟩ 1e-10).smul
      (edge01.length E)).sdiv scale,
    ((robust_normalize E
        ⟨edge02.dot (frame.getD 0 default), edge02.dot (frame.getD 1 default)⟩ 1e-10).smul
      (edge02.length E)).sdiv scale ]

/-- The local `local_nmls[3]` filled by lines 225-231. -/
def local_nmls (mesh : Mesh3D α) (frame : List (vec3 α)) (vts : List Nat) (corner fv : Nat) :
    List (vec3 α) :=
  (List.range 3).map (fun i =>
    let n := (mesh.vert (vts.getD ((corner + i) % 3) 0)).normal
    ⟨n.dot (mesh.vert fv).normal, n.dot (frame.getD 0 default), n.dot (frame.getD 1 default)⟩)

/-- The local `local_hgts[3]` filled by lines 225-231; `scale` is
`ring_ref_scale[fv->id]`. -/
def local_hgts (mesh : Mesh3D α) (vts : List Nat) (corner fv : Nat) (scale : α) : List α :=
  (List.range 3).map (fun i =>
    (((mesh.vert (vts.getD ((corner + i) % 3) 0)).pos.sub (mesh.vert fv).pos).dot
      (mesh.vert fv).normal) / scale)

/-- The body of the loop `for (int axis = 0; axis < axis_num; axis++)` of
lines 184-248, for the corner vertex `fv` of the face at position `face`. -/
def axis_body (E : Extern α) (mesh : Mesh3D α) (axes : List (List (vec3 α)))
    (use_patch_height : Bool) (ring_ref_scale : List α) (axis_num face : Nat) (vts : List Nat)
    (corner fv : Nat) (edge01 edge02 : vec3 α) (axis_offset : List Int)
    (out : Outputs α) (axis : Nat) : Outputs α :=
  let frame := frame mesh axes fv axis
  let scale := ring_ref_scale.getD (mesh.vert fv).id.toNat 0
  let pts_2d := pts_2d E frame edge01 edge02 scale
  let Q := quadrature_degree4 (pts_2d.getD 0 default) (pts_2d.getD 1 default)
    (pts_2d.getD 2 default) []
  let out := quad_loop mesh axis_num face vts corner axis axis_offset Q out
  patch_loop use_patch_height axis_num face corner axis Q.baryweights
    (local_nmls mesh frame vts corner fv) (local_hgts mesh vts corner fv scale) out

/-- The local `axis_offset[3]` of lines 180-182 for the corner `corner` of the
face with vertices `vts`. -/
def axis_offset (E : Extern α) (mesh : Mesh3D α) (axes : List (List (vec3 α))) (axis_num : Nat)
    (vts : List Nat) (corner : Nat) : List Int :=
  let fv := vts.getD corner 0
  let v1 := vts.getD ((corner + 1) % 3) 0
  let v2 := vts.getD ((corner + 2) % 3) 0
  [ 0,
    E.get_axis_map_p2p (mesh.vert fv).normal (mesh.vert v1).normal axis_num
      (axes.getD (mesh.vert fv).id.toNat []) (axes.getD (mesh.vert v1).id.toNat []),
    E.get_axis_map_p2p (mesh.vert fv).normal (mesh.vert v2).normal axis_num
      (axes.getD (mesh.vert fv).id.toNat []) (axes.getD (mesh.vert v2).id.toNat []) ]

/-- The edge `pts[(corner + k) % 3] - fv_pos` of lines 177-178 (`edge01` for
`k = 1`, `edge02` for `k = 2`). -/
def corner_edge (pts : List (vec3 α)) (corner k : Nat) : vec3 α :=
  (pts.getD ((corner + k) % 3) default).sub (pts.getD corner default)

/-- The body of the loop `for (int corner = 0; corner < 3; corner++)` of
lines 174-249. -/
def corner_body (E : Extern α) (mesh : Mesh3D α) (axes : List (List (vec3 α)))
    (use_patch_height : Bool) (ring_ref_scale : List α) (axis_num face : Nat) (vts : List Nat)
    (pts : List (vec3 α)) (out : Outputs α) (corner : Nat) : Outputs α :=
  (List.range axis_num).foldl
    (axis_body E mesh axes use_patch_height ring_ref_scale axis_num face vts corner
      (vts.getD corner 0) (corner_edge pts corner 1) (corner_edge pts corner 2)
      (axis_offset E mesh axes axis_num vts corner)) out

/-- The local `pts[3]` of line 172. -/
def face_pts (mesh : Mesh3D α) (vts : List Nat) : List (vec3 α) :=
  [ (mesh.vert (vts.getD 0 0)).pos, (mesh.vert (vts.getD 1 0)).pos,
    (mesh.vert (vts.getD 2 0)).pos ]

/-- The body of the loop `for (int face = 0; face < face_num; face++)` of
lines 168-250, once `f_corners` has returned `vts`. -/
def face_body (E : Extern α) (mesh : Mesh3D α) (axes : List (List (vec3 α)))
    (use_patch_height : Bool) (ring_ref_scale : List α) (axis_num face : Nat) (vts : List Nat)
    (out : Outputs α) : Outputs α :=
  (List.range 3).foldl
    (corner_body E mesh axes use_patch_height ring_ref_scale axis_num face vts
      (face_pts mesh vts)) out

/-- The loop `for (int face = 0; face < face_num; face++)` of lines 168-250
over the remaining positions `faces` (the iterations of the parallel loop, in
increasing order). -/
def face_loop (fuel : Nat) (E : Extern α) (mesh : Mesh3D α) (axes : List (List (vec3 α)))
    (use_patch_height : Bool) (ring_ref_scale : List α) (axis_num : Nat) :
    List Nat → Outputs α → Option (Outputs α)
  | [], out => some out
  | face :: faces, out =>
    (f_corners fuel mesh (mesh.get_face face)).bind (fun vts =>
      face_loop fuel E mesh axes use_patch_height ring_ref_scale axis_num faces
        (face_body E mesh axes use_patch_height ring_ref_scale axis_num face vts out))

/-! ## polynomial_conv (lines 104-251) -/

/-- The resizing of the outputs, lines 112-117. -/
def resize_outputs (use_patch_height : Bool) (face_num axis_num : Nat) (out : Outputs α) :
    Outputs α :=
  let fvaq := fvaq_num face_num axis_num
  { out with
    S_fv := resize out.S_fv (fvaq * 3) default
    S_fv_index := resize out.S_fv_index (fvaq * 3 * 2) 0
    S_fv_value := resize out.S_fv_value (fvaq * 3) 0
    D_fw := resize out.D_fw fvaq (List.replicate 10 0)
    D_patchinput := resize out.D_patchinput fvaq
      (List.replicate (if use_patch_height then 4 else 3) 0) }

/-- The function `polynomial_conv`, returning the local `ring_ref_scale`
together with the outputs; `out` holds the output parameters as passed in. -/
def polynomial_conv_state (fuel : Nat) (E : Extern α) (mesh : Mesh3D α)
    (axes : List (List (vec3 α))) (use_patch_height : Bool) (out : Outputs α) :
    Option (List α × Outputs α) :=
  let face_num := mesh.num_of_faces
  let axis_num := (axes.getD 0 []).length
  let out := resize_outputs use_patch_height face_num axis_num out
  let ring_ref_scale : List α := List.replicate mesh.num_of_vertices 1.0
  (vertex_loop fuel E mesh axis_num (List.range mesh.num_of_vertices) (ring_ref_scale, out)).bind
    (fun st =>
      (face_loop fuel E mesh axes use_patch_height st.1 axis_num (List.range face_num) st.2).map
        (fun out => (st.1, out)))

/-- The function `polynomial_conv`. -/
def polynomial_conv (fuel : Nat) (E : Extern α) (mesh : Mesh3D α)
    (axes : List (List (vec3 α))) (use_patch_height : Bool) (out : Outputs α) :
    Option (Outputs α) :=
  (polynomial_conv_state fuel E mesh axes use_patch_height out).map Prod.snd

/-- The outputs before the first call: eight empty containers. -/
def empty_outputs : Outputs α := ⟨[], [], [], [], [], [], [], [], []⟩

end Mesh

/-! ## Notions used to state the properties -/

section Notions

variable {α : Type} [LinearOrderedField α]

/-- The walk `start, next start, next (next start), ...` comes back to `start`
for the first time after `len + 1` steps. -/
def is_cycle (next : Nat → Nat) (start len : Nat) : Prop :=
  next^[len + 1] start = start ∧ ∀ j, j < len → next^[j + 1] start ≠ start

/-- The walk from `start` comes back to `start` within `fuel` steps. -/
def cycle_closes (next : Nat → Nat) (start fuel : Nat) : Prop :=
  ∃ k, k < fuel ∧ next^[k + 1] start = start

/-- The step `edge = edge->next` of the loops of `fv_corner` and `f_corners`. -/
def face_next (mesh : Mesh3D α) (edge : Nat) : Nat := (mesh.edge edge).next

/-- The half-edges a ring traversal of `len + 1` steps visits from `start`. -/
def ring_edges (mesh : Mesh3D α) (start len : Nat) : List Nat :=
  (List.range (len + 1)).map (fun j => (ring_next mesh)^[j] start)

/-- The faces met along a ring traversal, in the order of the traversal (a
half-edge without a face contributes nothing). -/
def ring_faces (mesh : Mesh3D α) (start len : Nat) : List Nat :=
  (ring_edges mesh start len).filterMap (fun e => (mesh.edge e).face)

/-- The sum of the areas of the faces met along a ring traversal. -/
def ring_area (E : Extern α) (mesh : Mesh3D α) (start len : Nat) : α :=
  ((ring_faces mesh start len).map (face_area E mesh)).sum

/-- The test of line 140: the ring area is not valid or is below `1e-10`. -/
def degenerate (E : Extern α) (ring_area : α) : Bool :=
  (!E.is_valid ring_area) || decide (ring_area < 1e-10)

/-- Every ring traversal that `polynomial_conv` starts closes: the one of the
vertex at position `vitr` after `len vitr + 1` steps, within the fuel. -/
def rings_close (fuel : Nat) (mesh : Mesh3D α) (len : Nat → Nat) : Prop :=
  ∀ vitr, vitr < mesh.num_of_vertices →
    is_cycle (ring_next mesh) (mesh.vert (mesh.get_vertex vitr)).edge (len vitr) ∧
    len vitr < fuel

/-- The edge cycle of every face closes within the fuel. -/
def faces_close (fuel : Nat) (mesh : Mesh3D α) : Prop :=
  ∀ f, cycle_closes (face_next mesh) (mesh.face f).edge fuel

/-- The reduction entry of the vertex at address `vh`, the axis `axis` and the
face at address `face`; the corner is the value of `fv_corner`. -/
def reduction_entry (fuel : Nat) (mesh : Mesh3D α) (axis_num : Nat) (vh axis face : Nat) :
    COOEntry α :=
  { row := (mesh.vert vh).id * (axis_num : Int) + (axis : Int)
    col := ((mesh.face face).id * 3 + (fv_corner fuel mesh face vh).getD 0) * (axis_num : Int)
      + (axis : Int)
    val := 1 }

/-- The reduction entries of the vertex at position `vitr`: none when its ring
area is degenerate, else one per axis and per face of its ring. -/
def vertex_entries (fuel : Nat) (E : Extern α) (mesh : Mesh3D α) (axis_num : Nat)
    (len : Nat → Nat) (vitr : Nat) : List (COOEntry α) :=
  let vh := mesh.get_vertex vitr
  if degenerate E (ring_area E mesh (mesh.vert vh).edge (len vitr)) then []
  else
    (List.range axis_num).flatMap (fun axis =>
      (ring_faces mesh (mesh.vert vh).edge (len vitr)).map
        (reduction_entry fuel mesh axis_num vh axis))

/-- The reduction entries of all the vertices, in the order of their positions. -/
def reduction_entries (fuel : Nat) (E : Extern α) (mesh : Mesh3D α) (axis_num : Nat)
    (len : Nat → Nat) : List (COOEntry α) :=
  (List.range mesh.num_of_vertices).flatMap (vertex_entries fuel E mesh axis_num len)

/-- The row that lines 212-214 store in `D_fw[offset]` for the quadrature
sample `qua_itr`: the 10 monomials at the sample position, times its weight. -/
def dfw_row (Q : QuadOut α) (qua_itr : Nat) : List α :=
  (List.range 10).map (fun i =>
    cubic_poly_term i ((Q.points.getD qua_itr default).get 0)
      ((Q.points.getD qua_itr default).get 1) * Q.weights.getD qua_itr 0)

/-- The local triangle `pts_2d` of the block of the corner `corner` of the face
with vertices `vts` and of the axis `axis`, as `axis_body` computes it from the
scales `ring_ref_scale`. -/
def block_pts_2d (E : Extern α) (mesh : Mesh3D α) (axes : List (List (vec3 α)))
    (ring_ref_scale : List α) (vts : List Nat) (corner axis : Nat) : List (vec2 α) :=
  pts_2d E (frame mesh axes (vts.getD corner 0) axis)
    (corner_edge (face_pts mesh vts) corner 1) (corner_edge (face_pts mesh vts) corner 2)
    (ring_ref_scale.getD (mesh.vert (vts.getD corner 0)).id.toNat 0)

/-- The result of `quadrature_degree4` on the local triangle of a block, as
line 196 calls it. -/
def block_quadrature (E : Extern α) (mesh : Mesh3D α) (axes : List (List (vec3 α)))
    (ring_ref_scale : List α) (vts : List Nat) (corner axis : Nat) : QuadOut α :=
  quadrature_degree4
    ((block_pts_2d E mesh axes ring_ref_scale vts corner axis).getD 0 default)
    ((block_pts_2d E mesh axes ring_ref_scale vts corner axis).getD 1 default)
    ((block_pts_2d E mesh axes ring_ref_scale vts corner axis).getD 2 default) []

/-- The polynomial of total degree at most 3 with coefficient vector `coeff`
over the 10 monomials of `cubic_poly_term`. -/
def cubic_poly (coeff : Nat → α) (x y : α) : α :=
  ((List.range 10).map (fun t => coeff t * cubic_poly_term t x y)).sum

/-- The dot product of the coefficient vector `coeff` with a row of `D_fw`. -/
def row_dot (coeff : Nat → α) (row : List α) : α :=
  ((List.range 10).map (fun t => coeff t * row.getD t 0)).sum

/-- The outputs `out` with the entries `es` pushed onto `S_vf` and mirrored
onto `S_vf_index` and `S_vf_value`. -/
def push_entries (out : Outputs α) (es : List (COOEntry α)) : Outputs α :=
  { out with
    S_vf := out.S_vf ++ es
    S_vf_index := out.S_vf_index ++ es.flatMap (fun e => [e.row, e.col])
    S_vf_value := out.S_vf_value ++ es.map (fun e => e.val) }

/-- The row that lines 232-247 leave in `D_patchinput[offset]` for the sample
`q`: the blended relative normal and, with `use_patch_height`, the blended
relative height. -/
def patch_row (use_patch_height : Bool) (qua_bary_weights : List (vec3 α))
    (local_nmls : List (vec3 α)) (local_hgts : List α) (q : Nat) : List α :=
  let w := qua_bary_weights.getD q default
  let nml : Nat → α := fun k =>
    ((List.range 3).map (fun i => w.get i * (local_nmls.getD i default).get k)).sum
  let hgt : α := ((List.range 3).map (fun i => w.get i * local_hgts.getD i 0)).sum
  [nml 0, nml 1, nml 2] ++ (if use_patch_height then [hgt] else [])

/-- The number of columns of `D_patchinput`, line 117. -/
def patch_cols (use_patch_height : Bool) : Nat := if use_patch_height then 4 else 3

/-- The scatter entries together with their mirror `S_fv_index`, `S_fv_value`. -/
def scatter_tables (out : Outputs α) : List (COOEntry α) × List Int × List α :=
  (out.S_fv, out.S_fv_index, out.S_fv_value)

/-- The effect of lines 204-209 on the three scatter containers once the entry
`e` is composed at position `k`: the entry is stored, and its fields as read
back from `S_fv[k]` are copied to `S_fv_index[2k]`, `S_fv_index[2k+1]` and
`S_fv_value[k]`. -/
def mirror_step (k : Nat) (e : COOEntry α) (t : List (COOEntry α) × List Int × List α) :
    List (COOEntry α) × List Int × List α :=
  (t.1.set k e,
   (t.2.1.set (k * 2 + 0) ((t.1.set k e).getD k default).row).set (k * 2 + 1)
     ((t.1.set k e).getD k default).col,
   t.2.2.set k ((t.1.set k e).getD k default).val)

/-- The containers `S_fv_index` and `S_fv_value` (or `S_vf_index` and
`S_vf_value`) hold exactly the fields of the entries of `S`, in order. -/
def mirrors (S : List (COOEntry α)) (index : List Int) (value : List α) : Prop :=
  index.length = 2 * S.length ∧ value.length = S.length ∧
  ∀ k e, S[k]? = some e →
    index[2 * k]? = some e.row ∧ index[2 * k + 1]? = some e.col ∧ value[k]? = some e.val

/-- The exponent pairs `(ex, ey)` of the 10 cubic monomials, in the order in
which the documentation of `D_fw` lists them. -/
def monomial_exponents : List (Nat × Nat) :=
  [(0, 0), (0, 1), (1, 0), (0, 2), (1, 1), (2, 0), (0, 3), (1, 2), (2, 1), (3, 0)]

/-- The diagnostics of lines 215-219 for the quadrature sample `q` of a block
of the face at position `face`: one line for every term whose stored entry,
the monomial at the sample position times the sample weight, is above `1e+02`,
in the order of the terms. -/
def dfw_lines (face : Nat) (Q : QuadOut α) (q : Nat) : List (CoutLine α) :=
  (List.range 10).flatMap (fun i =>
    if cubic_poly_term i ((Q.points.getD q default).get 0) ((Q.points.getD q default).get 1)
        * Q.weights.getD q 0 > 1e+02 then
      [⟨face, i, Q.weights.getD q 0,
        cubic_poly_term i ((Q.points.getD q default).get 0) ((Q.points.getD q default).get 1),
        (Q.points.getD q default).get 0, (Q.points.getD q default).get 1⟩]
    else [])

/-- The diagnostics for the 6 samples of a block. -/
def block_lines (face : Nat) (Q : QuadOut α) : List (CoutLine α) :=
  (List.range 6).flatMap (dfw_lines face Q)

/-- The diagnostics for all the blocks of the face at position `face`. -/
def face_lines (fuel : Nat) (E : Extern α) (mesh : Mesh3D α) (axes : List (List (vec3 α)))
    (ring_ref_scale : List α) (axis_num face : Nat) : List (CoutLine α) :=
  (List.range 3).flatMap (fun corner =>
    (List.range axis_num).flatMap (fun axis =>
      block_lines face (block_quadrature E mesh axes ring_ref_scale
        ((f_corners fuel mesh (mesh.get_face face)).getD []) corner axis)))

/-- The diagnostics of a whole run, in the order of the loops. -/
def cout_lines (fuel : Nat) (E : Extern α) (mesh : Mesh3D α) (axes : List (List (vec3 α)))
    (ring_ref_scale : List α) (axis_num face_num : Nat) : List (CoutLine α) :=
  (List.range face_num).flatMap (face_lines fuel E mesh axes ring_ref_scale axis_num)

end Notions

/-! ## Integrals over a triangle -/

section Integrals

open intervalIntegral

/-- The integral of `p` over the triangle `v0 v1 v2`, by the affine change of
variables `(s, t) ↦ v0 + s (v1 - v0) + t (v2 - v0)` from the unit right triangle
`0 ≤ s`, `0 ≤ t`, `s + t ≤ 1`, whose Jacobian is the absolute value of the
determinant of `v1 - v0` and `v2 - v0`. -/
noncomputable def triangle_integral (p : ℝ → ℝ → ℝ) (v0 v1 v2 : vec2 ℝ) : ℝ :=
  |(v1.x - v0.x) * (v2.y - v0.y) - (v1.y - v0.y) * (v2.x - v0.x)| *
    ∫ s in (0 : ℝ)..1, ∫ t in (0 : ℝ)..(1 - s),
      p (v0.x + s * (v1.x - v0.x) + t * (v2.x - v0.x))
        (v0.y + s * (v1.y - v0.y) + t * (v2.y - v0.y))

/-- The integral of `s ^ i * t ^ j` over the unit right triangle, the inner
integral over `t` carried out. -/
noncomputable def betaI (i j : Nat) : ℝ :=
  ∫ s in (0 : ℝ)..1, s ^ i * ((1 - s) ^ (j + 1) / (j + 1))

end Integrals

/-! ## Floating point -/

section FloatingPoint

variable {α : Type} [LinearOrderedField α] [FloorRing α]

/-- Rounding to the nearest integer, ties to the even one. -/
def round_half_even (y : α) : Int :=
  if y - (⌊y⌋ : α) < 1 / 2 then ⌊y⌋
  else if 1 / 2 < y - (⌊y⌋ : α) then ⌊y⌋ + 1
  else if ⌊y⌋ % 2 = 0 then ⌊y⌋ else ⌊y⌋ + 1

/-- The unit in the last place of `x` in a binary format with `p` significant
bits: `2 ^ (e - p + 1)` for `2 ^ e ≤ |x| < 2 ^ (e + 1)`. -/
def ulp (p : Nat) (x : α) : α := (2 : α) ^ (Int.log 2 |x| - (p : Int) + 1)

/-- Rounding of `x` to the nearest number with `p` significant bits, ties to
even (the default rounding of IEEE 754); the exponent range is not bounded, so
overflow, underflow and subnormal numbers are not modelled. -/
def round_to (p : Nat) (x : α) : α :=
  if x = 0 then 0 else (round_half_even (x / ulp p x) : α) * ulp p x

/-- The value of a `double` (binary64) result: 53 significant bits. -/
def to_double (x : α) : α := round_to 53 x

/-- The value of a `float` (binary32) result, as in the assignments to the
`float` fields of `COOEntry<float>` and to the `std::vector<float>` outputs:
24 significant bits. -/
def to_float (x : α) : α := round_to 24 x

end FloatingPoint

section FloatingPointCode

variable {α : Type} [LinearOrderedField α] [FloorRing α]

/-- The float that a `float` field holds after the assignment of the `double`
constant written as the decimal `x` in the source (line 206 for the entries of
`bary_weights`): the decimal is rounded to binary64, then to binary32. -/
def stored_float (x : α) : α := to_float (to_double x)

/-- The difference `a - b` of `Geex::vec2` in binary64. -/
def sub_fp (a b : vec2 α) : vec2 α := ⟨to_double (a.x - b.x), to_double (a.y - b.y)⟩

/-- The sum `a + b` of `Geex::vec2` in binary64. -/
def add_fp (a b : vec2 α) : vec2 α := ⟨to_double (a.x + b.x), to_double (a.y + b.y)⟩

/-- The scalar multiple `s * v` of `Geex::vec2` in binary64. -/
def smul_fp (s : α) (v : vec2 α) : vec2 α := ⟨to_double (s * v.x), to_double (s * v.y)⟩

/-- The lambda `triarea2d` of `quadrature_degree4` in binary64: every
operation of line 27 is rounded (`std::abs` is exact). -/
def triarea2d_fp (v0 v1 v2 : vec2 α) : α :=
  let v01 := sub_fp v1 v0
  let v02 := sub_fp v2 v0
  to_double (to_double 0.5 * |to_double (to_double (v01.x * v02.y) - to_double (v01.y * v02.x))|)

/-- The function `quadrature_degree4` in binary64: the decimal constants are
rounded to binary64 and every operation of lines 30-45 is rounded. -/
def quadrature_degree4_fp (v0 v1 v2 : vec2 α) (baryweights : List (vec3 α)) : QuadOut α :=
  let area := triarea2d_fp v0 v1 v2
  let w012 : α := to_double (to_double 0.223381589678011 * area)
  let w345 : α := to_double (to_double 0.109951743655322 * area)
  { weights := [w012, w012, w012, w345, w345, w345]
    points := (List.range 6).map (fun i =>
      add_fp (add_fp v0 (smul_fp (to_double (pos_blend_at i 0)) (sub_fp v1 v0)))
        (smul_fp (to_double (pos_blend_at i 1)) (sub_fp v2 v0)))
    baryweights := baryweights ++
      bary_weights.map (fun b => ⟨to_double b.x, to_double b.y, to_double b.z⟩) }

/-- The function `cubic_poly_term` in binary64: every multiplication is
rounded. -/
def cubic_poly_term_fp (term : Nat) (coord_x coord_y : α) : α :=
  let val : α := to_double 1
  let val := (List.range (xmap.getD term 0)).foldl (fun val _ => to_double (val * coord_x)) val
  let val := (List.range (ymap.getD term 0)).foldl (fun val _ => to_double (val * coord_y)) val
  val

/-- The float stored in `D_fw[offset][i]` by line 214 for the sample `q` of the
quadrature `Q`: the binary64 product of the monomial and the weight, rounded
to binary32 by the assignment. -/
def dfw_entry_fp (Q : QuadOut α) (q i : Nat) : α :=
  to_float (to_double
    (cubic_poly_term_fp i ((Q.points.getD q default).get 0) ((Q.points.getD q default).get 1)
      * Q.weights.getD q 0))

/-- The relative error `(1 + 2^-53)^k - 1` that `k` roundings to binary64 can
accumulate. -/
def relerr (k : Nat) : α := (1 + 1 / 2 ^ 53) ^ k - 1

/-- The number `x'` approximates `x` within `ε * M`, where `M` bounds `|x|`. -/
def near (ε M x' x : α) : Prop := |x' - x| ≤ ε * M ∧ |x| ≤ M

end FloatingPointCode

section FloatingPointLoops

variable {α : Type} [LinearOrderedField α] [FloorRing α]

/-- The loop `for (int i = 0; i < 3; i++)` of lines 202-210 with the narrowing
of line 206: `qua_bary_weights[qua_itr][i]` is a `double`, the field `val` of
`COOEntry<float>` and `S_fv_value` are `float`. -/
def scatter_loop_fp (mesh : Mesh3D α) (axis_num : Nat) (vts : List Nat) (corner axis : Nat)
    (axis_offset : List Int) (qua_bary_weights : List (vec3 α)) (qua_itr offset : Nat)
    (out : Outputs α) : Outputs α :=
  (List.range 3).foldl (fun out i =>
    let k := offset * 3 + i
    let S_fv := out.S_fv.set k { out.S_fv.getD k default with row := (offset : Int) }
    let S_fv := S_fv.set k { S_fv.getD k default with
      col := (mesh.vert (vts.getD ((corner + i) % 3) 0)).id * (axis_num : Int)
        + Int.tmod ((axis : Int) + axis_offset.getD i 0) (axis_num : Int) }
    let S_fv := S_fv.set k { S_fv.getD k default with
      val := to_float ((qua_bary_weights.getD qua_itr default).get i) }
    let S_fv_index := out.S_fv_index.set (k * 2 + 0) (S_fv.getD k default).row
    let S_fv_index := S_fv_index.set (k * 2 + 1) (S_fv.getD k default).col
    let S_fv_value := out.S_fv_value.set k (S_fv.getD k default).val
    { out with S_fv := S_fv, S_fv_index := S_fv_index, S_fv_value := S_fv_value }) out

/-- The loop `for (int i = 0; i < 10; i++)` of lines 212-220 in floating point:
the product of line 214 is a `double` and is narrowed to the `float`
`D_fw[offset][i]`, and line 215 tests the float read back. -/
def dfw_loop_fp (face : Nat) (qua_pts : List (vec2 α)) (qua_weights : List α)
    (qua_itr offset : Nat) (out : Outputs α) : Outputs α :=
  (List.range 10).foldl (fun out i =>
    let pt := qua_pts.getD qua_itr default
    let D_fw := out.D_fw.set offset
      ((out.D_fw.getD offset []).set i
        (to_float (to_double
          (cubic_poly_term_fp i (pt.get 0) (pt.get 1) * qua_weights.getD qua_itr 0))))
    let out := { out with D_fw := D_fw }
    if (D_fw.getD offset []).getD i 0 > 1e+02 then
      { out with cout := out.cout ++
          [⟨face, i, qua_weights.getD qua_itr 0, cubic_poly_term_fp i (pt.get 0) (pt.get 1),
            pt.get 0, pt.get 1⟩] }
    else out) out

/-- The loop `for (int qua_itr = 0; qua_itr < 6; qua_itr++)` of lines 198-221
in floating point. -/
def quad_loop_fp (mesh : Mesh3D α) (axis_num face : Nat) (vts : List Nat) (corner axis : Nat)
    (axis_offset : List Int) (Q : QuadOut α) (out : Outputs α) : Outputs α :=
  (List.range 6).foldl (fun out qua_itr =>
    let offset := sample_offset axis_num face corner axis qua_itr
    let out := scatter_loop_fp mesh axis_num vts corner axis axis_offset Q.baryweights qua_itr
      offset out
    dfw_loop_fp face Q.points Q.weights qua_itr offset out) out

/-- Lines 193-221 in floating point, for the block of the corner `corner` and
the axis `axis` of the face at position `face` whose local triangle `pts_2d` is
`v0`, `v1`, `v2`: the call of `quadrature_degree4` and the loop over its 6
samples. -/
def sample_block_fp (mesh : Mesh3D α) (axis_num face : Nat) (vts : List Nat)
    (corner axis : Nat) (axis_offset : List Int) (v0 v1 v2 : vec2 α) (out : Outputs α) :
    Outputs α :=
  quad_loop_fp mesh axis_num face vts corner axis axis_offset
    (quadrature_degree4_fp v0 v1 v2 []) out

/-- The row that lines 212-214 leave in `D_fw[offset]` for the sample `q`, as
floats. -/
def dfw_row_fp (Q : QuadOut α) (q : Nat) : List α :=
  (List.range 10).map (fun i => dfw_entry_fp Q q i)

/-- The constant of lines 30-31 that multiplies the area in the weight of the
sample `q`. -/
def rule_constant (q : Nat) : α :=
  if q < 3 then 0.223381589678011 else 0.109951743655322

end FloatingPointLoops

/-! ## Concrete inputs -/

section Concrete

/-- A rational stand-in for `std::sqrt`: the integer square roots of numerator
and denominator; exact on squares of rationals. -/
def qsqrt (x : ℚ) : ℚ := (Nat.sqrt x.num.toNat : ℚ) / (Nat.sqrt x.den : ℚ)

/-- Library operations over `ℚ`: `qsqrt`, every value valid, and an axis
alignment that is always `0`. -/
def extQ : Extern ℚ := ⟨qsqrt, fun _ => true, fun _ _ _ _ _ => 0⟩

/-- A mesh of one triangle with vertices `(0,0,0)`, `(2,0,0)`, `(0,4,0)` and
normals `(0,0,1)`. Half-edges 0, 1, 2 run around the face, half-edges 3, 4, 5
are their pairs on the boundary. -/
def triMesh : Mesh3D ℚ where
  num_of_vertices := 3
  num_of_faces := 1
  get_vertex := fun i => i
  get_face := fun i => i
  vert := fun p =>
    match p with
    | 0 => ⟨0, ⟨0, 0, 0⟩, ⟨0, 0, 1⟩, 0⟩
    | 1 => ⟨1, ⟨2, 0, 0⟩, ⟨0, 0, 1⟩, 1⟩
    | _ => ⟨2, ⟨0, 4, 0⟩, ⟨0, 0, 1⟩, 2⟩
  edge := fun p =>
    match p with
    | 0 => ⟨0, some 0, 1, 2, 3⟩
    | 1 => ⟨1, some 0, 2, 0, 4⟩
    | 2 => ⟨2, some 0, 0, 1, 5⟩
    | 3 => ⟨1, none, 5, 4, 0⟩
    | 4 => ⟨2, none, 3, 5, 1⟩
    | _ => ⟨0, none, 4, 3, 2⟩
  face := fun _ => ⟨0, 0⟩

/-- One axis, `(1,0,0)`, at each of the three vertices of `triMesh`. -/
def triAxes : List (List (vec3 ℚ)) := [[⟨1, 0, 0⟩], [⟨1, 0, 0⟩], [⟨1, 0, 0⟩]]

/-- The mesh `triMesh` with a fourth vertex, at position 3, whose ring has no
face (its half-edge 6 is its own pair and successor). -/
def triMeshIsolated : Mesh3D ℚ where
  num_of_vertices := 4
  num_of_faces := 1
  get_vertex := fun i => i
  get_face := fun i => i
  vert := fun p =>
    match p with
    | 0 => ⟨0, ⟨0, 0, 0⟩, ⟨0, 0, 1⟩, 0⟩
    | 1 => ⟨1, ⟨2, 0, 0⟩, ⟨0, 0, 1⟩, 1⟩
    | 2 => ⟨2, ⟨0, 4, 0⟩, ⟨0, 0, 1⟩, 2⟩
    | _ => ⟨3, ⟨5, 5, 5⟩, ⟨0, 0, 1⟩, 6⟩
  edge := fun p =>
    match p with
    | 0 => ⟨0, some 0, 1, 2, 3⟩
    | 1 => ⟨1, some 0, 2, 0, 4⟩
    | 2 => ⟨2, some 0, 0, 1, 5⟩
    | 3 => ⟨1, none, 5, 4, 0⟩
    | 4 => ⟨2, none, 3, 5, 1⟩
    | 5 => ⟨0, none, 4, 3, 2⟩
    | _ => ⟨3, none, 6, 6, 6⟩
  face := fun _ => ⟨0, 0⟩

/-- A mesh of two triangles over the square `(0,0,0)`, `(2,0,0)`, `(2,2,0)`,
`(0,2,0)`: the face at position 0 has corners 0, 1, 2 and id 1, the face at
position 1 has corners 2, 3, 0 and id 0 (the ids are not the positions).
Half-edges 0-5 run around the two faces, half-edges 6-9 along the boundary. -/
def quadMesh : Mesh3D ℚ where
  num_of_vertices := 4
  num_of_faces := 2
  get_vertex := fun i => i
  get_face := fun i => i
  vert := fun p =>
    match p with
    | 0 => ⟨0, ⟨0, 0, 0⟩, ⟨0, 0, 1⟩, 0⟩
    | 1 => ⟨1, ⟨2, 0, 0⟩, ⟨0, 0, 1⟩, 1⟩
    | 2 => ⟨2, ⟨2, 2, 0⟩, ⟨0, 0, 1⟩, 2⟩
    | _ => ⟨3, ⟨0, 2, 0⟩, ⟨0, 0, 1⟩, 5⟩
  edge := fun p =>
    match p with
    | 0 => ⟨0, some 0, 1, 2, 6⟩
    | 1 => ⟨1, some 0, 2, 0, 7⟩
    | 2 => ⟨2, some 0, 0, 1, 3⟩
    | 3 => ⟨0, some 1, 4, 5, 2⟩
    | 4 => ⟨2, some 1, 5, 3, 8⟩
    | 5 => ⟨3, some 1, 3, 4, 9⟩
    | 6 => ⟨1, none, 9, 7, 0⟩
    | 7 => ⟨2, none, 6, 8, 1⟩
    | 8 => ⟨3, none, 7, 9, 4⟩
    | _ => ⟨0, none, 8, 6, 5⟩
  face := fun p =>
    match p with
    | 0 => ⟨1, 0⟩
    | _ => ⟨0, 4⟩

/-- One axis, `(1,0,0)`, at each of the four vertices of `quadMesh`. -/
def quadAxes : List (List (vec3 ℚ)) := [[⟨1, 0, 0⟩], [⟨1, 0, 0⟩], [⟨1, 0, 0⟩], [⟨1, 0, 0⟩]]

/-- The number of steps, less one, of the ring traversal at each vertex
position of `quadMesh`. -/
def quadLen (v : Nat) : Nat := if v = 0 ∨ v = 2 then 2 else 1

/-- Library operations over `ℝ`: the real square root, every value valid, and
an axis alignment that is always `0`. -/
noncomputable def extR : Extern ℝ := ⟨Real.sqrt, fun _ => true, fun _ _ _ _ _ => 0⟩

/-- The mesh `triMesh` with real coordinates. -/
noncomputable def triMeshR : Mesh3D ℝ where
  num_of_vertices := 3
  num_of_faces := 1
  get_vertex := fun i => i
  get_face := fun i => i
  vert := fun p =>
    match p with
    | 0 => ⟨0, ⟨0, 0, 0⟩, ⟨0, 0, 1⟩, 0⟩
    | 1 => ⟨1, ⟨2, 0, 0⟩, ⟨0, 0, 1⟩, 1⟩
    | _ => ⟨2, ⟨0, 4, 0⟩, ⟨0, 0, 1⟩, 2⟩
  edge := fun p =>
    match p with
    | 0 => ⟨0, some 0, 1, 2, 3⟩
    | 1 => ⟨1, some 0, 2, 0, 4⟩
    | 2 => ⟨2, some 0, 0, 1, 5⟩
    | 3 => ⟨1, none, 5, 4, 0⟩
    | 4 => ⟨2, none, 3, 5, 1⟩
    | _ => ⟨0, none, 4, 3, 2⟩
  face := fun _ => ⟨0, 0⟩

/-- One axis, `(1,0,0)`, at each of the three vertices of `triMeshR`. -/
noncomputable def triAxesR : List (List (vec3 ℝ)) := [[⟨1, 0, 0⟩], [⟨1, 0, 0⟩], [⟨1, 0, 0⟩]]

/-- A thin triangle with real coordinates: vertices `(0,0,0)`, `(200,0,0)`,
`(0,1,0)` and normals `(0,0,1)`, with the connectivity of `triMesh`. -/
noncomputable def thinMeshR : Mesh3D ℝ where
  num_of_vertices := 3
  num_of_faces := 1
  get_vertex := fun i => i
  get_face := fun i => i
  vert := fun p =>
    match p with
    | 0 => ⟨0, ⟨0, 0, 0⟩, ⟨0, 0, 1⟩, 0⟩
    | 1 => ⟨1, ⟨200, 0, 0⟩, ⟨0, 0, 1⟩, 1⟩
    | _ => ⟨2, ⟨0, 1, 0⟩, ⟨0, 0, 1⟩, 2⟩
  edge := fun p =>
    match p with
    | 0 => ⟨0, some 0, 1, 2, 3⟩
    | 1 => ⟨1, some 0, 2, 0, 4⟩
    | 2 => ⟨2, some 0, 0, 1, 5⟩
    | 3 => ⟨1, none, 5, 4, 0⟩
    | 4 => ⟨2, none, 3, 5, 1⟩
    | _ => ⟨0, none, 4, 3, 2⟩
  face := fun _ => ⟨0, 0⟩

/-- One axis at each of the three vertices of `thinMeshR`: `(-1,0,0)` at
vertex 0 and `(1,0,0)` at the two others. -/
noncomputable def thinAxesR : List (List (vec3 ℝ)) :=
  [[⟨-1, 0, 0⟩], [⟨1, 0, 0⟩], [⟨1, 0, 0⟩]]

/-- The mesh `quadMesh` with the ids of its two faces equal to their positions. -/
def quadMeshOrdered : Mesh3D ℚ :=
  { quadMesh with
    face := fun p =>
      match p with
      | 0 => ⟨0, 0⟩
      | _ => ⟨1, 4⟩ }

/-- Output buffers that already hold one scatter entry and one reduction
entry, with their mirrors, as a caller may pass them in again. -/
def usedOutputs : Outputs ℚ :=
  ⟨[⟨7, 7, 7⟩], [⟨5, 5, 1⟩], [], [], [7, 7], [7], [5, 5], [1], []⟩

end Concrete

/-! ## Lemmas -/

theorem sample_offset_decode (axis_num face corner axis q : Nat)
    (hc : corner < 3) (ha : axis < axis_num) (hq : q < 6) :
    sample_offset axis_num face corner axis q % 6 = q ∧
    sample_offset axis_num face corner axis q / 6 % axis_num = axis ∧
    sample_offset axis_num face corner axis q / 6 / axis_num % 3 = corner ∧
    sample_offset axis_num face corner axis q / 6 / axis_num / 3 = face := by
  unfold sample_offset
  have h6 : (((face * 3 + corner) * axis_num + axis) * 6 + q) / 6
      = (face * 3 + corner) * axis_num + axis := by omega
  have hA : ((face * 3 + corner) * axis_num + axis) / axis_num = face * 3 + corner := by
    rw [Nat.add_comm, Nat.add_mul_div_right _ _ (by omega), Nat.div_eq_of_lt ha]; omega
  have hAm : ((face * 3 + corner) * axis_num + axis) % axis_num = axis := by
    rw [Nat.add_comm, Nat.add_mul_mod_self_right, Nat.mod_eq_of_lt ha]
  refine ⟨by omega, ?_, ?_, ?_⟩
  · rw [h6, hAm]
  · rw [h6, hA]; omega
  · rw [h6, hA]; omega

theorem sample_offset_lt (face_num axis_num face corner axis q : Nat)
    (hf : face < face_num) (hc : corner < 3) (ha : axis < axis_num) (hq : q < 6) :
    sample_offset axis_num face corner axis q < fvaq_num face_num axis_num := by
  unfold sample_offset fvaq_num
  have h1 : (face * 3 + corner + 1) * axis_num ≤ face_num * 3 * axis_num :=
    Nat.mul_le_mul_right _ (by omega)
  have h2 : (face * 3 + corner + 1) * axis_num = (face * 3 + corner) * axis_num + axis_num := by
    ring
  omega

theorem sample_offset_inj (axis_num f c a q f' c' a' q' : Nat)
    (hc : c < 3) (ha : a < axis_num) (hq : q < 6)
    (hc' : c' < 3) (ha' : a' < axis_num) (hq' : q' < 6)
    (h : sample_offset axis_num f c a q = sample_offset axis_num f' c' a' q') :
    f = f' ∧ c = c' ∧ a = a' ∧ q = q' := by
  obtain ⟨h1, h2, h3, h4⟩ := sample_offset_decode axis_num f c a q hc ha hq
  obtain ⟨h1', h2', h3', h4'⟩ := sample_offset_decode axis_num f' c' a' q' hc' ha' hq'
  rw [h] at h1 h2 h3 h4
  exact ⟨h4.symm.trans h4', h3.symm.trans h3', h2.symm.trans h2', h1.symm.trans h1'⟩

theorem sample_offset_encode (face_num axis_num r : Nat) (hr : r < fvaq_num face_num axis_num) :
    r / 6 / axis_num / 3 < face_num ∧ r / 6 / axis_num % 3 < 3 ∧ r / 6 % axis_num < axis_num ∧
    r % 6 < 6 ∧
    sample_offset axis_num (r / 6 / axis_num / 3) (r / 6 / axis_num % 3) (r / 6 % axis_num) (r % 6)
      = r := by
  unfold fvaq_num at hr
  have hA : 0 < axis_num := by
    rcases Nat.eq_zero_or_pos axis_num with h | h
    · subst h; simp at hr
    · exact h
  refine ⟨?_, Nat.mod_lt _ (by omega), Nat.mod_lt _ hA, Nat.mod_lt _ (by omega), ?_⟩
  · rw [Nat.div_lt_iff_lt_mul (by omega), Nat.div_lt_iff_lt_mul hA,
      Nat.div_lt_iff_lt_mul (by omega)]
    exact hr
  · unfold sample_offset
    rw [Nat.div_add_mod', Nat.div_add_mod', Nat.div_add_mod']

section Folds
variable {σ β : Type}

theorem foldl_range_frame (view : σ → Nat → β) (step : σ → Nat → σ) (W : Nat → Nat → Prop)
    (n : Nat)
    (h : ∀ j, j < n → ∀ st p, ¬ W j p → view (step st j) p = view st p) :
    ∀ st p, (∀ j, j < n → ¬ W j p) → view ((List.range n).foldl step st) p = view st p := by
  induction n with
  | zero => intro st p _; rfl
  | succ n ih =>
    intro st p hp
    rw [List.range_succ, List.foldl_append, List.foldl_cons, List.foldl_nil]
    rw [h n (Nat.lt_succ_self n) _ p (hp n (Nat.lt_succ_self n))]
    exact ih (fun j hj => h j (Nat.lt_succ_of_lt hj)) st p
      (fun j hj => hp j (Nat.lt_succ_of_lt hj))

theorem foldl_range_inv (step : σ → Nat → σ) (Inv : σ → Prop) (n : Nat)
    (h : ∀ j, j < n → ∀ st, Inv st → Inv (step st j)) :
    ∀ st, Inv st → Inv ((List.range n).foldl step st) := by
  induction n with
  | zero => intro st hst; exact hst
  | succ n ih =>
    intro st hst
    rw [List.range_succ, List.foldl_append, List.foldl_cons, List.foldl_nil]
    exact h n (Nat.lt_succ_self n) _ (ih (fun j hj => h j (Nat.lt_succ_of_lt hj)) st hst)

theorem foldl_range_good (step : σ → Nat → σ) (Inv : σ → Prop) (G : Nat → σ → Prop) (n : Nat)
    (hinv : ∀ j, j < n → ∀ st, Inv st → Inv (step st j))
    (hest : ∀ j, j < n → ∀ st, Inv st → G j (step st j))
    (hpres : ∀ j k, j < n → k < j → ∀ st, Inv st → G k st → G k (step st j)) :
    ∀ st, Inv st → ∀ j, j < n → G j ((List.range n).foldl step st) := by
  induction n with
  | zero => intro st _ j hj; exact absurd hj (Nat.not_lt_zero j)
  | succ n ih =>
    intro st hst j hj
    rw [List.range_succ, List.foldl_append, List.foldl_cons, List.foldl_nil]
    have hI : Inv ((List.range n).foldl step st) :=
      foldl_range_inv step Inv n (fun j hj => hinv j (Nat.lt_succ_of_lt hj)) st hst
    rcases Nat.lt_succ_iff_lt_or_eq.mp hj with hlt | heq
    · exact hpres n j (Nat.lt_succ_self n) hlt _ hI
        (ih (fun j hj => hinv j (Nat.lt_succ_of_lt hj))
          (fun j hj => hest j (Nat.lt_succ_of_lt hj))
          (fun j k hj hk => hpres j k (Nat.lt_succ_of_lt hj) hk) st hst j hlt)
    · subst heq
      exact hest j (Nat.lt_succ_self j) _ hI

end Folds
section Lift
variable {α : Type} [LinearOrderedField α] {β : Type}

theorem face_loop_append (fuel : Nat) (E : Extern α) (mesh : Mesh3D α)
    (axes : List (List (vec3 α))) (uph : Bool) (rrs : List α) (A : Nat) (l1 l2 : List Nat) :
    ∀ out, face_loop fuel E mesh axes uph rrs A (l1 ++ l2) out
      = (face_loop fuel E mesh axes uph rrs A l1 out).bind
          (face_loop fuel E mesh axes uph rrs A l2) := by
  induction l1 with
  | nil => intro out; simp [face_loop]
  | cons f l1 ih =>
    intro out
    simp only [List.cons_append, face_loop]
    cases f_corners fuel mesh (mesh.get_face f) with
    | none => simp
    | some vts => simp [ih]

/-- Lifting of a property of one `(face, corner, axis)` block through the three
outer loops of the sampler. `view` reads one output table, `P o p` says that
position `p` of that table belongs to sample offset `o`. -/
theorem sampler_lift (view : Outputs α → Nat → β) (P : Nat → Nat → Prop)
    (Inv : Outputs α → Prop)
    (G : Nat → Nat → Nat → List Nat → Nat → vec3 α → vec3 α → List Int → Outputs α → Prop)
    (fuel : Nat) (E : Extern α) (mesh : Mesh3D α) (axes : List (List (vec3 α))) (uph : Bool)
    (rrs : List α) (A nf : Nat)
    (hP : ∀ o o' p, P o p → P o' p → o = o')
    (hframe : ∀ f vts c fv e1 e2 ao out a p,
      (∀ q, q < 6 → ¬ P (sample_offset A f c a q) p) →
      view (axis_body E mesh axes uph rrs A f vts c fv e1 e2 ao out a) p = view out p)
    (hinv : ∀ f vts c fv e1 e2 ao out a, Inv out →
      Inv (axis_body E mesh axes uph rrs A f vts c fv e1 e2 ao out a))
    (hest : ∀ f vts c fv e1 e2 ao out a, f < nf → c < 3 → a < A → Inv out →
      G f c a vts fv e1 e2 ao (axis_body E mesh axes uph rrs A f vts c fv e1 e2 ao out a))
    (hloc : ∀ f c a vts fv e1 e2 ao st st',
      (∀ p q, q < 6 → P (sample_offset A f c a q) p → view st' p = view st p) →
      G f c a vts fv e1 e2 ao st → G f c a vts fv e1 e2 ao st') :
    ∀ n, n ≤ nf → ∀ out res, Inv out →
      face_loop fuel E mesh axes uph rrs A (List.range n) out = some res →
      Inv res ∧
      (∀ p, (∀ f c a q, f < n → c < 3 → a < A → q < 6 → ¬ P (sample_offset A f c a q) p) →
        view res p = view out p) ∧
      ∀ f, f < n → ∀ vts, f_corners fuel mesh (mesh.get_face f) = some vts →
        ∀ c, c < 3 → ∀ a, a < A →
          G f c a vts (vts.getD c 0) (corner_edge (face_pts mesh vts) c 1)
            (corner_edge (face_pts mesh vts) c 2) (axis_offset E mesh axes A vts c) res := by
  -- corner level
  have cframe : ∀ f vts pts out c p,
      (∀ a q, a < A → q < 6 → ¬ P (sample_offset A f c a q) p) →
      view (corner_body E mesh axes uph rrs A f vts pts out c) p = view out p := by
    intro f vts pts out c p hp
    exact foldl_range_frame view _ (fun a p => ∃ q, q < 6 ∧ P (sample_offset A f c a q) p) A
      (fun a _ st p hW => hframe f vts c _ _ _ _ st a p
        (fun q hq hPq => hW ⟨q, hq, hPq⟩)) out p
      (fun a ha ⟨q, hq, hPq⟩ => hp a q ha hq hPq)
  have cinv : ∀ f vts pts out c, Inv out →
      Inv (corner_body E mesh axes uph rrs A f vts pts out c) := by
    intro f vts pts out c ho
    exact foldl_range_inv _ Inv A (fun a _ st hst => hinv f vts c _ _ _ _ st a hst) out ho
  have cgood : ∀ f vts pts out c, f < nf → c < 3 → Inv out → ∀ a, a < A →
      G f c a vts (vts.getD c 0) (corner_edge pts c 1) (corner_edge pts c 2)
        (axis_offset E mesh axes A vts c)
        (corner_body E mesh axes uph rrs A f vts pts out c) := by
    intro f vts pts out c hf hc ho
    refine foldl_range_good _ Inv
      (fun a st => G f c a vts (vts.getD c 0) (corner_edge pts c 1) (corner_edge pts c 2)
        (axis_offset E mesh axes A vts c) st) A
      (fun a _ st hst => hinv f vts c _ _ _ _ st a hst)
      (fun a ha st hst => hest f vts c _ _ _ _ st a hf hc ha hst) ?_ out ho
    intro a' a ha' haa' st _ hG
    refine hloc f c a vts _ _ _ _ st _ ?_ hG
    intro p q hq hPq
    refine hframe f vts c _ _ _ _ st a' p ?_
    intro q' hq' hPq'
    have := hP _ _ p hPq hPq'
    have := (sample_offset_inj A f c a q f c a' q' hc (by omega) hq hc ha' hq' this).2.2.1
    omega
  -- face level
  have fframe : ∀ f vts out p,
      (∀ c a q, c < 3 → a < A → q < 6 → ¬ P (sample_offset A f c a q) p) →
      view (face_body E mesh axes uph rrs A f vts out) p = view out p := by
    intro f vts out p hp
    exact foldl_range_frame view _
      (fun c p => ∃ a q, a < A ∧ q < 6 ∧ P (sample_offset A f c a q) p) 3
      (fun c _ st p hW => cframe f vts _ st c p
        (fun a q ha hq hPq => hW ⟨a, q, ha, hq, hPq⟩)) out p
      (fun c hc ⟨a, q, ha, hq, hPq⟩ => hp c a q hc ha hq hPq)
  have finv : ∀ f vts out, Inv out → Inv (face_body E mesh axes uph rrs A f vts out) := by
    intro f vts out ho
    exact foldl_range_inv _ Inv 3 (fun c _ st hst => cinv f vts _ st c hst) out ho
  have fgood : ∀ f vts out, f < nf → Inv out → ∀ c, c < 3 → ∀ a, a < A →
      G f c a vts (vts.getD c 0) (corner_edge (face_pts mesh vts) c 1)
        (corner_edge (face_pts mesh vts) c 2) (axis_offset E mesh axes A vts c)
        (face_body E mesh axes uph rrs A f vts out) := by
    intro f vts out hf ho
    refine foldl_range_good _ Inv
      (fun c st => ∀ a, a < A → G f c a vts (vts.getD c 0) (corner_edge (face_pts mesh vts) c 1)
        (corner_edge (face_pts mesh vts) c 2) (axis_offset E mesh axes A vts c) st) 3
      (fun c _ st hst => cinv f vts _ st c hst)
      (fun c hc st hst => cgood f vts _ st c hf hc hst) ?_ out ho
    intro c' c hc' hcc' st _ hG a ha
    refine hloc f c a vts _ _ _ _ st _ ?_ (hG a ha)
    intro p q hq hPq
    refine cframe f vts _ st c' p ?_
    intro a' q' ha' hq' hPq'
    have := hP _ _ p hPq hPq'
    have := (sample_offset_inj A f c a q f c' a' q' (by omega) ha hq hc' ha' hq' this).2.1
    omega
  -- the loop over the faces
  intro n
  induction n with
  | zero =>
    intro _ out res ho h
    simp only [List.range_zero, face_loop, Option.some.injEq] at h
    subst h
    exact ⟨ho, fun _ _ => rfl, fun f hf => absurd hf (Nat.not_lt_zero f)⟩
  | succ n ih =>
    intro hn out res ho h
    rw [List.range_succ, face_loop_append] at h
    cases hmid : face_loop fuel E mesh axes uph rrs A (List.range n) out with
    | none => rw [hmid] at h; simp at h
    | some mid =>
      rw [hmid] at h
      simp only [Option.some_bind, face_loop] at h
      cases hv : f_corners fuel mesh (mesh.get_face n) with
      | none => rw [hv] at h; simp at h
      | some vts0 =>
        rw [hv] at h
        simp only [Option.some_bind, Option.some.injEq] at h
        obtain ⟨hImid, hFmid, hGmid⟩ := ih (by omega) out mid ho hmid
        subst h
        refine ⟨finv n vts0 mid hImid, ?_, ?_⟩
        · intro p hp
          rw [fframe n vts0 mid p (fun c a q hc ha hq => hp n c a q (by omega) hc ha hq)]
          exact hFmid p (fun f c a q hf hc ha hq => hp f c a q (by omega) hc ha hq)
        · intro f hf vts hvts c hc a ha
          rcases Nat.lt_succ_iff_lt_or_eq.mp hf with hlt | heq
          · refine hloc f c a vts _ _ _ _ mid _ ?_ (hGmid f hlt vts hvts c hc a ha)
            intro p q hq hPq
            refine fframe n vts0 mid p ?_
            intro c' a' q' hc' ha' hq' hPq'
            have := hP _ _ p hPq hPq'
            have := (sample_offset_inj A f c a q n c' a' q' hc ha hq hc' ha' hq' this).1
            omega
          · subst heq
            rw [hv] at hvts
            obtain rfl : vts0 = vts := Option.some.inj hvts
            exact fgood f vts0 mid (by omega) hImid c hc a ha

end Lift
section Views
variable {α : Type} [LinearOrderedField α]

theorem foldl_proj {σ γ ι : Type} (proj : σ → γ) (step : σ → ι → σ) (g : γ → ι → γ)
    (h : ∀ st j, proj (step st j) = g (proj st) j) :
    ∀ (l : List ι) st, proj (l.foldl step st) = l.foldl g (proj st) := by
  intro l
  induction l with
  | nil => intro st; rfl
  | cons j l ih => intro st; simp only [List.foldl_cons]; rw [ih, h]

theorem foldl_keep {σ γ ι : Type} (proj : σ → γ) (step : σ → ι → σ)
    (h : ∀ st j, proj (step st j) = proj st) :
    ∀ (l : List ι) st, proj (l.foldl step st) = proj st := by
  intro l
  induction l with
  | nil => intro st; rfl
  | cons j l ih => intro st; simp only [List.foldl_cons]; rw [ih, h]

/-- Writing the three fields of the entry at `k` one after the other stores
the whole entry. -/
theorem set_fields (l : List (COOEntry α)) (k : Nat) (r c : Int) (v : α) :
    ((l.set k { l.getD k default with row := r }).set k
        { (l.set k { l.getD k default with row := r }).getD k default with col := c }).set k
      { ((l.set k { l.getD k default with row := r }).set k
          { (l.set k { l.getD k default with row := r }).getD k default with col := c }).getD k
            default with val := v } = l.set k ⟨r, c, v⟩ := by
  by_cases hk : k < l.length
  · simp [List.getD_eq_getElem?_getD, List.getElem?_set, hk, List.set_set]
  · have h1 : ∀ e, l.set k e = l := fun e => List.set_eq_of_length_le (by omega)
    simp [h1]

/-- A loop that stores `e j` at position `pos j` for `j < n`. -/
theorem foldl_set_length {γ : Type} (pos : Nat → Nat) (e : Nat → γ) (n : Nat) (l : List γ) :
    ((List.range n).foldl (fun l j => l.set (pos j) (e j)) l).length = l.length :=
  foldl_keep List.length _ (fun st j => by simp) _ l

theorem foldl_set_frame {γ : Type} (pos : Nat → Nat) (e : Nat → γ) (n : Nat) (l : List γ)
    (p : Nat) (hp : ∀ j, j < n → p ≠ pos j) :
    ((List.range n).foldl (fun l j => l.set (pos j) (e j)) l)[p]? = l[p]? :=
  foldl_range_frame (fun (l : List γ) p => l[p]?) _ (fun j p => p = pos j) n
    (fun j _ st p hW => by
      simp only [List.getElem?_set]
      rw [if_neg (fun h => hW h.symm)]) l p hp

theorem foldl_set_good {γ : Type} (pos : Nat → Nat) (e : Nat → γ) (n : Nat) (l : List γ)
    (hinj : ∀ j k, j < n → k < n → pos j = pos k → j = k)
    (j : Nat) (hj : j < n) (hb : pos j < l.length) :
    ((List.range n).foldl (fun l j => l.set (pos j) (e j)) l)[pos j]? = some (e j) := by
  refine foldl_range_good (fun l j => l.set (pos j) (e j)) (fun st => st.length = l.length)
    (fun j (st : List γ) => pos j < l.length → st[pos j]? = some (e j)) n
    (fun j _ st hst => by simp [hst])
    (fun j _ st hst hb => ?_)
    (fun j k hj hk st _ hG hb => ?_) l rfl j hj hb
  · have hst2 : pos j < st.length := by rw [show st.length = l.length from hst]; exact hb
    simp [List.getElem?_set, hst2]
  · simp only [List.getElem?_set]
    rw [if_neg (fun h => by have := hinj j k hj (by omega) h; omega)]
    exact hG hb


theorem scatter_loop_S_fv (mesh : Mesh3D α) (A : Nat) (vts : List Nat) (c a : Nat)
    (ao : List Int) (qbw : List (vec3 α)) (q o : Nat) (out : Outputs α) :
    (scatter_loop mesh A vts c a ao qbw q o out).S_fv
      = (List.range 3).foldl
          (fun l i => l.set (o * 3 + i) (scatter_entry mesh A vts c a ao qbw q o i)) out.S_fv := by
  unfold scatter_loop
  refine foldl_proj Outputs.S_fv _ _ (fun st i => ?_) _ out
  simp only [scatter_entry]
  exact set_fields st.S_fv (o * 3 + i) _ _ _

theorem dfw_loop_S_fv (face : Nat) (pts : List (vec2 α)) (w : List α) (q o : Nat)
    (out : Outputs α) : (dfw_loop face pts w q o out).S_fv = out.S_fv := by
  unfold dfw_loop
  refine foldl_keep Outputs.S_fv _ (fun st i => ?_) _ out
  dsimp only
  split <;> rfl

theorem patch_loop_S_fv (uph : Bool) (A f c a : Nat) (qbw nm : List (vec3 α)) (hg : List α)
    (out : Outputs α) : (patch_loop uph A f c a qbw nm hg out).S_fv = out.S_fv := by
  unfold patch_loop
  refine foldl_keep Outputs.S_fv _ (fun st i => ?_) _ out
  rfl

theorem axis_body_S_fv (E : Extern α) (mesh : Mesh3D α) (axes : List (List (vec3 α)))
    (uph : Bool) (rrs : List α) (A f : Nat) (vts : List Nat) (c fv : Nat) (e1 e2 : vec3 α)
    (ao : List Int) (out : Outputs α) (a : Nat) :
    (axis_body E mesh axes uph rrs A f vts c fv e1 e2 ao out a).S_fv
      = (List.range 18).foldl
          (fun l j => l.set (sample_offset A f c a (j / 3) * 3 + j % 3)
            (scatter_entry mesh A vts c a ao bary_weights (j / 3)
              (sample_offset A f c a (j / 3)) (j % 3))) out.S_fv := by
  unfold axis_body
  simp only [patch_loop_S_fv]
  unfold quad_loop
  rw [foldl_proj Outputs.S_fv _
    (fun l q => (List.range 3).foldl
      (fun l i => l.set (sample_offset A f c a q * 3 + i)
        (scatter_entry mesh A vts c a ao bary_weights q (sample_offset A f c a q) i)) l)
    (fun st q => by
      simp only [dfw_loop_S_fv, scatter_loop_S_fv, quadrature_degree4, List.nil_append])]
  simp only [List.range_succ, List.range_zero, List.nil_append, List.cons_append,
    List.foldl_cons, List.foldl_nil, Nat.reduceDiv, Nat.reduceMod, Nat.zero_div, Nat.zero_mod]

end Views
section Phase1
variable {α : Type} [LinearOrderedField α]

set_option linter.unusedSectionVars false

/-- The edges `next^[j] start, ..., next^[j + d] start` of a walk. -/
theorem range_map_tail (g : Nat → Nat) (j d : Nat) :
    (List.range' j (d + 1)).map g = g j :: (List.range' (j + 1) d).map g := by
  simp [List.range'_succ]

theorem fv_corner_loop_isSome (mesh : Mesh3D α) (face vert : Nat) :
    ∀ F j c, (∃ k, j ≤ k ∧ k < j + F ∧
        (face_next mesh)^[k + 1] (mesh.face face).edge = (mesh.face face).edge) →
      (fv_corner_loop mesh face vert F ((face_next mesh)^[j] (mesh.face face).edge) c).isSome := by
  intro F
  induction F with
  | zero => rintro j c ⟨k, h1, h2, _⟩; omega
  | succ F ih =>
    rintro j c ⟨k, h1, h2, h3⟩
    unfold fv_corner_loop
    split
    · rfl
    · dsimp only
      split
      · rename_i hne
        have hnext : (mesh.edge ((face_next mesh)^[j] (mesh.face face).edge)).next
            = (face_next mesh)^[j + 1] (mesh.face face).edge := by
          rw [Function.iterate_succ_apply']; rfl
        rw [hnext] at hne ⊢
        refine ih (j + 1) _ ⟨k, ?_, by omega, h3⟩
        rcases Nat.eq_or_lt_of_le h1 with h | h
        · subst h; exact absurd h3 hne
        · omega
      · rfl

theorem fv_corner_isSome (fuel : Nat) (mesh : Mesh3D α) (hf : faces_close fuel mesh)
    (face vert : Nat) : (fv_corner fuel mesh face vert).isSome := by
  obtain ⟨k, hk, hc⟩ := hf face
  exact fv_corner_loop_isSome mesh face vert fuel 0 0 ⟨k, Nat.zero_le k, by omega, hc⟩

theorem f_corners_loop_isSome (mesh : Mesh3D α) (face : Nat) :
    ∀ F j vts, (∃ k, j ≤ k ∧ k < j + F ∧
        (face_next mesh)^[k + 1] (mesh.face face).edge = (mesh.face face).edge) →
      (f_corners_loop mesh face F ((face_next mesh)^[j] (mesh.face face).edge) vts).isSome := by
  intro F
  induction F with
  | zero => rintro j c ⟨k, h1, h2, _⟩; omega
  | succ F ih =>
    rintro j vts ⟨k, h1, h2, h3⟩
    unfold f_corners_loop
    dsimp only
    split
    · rename_i hne
      have hnext : (mesh.edge ((face_next mesh)^[j] (mesh.face face).edge)).next
          = (face_next mesh)^[j + 1] (mesh.face face).edge := by
        rw [Function.iterate_succ_apply']; rfl
      rw [hnext] at hne ⊢
      refine ih (j + 1) _ ⟨k, ?_, by omega, h3⟩
      rcases Nat.eq_or_lt_of_le h1 with h | h
      · subst h; exact absurd h3 hne
      · omega
    · rfl

theorem f_corners_isSome (fuel : Nat) (mesh : Mesh3D α) (hf : faces_close fuel mesh)
    (face : Nat) : (f_corners fuel mesh face).isSome := by
  obtain ⟨k, hk, hc⟩ := hf face
  exact f_corners_loop_isSome mesh face fuel 0 [] ⟨k, Nat.zero_le k, by omega, hc⟩

theorem ring_area_loop_eq (E : Extern α) (mesh : Mesh3D α) (start len : Nat)
    (hc : is_cycle (ring_next mesh) start len) :
    ∀ d j, j + d = len → ∀ F, d < F → ∀ acc,
      ring_area_loop E mesh start F ((ring_next mesh)^[j] start) acc
        = some (acc + ((((List.range' j (d + 1)).map (fun i => (ring_next mesh)^[i] start)).filterMap
            (fun e => (mesh.edge e).face)).map (face_area E mesh)).sum) := by
  intro d
  induction d with
  | zero =>
    intro j hj F hF acc
    obtain ⟨F, rfl⟩ : ∃ F', F = F' + 1 := ⟨F - 1, by omega⟩
    have hj' : j = len := by omega
    subst hj'
    unfold ring_area_loop
    dsimp only
    have hnext : ring_next mesh ((ring_next mesh)^[j] start) = start := by
      have := Function.iterate_succ_apply' (ring_next mesh) j start
      rw [← this]; exact hc.1
    rw [hnext, if_neg (by simp)]
    have hl : (List.range' j (0 + 1)).map (fun i => (ring_next mesh)^[i] start)
        = [(ring_next mesh)^[j] start] := rfl
    rw [hl]
    cases hface : (mesh.edge ((ring_next mesh)^[j] start)).face <;>
      simp only [List.filterMap_cons, List.filterMap_nil, hface, List.map_cons, List.map_nil,
        List.sum_cons, List.sum_nil, add_zero]
  | succ d ih =>
    intro j hj F hF acc
    obtain ⟨F, rfl⟩ : ∃ F', F = F' + 1 := ⟨F - 1, by omega⟩
    unfold ring_area_loop
    dsimp only
    have hnext : ring_next mesh ((ring_next mesh)^[j] start)
        = (ring_next mesh)^[j + 1] start :=
      (Function.iterate_succ_apply' (ring_next mesh) j start).symm
    rw [hnext, if_pos (hc.2 j (by omega)), ih (j + 1) (by omega) F (by omega),
      range_map_tail (fun i => (ring_next mesh)^[i] start) j (d + 1)]
    cases hface : (mesh.edge ((ring_next mesh)^[j] start)).face <;>
      simp only [List.filterMap_cons, hface, List.map_cons, List.sum_cons, add_assoc]

theorem ring_area_loop_start (E : Extern α) (mesh : Mesh3D α) (start len fuel : Nat)
    (hc : is_cycle (ring_next mesh) start len) (hlen : len < fuel) :
    ring_area_loop E mesh start fuel start 0 = some (ring_area E mesh start len) := by
  have := ring_area_loop_eq E mesh start len hc len 0 (by omega) fuel hlen 0
  simp only [Function.iterate_zero, id_eq, zero_add] at this
  rw [this]
  simp [ring_area, ring_faces, ring_edges, List.range_eq_range']


theorem push_entries_nil (out : Outputs α) : push_entries out [] = out := by
  simp [push_entries]

theorem push_entries_append (out : Outputs α) (l1 l2 : List (COOEntry α)) :
    push_entries (push_entries out l1) l2 = push_entries out (l1 ++ l2) := by
  simp [push_entries, List.append_assoc]

theorem svf_ring_loop_eq (fuel0 : Nat) (mesh : Mesh3D α) (A vh a len : Nat)
    (hc : is_cycle (ring_next mesh) (mesh.vert vh).edge len)
    (hcor : ∀ f, (fv_corner fuel0 mesh f vh).isSome) :
    ∀ d j, j + d = len → ∀ F, d < F → ∀ out,
      svf_ring_loop fuel0 mesh (A : Int) vh (a : Int) F ((ring_next mesh)^[j] (mesh.vert vh).edge) out
        = some (push_entries out
            ((((List.range' j (d + 1)).map (fun i => (ring_next mesh)^[i] (mesh.vert vh).edge)).filterMap
              (fun e => (mesh.edge e).face)).map (reduction_entry fuel0 mesh A vh a))) := by
  have hstep : ∀ (out : Outputs α) (f : Nat),
      (fv_corner fuel0 mesh f vh).map (fun corner =>
        let entry : COOEntry α :=
          ⟨(mesh.vert vh).id * (A : Int) + (a : Int),
           ((mesh.face f).id * 3 + corner) * (A : Int) + (a : Int), 1.0⟩
        { out with
          S_vf := out.S_vf ++ [entry]
          S_vf_index := out.S_vf_index ++ [entry.row] ++ [entry.col]
          S_vf_value := out.S_vf_value ++ [entry.val] })
      = some (push_entries out [reduction_entry fuel0 mesh A vh a f]) := by
    intro out f
    obtain ⟨c, hcf⟩ := Option.isSome_iff_exists.mp (hcor f)
    have h1 : (1.0 : α) = 1 := by norm_num
    simp [hcf, push_entries, reduction_entry, h1, List.append_assoc]
  intro d
  induction d with
  | zero =>
    intro j hj F hF out
    obtain ⟨F, rfl⟩ : ∃ F', F = F' + 1 := ⟨F - 1, by omega⟩
    have hj' : j = len := by omega
    subst hj'
    unfold svf_ring_loop
    dsimp only
    have hnext : ring_next mesh ((ring_next mesh)^[j] (mesh.vert vh).edge)
        = (mesh.vert vh).edge := by
      have := Function.iterate_succ_apply' (ring_next mesh) j (mesh.vert vh).edge
      rw [← this]; exact hc.1
    have hl : (List.range' j (0 + 1)).map (fun i => (ring_next mesh)^[i] (mesh.vert vh).edge)
        = [(ring_next mesh)^[j] (mesh.vert vh).edge] := rfl
    rw [hl]
    cases hface : (mesh.edge ((ring_next mesh)^[j] (mesh.vert vh).edge)).face with
    | none =>
      simp only [Option.some_bind, hnext, ne_eq, not_true_eq_false, if_false,
        List.filterMap_cons, List.filterMap_nil, hface, List.map_nil, push_entries_nil]
    | some f =>
      simp only [hstep, Option.some_bind, hnext, ne_eq, not_true_eq_false, if_false,
        List.filterMap_cons, List.filterMap_nil, hface, List.map_cons, List.map_nil]
  | succ d ih =>
    intro j hj F hF out
    obtain ⟨F, rfl⟩ : ∃ F', F = F' + 1 := ⟨F - 1, by omega⟩
    unfold svf_ring_loop
    dsimp only
    have hnext : ring_next mesh ((ring_next mesh)^[j] (mesh.vert vh).edge)
        = (ring_next mesh)^[j + 1] (mesh.vert vh).edge :=
      (Function.iterate_succ_apply' (ring_next mesh) j (mesh.vert vh).edge).symm
    rw [range_map_tail (fun i => (ring_next mesh)^[i] (mesh.vert vh).edge) j (d + 1)]
    cases hface : (mesh.edge ((ring_next mesh)^[j] (mesh.vert vh).edge)).face with
    | none =>
      simp only [Option.some_bind, hnext, if_pos (hc.2 j (by omega)),
        ih (j + 1) (by omega) F (by omega), List.filterMap_cons, hface]
    | some f =>
      simp only [hstep, Option.some_bind, hnext, if_pos (hc.2 j (by omega)),
        ih (j + 1) (by omega) F (by omega), List.filterMap_cons, hface, List.map_cons,
        push_entries_append, List.singleton_append]

theorem svf_ring_loop_start (fuel : Nat) (mesh : Mesh3D α) (A vh a len : Nat)
    (hc : is_cycle (ring_next mesh) (mesh.vert vh).edge len) (hlen : len < fuel)
    (hcor : ∀ f, (fv_corner fuel mesh f vh).isSome) (out : Outputs α) :
    svf_ring_loop fuel mesh (A : Int) vh (a : Int) fuel (mesh.vert vh).edge out
      = some (push_entries out
          ((ring_faces mesh (mesh.vert vh).edge len).map (reduction_entry fuel mesh A vh a))) := by
  have := svf_ring_loop_eq fuel mesh A vh a len hc hcor len 0 (by omega) fuel hlen out
  simp only [Function.iterate_zero, id_eq] at this
  rw [this]
  simp [ring_faces, ring_edges, List.range_eq_range']

theorem svf_axis_loop_eq (fuel : Nat) (mesh : Mesh3D α) (A vh len : Nat)
    (hc : is_cycle (ring_next mesh) (mesh.vert vh).edge len) (hlen : len < fuel)
    (hcor : ∀ f, (fv_corner fuel mesh f vh).isSome) :
    ∀ (l : List Nat) (out : Outputs α),
      svf_axis_loop fuel mesh (A : Int) vh l out
        = some (push_entries out (l.flatMap (fun a =>
            (ring_faces mesh (mesh.vert vh).edge len).map (reduction_entry fuel mesh A vh a)))) := by
  intro l
  induction l with
  | nil => intro out; simp [svf_axis_loop, push_entries_nil]
  | cons a l ih =>
    intro out
    simp only [svf_axis_loop, svf_ring_loop_start fuel mesh A vh a len hc hlen hcor,
      Option.some_bind, ih, push_entries_append, List.flatMap_cons]

/-- The scales after the first loop has gone through the positions `l`. -/
theorem vertex_loop_eq (fuel : Nat) (E : Extern α) (mesh : Mesh3D α) (A : Nat)
    (len : Nat → Nat) (hr : rings_close fuel mesh len) (hf : faces_close fuel mesh) :
    ∀ (l : List Nat), (∀ v, v ∈ l → v < mesh.num_of_vertices) →
      ∀ (rrs : List α) (out : Outputs α),
      vertex_loop fuel E mesh A l (rrs, out)
        = some (l.foldl (fun r v =>
            if degenerate E (ring_area E mesh (mesh.vert (mesh.get_vertex v)).edge (len v)) then r
            else r.set v (E.sqrt (ring_area E mesh (mesh.vert (mesh.get_vertex v)).edge (len v))))
              rrs,
            push_entries out (l.flatMap (vertex_entries fuel E mesh A len))) := by
  intro l
  induction l with
  | nil => intro _ rrs out; simp [vertex_loop, push_entries_nil]
  | cons v l ih =>
    intro hl rrs out
    have hv := hr v (hl v (List.mem_cons_self v l))
    have ih' := ih (fun w hw => hl w (List.mem_cons_of_mem v hw))
    simp only [vertex_loop, ring_area_loop_start E mesh _ (len v) fuel hv.1 hv.2,
      Option.some_bind, List.foldl_cons, List.flatMap_cons]
    by_cases hd : degenerate E
        (ring_area E mesh (mesh.vert (mesh.get_vertex v)).edge (len v)) = true
    · have hd' := hd
      simp only [degenerate] at hd'
      rw [if_pos hd', ih', if_pos hd]
      simp [vertex_entries, hd, push_entries_nil]
    · have hd' := hd
      simp only [degenerate] at hd'
      rw [if_neg hd', svf_axis_loop_eq fuel mesh A _ (len v) hv.1 hv.2
        (fun f => fv_corner_isSome fuel mesh hf f _)]
      simp only [Option.some_bind, ih', if_neg hd, push_entries_append]
      simp [vertex_entries, hd]

end Phase1
section Master
variable {α : Type} [LinearOrderedField α]

theorem scatter_loop_S_vf (mesh : Mesh3D α) (A : Nat) (vts : List Nat) (c a : Nat)
    (ao : List Int) (qbw : List (vec3 α)) (q o : Nat) (out : Outputs α) :
    (fun o : Outputs α => (o.S_vf, o.S_vf_index, o.S_vf_value))
        (scatter_loop mesh A vts c a ao qbw q o out)
      = (out.S_vf, out.S_vf_index, out.S_vf_value) := by
  unfold scatter_loop
  refine foldl_keep (fun o : Outputs α => (o.S_vf, o.S_vf_index, o.S_vf_value)) _
    (fun st i => ?_) _ out
  rfl

theorem dfw_loop_S_vf (face : Nat) (pts : List (vec2 α)) (w : List α) (q o : Nat)
    (out : Outputs α) :
    (fun o : Outputs α => (o.S_vf, o.S_vf_index, o.S_vf_value)) (dfw_loop face pts w q o out)
      = (out.S_vf, out.S_vf_index, out.S_vf_value) := by
  unfold dfw_loop
  refine foldl_keep (fun o : Outputs α => (o.S_vf, o.S_vf_index, o.S_vf_value)) _
    (fun st i => ?_) _ out
  dsimp only
  split <;> rfl

theorem patch_loop_S_vf (uph : Bool) (A f c a : Nat) (qbw nm : List (vec3 α)) (hg : List α)
    (out : Outputs α) :
    (fun o : Outputs α => (o.S_vf, o.S_vf_index, o.S_vf_value))
        (patch_loop uph A f c a qbw nm hg out)
      = (out.S_vf, out.S_vf_index, out.S_vf_value) := by
  unfold patch_loop
  refine foldl_keep (fun o : Outputs α => (o.S_vf, o.S_vf_index, o.S_vf_value)) _
    (fun st i => ?_) _ out
  rfl

theorem quad_loop_S_vf (mesh : Mesh3D α) (A f : Nat) (vts : List Nat) (c a : Nat)
    (ao : List Int) (Q : QuadOut α) (out : Outputs α) :
    (fun o : Outputs α => (o.S_vf, o.S_vf_index, o.S_vf_value))
        (quad_loop mesh A f vts c a ao Q out)
      = (out.S_vf, out.S_vf_index, out.S_vf_value) := by
  unfold quad_loop
  refine foldl_keep (fun o : Outputs α => (o.S_vf, o.S_vf_index, o.S_vf_value)) _
    (fun st q => ?_) _ out
  exact (dfw_loop_S_vf f Q.points Q.weights q _ _).trans
    (scatter_loop_S_vf mesh A vts c a ao Q.baryweights q _ st)

/-- The sampler leaves the three reduction outputs alone. -/
theorem axis_body_S_vf (E : Extern α) (mesh : Mesh3D α) (axes : List (List (vec3 α)))
    (uph : Bool) (rrs : List α) (A f : Nat) (vts : List Nat) (c fv : Nat) (e1 e2 : vec3 α)
    (ao : List Int) (out : Outputs α) (a : Nat) :
    (fun o : Outputs α => (o.S_vf, o.S_vf_index, o.S_vf_value))
        (axis_body E mesh axes uph rrs A f vts c fv e1 e2 ao out a)
      = (out.S_vf, out.S_vf_index, out.S_vf_value) := by
  unfold axis_body
  exact (patch_loop_S_vf uph A f c a _ _ _ _).trans (quad_loop_S_vf mesh A f vts c a ao _ out)

theorem face_loop_isSome (fuel : Nat) (E : Extern α) (mesh : Mesh3D α)
    (axes : List (List (vec3 α))) (uph : Bool) (rrs : List α) (A : Nat)
    (hf : faces_close fuel mesh) :
    ∀ (l : List Nat) (out : Outputs α),
      (face_loop fuel E mesh axes uph rrs A l out).isSome := by
  intro l
  induction l with
  | nil => intro out; rfl
  | cons f l ih =>
    intro out
    obtain ⟨vts, hv⟩ := Option.isSome_iff_exists.mp (f_corners_isSome fuel mesh hf (mesh.get_face f))
    simp only [face_loop, hv, Option.some_bind]
    exact ih _

theorem face_loop_S_vf (fuel : Nat) (E : Extern α) (mesh : Mesh3D α)
    (axes : List (List (vec3 α))) (uph : Bool) (rrs : List α) (A n : Nat)
    (out res : Outputs α)
    (h : face_loop fuel E mesh axes uph rrs A (List.range n) out = some res) :
    res.S_vf = out.S_vf ∧ res.S_vf_index = out.S_vf_index ∧ res.S_vf_value = out.S_vf_value := by
  have := (sampler_lift (fun (o : Outputs α) (_ : Nat) => (o.S_vf, o.S_vf_index, o.S_vf_value))
    (fun _ _ => False) (fun _ => True) (fun _ _ _ _ _ _ _ _ _ => True) fuel E mesh axes uph rrs A n
    (fun _ _ _ h => h.elim)
    (fun f vts c fv e1 e2 ao out a _ _ => axis_body_S_vf E mesh axes uph rrs A f vts c fv e1 e2 ao out a)
    (fun _ _ _ _ _ _ _ _ _ _ => trivial)
    (fun _ _ _ _ _ _ _ _ _ _ _ _ _ => trivial)
    (fun _ _ _ _ _ _ _ _ _ _ _ _ => trivial) n (Nat.le_refl n) out res trivial h).2.1 0
    (fun _ _ _ _ _ _ _ _ h => h)
  simp only [Prod.mk.injEq] at this
  exact this

/-- The scales that the first loop leaves in `ring_ref_scale`. -/
theorem polynomial_conv_state_eq (fuel : Nat) (E : Extern α) (mesh : Mesh3D α)
    (axes : List (List (vec3 α))) (uph : Bool) (out0 : Outputs α) (len : Nat → Nat)
    (hr : rings_close fuel mesh len) (hf : faces_close fuel mesh) :
    ∃ res,
      polynomial_conv_state fuel E mesh axes uph out0
        = some ((List.range mesh.num_of_vertices).foldl (fun r v =>
            if degenerate E (ring_area E mesh (mesh.vert (mesh.get_vertex v)).edge (len v)) then r
            else r.set v (E.sqrt (ring_area E mesh (mesh.vert (mesh.get_vertex v)).edge (len v))))
              (List.replicate mesh.num_of_vertices 1.0), res) ∧
      face_loop fuel E mesh axes uph
        ((List.range mesh.num_of_vertices).foldl (fun r v =>
            if degenerate E (ring_area E mesh (mesh.vert (mesh.get_vertex v)).edge (len v)) then r
            else r.set v (E.sqrt (ring_area E mesh (mesh.vert (mesh.get_vertex v)).edge (len v))))
              (List.replicate mesh.num_of_vertices 1.0))
        (axes.getD 0 []).length (List.range mesh.num_of_faces)
        (push_entries (resize_outputs uph mesh.num_of_faces (axes.getD 0 []).length out0)
          (reduction_entries fuel E mesh (axes.getD 0 []).length len)) = some res := by
  obtain ⟨res, hres⟩ := Option.isSome_iff_exists.mp
    (face_loop_isSome fuel E mesh axes uph
      ((List.range mesh.num_of_vertices).foldl (fun r v =>
            if degenerate E (ring_area E mesh (mesh.vert (mesh.get_vertex v)).edge (len v)) then r
            else r.set v (E.sqrt (ring_area E mesh (mesh.vert (mesh.get_vertex v)).edge (len v))))
              (List.replicate mesh.num_of_vertices 1.0))
      (axes.getD 0 []).length hf (List.range mesh.num_of_faces)
      (push_entries (resize_outputs uph mesh.num_of_faces (axes.getD 0 []).length out0)
          (reduction_entries fuel E mesh (axes.getD 0 []).length len)))
  refine ⟨res, ?_, hres⟩
  unfold polynomial_conv_state
  dsimp only
  rw [vertex_loop_eq fuel E mesh _ len hr hf (List.range mesh.num_of_vertices)
    (fun v hv => List.mem_range.mp hv)]
  simp only [Option.some_bind]
  rw [show (List.range mesh.num_of_vertices).flatMap
      (vertex_entries fuel E mesh (axes.getD 0 []).length len)
      = reduction_entries fuel E mesh (axes.getD 0 []).length len from rfl, hres]
  rfl

end Master
section FirstLoop
variable {α : Type} [LinearOrderedField α]

set_option linter.unusedSectionVars false

theorem scales_get (d : Nat → Bool) (s : Nat → α) (r0 : List α) :
    ∀ n p, ((List.range n).foldl (fun r v => if d v then r else r.set v (s v)) r0)[p]?
      = if p < n ∧ d p = false ∧ p < r0.length then some (s p) else r0[p]? := by
  intro n
  induction n with
  | zero => intro p; simp
  | succ n ih =>
    intro p
    rw [List.range_succ, List.foldl_append, List.foldl_cons, List.foldl_nil]
    have hlen : ((List.range n).foldl (fun r v => if d v then r else r.set v (s v)) r0).length
        = r0.length :=
      foldl_keep List.length _ (fun st j => by split <;> simp) _ r0
    have hiff : ∀ q : Nat, q ≠ n → ((q < n + 1 ∧ d q = false ∧ q < r0.length)
        ↔ (q < n ∧ d q = false ∧ q < r0.length)) := by
      intro q hq
      constructor
      · rintro ⟨h1, h2, h3⟩; exact ⟨by omega, h2, h3⟩
      · rintro ⟨h1, h2, h3⟩; exact ⟨by omega, h2, h3⟩
    cases hd : d n with
    | true =>
      simp only [hd, if_true, ih]
      by_cases hp : p = n
      · subst hp; simp [hd]
      · simp only [hiff p hp]
    | false =>
      simp only [hd, Bool.false_eq_true, if_false, List.getElem?_set, hlen, ih]
      by_cases hp : n = p
      · subst hp
        by_cases hb : n < r0.length
        · simp [hd, hb]
        · simp [hd, hb, List.getElem?_eq_none (Nat.le_of_not_lt hb)]
      · rw [if_neg hp]
        simp only [hiff p (Ne.symm hp)]

theorem mem_reduction_entries (fuel : Nat) (E : Extern α) (mesh : Mesh3D α) (A : Nat)
    (len : Nat → Nat) (e : COOEntry α) (he : e ∈ reduction_entries fuel E mesh A len) :
    ∃ w a f, w < mesh.num_of_vertices ∧ a < A ∧
      degenerate E (ring_area E mesh (mesh.vert (mesh.get_vertex w)).edge (len w)) = false ∧
      f ∈ ring_faces mesh (mesh.vert (mesh.get_vertex w)).edge (len w) ∧
      e = reduction_entry fuel mesh A (mesh.get_vertex w) a f := by
  simp only [reduction_entries, List.mem_flatMap, List.mem_range] at he
  obtain ⟨w, hw, he⟩ := he
  simp only [vertex_entries] at he
  split at he
  · simp at he
  · rename_i hd
    simp only [List.mem_flatMap, List.mem_range, List.mem_map] at he
    obtain ⟨a, ha, f, hf, rfl⟩ := he
    exact ⟨w, a, f, hw, ha, by simpa using hd, hf, rfl⟩

theorem length_reduction_entries (fuel : Nat) (E : Extern α) (mesh : Mesh3D α) (A : Nat)
    (len : Nat → Nat) :
    (reduction_entries fuel E mesh A len).length
      = ((List.range mesh.num_of_vertices).map (fun v =>
          if degenerate E (ring_area E mesh (mesh.vert (mesh.get_vertex v)).edge (len v)) then 0
          else (ring_faces mesh (mesh.vert (mesh.get_vertex v)).edge (len v)).length * A)).sum := by
  unfold reduction_entries
  rw [List.length_flatMap]
  congr 1
  refine List.map_congr_left (fun v _ => ?_)
  show (vertex_entries fuel E mesh A len v).length = _
  unfold vertex_entries
  dsimp only
  split
  · rfl
  · rw [List.length_flatMap]
    have hc : (List.length ∘ fun axis =>
        (ring_faces mesh (mesh.vert (mesh.get_vertex v)).edge (len v)).map
          (reduction_entry (α := α) fuel mesh A (mesh.get_vertex v) axis))
        = fun _ => (ring_faces mesh (mesh.vert (mesh.get_vertex v)).edge (len v)).length := by
      funext axis; simp
    rw [hc]
    simp [mul_comm]

end FirstLoop
section Scatter
variable {α : Type} [LinearOrderedField α]

theorem resize_length {β : Type} (v : List β) (n : Nat) (d : β) : (resize v n d).length = n := by
  simp [resize]; omega

/-- After the second loop, every scatter entry of every block is in place. -/
theorem face_loop_S_fv (fuel : Nat) (E : Extern α) (mesh : Mesh3D α)
    (axes : List (List (vec3 α))) (uph : Bool) (rrs : List α) (A nf : Nat)
    (out res : Outputs α) (hlen : out.S_fv.length = fvaq_num nf A * 3)
    (h : face_loop fuel E mesh axes uph rrs A (List.range nf) out = some res) :
    res.S_fv.length = fvaq_num nf A * 3 ∧
    ∀ f, f < nf → ∀ vts, f_corners fuel mesh (mesh.get_face f) = some vts →
      ∀ c, c < 3 → ∀ a, a < A → ∀ q, q < 6 → ∀ i, i < 3 →
        res.S_fv[sample_offset A f c a q * 3 + i]?
          = some (scatter_entry mesh A vts c a (axis_offset E mesh axes A vts c) bary_weights q
              (sample_offset A f c a q) i) := by
  have hpos : ∀ (f c a j k : Nat), j < 18 → k < 18 → c < 3 → a < A →
      sample_offset A f c a (j / 3) * 3 + j % 3 = sample_offset A f c a (k / 3) * 3 + k % 3 →
      j = k := by
    intro f c a j k hj hk hc ha hjk
    have h1 : sample_offset A f c a (j / 3) = sample_offset A f c a (k / 3) := by omega
    have h2 := (sample_offset_inj A f c a (j / 3) f c a (k / 3) hc ha (by omega) hc ha
      (by omega) h1).2.2.2
    omega
  have := sampler_lift (fun (o : Outputs α) p => o.S_fv[p]?)
    (fun o p => ∃ i, i < 3 ∧ p = o * 3 + i)
    (fun o => o.S_fv.length = fvaq_num nf A * 3)
    (fun f c a vts _ _ _ ao st => ∀ q, q < 6 → ∀ i, i < 3 →
      st.S_fv[sample_offset A f c a q * 3 + i]?
        = some (scatter_entry mesh A vts c a ao bary_weights q (sample_offset A f c a q) i))
    fuel E mesh axes uph rrs A nf
    (by rintro o o' p ⟨i, hi, rfl⟩ ⟨i', hi', h⟩; omega)
    (by
      intro f vts c fv e1 e2 ao out a p hp
      dsimp only
      rw [axis_body_S_fv]
      refine foldl_set_frame _ _ 18 out.S_fv p (fun j hj hpj => ?_)
      exact hp (j / 3) (by omega) ⟨j % 3, Nat.mod_lt _ (by omega), hpj⟩)
    (by
      intro f vts c fv e1 e2 ao out a ho
      rw [axis_body_S_fv, foldl_set_length]; exact ho)
    (by
      intro f vts c fv e1 e2 ao out a hf hc ha ho q hq i hi
      rw [axis_body_S_fv]
      have := foldl_set_good (fun j => sample_offset A f c a (j / 3) * 3 + j % 3)
        (fun j => scatter_entry mesh A vts c a ao bary_weights (j / 3)
          (sample_offset A f c a (j / 3)) (j % 3)) 18 out.S_fv
        (fun j k hj hk hjk => hpos f c a j k hj hk hc ha hjk) (q * 3 + i) (by omega)
      have e1 : (q * 3 + i) / 3 = q := by omega
      have e2 : (q * 3 + i) % 3 = i := by omega
      simp only [e1, e2] at this
      refine this ?_
      have := sample_offset_lt nf A f c a q hf hc ha hq
      omega)
    (by
      intro f c a vts fv e1 e2 ao st st' hv hG q hq i hi
      have := hv (sample_offset A f c a q * 3 + i) q hq ⟨i, hi, rfl⟩
      dsimp only at this
      rw [this]; exact hG q hq i hi)
    nf (Nat.le_refl nf) out res hlen h
  exact ⟨this.1, this.2.2⟩

/-- The scatter entries after `polynomial_conv`. -/
theorem polynomial_conv_S_fv (fuel : Nat) (E : Extern α) (mesh : Mesh3D α)
    (axes : List (List (vec3 α))) (uph : Bool) (out0 : Outputs α) (len : Nat → Nat)
    (hr : rings_close fuel mesh len) (hf : faces_close fuel mesh) :
    ∃ res, polynomial_conv fuel E mesh axes uph out0 = some res ∧
      ∀ f, f < mesh.num_of_faces → ∀ vts, f_corners fuel mesh (mesh.get_face f) = some vts →
      ∀ c, c < 3 → ∀ a, a < (axes.getD 0 []).length → ∀ q, q < 6 → ∀ i, i < 3 →
        res.S_fv[sample_offset (axes.getD 0 []).length f c a q * 3 + i]?
          = some (scatter_entry mesh (axes.getD 0 []).length vts c a
              (axis_offset E mesh axes (axes.getD 0 []).length vts c) bary_weights q
              (sample_offset (axes.getD 0 []).length f c a q) i) := by
  obtain ⟨res, h1, h2⟩ := polynomial_conv_state_eq fuel E mesh axes uph out0 len hr hf
  refine ⟨res, by simp [polynomial_conv, h1], ?_⟩
  exact (face_loop_S_fv fuel E mesh axes uph _ _ _ _ res
    (by simp [push_entries, resize_outputs, resize_length]) h2).2

end Scatter
section DfwView
variable {α : Type} [LinearOrderedField α]

set_option linter.unusedSectionVars false

theorem foldl_set_eq_map {γ : Type} (e : Nat → γ) (n : Nat) (row : List γ)
    (hrow : row.length = n) :
    (List.range n).foldl (fun r i => r.set i (e i)) row = (List.range n).map e := by
  apply List.ext_getElem?
  intro p
  by_cases hp : p < n
  · have := foldl_set_good (fun j => j) e n row (fun j k _ _ h => h) p hp (by show p < row.length; omega)
    rw [this]
    simp [hp]
  · have h1 := foldl_set_length (fun j => j) e n row
    rw [List.getElem?_eq_none (by omega), List.getElem?_eq_none (by simp; omega)]

theorem foldl_set_row {γ : Type} (o : Nat) (e : Nat → γ) :
    ∀ (is : List Nat) (l : List (List γ)),
      is.foldl (fun l i => l.set o ((l.getD o []).set i (e i))) l
        = if is = [] then l
          else l.set o (is.foldl (fun r i => r.set i (e i)) (l.getD o [])) := by
  intro is
  induction is with
  | nil => intro l; rfl
  | cons i is ih =>
    intro l
    rw [List.foldl_cons, ih]
    by_cases ho : o < l.length
    · by_cases his : is = []
      · subst his; simp
      · simp [his, List.getD_eq_getElem?_getD, List.getElem?_set, ho, List.set_set]
    · have h1 : ∀ r, l.set o r = l := fun r => List.set_eq_of_length_le (by omega)
      simp [h1]

theorem dfw_loop_D_fw (face : Nat) (Q : QuadOut α) (q o : Nat) (out : Outputs α) :
    (dfw_loop face Q.points Q.weights q o out).D_fw
      = out.D_fw.set o ((List.range 10).foldl (fun r i => r.set i ((dfw_row Q q).getD i 0))
          (out.D_fw.getD o [])) := by
  unfold dfw_loop
  rw [foldl_proj Outputs.D_fw _
    (fun l i => l.set o ((l.getD o []).set i
      (cubic_poly_term i ((Q.points.getD q default).get 0)
        ((Q.points.getD q default).get 1) * Q.weights.getD q 0)))
    (fun st i => by dsimp only; split <;> rfl)]
  rw [foldl_set_row o _ (List.range 10) out.D_fw, if_neg (by decide)]
  rfl



theorem dfw_row_length (Q : QuadOut α) (q : Nat) : (dfw_row Q q).length = 10 := by
  simp [dfw_row]

theorem dfw_row_fold (Q : QuadOut α) (q : Nat) (row : List α) (hrow : row.length = 10) :
    (List.range 10).foldl (fun r i => r.set i ((dfw_row Q q).getD i 0)) row = dfw_row Q q := by
  rw [foldl_set_eq_map _ 10 row hrow]
  apply List.ext_getElem?
  intro p
  by_cases hp : p < 10
  · simp [hp, List.getD_eq_getElem?_getD, dfw_row]
  · rw [List.getElem?_eq_none (by simp; omega),
      List.getElem?_eq_none (by rw [dfw_row_length]; omega)]

theorem scatter_loop_D_fw (mesh : Mesh3D α) (A : Nat) (vts : List Nat) (c a : Nat)
    (ao : List Int) (qbw : List (vec3 α)) (q o : Nat) (out : Outputs α) :
    (scatter_loop mesh A vts c a ao qbw q o out).D_fw = out.D_fw := by
  unfold scatter_loop
  refine foldl_keep Outputs.D_fw _ (fun st i => ?_) _ out
  rfl

theorem patch_loop_D_fw (uph : Bool) (A f c a : Nat) (qbw nm : List (vec3 α)) (hg : List α)
    (out : Outputs α) : (patch_loop uph A f c a qbw nm hg out).D_fw = out.D_fw := by
  unfold patch_loop
  refine foldl_keep Outputs.D_fw _ (fun st i => ?_) _ out
  rfl

/-- The rows of `D_fw` all have 10 entries. -/
theorem rows10_set (l : List (List α)) (o : Nat) (r : List α) (hr : r.length = 10)
    (hl : ∀ x, x ∈ l → x.length = 10) : ∀ x, x ∈ l.set o r → x.length = 10 := by
  intro x hx
  rcases List.mem_or_eq_of_mem_set hx with h | h
  · exact hl x h
  · rw [h]; exact hr

theorem getD_length10 (l : List (List α)) (o : Nat) (ho : o < l.length)
    (hl : ∀ x, x ∈ l → x.length = 10) : (l.getD o []).length = 10 := by
  rw [List.getD_eq_getElem?_getD, List.getElem?_eq_getElem ho]
  exact hl _ (List.getElem_mem ho)

theorem foldl_modify_frame {γ : Type} (pos : Nat → Nat) (F : Nat → List γ → γ) (n : Nat)
    (l : List γ) (p : Nat) (hp : ∀ j, j < n → p ≠ pos j) :
    ((List.range n).foldl (fun l j => l.set (pos j) (F j l)) l)[p]? = l[p]? :=
  foldl_range_frame (fun (l : List γ) p => l[p]?) _ (fun j p => p = pos j) n
    (fun j _ st p hW => by
      simp only [List.getElem?_set]
      rw [if_neg (fun h => hW h.symm)]) l p hp

theorem axis_body_D_fw_raw (E : Extern α) (mesh : Mesh3D α) (axes : List (List (vec3 α)))
    (uph : Bool) (rrs : List α) (A f : Nat) (vts : List Nat) (c fv : Nat) (e1 e2 : vec3 α)
    (ao : List Int) (out : Outputs α) (a : Nat) :
    (axis_body E mesh axes uph rrs A f vts c fv e1 e2 ao out a).D_fw
      = (List.range 6).foldl
          (fun l q => l.set (sample_offset A f c a q)
            ((List.range 10).foldl (fun r i => r.set i ((dfw_row (quadrature_degree4
              ((pts_2d E (frame mesh axes fv a) e1 e2
                (rrs.getD (mesh.vert fv).id.toNat 0)).getD 0 default)
              ((pts_2d E (frame mesh axes fv a) e1 e2
                (rrs.getD (mesh.vert fv).id.toNat 0)).getD 1 default)
              ((pts_2d E (frame mesh axes fv a) e1 e2
                (rrs.getD (mesh.vert fv).id.toNat 0)).getD 2 default) []) q).getD i 0))
              (l.getD (sample_offset A f c a q) []))) out.D_fw := by
  unfold axis_body
  simp only [patch_loop_D_fw]
  unfold quad_loop
  exact foldl_proj Outputs.D_fw _ _
    (fun st q => by simp only [dfw_loop_D_fw, scatter_loop_D_fw]) _ out

theorem axis_body_D_fw (E : Extern α) (mesh : Mesh3D α) (axes : List (List (vec3 α)))
    (uph : Bool) (rrs : List α) (A f : Nat) (vts : List Nat) (c fv : Nat) (e1 e2 : vec3 α)
    (ao : List Int) (out : Outputs α) (a : Nat) (hl : ∀ x, x ∈ out.D_fw → x.length = 10) :
    (axis_body E mesh axes uph rrs A f vts c fv e1 e2 ao out a).D_fw
      = (List.range 6).foldl
          (fun l q => l.set (sample_offset A f c a q)
            (dfw_row (quadrature_degree4
              ((pts_2d E (frame mesh axes fv a) e1 e2
                (rrs.getD (mesh.vert fv).id.toNat 0)).getD 0 default)
              ((pts_2d E (frame mesh axes fv a) e1 e2
                (rrs.getD (mesh.vert fv).id.toNat 0)).getD 1 default)
              ((pts_2d E (frame mesh axes fv a) e1 e2
                (rrs.getD (mesh.vert fv).id.toNat 0)).getD 2 default) []) q)) out.D_fw := by
  rw [axis_body_D_fw_raw]
  generalize quadrature_degree4
      ((pts_2d E (frame mesh axes fv a) e1 e2 (rrs.getD (mesh.vert fv).id.toNat 0)).getD 0 default)
      ((pts_2d E (frame mesh axes fv a) e1 e2 (rrs.getD (mesh.vert fv).id.toNat 0)).getD 1 default)
      ((pts_2d E (frame mesh axes fv a) e1 e2 (rrs.getD (mesh.vert fv).id.toNat 0)).getD 2 default)
      [] = Q
  have key : ∀ (qs : List Nat) (l : List (List α)), (∀ x, x ∈ l → x.length = 10) →
      qs.foldl (fun l q => l.set (sample_offset A f c a q)
        ((List.range 10).foldl (fun r i => r.set i ((dfw_row Q q).getD i 0))
          (l.getD (sample_offset A f c a q) []))) l
      = qs.foldl (fun l q => l.set (sample_offset A f c a q) (dfw_row Q q)) l := by
    intro qs
    induction qs with
    | nil => intro l _; rfl
    | cons q qs ih =>
      intro l hl
      simp only [List.foldl_cons]
      by_cases ho : sample_offset A f c a q < l.length
      · rw [dfw_row_fold Q q _ (getD_length10 l _ ho hl)]
        exact ih _ (rows10_set l _ _ (dfw_row_length Q q) hl)
      · rw [List.set_eq_of_length_le (by omega), List.set_eq_of_length_le (by omega)]
        exact ih l hl
  exact key _ _ hl

theorem foldl_set_rows10 (pos : Nat → Nat) (e : Nat → List α) (he : ∀ j, (e j).length = 10) :
    ∀ (js : List Nat) (l : List (List α)), (∀ x, x ∈ l → x.length = 10) →
      ∀ x, x ∈ js.foldl (fun l j => l.set (pos j) (e j)) l → x.length = 10 := by
  intro js
  induction js with
  | nil => intro l hl; exact hl
  | cons j js ih =>
    intro l hl
    simp only [List.foldl_cons]
    exact ih _ (rows10_set l _ _ (he j) hl)

/-- After the second loop, every row of `D_fw` of every block is in place. -/
theorem face_loop_D_fw (fuel : Nat) (E : Extern α) (mesh : Mesh3D α)
    (axes : List (List (vec3 α))) (uph : Bool) (rrs : List α) (A nf : Nat)
    (out res : Outputs α) (hlen : out.D_fw.length = fvaq_num nf A)
    (hrows : ∀ x, x ∈ out.D_fw → x.length = 10)
    (h : face_loop fuel E mesh axes uph rrs A (List.range nf) out = some res) :
    ∀ f, f < nf → ∀ vts, f_corners fuel mesh (mesh.get_face f) = some vts →
      ∀ c, c < 3 → ∀ a, a < A → ∀ q, q < 6 →
        res.D_fw[sample_offset A f c a q]?
          = some (dfw_row (block_quadrature E mesh axes rrs vts c a) q) := by
  have := sampler_lift (fun (o : Outputs α) p => o.D_fw[p]?)
    (fun o p => p = o)
    (fun o => o.D_fw.length = fvaq_num nf A ∧ ∀ x, x ∈ o.D_fw → x.length = 10)
    (fun f c a _ fv e1 e2 _ st => ∀ q, q < 6 →
      st.D_fw[sample_offset A f c a q]?
        = some (dfw_row (quadrature_degree4
              ((pts_2d E (frame mesh axes fv a) e1 e2
                (rrs.getD (mesh.vert fv).id.toNat 0)).getD 0 default)
              ((pts_2d E (frame mesh axes fv a) e1 e2
                (rrs.getD (mesh.vert fv).id.toNat 0)).getD 1 default)
              ((pts_2d E (frame mesh axes fv a) e1 e2
                (rrs.getD (mesh.vert fv).id.toNat 0)).getD 2 default) []) q))
    fuel E mesh axes uph rrs A nf
    (by rintro o o' p rfl h; exact h)
    (by
      intro f vts c fv e1 e2 ao out a p hp
      dsimp only
      rw [axis_body_D_fw_raw]
      exact foldl_modify_frame _ _ 6 out.D_fw p (fun j hj hpj => hp j hj hpj))
    (by
      intro f vts c fv e1 e2 ao out a ho
      rw [axis_body_D_fw _ _ _ _ _ _ _ _ _ _ _ _ _ _ _ ho.2]
      exact ⟨by rw [foldl_set_length]; exact ho.1,
        foldl_set_rows10 _ _ (fun j => dfw_row_length _ j) _ _ ho.2⟩)
    (by
      intro f vts c fv e1 e2 ao out a hf hc ha ho q hq
      rw [axis_body_D_fw _ _ _ _ _ _ _ _ _ _ _ _ _ _ _ ho.2]
      refine foldl_set_good (fun j => sample_offset A f c a j) _ 6 out.D_fw
        (fun j k hj hk hjk =>
          (sample_offset_inj A f c a j f c a k hc ha hj hc ha hk hjk).2.2.2) q hq ?_
      have := sample_offset_lt nf A f c a q hf hc ha hq
      have := ho.1
      show sample_offset A f c a q < out.D_fw.length
      omega)
    (by
      intro f c a vts fv e1 e2 ao st st' hv hG q hq
      have := hv (sample_offset A f c a q) q hq rfl
      dsimp only at this
      rw [this]; exact hG q hq)
    nf (Nat.le_refl nf) out res ⟨hlen, hrows⟩ h
  exact this.2.2

theorem resize_rows10 (v : List (List α)) (n : Nat) (hv : ∀ x, x ∈ v → x.length = 10) :
    ∀ x, x ∈ resize v n (List.replicate 10 (0 : α)) → x.length = 10 := by
  intro x hx
  simp only [resize, List.mem_append, List.mem_replicate] at hx
  rcases hx with h | h
  · exact hv x (List.mem_of_mem_take h)
  · rw [h.2]; simp

/-- The rows of `D_fw` after `polynomial_conv`, from outputs whose incoming
`D_fw` rows have 10 entries. -/
theorem polynomial_conv_D_fw (fuel : Nat) (E : Extern α) (mesh : Mesh3D α)
    (axes : List (List (vec3 α))) (uph : Bool) (out0 : Outputs α) (len : Nat → Nat)
    (hr : rings_close fuel mesh len) (hf : faces_close fuel mesh)
    (hrows : ∀ x, x ∈ out0.D_fw → x.length = 10) :
    ∃ st, polynomial_conv_state fuel E mesh axes uph out0 = some st ∧
      ∀ f, f < mesh.num_of_faces → ∀ vts, f_corners fuel mesh (mesh.get_face f) = some vts →
      ∀ c, c < 3 → ∀ a, a < (axes.getD 0 []).length → ∀ q, q < 6 →
        st.2.D_fw[sample_offset (axes.getD 0 []).length f c a q]?
          = some (dfw_row (block_quadrature E mesh axes st.1 vts c a) q) := by
  obtain ⟨res, h1, h2⟩ := polynomial_conv_state_eq fuel E mesh axes uph out0 len hr hf
  refine ⟨_, h1, ?_⟩
  exact face_loop_D_fw fuel E mesh axes uph _ _ _ _ res
    (by simp [push_entries, resize_outputs, resize_length])
    (by
      simp only [push_entries, resize_outputs]
      exact resize_rows10 _ _ hrows) h2

end DfwView
section IntegralLemmas
open intervalIntegral

theorem int_monomials (N : ℕ) (a : ℕ → ℝ) (J : ℕ → ℕ) (lo hi : ℝ) :
    ∫ t in lo..hi, (Finset.range N).sum (fun n => a n * t ^ (J n))
      = (Finset.range N).sum (fun n => a n * ((hi ^ (J n + 1) - lo ^ (J n + 1)) / (J n + 1))) := by
  rw [integral_finset_sum]
  · refine Finset.sum_congr rfl (fun n _ => ?_)
    rw [integral_const_mul, integral_pow]
  · intro n _
    exact Continuous.intervalIntegrable (by fun_prop) _ _

theorem unit_triangle_integral (N : ℕ) (k : ℕ → ℝ) (I J : ℕ → ℕ) :
    ∫ s in (0:ℝ)..1, ∫ t in (0:ℝ)..(1 - s),
        (Finset.range N).sum (fun n => k n * s ^ (I n) * t ^ (J n))
      = (Finset.range N).sum (fun n => k n * betaI (I n) (J n)) := by
  have inner : ∀ s : ℝ, ∫ t in (0:ℝ)..(1 - s),
        (Finset.range N).sum (fun n => k n * s ^ (I n) * t ^ (J n))
      = (Finset.range N).sum (fun n => k n * (s ^ (I n) * ((1 - s) ^ (J n + 1) / (J n + 1)))) := by
    intro s
    rw [int_monomials]
    refine Finset.sum_congr rfl (fun n _ => ?_)
    simp
    ring
  simp only [inner]
  rw [integral_finset_sum]
  · refine Finset.sum_congr rfl (fun n _ => ?_)
    rw [integral_const_mul]
    rfl
  · intro n _
    exact Continuous.intervalIntegrable (by fun_prop) _ _

theorem betaI_eval (i j : ℕ) (a : ℕ → ℝ)
    (h : ∀ s : ℝ, s ^ i * ((1 - s) ^ (j + 1) / (j + 1))
      = (Finset.range 5).sum (fun m => a m * s ^ m)) :
    betaI i j = (Finset.range 5).sum (fun m => a m / (m + 1)) := by
  unfold betaI
  simp only [h]
  rw [int_monomials 5 a (fun m => m)]
  refine Finset.sum_congr rfl (fun n _ => ?_)
  simp
  ring

theorem betaI_00 : betaI 0 0 = 1 / 2 := by
  rw [betaI_eval 0 0 (fun m => match m with | 0 => 1 | 1 => -1 | _ => 0)
    (by intro s; simp [Finset.sum_range_succ]; ring)]
  simp [Finset.sum_range_succ]
  norm_num

theorem betaI_01 : betaI 0 1 = 1 / 6 := by
  rw [betaI_eval 0 1 (fun m => match m with | 0 => 1/2 | 1 => -1 | 2 => 1/2 | _ => 0)
    (by intro s; simp [Finset.sum_range_succ]; ring)]
  simp [Finset.sum_range_succ]
  norm_num

theorem betaI_10 : betaI 1 0 = 1 / 6 := by
  rw [betaI_eval 1 0 (fun m => match m with | 1 => 1 | 2 => -1 | _ => 0)
    (by intro s; simp [Finset.sum_range_succ]; ring)]
  simp [Finset.sum_range_succ]
  norm_num

theorem betaI_02 : betaI 0 2 = 1 / 12 := by
  rw [betaI_eval 0 2 (fun m => match m with | 0 => 1/3 | 1 => -1 | 2 => 1 | 3 => -1/3 | _ => 0)
    (by intro s; simp [Finset.sum_range_succ]; ring)]
  simp [Finset.sum_range_succ]
  norm_num

theorem betaI_11 : betaI 1 1 = 1 / 24 := by
  rw [betaI_eval 1 1 (fun m => match m with | 1 => 1/2 | 2 => -1 | 3 => 1/2 | _ => 0)
    (by intro s; simp [Finset.sum_range_succ]; ring)]
  simp [Finset.sum_range_succ]
  norm_num

theorem betaI_20 : betaI 2 0 = 1 / 12 := by
  rw [betaI_eval 2 0 (fun m => match m with | 2 => 1 | 3 => -1 | _ => 0)
    (by intro s; simp [Finset.sum_range_succ]; ring)]
  simp [Finset.sum_range_succ]
  norm_num

theorem betaI_03 : betaI 0 3 = 1 / 20 := by
  rw [betaI_eval 0 3
    (fun m => match m with | 0 => 1/4 | 1 => -1 | 2 => 3/2 | 3 => -1 | 4 => 1/4 | _ => 0)
    (by intro s; simp [Finset.sum_range_succ]; ring)]
  simp [Finset.sum_range_succ]
  norm_num

theorem betaI_12 : betaI 1 2 = 1 / 60 := by
  rw [betaI_eval 1 2 (fun m => match m with | 1 => 1/3 | 2 => -1 | 3 => 1 | 4 => -1/3 | _ => 0)
    (by intro s; simp [Finset.sum_range_succ]; ring)]
  simp [Finset.sum_range_succ]
  norm_num

theorem betaI_21 : betaI 2 1 = 1 / 60 := by
  rw [betaI_eval 2 1 (fun m => match m with | 2 => 1/2 | 3 => -1 | 4 => 1/2 | _ => 0)
    (by intro s; simp [Finset.sum_range_succ]; ring)]
  simp [Finset.sum_range_succ]
  norm_num

theorem betaI_30 : betaI 3 0 = 1 / 20 := by
  rw [betaI_eval 3 0 (fun m => match m with | 3 => 1 | 4 => -1 | _ => 0)
    (by intro s; simp [Finset.sum_range_succ]; ring)]
  simp [Finset.sum_range_succ]
  norm_num

end IntegralLemmas
section RuleError
open intervalIntegral

theorem cubic_poly_term_eq {α : Type} [LinearOrderedField α] (t : Nat) (ht : t < 10) (x y : α) :
    cubic_poly_term t x y = x ^ (xmap.getD t 0) * y ^ (ymap.getD t 0) := by
  interval_cases t <;>
    (simp only [cubic_poly_term, xmap, ymap, List.getD_cons_zero, List.getD_cons_succ,
       List.range_succ, List.range_zero, List.nil_append, List.cons_append, List.foldl_cons,
       List.foldl_nil]
     ring)

theorem cubic_poly_expand (c : Nat → ℝ) (x y : ℝ) :
    cubic_poly c x y = c 0 + c 1 * y + c 2 * x + c 3 * y ^ 2 + c 4 * (x * y) + c 5 * x ^ 2
      + c 6 * y ^ 3 + c 7 * (x * y ^ 2) + c 8 * (x ^ 2 * y) + c 9 * x ^ 3 := by
  simp [cubic_poly, cubic_poly_term, xmap, ymap, List.range_succ]
  ring

theorem triangle_integral_cubic (c : Nat → ℝ) (x1 y1 x2 y2 : ℝ) :
    triangle_integral (cubic_poly c) ⟨0, 0⟩ ⟨x1, y1⟩ ⟨x2, y2⟩
      = 2 * triarea2d (⟨0, 0⟩ : vec2 ℝ) ⟨x1, y1⟩ ⟨x2, y2⟩ *
        (c 0 / 2 + ((c 2 * x2 + c 1 * y2) + (c 2 * x1 + c 1 * y1)) / 6
          + ((c 5 * x2 ^ 2 + c 4 * (x2 * y2) + c 3 * y2 ^ 2)
              + (c 5 * x1 ^ 2 + c 4 * (x1 * y1) + c 3 * y1 ^ 2)) / 12
          + (2 * c 5 * (x1 * x2) + c 4 * (x1 * y2 + x2 * y1) + 2 * c 3 * (y1 * y2)) / 24
          + ((c 9 * x2 ^ 3 + c 8 * (x2 ^ 2 * y2) + c 7 * (x2 * y2 ^ 2) + c 6 * y2 ^ 3)
              + (c 9 * x1 ^ 3 + c 8 * (x1 ^ 2 * y1) + c 7 * (x1 * y1 ^ 2) + c 6 * y1 ^ 3)) / 20
          + ((3 * c 9 * (x1 * x2 ^ 2) + c 8 * (2 * (x1 * x2 * y2) + x2 ^ 2 * y1)
                + c 7 * (x1 * y2 ^ 2 + 2 * (x2 * y1 * y2)) + 3 * c 6 * (y1 * y2 ^ 2))
              + (3 * c 9 * (x1 ^ 2 * x2) + c 8 * (x1 ^ 2 * y2 + 2 * (x1 * x2 * y1))
                + c 7 * (2 * (x1 * y1 * y2) + x2 * y1 ^ 2) + 3 * c 6 * (y1 ^ 2 * y2))) / 60) := by
  unfold triangle_integral
  congr 1
  · simp only [triarea2d, vec2.sub]
    ring
  have key : ∀ s t : ℝ,
      cubic_poly c ((0 : ℝ) + s * (x1 - 0) + t * (x2 - 0)) ((0 : ℝ) + s * (y1 - 0) + t * (y2 - 0))
        = (Finset.range 10).sum (fun n =>
            (match n with
              | 0 => c 0
              | 1 => c 2 * x2 + c 1 * y2
              | 2 => c 2 * x1 + c 1 * y1
              | 3 => c 5 * x2 ^ 2 + c 4 * (x2 * y2) + c 3 * y2 ^ 2
              | 4 => 2 * c 5 * (x1 * x2) + c 4 * (x1 * y2 + x2 * y1) + 2 * c 3 * (y1 * y2)
              | 5 => c 5 * x1 ^ 2 + c 4 * (x1 * y1) + c 3 * y1 ^ 2
              | 6 => c 9 * x2 ^ 3 + c 8 * (x2 ^ 2 * y2) + c 7 * (x2 * y2 ^ 2) + c 6 * y2 ^ 3
              | 7 => 3 * c 9 * (x1 * x2 ^ 2) + c 8 * (2 * (x1 * x2 * y2) + x2 ^ 2 * y1)
                  + c 7 * (x1 * y2 ^ 2 + 2 * (x2 * y1 * y2)) + 3 * c 6 * (y1 * y2 ^ 2)
              | 8 => 3 * c 9 * (x1 ^ 2 * x2) + c 8 * (x1 ^ 2 * y2 + 2 * (x1 * x2 * y1))
                  + c 7 * (2 * (x1 * y1 * y2) + x2 * y1 ^ 2) + 3 * c 6 * (y1 ^ 2 * y2)
              | _ => c 9 * x1 ^ 3 + c 8 * (x1 ^ 2 * y1) + c 7 * (x1 * y1 ^ 2) + c 6 * y1 ^ 3 : ℝ)
            * s ^ (xmap.getD n 0) * t ^ (ymap.getD n 0)) := by
    intro s t
    rw [cubic_poly_expand]
    simp [Finset.sum_range_succ, xmap, ymap]
    ring
  simp only [key]
  rw [unit_triangle_integral]
  simp [Finset.sum_range_succ, xmap, ymap, betaI_00, betaI_01, betaI_10, betaI_02, betaI_11,
    betaI_20, betaI_03, betaI_12, betaI_21, betaI_30]
  ring



theorem row_dot_dfw_row (c : Nat → ℝ) (Q : QuadOut ℝ) (q : Nat) :
    row_dot c (dfw_row Q q)
      = cubic_poly c ((Q.points.getD q default).get 0) ((Q.points.getD q default).get 1)
          * Q.weights.getD q 0 := by
  simp [row_dot, dfw_row, cubic_poly, List.range_succ]
  ring

end RuleError

section RuleErrorBound

set_option maxRecDepth 100000 in
set_option maxHeartbeats 4000000 in
/-- The rule applied to a cubic, against the exact moments of the unit right
triangle, for a triangle with its first vertex at the origin. -/
theorem rule_moment_error (c : Nat → ℝ) (x1 y1 x2 y2 : ℝ) :
    |(0.223381589678011 * cubic_poly c (0.10810301816807 * x1 + 0.445948490915965 * x2)
          (0.10810301816807 * y1 + 0.445948490915965 * y2)
        + 0.223381589678011 * cubic_poly c (0.445948490915965 * x1 + 0.445948490915965 * x2)
          (0.445948490915965 * y1 + 0.445948490915965 * y2)
        + 0.223381589678011 * cubic_poly c (0.445948490915965 * x1 + 0.10810301816807 * x2)
          (0.445948490915965 * y1 + 0.10810301816807 * y2)
        + 0.109951743655322 * cubic_poly c (0.816847572980459 * x1 + 0.091576213509771 * x2)
          (0.816847572980459 * y1 + 0.091576213509771 * y2)
        + 0.109951743655322 * cubic_poly c (0.091576213509771 * x1 + 0.091576213509771 * x2)
          (0.091576213509771 * y1 + 0.091576213509771 * y2)
        + 0.109951743655322 * cubic_poly c (0.091576213509771 * x1 + 0.816847572980459 * x2)
          (0.091576213509771 * y1 + 0.816847572980459 * y2))
      - 2 * (c 0 / 2 + ((c 2 * x2 + c 1 * y2) + (c 2 * x1 + c 1 * y1)) / 6
          + ((c 5 * x2 ^ 2 + c 4 * (x2 * y2) + c 3 * y2 ^ 2)
              + (c 5 * x1 ^ 2 + c 4 * (x1 * y1) + c 3 * y1 ^ 2)) / 12
          + (2 * c 5 * (x1 * x2) + c 4 * (x1 * y2 + x2 * y1) + 2 * c 3 * (y1 * y2)) / 24
          + ((c 9 * x2 ^ 3 + c 8 * (x2 ^ 2 * y2) + c 7 * (x2 * y2 ^ 2) + c 6 * y2 ^ 3)
              + (c 9 * x1 ^ 3 + c 8 * (x1 ^ 2 * y1) + c 7 * (x1 * y1 ^ 2) + c 6 * y1 ^ 3)) / 20
          + ((3 * c 9 * (x1 * x2 ^ 2) + c 8 * (2 * (x1 * x2 * y2) + x2 ^ 2 * y1)
                + c 7 * (x1 * y2 ^ 2 + 2 * (x2 * y1 * y2)) + 3 * c 6 * (y1 * y2 ^ 2))
              + (3 * c 9 * (x1 ^ 2 * x2) + c 8 * (x1 ^ 2 * y2 + 2 * (x1 * x2 * y1))
                + c 7 * (2 * (x1 * y1 * y2) + x2 * y1 ^ 2) + 3 * c 6 * (y1 ^ 2 * y2))) / 60)|
      ≤ 1e-15 * cubic_poly (fun t => |c t|) (|x1| + |x2|) (|y1| + |y2|) := by
  simp only [cubic_poly_expand]
  have hu0 : c 0 ≤ |c 0| := by
    have h := le_abs_self (c 0)
    simpa only [abs_mul, abs_pow] using h
  have hl0 : -(|c 0|) ≤ c 0 := by
    have h := neg_abs_le (c 0)
    simpa only [abs_mul, abs_pow] using h
  have hu1 : c 1 * y2 ≤ |c 1| * |y2| := by
    have h := le_abs_self (c 1 * y2)
    simpa only [abs_mul, abs_pow] using h
  have hl1 : -(|c 1| * |y2|) ≤ c 1 * y2 := by
    have h := neg_abs_le (c 1 * y2)
    simpa only [abs_mul, abs_pow] using h
  have hu2 : c 1 * y1 ≤ |c 1| * |y1| := by
    have h := le_abs_self (c 1 * y1)
    simpa only [abs_mul, abs_pow] using h
  have hl2 : -(|c 1| * |y1|) ≤ c 1 * y1 := by
    have h := neg_abs_le (c 1 * y1)
    simpa only [abs_mul, abs_pow] using h
  have hu3 : c 2 * x2 ≤ |c 2| * |x2| := by
    have h := le_abs_self (c 2 * x2)
    simpa only [abs_mul, abs_pow] using h
  have hl3 : -(|c 2| * |x2|) ≤ c 2 * x2 := by
    have h := neg_abs_le (c 2 * x2)
    simpa only [abs_mul, abs_pow] using h
  have hu4 : c 2 * x1 ≤ |c 2| * |x1| := by
    have h := le_abs_self (c 2 * x1)
    simpa only [abs_mul, abs_pow] using h
  have hl4 : -(|c 2| * |x1|) ≤ c 2 * x1 := by
    have h := neg_abs_le (c 2 * x1)
    simpa only [abs_mul, abs_pow] using h
  have hu5 : c 3 * y2 ^ 2 ≤ |c 3| * |y2| ^ 2 := by
    have h := le_abs_self (c 3 * y2 ^ 2)
    simpa only [abs_mul, abs_pow] using h
  have hl5 : -(|c 3| * |y2| ^ 2) ≤ c 3 * y2 ^ 2 := by
    have h := neg_abs_le (c 3 * y2 ^ 2)
    simpa only [abs_mul, abs_pow] using h
  have hu6 : c 3 * y1 * y2 ≤ |c 3| * |y1| * |y2| := by
    have h := le_abs_self (c 3 * y1 * y2)
    simpa only [abs_mul, abs_pow] using h
  have hl6 : -(|c 3| * |y1| * |y2|) ≤ c 3 * y1 * y2 := by
    have h := neg_abs_le (c 3 * y1 * y2)
    simpa only [abs_mul, abs_pow] using h
  have hu7 : c 3 * y1 ^ 2 ≤ |c 3| * |y1| ^ 2 := by
    have h := le_abs_self (c 3 * y1 ^ 2)
    simpa only [abs_mul, abs_pow] using h
  have hl7 : -(|c 3| * |y1| ^ 2) ≤ c 3 * y1 ^ 2 := by
    have h := neg_abs_le (c 3 * y1 ^ 2)
    simpa only [abs_mul, abs_pow] using h
  have hu8 : c 4 * x2 * y2 ≤ |c 4| * |x2| * |y2| := by
    have h := le_abs_self (c 4 * x2 * y2)
    simpa only [abs_mul, abs_pow] using h
  have hl8 : -(|c 4| * |x2| * |y2|) ≤ c 4 * x2 * y2 := by
    have h := neg_abs_le (c 4 * x2 * y2)
    simpa only [abs_mul, abs_pow] using h
  have hu9 : c 4 * x2 * y1 ≤ |c 4| * |x2| * |y1| := by
    have h := le_abs_self (c 4 * x2 * y1)
    simpa only [abs_mul, abs_pow] using h
  have hl9 : -(|c 4| * |x2| * |y1|) ≤ c 4 * x2 * y1 := by
    have h := neg_abs_le (c 4 * x2 * y1)
    simpa only [abs_mul, abs_pow] using h
  have hu10 : c 4 * x1 * y2 ≤ |c 4| * |x1| * |y2| := by
    have h := le_abs_self (c 4 * x1 * y2)
    simpa only [abs_mul, abs_pow] using h
  have hl10 : -(|c 4| * |x1| * |y2|) ≤ c 4 * x1 * y2 := by
    have h := neg_abs_le (c 4 * x1 * y2)
    simpa only [abs_mul, abs_pow] using h
  have hu11 : c 4 * x1 * y1 ≤ |c 4| * |x1| * |y1| := by
    have h := le_abs_self (c 4 * x1 * y1)
    simpa only [abs_mul, abs_pow] using h
  have hl11 : -(|c 4| * |x1| * |y1|) ≤ c 4 * x1 * y1 := by
    have h := neg_abs_le (c 4 * x1 * y1)
    simpa only [abs_mul, abs_pow] using h
  have hu12 : c 5 * x2 ^ 2 ≤ |c 5| * |x2| ^ 2 := by
    have h := le_abs_self (c 5 * x2 ^ 2)
    simpa only [abs_mul, abs_pow] using h
  have hl12 : -(|c 5| * |x2| ^ 2) ≤ c 5 * x2 ^ 2 := by
    have h := neg_abs_le (c 5 * x2 ^ 2)
    simpa only [abs_mul, abs_pow] using h
  have hu13 : c 5 * x1 * x2 ≤ |c 5| * |x1| * |x2| := by
    have h := le_abs_self (c 5 * x1 * x2)
    simpa only [abs_mul, abs_pow] using h
  have hl13 : -(|c 5| * |x1| * |x2|) ≤ c 5 * x1 * x2 := by
    have h := neg_abs_le (c 5 * x1 * x2)
    simpa only [abs_mul, abs_pow] using h
  have hu14 : c 5 * x1 ^ 2 ≤ |c 5| * |x1| ^ 2 := by
    have h := le_abs_self (c 5 * x1 ^ 2)
    simpa only [abs_mul, abs_pow] using h
  have hl14 : -(|c 5| * |x1| ^ 2) ≤ c 5 * x1 ^ 2 := by
    have h := neg_abs_le (c 5 * x1 ^ 2)
    simpa only [abs_mul, abs_pow] using h
  have hu15 : c 6 * y2 ^ 3 ≤ |c 6| * |y2| ^ 3 := by
    have h := le_abs_self (c 6 * y2 ^ 3)
    simpa only [abs_mul, abs_pow] using h
  have hl15 : -(|c 6| * |y2| ^ 3) ≤ c 6 * y2 ^ 3 := by
    have h := neg_abs_le (c 6 * y2 ^ 3)
    simpa only [abs_mul, abs_pow] using h
  have hu16 : c 6 * y1 * y2 ^ 2 ≤ |c 6| * |y1| * |y2| ^ 2 := by
    have h := le_abs_self (c 6 * y1 * y2 ^ 2)
    simpa only [abs_mul, abs_pow] using h
  have hl16 : -(|c 6| * |y1| * |y2| ^ 2) ≤ c 6 * y1 * y2 ^ 2 := by
    have h := neg_abs_le (c 6 * y1 * y2 ^ 2)
    simpa only [abs_mul, abs_pow] using h
  have hu17 : c 6 * y1 ^ 2 * y2 ≤ |c 6| * |y1| ^ 2 * |y2| := by
    have h := le_abs_self (c 6 * y1 ^ 2 * y2)
    simpa only [abs_mul, abs_pow] using h
  have hl17 : -(|c 6| * |y1| ^ 2 * |y2|) ≤ c 6 * y1 ^ 2 * y2 := by
    have h := neg_abs_le (c 6 * y1 ^ 2 * y2)
    simpa only [abs_mul, abs_pow] using h
  have hu18 : c 6 * y1 ^ 3 ≤ |c 6| * |y1| ^ 3 := by
    have h := le_abs_self (c 6 * y1 ^ 3)
    simpa only [abs_mul, abs_pow] using h
  have hl18 : -(|c 6| * |y1| ^ 3) ≤ c 6 * y1 ^ 3 := by
    have h := neg_abs_le (c 6 * y1 ^ 3)
    simpa only [abs_mul, abs_pow] using h
  have hu19 : c 7 * x2 * y2 ^ 2 ≤ |c 7| * |x2| * |y2| ^ 2 := by
    have h := le_abs_self (c 7 * x2 * y2 ^ 2)
    simpa only [abs_mul, abs_pow] using h
  have hl19 : -(|c 7| * |x2| * |y2| ^ 2) ≤ c 7 * x2 * y2 ^ 2 := by
    have h := neg_abs_le (c 7 * x2 * y2 ^ 2)
    simpa only [abs_mul, abs_pow] using h
  have hu20 : c 7 * x2 * y1 * y2 ≤ |c 7| * |x2| * |y1| * |y2| := by
    have h := le_abs_self (c 7 * x2 * y1 * y2)
    simpa only [abs_mul, abs_pow] using h
  have hl20 : -(|c 7| * |x2| * |y1| * |y2|) ≤ c 7 * x2 * y1 * y2 := by
    have h := neg_abs_le (c 7 * x2 * y1 * y2)
    simpa only [abs_mul, abs_pow] using h
  have hu21 : c 7 * x2 * y1 ^ 2 ≤ |c 7| * |x2| * |y1| ^ 2 := by
    have h := le_abs_self (c 7 * x2 * y1 ^ 2)
    simpa only [abs_mul, abs_pow] using h
  have hl21 : -(|c 7| * |x2| * |y1| ^ 2) ≤ c 7 * x2 * y1 ^ 2 := by
    have h := neg_abs_le (c 7 * x2 * y1 ^ 2)
    simpa only [abs_mul, abs_pow] using h
  have hu22 : c 7 * x1 * y2 ^ 2 ≤ |c 7| * |x1| * |y2| ^ 2 := by
    have h := le_abs_self (c 7 * x1 * y2 ^ 2)
    simpa only [abs_mul, abs_pow] using h
  have hl22 : -(|c 7| * |x1| * |y2| ^ 2) ≤ c 7 * x1 * y2 ^ 2 := by
    have h := neg_abs_le (c 7 * x1 * y2 ^ 2)
    simpa only [abs_mul, abs_pow] using h
  have hu23 : c 7 * x1 * y1 * y2 ≤ |c 7| * |x1| * |y1| * |y2| := by
    have h := le_abs_self (c 7 * x1 * y1 * y2)
    simpa only [abs_mul, abs_pow] using h
  have hl23 : -(|c 7| * |x1| * |y1| * |y2|) ≤ c 7 * x1 * y1 * y2 := by
    have h := neg_abs_le (c 7 * x1 * y1 * y2)
    simpa only [abs_mul, abs_pow] using h
  have hu24 : c 7 * x1 * y1 ^ 2 ≤ |c 7| * |x1| * |y1| ^ 2 := by
    have h := le_abs_self (c 7 * x1 * y1 ^ 2)
    simpa only [abs_mul, abs_pow] using h
  have hl24 : -(|c 7| * |x1| * |y1| ^ 2) ≤ c 7 * x1 * y1 ^ 2 := by
    have h := neg_abs_le (c 7 * x1 * y1 ^ 2)
    simpa only [abs_mul, abs_pow] using h
  have hu25 : c 8 * x2 ^ 2 * y2 ≤ |c 8| * |x2| ^ 2 * |y2| := by
    have h := le_abs_self (c 8 * x2 ^ 2 * y2)
    simpa only [abs_mul, abs_pow] using h
  have hl25 : -(|c 8| * |x2| ^ 2 * |y2|) ≤ c 8 * x2 ^ 2 * y2 := by
    have h := neg_abs_le (c 8 * x2 ^ 2 * y2)
    simpa only [abs_mul, abs_pow] using h
  have hu26 : c 8 * x2 ^ 2 * y1 ≤ |c 8| * |x2| ^ 2 * |y1| := by
    have h := le_abs_self (c 8 * x2 ^ 2 * y1)
    simpa only [abs_mul, abs_pow] using h
  have hl26 : -(|c 8| * |x2| ^ 2 * |y1|) ≤ c 8 * x2 ^ 2 * y1 := by
    have h := neg_abs_le (c 8 * x2 ^ 2 * y1)
    simpa only [abs_mul, abs_pow] using h
  have hu27 : c 8 * x1 * x2 * y2 ≤ |c 8| * |x1| * |x2| * |y2| := by
    have h := le_abs_self (c 8 * x1 * x2 * y2)
    simpa only [abs_mul, abs_pow] using h
  have hl27 : -(|c 8| * |x1| * |x2| * |y2|) ≤ c 8 * x1 * x2 * y2 := by
    have h := neg_abs_le (c 8 * x1 * x2 * y2)
    simpa only [abs_mul, abs_pow] using h
  have hu28 : c 8 * x1 * x2 * y1 ≤ |c 8| * |x1| * |x2| * |y1| := by
    have h := le_abs_self (c 8 * x1 * x2 * y1)
    simpa only [abs_mul, abs_pow] using h
  have hl28 : -(|c 8| * |x1| * |x2| * |y1|) ≤ c 8 * x1 * x2 * y1 := by
    have h := neg_abs_le (c 8 * x1 * x2 * y1)
    simpa only [abs_mul, abs_pow] using h
  have hu29 : c 8 * x1 ^ 2 * y2 ≤ |c 8| * |x1| ^ 2 * |y2| := by
    have h := le_abs_self (c 8 * x1 ^ 2 * y2)
    simpa only [abs_mul, abs_pow] using h
  have hl29 : -(|c 8| * |x1| ^ 2 * |y2|) ≤ c 8 * x1 ^ 2 * y2 := by
    have h := neg_abs_le (c 8 * x1 ^ 2 * y2)
    simpa only [abs_mul, abs_pow] using h
  have hu30 : c 8 * x1 ^ 2 * y1 ≤ |c 8| * |x1| ^ 2 * |y1| := by
    have h := le_abs_self (c 8 * x1 ^ 2 * y1)
    simpa only [abs_mul, abs_pow] using h
  have hl30 : -(|c 8| * |x1| ^ 2 * |y1|) ≤ c 8 * x1 ^ 2 * y1 := by
    have h := neg_abs_le (c 8 * x1 ^ 2 * y1)
    simpa only [abs_mul, abs_pow] using h
  have hu31 : c 9 * x2 ^ 3 ≤ |c 9| * |x2| ^ 3 := by
    have h := le_abs_self (c 9 * x2 ^ 3)
    simpa only [abs_mul, abs_pow] using h
  have hl31 : -(|c 9| * |x2| ^ 3) ≤ c 9 * x2 ^ 3 := by
    have h := neg_abs_le (c 9 * x2 ^ 3)
    simpa only [abs_mul, abs_pow] using h
  have hu32 : c 9 * x1 * x2 ^ 2 ≤ |c 9| * |x1| * |x2| ^ 2 := by
    have h := le_abs_self (c 9 * x1 * x2 ^ 2)
    simpa only [abs_mul, abs_pow] using h
  have hl32 : -(|c 9| * |x1| * |x2| ^ 2) ≤ c 9 * x1 * x2 ^ 2 := by
    have h := neg_abs_le (c 9 * x1 * x2 ^ 2)
    simpa only [abs_mul, abs_pow] using h
  have hu33 : c 9 * x1 ^ 2 * x2 ≤ |c 9| * |x1| ^ 2 * |x2| := by
    have h := le_abs_self (c 9 * x1 ^ 2 * x2)
    simpa only [abs_mul, abs_pow] using h
  have hl33 : -(|c 9| * |x1| ^ 2 * |x2|) ≤ c 9 * x1 ^ 2 * x2 := by
    have h := neg_abs_le (c 9 * x1 ^ 2 * x2)
    simpa only [abs_mul, abs_pow] using h
  have hu34 : c 9 * x1 ^ 3 ≤ |c 9| * |x1| ^ 3 := by
    have h := le_abs_self (c 9 * x1 ^ 3)
    simpa only [abs_mul, abs_pow] using h
  have hl34 : -(|c 9| * |x1| ^ 3) ≤ c 9 * x1 ^ 3 := by
    have h := neg_abs_le (c 9 * x1 ^ 3)
    simpa only [abs_mul, abs_pow] using h
  rw [abs_le]
  constructor
  · linarith [hu0, hl0, hu1, hl1, hu2, hl2, hu3, hl3, hu4, hl4, hu5, hl5, hu6, hl6, hu7, hl7, hu8, hl8, hu9, hl9, hu10, hl10, hu11, hl11, hu12, hl12, hu13, hl13, hu14, hl14, hu15, hl15, hu16, hl16, hu17, hl17, hu18, hl18, hu19, hl19, hu20, hl20, hu21, hl21, hu22, hl22, hu23, hl23, hu24, hl24, hu25, hl25, hu26, hl26, hu27, hl27, hu28, hl28, hu29, hl29, hu30, hl30, hu31, hl31, hu32, hl32, hu33, hl33, hu34, hl34]
  · linarith [hu0, hl0, hu1, hl1, hu2, hl2, hu3, hl3, hu4, hl4, hu5, hl5, hu6, hl6, hu7, hl7, hu8, hl8, hu9, hl9, hu10, hl10, hu11, hl11, hu12, hl12, hu13, hl13, hu14, hl14, hu15, hl15, hu16, hl16, hu17, hl17, hu18, hl18, hu19, hl19, hu20, hl20, hu21, hl21, hu22, hl22, hu23, hl23, hu24, hl24, hu25, hl25, hu26, hl26, hu27, hl27, hu28, hl28, hu29, hl29, hu30, hl30, hu31, hl31, hu32, hl32, hu33, hl33, hu34, hl34]

end RuleErrorBound

section QuadratureLemmas
variable {α : Type} [LinearOrderedField α]

theorem triarea2d_nonneg (v0 v1 v2 : vec2 α) : 0 ≤ triarea2d v0 v1 v2 := by
  unfold triarea2d
  have := abs_nonneg ((v1.sub v0).x * (v2.sub v0).y - (v1.sub v0).y * (v2.sub v0).x)
  dsimp only
  norm_num

theorem weights_sum (v0 v1 v2 : vec2 α) (bw : List (vec3 α)) :
    (quadrature_degree4 v0 v1 v2 bw).weights.sum = 0.999999999999999 * triarea2d v0 v1 v2 := by
  simp only [quadrature_degree4, List.sum_cons, List.sum_nil]
  ring_nf

theorem dfw_row_weight_sum (Q : QuadOut α) (hQ : Q.weights.length = 6) :
    ((List.range 6).map (fun q => (dfw_row Q q).getD 0 0)).sum = Q.weights.sum := by
  obtain ⟨w, hw⟩ : ∃ w, Q.weights = w := ⟨_, rfl⟩
  rw [hw] at hQ ⊢
  match w, hQ with
  | [a, b, c, d, e, f], _ =>
    simp [dfw_row, hw, cubic_poly_term, xmap, ymap, List.range_succ, add_assoc]

end QuadratureLemmas

section RuleSum

set_option maxRecDepth 100000 in
theorem rule_sum_eq (c : Nat → ℝ) (x1 y1 x2 y2 : ℝ) :
    ((List.range 6).map (fun q =>
        row_dot c (dfw_row (quadrature_degree4 (⟨0, 0⟩ : vec2 ℝ) ⟨x1, y1⟩ ⟨x2, y2⟩ []) q))).sum
      = triarea2d (⟨0, 0⟩ : vec2 ℝ) ⟨x1, y1⟩ ⟨x2, y2⟩ *
        (0.223381589678011 * cubic_poly c (0.10810301816807 * x1 + 0.445948490915965 * x2)
          (0.10810301816807 * y1 + 0.445948490915965 * y2)
        + 0.223381589678011 * cubic_poly c (0.445948490915965 * x1 + 0.445948490915965 * x2)
          (0.445948490915965 * y1 + 0.445948490915965 * y2)
        + 0.223381589678011 * cubic_poly c (0.445948490915965 * x1 + 0.10810301816807 * x2)
          (0.445948490915965 * y1 + 0.10810301816807 * y2)
        + 0.109951743655322 * cubic_poly c (0.816847572980459 * x1 + 0.091576213509771 * x2)
          (0.816847572980459 * y1 + 0.091576213509771 * y2)
        + 0.109951743655322 * cubic_poly c (0.091576213509771 * x1 + 0.091576213509771 * x2)
          (0.091576213509771 * y1 + 0.091576213509771 * y2)
        + 0.109951743655322 * cubic_poly c (0.091576213509771 * x1 + 0.816847572980459 * x2)
          (0.091576213509771 * y1 + 0.816847572980459 * y2)) := by
  simp only [row_dot_dfw_row]
  have hgen : ∀ A' : ℝ, triarea2d (⟨0, 0⟩ : vec2 ℝ) ⟨x1, y1⟩ ⟨x2, y2⟩ = A' →
      ((List.range 6).map (fun q =>
        cubic_poly c
          (((quadrature_degree4 (⟨0, 0⟩ : vec2 ℝ) ⟨x1, y1⟩ ⟨x2, y2⟩ []).points.getD q default).get 0)
          (((quadrature_degree4 (⟨0, 0⟩ : vec2 ℝ) ⟨x1, y1⟩ ⟨x2, y2⟩ []).points.getD q default).get 1)
          * (quadrature_degree4 (⟨0, 0⟩ : vec2 ℝ) ⟨x1, y1⟩ ⟨x2, y2⟩ []).weights.getD q 0)).sum
      = A' *
        (0.223381589678011 * cubic_poly c (0.10810301816807 * x1 + 0.445948490915965 * x2)
          (0.10810301816807 * y1 + 0.445948490915965 * y2)
        + 0.223381589678011 * cubic_poly c (0.445948490915965 * x1 + 0.445948490915965 * x2)
          (0.445948490915965 * y1 + 0.445948490915965 * y2)
        + 0.223381589678011 * cubic_poly c (0.445948490915965 * x1 + 0.10810301816807 * x2)
          (0.445948490915965 * y1 + 0.10810301816807 * y2)
        + 0.109951743655322 * cubic_poly c (0.816847572980459 * x1 + 0.091576213509771 * x2)
          (0.816847572980459 * y1 + 0.091576213509771 * y2)
        + 0.109951743655322 * cubic_poly c (0.091576213509771 * x1 + 0.091576213509771 * x2)
          (0.091576213509771 * y1 + 0.091576213509771 * y2)
        + 0.109951743655322 * cubic_poly c (0.091576213509771 * x1 + 0.816847572980459 * x2)
          (0.091576213509771 * y1 + 0.816847572980459 * y2)) := by
    intro A' hA'
    simp only [quadrature_degree4, hA']
    simp only [List.range_succ, List.range_zero, List.nil_append, List.cons_append,
      List.map_cons, List.map_nil, List.sum_cons, List.sum_nil, List.getD_cons_zero,
      List.getD_cons_succ, pos_blend_at, pos_blend, vec2.add, vec2.sub, vec2.smul, vec2.get,
      cubic_poly_expand]
    ring
  exact hgen _ rfl



/-- The six rows of `D_fw` of a triangle with first vertex at the origin, dotted
with the coefficients of a cubic, against the integral of the cubic. -/
theorem triangle_rule_error (c : Nat → ℝ) (x1 y1 x2 y2 : ℝ) :
    |((List.range 6).map (fun q =>
        row_dot c (dfw_row (quadrature_degree4 (⟨0, 0⟩ : vec2 ℝ) ⟨x1, y1⟩ ⟨x2, y2⟩ []) q))).sum
        - triangle_integral (cubic_poly c) ⟨0, 0⟩ ⟨x1, y1⟩ ⟨x2, y2⟩|
      ≤ 1e-15 * triarea2d (⟨0, 0⟩ : vec2 ℝ) ⟨x1, y1⟩ ⟨x2, y2⟩
          * cubic_poly (fun t => |c t|) (|x1| + |x2|) (|y1| + |y2|) := by
  rw [rule_sum_eq, triangle_integral_cubic]
  have hA := triarea2d_nonneg (⟨0, 0⟩ : vec2 ℝ) ⟨x1, y1⟩ ⟨x2, y2⟩
  have hR := rule_moment_error c x1 y1 x2 y2
  generalize triarea2d (⟨0, 0⟩ : vec2 ℝ) ⟨x1, y1⟩ ⟨x2, y2⟩ = A at hA ⊢
  rw [show ∀ R I : ℝ, A * R - 2 * A * I = A * (R - 2 * I) from fun R I => by ring,
    abs_mul, abs_of_nonneg hA]
  calc A * _ ≤ A * (1e-15 * cubic_poly (fun t => |c t|) (|x1| + |x2|) (|y1| + |y2|)) :=
        mul_le_mul_of_nonneg_left hR hA
    _ = 1e-15 * A * cubic_poly (fun t => |c t|) (|x1| + |x2|) (|y1| + |y2|) := by ring

end RuleSum

section PatchView
variable {α : Type} [LinearOrderedField α]

set_option linter.unusedSectionVars false

/-- A property of the outputs that every axis iteration keeps holds after the
second loop. -/
theorem face_loop_inv (Inv : Outputs α → Prop) (fuel : Nat) (E : Extern α) (mesh : Mesh3D α)
    (axes : List (List (vec3 α))) (uph : Bool) (rrs : List α) (A : Nat)
    (hinv : ∀ f vts c fv e1 e2 ao out a, Inv out →
      Inv (axis_body E mesh axes uph rrs A f vts c fv e1 e2 ao out a))
    (n : Nat) (out res : Outputs α) (ho : Inv out)
    (h : face_loop fuel E mesh axes uph rrs A (List.range n) out = some res) : Inv res :=
  (sampler_lift (fun (_ : Outputs α) (_ : Nat) => ()) (fun _ _ => False) Inv
    (fun _ _ _ _ _ _ _ _ _ => True) fuel E mesh axes uph rrs A n
    (fun _ _ _ h => h.elim)
    (fun _ _ _ _ _ _ _ _ _ _ _ => rfl)
    hinv
    (fun _ _ _ _ _ _ _ _ _ _ _ _ _ => trivial)
    (fun _ _ _ _ _ _ _ _ _ _ _ _ => trivial) n (Nat.le_refl n) out res ho h).1

theorem patch_row_length (uph : Bool) (qbw nm : List (vec3 α)) (hg : List α) (q : Nat) :
    (patch_row uph qbw nm hg q).length = patch_cols uph := by
  cases uph <;> simp [patch_row, patch_cols]

theorem scatter_loop_D_patchinput (mesh : Mesh3D α) (A : Nat) (vts : List Nat) (c a : Nat)
    (ao : List Int) (qbw : List (vec3 α)) (q o : Nat) (out : Outputs α) :
    (scatter_loop mesh A vts c a ao qbw q o out).D_patchinput = out.D_patchinput := by
  unfold scatter_loop
  refine foldl_keep Outputs.D_patchinput _ (fun st i => ?_) _ out
  rfl

theorem dfw_loop_D_patchinput (face : Nat) (pts : List (vec2 α)) (w : List α) (q o : Nat)
    (out : Outputs α) : (dfw_loop face pts w q o out).D_patchinput = out.D_patchinput := by
  unfold dfw_loop
  refine foldl_keep Outputs.D_patchinput _ (fun st i => ?_) _ out
  dsimp only
  split <;> rfl

theorem quad_loop_D_patchinput (mesh : Mesh3D α) (A f : Nat) (vts : List Nat) (c a : Nat)
    (ao : List Int) (Q : QuadOut α) (out : Outputs α) :
    (quad_loop mesh A f vts c a ao Q out).D_patchinput = out.D_patchinput := by
  unfold quad_loop
  refine foldl_keep Outputs.D_patchinput _ (fun st i => ?_) _ out
  simp only [dfw_loop_D_patchinput, scatter_loop_D_patchinput]

/-- The writes of lines 241-246 into a row of the right length. -/
theorem patch_row_fold (uph : Bool) (qbw nm : List (vec3 α)) (hg : List α) (q : Nat)
    (row : List α) (hrow : row.length = patch_cols uph) :
    (if uph then
        (((row.set 0 (((List.range 3).foldl (fun (acc : vec3 α × α) i =>
          (acc.1.add ((nm.getD i default).smul ((qbw.getD q default).get i)),
           acc.2 + (qbw.getD q default).get i * hg.getD i 0)) (⟨0, 0, 0⟩, 0.0)).1.get 0)).set 1
          (((List.range 3).foldl (fun (acc : vec3 α × α) i =>
          (acc.1.add ((nm.getD i default).smul ((qbw.getD q default).get i)),
           acc.2 + (qbw.getD q default).get i * hg.getD i 0)) (⟨0, 0, 0⟩, 0.0)).1.get 1)).set 2
          (((List.range 3).foldl (fun (acc : vec3 α × α) i =>
          (acc.1.add ((nm.getD i default).smul ((qbw.getD q default).get i)),
           acc.2 + (qbw.getD q default).get i * hg.getD i 0)) (⟨0, 0, 0⟩, 0.0)).1.get 2)).set 3
          ((List.range 3).foldl (fun (acc : vec3 α × α) i =>
          (acc.1.add ((nm.getD i default).smul ((qbw.getD q default).get i)),
           acc.2 + (qbw.getD q default).get i * hg.getD i 0)) (⟨0, 0, 0⟩, 0.0)).2
      else
        ((row.set 0 (((List.range 3).foldl (fun (acc : vec3 α × α) i =>
          (acc.1.add ((nm.getD i default).smul ((qbw.getD q default).get i)),
           acc.2 + (qbw.getD q default).get i * hg.getD i 0)) (⟨0, 0, 0⟩, 0.0)).1.get 0)).set 1
          (((List.range 3).foldl (fun (acc : vec3 α × α) i =>
          (acc.1.add ((nm.getD i default).smul ((qbw.getD q default).get i)),
           acc.2 + (qbw.getD q default).get i * hg.getD i 0)) (⟨0, 0, 0⟩, 0.0)).1.get 1)).set 2
          (((List.range 3).foldl (fun (acc : vec3 α × α) i =>
          (acc.1.add ((nm.getD i default).smul ((qbw.getD q default).get i)),
           acc.2 + (qbw.getD q default).get i * hg.getD i 0)) (⟨0, 0, 0⟩, 0.0)).1.get 2))
      = patch_row uph qbw nm hg q := by
  cases uph
  · simp only [patch_cols, Bool.false_eq_true, if_false] at hrow ⊢
    match row, hrow with
    | [r0, r1, r2], _ =>
      simp only [patch_row, List.range_succ, List.range_zero, List.nil_append, List.cons_append,
        List.foldl_cons, List.foldl_nil, List.set_cons_zero, List.set_cons_succ,
        vec3.add, vec3.smul, vec3.get, List.map_cons, List.map_nil, List.sum_cons, List.sum_nil,
        Bool.false_eq_true, if_false, List.append_nil]
      congr 1
      · ring
      congr 1
      · ring
      congr 1
      · ring
  · simp only [patch_cols, if_true] at hrow ⊢
    match row, hrow with
    | [r0, r1, r2, r3], _ =>
      simp only [patch_row, List.range_succ, List.range_zero, List.nil_append, List.cons_append,
        List.foldl_cons, List.foldl_nil, List.set_cons_zero, List.set_cons_succ,
        vec3.add, vec3.smul, vec3.get, List.map_cons, List.map_nil, List.sum_cons, List.sum_nil,
        if_true]
      congr 1
      · ring
      congr 1
      · ring
      congr 1
      · ring
      congr 1
      · norm_num
        ring

theorem rowsN_set (k : Nat) (l : List (List α)) (o : Nat) (r : List α) (hr : r.length = k)
    (hl : ∀ x, x ∈ l → x.length = k) : ∀ x, x ∈ l.set o r → x.length = k := by
  intro x hx
  rcases List.mem_or_eq_of_mem_set hx with h | h
  · exact hl x h
  · rw [h]; exact hr

theorem getD_lengthN (k : Nat) (l : List (List α)) (o : Nat) (ho : o < l.length)
    (hl : ∀ x, x ∈ l → x.length = k) : (l.getD o []).length = k := by
  rw [List.getD_eq_getElem?_getD, List.getElem?_eq_getElem ho]
  exact hl _ (List.getElem_mem ho)

theorem foldl_set_rowsN (k : Nat) (pos : Nat → Nat) (e : Nat → List α)
    (he : ∀ j, (e j).length = k) :
    ∀ (js : List Nat) (l : List (List α)), (∀ x, x ∈ l → x.length = k) →
      ∀ x, x ∈ js.foldl (fun l j => l.set (pos j) (e j)) l → x.length = k := by
  intro js
  induction js with
  | nil => intro l hl; exact hl
  | cons j js ih =>
    intro l hl
    simp only [List.foldl_cons]
    exact ih _ (rowsN_set k l _ _ (he j) hl)

theorem resize_rowsN (k : Nat) (v : List (List α)) (n : Nat) (hv : ∀ x, x ∈ v → x.length = k) :
    ∀ x, x ∈ resize v n (List.replicate k (0 : α)) → x.length = k := by
  intro x hx
  simp only [resize, List.mem_append, List.mem_replicate] at hx
  rcases hx with h | h
  · exact hv x (List.mem_of_mem_take h)
  · rw [h.2]; simp

theorem patch_loop_D_patchinput (uph : Bool) (A f c a : Nat) (qbw nm : List (vec3 α))
    (hg : List α) (out : Outputs α)
    (hl : ∀ x, x ∈ out.D_patchinput → x.length = patch_cols uph) :
    (patch_loop uph A f c a qbw nm hg out).D_patchinput
      = (List.range 6).foldl
          (fun l q => l.set (sample_offset A f c a q) (patch_row uph qbw nm hg q))
          out.D_patchinput := by
  unfold patch_loop
  generalize List.range 6 = qs
  induction qs generalizing out with
  | nil => rfl
  | cons q qs ih =>
    simp only [List.foldl_cons]
    have step : ∀ (row : List α), row = patch_row uph qbw nm hg q →
        out.D_patchinput.set (sample_offset A f c a q) row
          = out.D_patchinput.set (sample_offset A f c a q) (patch_row uph qbw nm hg q) :=
      fun row h => by rw [h]
    by_cases ho : sample_offset A f c a q < out.D_patchinput.length
    · have h1 := step _ (patch_row_fold uph qbw nm hg q _ (getD_lengthN _ out.D_patchinput _ ho hl))
      rw [← h1]
      refine ih _ ?_
      intro x hx
      refine rowsN_set _ out.D_patchinput (sample_offset A f c a q) _ ?_ hl x hx
      rw [patch_row_fold uph qbw nm hg q _ (getD_lengthN _ out.D_patchinput _ ho hl)]
      exact patch_row_length uph _ _ _ q
    · rw [List.set_eq_of_length_le (l := out.D_patchinput) (by omega)]
      refine (ih _ ?_).trans ?_
      · intro x hx
        exact hl x hx
      · congr 1
        exact (List.set_eq_of_length_le (Nat.le_of_not_lt ho)).symm

theorem patch_loop_D_patchinput_frame (uph : Bool) (A f c a : Nat) (qbw nm : List (vec3 α))
    (hg : List α) (out : Outputs α) (p : Nat)
    (hp : ∀ q, q < 6 → p ≠ sample_offset A f c a q) :
    (patch_loop uph A f c a qbw nm hg out).D_patchinput[p]? = out.D_patchinput[p]? := by
  unfold patch_loop
  have hp' : ∀ q, q ∈ List.range 6 → p ≠ sample_offset A f c a q :=
    fun q hq => hp q (List.mem_range.mp hq)
  revert hp'
  generalize List.range 6 = qs
  intro hp'
  induction qs generalizing out with
  | nil => rfl
  | cons q qs ih =>
    simp only [List.foldl_cons]
    rw [ih _ (fun q' hq' => hp' q' (List.mem_cons_of_mem _ hq'))]
    exact List.getElem?_set_ne (fun h => hp' q (List.mem_cons_self _ _) h.symm)

/-- The rows of `D_patchinput` an axis iteration writes. -/
theorem axis_body_D_patchinput (E : Extern α) (mesh : Mesh3D α) (axes : List (List (vec3 α)))
    (uph : Bool) (rrs : List α) (A f : Nat) (vts : List Nat) (c fv : Nat) (e1 e2 : vec3 α)
    (ao : List Int) (out : Outputs α) (a : Nat)
    (hl : ∀ x, x ∈ out.D_patchinput → x.length = patch_cols uph) :
    (axis_body E mesh axes uph rrs A f vts c fv e1 e2 ao out a).D_patchinput
      = (List.range 6).foldl
          (fun l q => l.set (sample_offset A f c a q)
            (patch_row uph bary_weights (local_nmls mesh (frame mesh axes fv a) vts c fv)
              (local_hgts mesh vts c fv (rrs.getD (mesh.vert fv).id.toNat 0)) q))
          out.D_patchinput := by
  unfold axis_body
  dsimp only
  rw [patch_loop_D_patchinput _ _ _ _ _ _ _ _ _ (by rw [quad_loop_D_patchinput]; exact hl),
    quad_loop_D_patchinput]
  simp only [quadrature_degree4, List.nil_append]

end PatchView

section PatchLift
variable {α : Type} [LinearOrderedField α]

set_option linter.unusedSectionVars false

/-- After the second loop, every row of `D_patchinput` of every block is in
place, and the table has kept its shape. -/
theorem face_loop_D_patchinput (fuel : Nat) (E : Extern α) (mesh : Mesh3D α)
    (axes : List (List (vec3 α))) (uph : Bool) (rrs : List α) (A nf : Nat)
    (out res : Outputs α) (hlen : out.D_patchinput.length = fvaq_num nf A)
    (hrows : ∀ x, x ∈ out.D_patchinput → x.length = patch_cols uph)
    (h : face_loop fuel E mesh axes uph rrs A (List.range nf) out = some res) :
    (res.D_patchinput.length = fvaq_num nf A ∧
      ∀ x, x ∈ res.D_patchinput → x.length = patch_cols uph) ∧
    ∀ f, f < nf → ∀ vts, f_corners fuel mesh (mesh.get_face f) = some vts →
      ∀ c, c < 3 → ∀ a, a < A → ∀ q, q < 6 →
        res.D_patchinput[sample_offset A f c a q]?
          = some (patch_row uph bary_weights
              (local_nmls mesh (frame mesh axes (vts.getD c 0) a) vts c (vts.getD c 0))
              (local_hgts mesh vts c (vts.getD c 0)
                (rrs.getD (mesh.vert (vts.getD c 0)).id.toNat 0)) q) := by
  have := sampler_lift (fun (o : Outputs α) p => o.D_patchinput[p]?)
    (fun o p => p = o)
    (fun o => o.D_patchinput.length = fvaq_num nf A ∧
      ∀ x, x ∈ o.D_patchinput → x.length = patch_cols uph)
    (fun f c a vts fv _ _ _ st => ∀ q, q < 6 →
      st.D_patchinput[sample_offset A f c a q]?
        = some (patch_row uph bary_weights (local_nmls mesh (frame mesh axes fv a) vts c fv)
              (local_hgts mesh vts c fv (rrs.getD (mesh.vert fv).id.toNat 0)) q))
    fuel E mesh axes uph rrs A nf
    (by rintro o o' p rfl h; exact h)
    (by
      intro f vts c fv e1 e2 ao out a p hp
      dsimp only
      unfold axis_body
      dsimp only
      rw [patch_loop_D_patchinput_frame _ _ _ _ _ _ _ _ _ p (fun j hj hpj => hp j hj hpj),
        quad_loop_D_patchinput])
    (by
      intro f vts c fv e1 e2 ao out a ho
      rw [axis_body_D_patchinput _ _ _ _ _ _ _ _ _ _ _ _ _ _ _ ho.2]
      exact ⟨by rw [foldl_set_length]; exact ho.1,
        foldl_set_rowsN _ _ _ (fun j => patch_row_length uph _ _ _ j) _ _ ho.2⟩)
    (by
      intro f vts c fv e1 e2 ao out a hf hc ha ho q hq
      rw [axis_body_D_patchinput _ _ _ _ _ _ _ _ _ _ _ _ _ _ _ ho.2]
      refine foldl_set_good (fun j => sample_offset A f c a j) _ 6 out.D_patchinput
        (fun j k hj hk hjk =>
          (sample_offset_inj A f c a j f c a k hc ha hj hc ha hk hjk).2.2.2) q hq ?_
      have := sample_offset_lt nf A f c a q hf hc ha hq
      have := ho.1
      show sample_offset A f c a q < out.D_patchinput.length
      omega)
    (by
      intro f c a vts fv e1 e2 ao st st' hv hG q hq
      have := hv (sample_offset A f c a q) q hq rfl
      dsimp only at this
      rw [this]; exact hG q hq)
    nf (Nat.le_refl nf) out res ⟨hlen, hrows⟩ h
  exact ⟨this.1, this.2.2⟩

/-- The shape of `D_fw` after the second loop. -/
theorem face_loop_D_fw_shape (fuel : Nat) (E : Extern α) (mesh : Mesh3D α)
    (axes : List (List (vec3 α))) (uph : Bool) (rrs : List α) (A nf : Nat)
    (out res : Outputs α) (hlen : out.D_fw.length = fvaq_num nf A)
    (hrows : ∀ x, x ∈ out.D_fw → x.length = 10)
    (h : face_loop fuel E mesh axes uph rrs A (List.range nf) out = some res) :
    res.D_fw.length = fvaq_num nf A ∧ ∀ x, x ∈ res.D_fw → x.length = 10 := by
  refine face_loop_inv (fun o => o.D_fw.length = fvaq_num nf A ∧ ∀ x, x ∈ o.D_fw → x.length = 10)
    fuel E mesh axes uph rrs A ?_ nf out res ⟨hlen, hrows⟩ h
  intro f vts c fv e1 e2 ao out a ho
  rw [axis_body_D_fw _ _ _ _ _ _ _ _ _ _ _ _ _ _ _ ho.2]
  exact ⟨by rw [foldl_set_length]; exact ho.1,
    foldl_set_rows10 _ _ (fun j => dfw_row_length _ j) _ _ ho.2⟩

/-- The rows of `D_patchinput` after `polynomial_conv`, from outputs whose
incoming `D_patchinput` rows have the requested number of columns. -/
theorem polynomial_conv_D_patchinput (fuel : Nat) (E : Extern α) (mesh : Mesh3D α)
    (axes : List (List (vec3 α))) (uph : Bool) (out0 : Outputs α) (len : Nat → Nat)
    (hr : rings_close fuel mesh len) (hf : faces_close fuel mesh)
    (hrows : ∀ x, x ∈ out0.D_patchinput → x.length = patch_cols uph) :
    ∃ st, polynomial_conv_state fuel E mesh axes uph out0 = some st ∧
      ∀ f, f < mesh.num_of_faces → ∀ vts, f_corners fuel mesh (mesh.get_face f) = some vts →
      ∀ c, c < 3 → ∀ a, a < (axes.getD 0 []).length → ∀ q, q < 6 →
        st.2.D_patchinput[sample_offset (axes.getD 0 []).length f c a q]?
          = some (patch_row uph bary_weights
              (local_nmls mesh (frame mesh axes (vts.getD c 0) a) vts c (vts.getD c 0))
              (local_hgts mesh vts c (vts.getD c 0)
                (st.1.getD (mesh.vert (vts.getD c 0)).id.toNat 0)) q) := by
  obtain ⟨res, h1, h2⟩ := polynomial_conv_state_eq fuel E mesh axes uph out0 len hr hf
  refine ⟨_, h1, ?_⟩
  exact (face_loop_D_patchinput fuel E mesh axes uph _ _ _ _ res
    (by simp [push_entries, resize_outputs, resize_length])
    (by
      simp only [push_entries, resize_outputs]
      exact resize_rowsN _ _ _ hrows) h2).2

/-- The sizes of the tables after `polynomial_conv`. -/
theorem polynomial_conv_sizes (fuel : Nat) (E : Extern α) (mesh : Mesh3D α)
    (axes : List (List (vec3 α))) (uph : Bool) (out0 : Outputs α) (len : Nat → Nat)
    (hr : rings_close fuel mesh len) (hf : faces_close fuel mesh)
    (hfw : ∀ x, x ∈ out0.D_fw → x.length = 10)
    (hpi : ∀ x, x ∈ out0.D_patchinput → x.length = patch_cols uph) :
    ∃ res, polynomial_conv fuel E mesh axes uph out0 = some res ∧
      res.S_fv.length = fvaq_num mesh.num_of_faces (axes.getD 0 []).length * 3 ∧
      (res.D_fw.length = fvaq_num mesh.num_of_faces (axes.getD 0 []).length ∧
        ∀ x, x ∈ res.D_fw → x.length = 10) ∧
      (res.D_patchinput.length = fvaq_num mesh.num_of_faces (axes.getD 0 []).length ∧
        ∀ x, x ∈ res.D_patchinput → x.length = patch_cols uph) ∧
      res.S_vf = out0.S_vf ++ reduction_entries fuel E mesh (axes.getD 0 []).length len ∧
      res.S_vf_index = out0.S_vf_index ++
        (reduction_entries fuel E mesh (axes.getD 0 []).length len).flatMap
          (fun e => [e.row, e.col]) ∧
      res.S_vf_value = out0.S_vf_value ++
        (reduction_entries fuel E mesh (axes.getD 0 []).length len).map (fun e => e.val) := by
  obtain ⟨res, h1, h2⟩ := polynomial_conv_state_eq fuel E mesh axes uph out0 len hr hf
  refine ⟨res, by simp [polynomial_conv, h1], ?_, ?_, ?_, ?_⟩
  · exact (face_loop_S_fv fuel E mesh axes uph _ _ _ _ res
      (by simp [push_entries, resize_outputs, resize_length]) h2).1
  · exact face_loop_D_fw_shape fuel E mesh axes uph _ _ _ _ res
      (by simp [push_entries, resize_outputs, resize_length])
      (by simp only [push_entries, resize_outputs]; exact resize_rows10 _ _ hfw) h2
  · exact (face_loop_D_patchinput fuel E mesh axes uph _ _ _ _ res
      (by simp [push_entries, resize_outputs, resize_length])
      (by simp only [push_entries, resize_outputs]; exact resize_rowsN _ _ _ hpi) h2).1
  · exact face_loop_S_vf fuel E mesh axes uph _ _ _ _ res h2

end PatchLift

section Mirror
variable {α : Type} [LinearOrderedField α]

set_option linter.unusedSectionVars false

theorem scatter_loop_tables (mesh : Mesh3D α) (A : Nat) (vts : List Nat) (c a : Nat)
    (ao : List Int) (qbw : List (vec3 α)) (q o : Nat) (out : Outputs α) :
    scatter_tables (scatter_loop mesh A vts c a ao qbw q o out)
      = (List.range 3).foldl
          (fun t i => mirror_step (o * 3 + i) (scatter_entry mesh A vts c a ao qbw q o i) t)
          (scatter_tables out) := by
  unfold scatter_loop
  refine foldl_proj scatter_tables _ _ (fun st i => ?_) _ out
  simp only [scatter_entry, scatter_tables, mirror_step]
  rw [set_fields st.S_fv (o * 3 + i)]

theorem dfw_loop_tables (face : Nat) (pts : List (vec2 α)) (w : List α) (q o : Nat)
    (out : Outputs α) : scatter_tables (dfw_loop face pts w q o out) = scatter_tables out := by
  unfold dfw_loop
  refine foldl_keep scatter_tables _ (fun st i => ?_) _ out
  dsimp only
  split <;> rfl

theorem patch_loop_tables (uph : Bool) (A f c a : Nat) (qbw nm : List (vec3 α)) (hg : List α)
    (out : Outputs α) :
    scatter_tables (patch_loop uph A f c a qbw nm hg out) = scatter_tables out := by
  unfold patch_loop
  refine foldl_keep scatter_tables _ (fun st i => ?_) _ out
  rfl

theorem axis_body_tables (E : Extern α) (mesh : Mesh3D α) (axes : List (List (vec3 α)))
    (uph : Bool) (rrs : List α) (A f : Nat) (vts : List Nat) (c fv : Nat) (e1 e2 : vec3 α)
    (ao : List Int) (out : Outputs α) (a : Nat) :
    scatter_tables (axis_body E mesh axes uph rrs A f vts c fv e1 e2 ao out a)
      = (List.range 18).foldl
          (fun t j => mirror_step (sample_offset A f c a (j / 3) * 3 + j % 3)
            (scatter_entry mesh A vts c a ao bary_weights (j / 3)
              (sample_offset A f c a (j / 3)) (j % 3)) t) (scatter_tables out) := by
  unfold axis_body
  simp only [patch_loop_tables]
  unfold quad_loop
  rw [foldl_proj scatter_tables _
    (fun t q => (List.range 3).foldl
      (fun t i => mirror_step (sample_offset A f c a q * 3 + i)
        (scatter_entry mesh A vts c a ao bary_weights q (sample_offset A f c a q) i) t) t)
    (fun st q => by
      simp only [dfw_loop_tables, scatter_loop_tables, quadrature_degree4, List.nil_append])]
  simp only [List.range_succ, List.range_zero, List.nil_append, List.cons_append,
    List.foldl_cons, List.foldl_nil, Nat.reduceDiv, Nat.reduceMod, Nat.zero_div, Nat.zero_mod]

/-- A loop of `mirror_step` at distinct positions leaves, at each of them, the
entry and its mirror. -/
theorem foldl_mirror_good (pos : Nat → Nat) (e : Nat → COOEntry α) (n N : Nat)
    (t : List (COOEntry α) × List Int × List α)
    (ht : t.1.length = N ∧ t.2.1.length = N * 2 ∧ t.2.2.length = N)
    (hinj : ∀ j k, j < n → k < n → pos j = pos k → j = k)
    (j : Nat) (hj : j < n) (hb : pos j < N) :
    let r := (List.range n).foldl (fun t j => mirror_step (pos j) (e j) t) t
    r.2.1[pos j * 2]? = some (e j).row ∧ r.2.1[pos j * 2 + 1]? = some (e j).col ∧
      r.2.2[pos j]? = some (e j).val := by
  refine foldl_range_good (fun t j => mirror_step (pos j) (e j) t)
    (fun st => st.1.length = N ∧ st.2.1.length = N * 2 ∧ st.2.2.length = N)
    (fun j (st : List (COOEntry α) × List Int × List α) => pos j < N →
      st.2.1[pos j * 2]? = some (e j).row ∧ st.2.1[pos j * 2 + 1]? = some (e j).col ∧
      st.2.2[pos j]? = some (e j).val) n
    (fun j _ st hst => by simp [mirror_step, hst])
    (fun j _ st hst hb => ?_)
    (fun j k hj hk st _ hG hb => ?_) t ht j hj hb
  · obtain ⟨h1, h2, h3⟩ := hst
    have a1 : pos j < st.1.length := by omega
    have a2 : pos j * 2 < st.2.1.length := by omega
    have a3 : pos j * 2 + 1 < st.2.1.length := by omega
    have a4 : pos j < st.2.2.length := by omega
    simp [mirror_step, List.getD_eq_getElem?_getD, List.getElem?_set, a1, a2, a3, a4]
  · have hne : pos j ≠ pos k := fun h => by have := hinj j k hj (by omega) h; omega
    have := hG hb
    simp only [mirror_step, List.getElem?_set, Nat.add_zero]
    rw [if_neg (by omega), if_neg (by omega), if_neg (by omega), if_neg (by omega),
      if_neg (by omega)]
    exact this

theorem foldl_mirror_frame (pos : Nat → Nat) (e : Nat → COOEntry α) (n : Nat)
    (t : List (COOEntry α) × List Int × List α) (p : Nat) (hp : ∀ j, j < n → p ≠ pos j) :
    let r := (List.range n).foldl (fun t j => mirror_step (pos j) (e j) t) t
    (r.2.1[p * 2]?, r.2.1[p * 2 + 1]?, r.2.2[p]?) = (t.2.1[p * 2]?, t.2.1[p * 2 + 1]?, t.2.2[p]?) :=
  foldl_range_frame
    (fun (t : List (COOEntry α) × List Int × List α) p => (t.2.1[p * 2]?, t.2.1[p * 2 + 1]?, t.2.2[p]?))
    _ (fun j p => p = pos j) n
    (fun j _ st p hW => by
      have : p ≠ pos j := hW
      simp only [mirror_step, List.getElem?_set, Nat.add_zero]
      rw [if_neg (by omega), if_neg (by omega), if_neg (by omega), if_neg (by omega),
        if_neg (by omega)]) t p (fun j hj h => hp j hj h)

theorem foldl_mirror_length (pos : Nat → Nat) (e : Nat → COOEntry α) (n : Nat)
    (t : List (COOEntry α) × List Int × List α) :
    let r := (List.range n).foldl (fun t j => mirror_step (pos j) (e j) t) t
    r.1.length = t.1.length ∧ r.2.1.length = t.2.1.length ∧ r.2.2.length = t.2.2.length := by
  refine foldl_range_inv (fun t j => mirror_step (pos j) (e j) t)
    (fun st => st.1.length = t.1.length ∧ st.2.1.length = t.2.1.length ∧
      st.2.2.length = t.2.2.length) n (fun j _ st hst => ?_) t ⟨rfl, rfl, rfl⟩
  simpa [mirror_step] using hst

end Mirror

section MirrorLift
variable {α : Type} [LinearOrderedField α]

set_option linter.unusedSectionVars false

theorem block_pos_inj (A f c a j k : Nat) (hj : j < 18) (hk : k < 18) (hc : c < 3) (ha : a < A)
    (hjk : sample_offset A f c a (j / 3) * 3 + j % 3
      = sample_offset A f c a (k / 3) * 3 + k % 3) : j = k := by
  have h1 : sample_offset A f c a (j / 3) = sample_offset A f c a (k / 3) := by omega
  have h2 := (sample_offset_inj A f c a (j / 3) f c a (k / 3) hc ha (by omega) hc ha
    (by omega) h1).2.2.2
  omega

/-- After the second loop the three scatter containers have kept their sizes,
and the mirror of every scatter entry of every block is in place. -/
theorem face_loop_mirror (fuel : Nat) (E : Extern α) (mesh : Mesh3D α)
    (axes : List (List (vec3 α))) (uph : Bool) (rrs : List α) (A nf : Nat)
    (out res : Outputs α)
    (hlen : out.S_fv.length = fvaq_num nf A * 3 ∧
      out.S_fv_index.length = fvaq_num nf A * 3 * 2 ∧
      out.S_fv_value.length = fvaq_num nf A * 3)
    (h : face_loop fuel E mesh axes uph rrs A (List.range nf) out = some res) :
    (res.S_fv.length = fvaq_num nf A * 3 ∧
      res.S_fv_index.length = fvaq_num nf A * 3 * 2 ∧
      res.S_fv_value.length = fvaq_num nf A * 3) ∧
    ∀ f, f < nf → ∀ vts, f_corners fuel mesh (mesh.get_face f) = some vts →
      ∀ c, c < 3 → ∀ a, a < A → ∀ q, q < 6 → ∀ i, i < 3 →
        res.S_fv_index[(sample_offset A f c a q * 3 + i) * 2]?
          = some (scatter_entry mesh A vts c a (axis_offset E mesh axes A vts c) bary_weights q
              (sample_offset A f c a q) i).row ∧
        res.S_fv_index[(sample_offset A f c a q * 3 + i) * 2 + 1]?
          = some (scatter_entry mesh A vts c a (axis_offset E mesh axes A vts c) bary_weights q
              (sample_offset A f c a q) i).col ∧
        res.S_fv_value[sample_offset A f c a q * 3 + i]?
          = some (scatter_entry mesh A vts c a (axis_offset E mesh axes A vts c) bary_weights q
              (sample_offset A f c a q) i).val := by
  have htab : ∀ (o : Outputs α), o.S_fv_index = (scatter_tables o).2.1 ∧
      o.S_fv_value = (scatter_tables o).2.2 ∧ o.S_fv = (scatter_tables o).1 :=
    fun o => ⟨rfl, rfl, rfl⟩
  have := sampler_lift
    (fun (o : Outputs α) p => (o.S_fv_index[p * 2]?, o.S_fv_index[p * 2 + 1]?, o.S_fv_value[p]?))
    (fun o p => ∃ i, i < 3 ∧ p = o * 3 + i)
    (fun o => o.S_fv.length = fvaq_num nf A * 3 ∧
      o.S_fv_index.length = fvaq_num nf A * 3 * 2 ∧
      o.S_fv_value.length = fvaq_num nf A * 3)
    (fun f c a vts _ _ _ ao st => ∀ q, q < 6 → ∀ i, i < 3 →
      st.S_fv_index[(sample_offset A f c a q * 3 + i) * 2]?
        = some (scatter_entry mesh A vts c a ao bary_weights q (sample_offset A f c a q) i).row ∧
      st.S_fv_index[(sample_offset A f c a q * 3 + i) * 2 + 1]?
        = some (scatter_entry mesh A vts c a ao bary_weights q (sample_offset A f c a q) i).col ∧
      st.S_fv_value[sample_offset A f c a q * 3 + i]?
        = some (scatter_entry mesh A vts c a ao bary_weights q (sample_offset A f c a q) i).val)
    fuel E mesh axes uph rrs A nf
    (by rintro o o' p ⟨i, hi, rfl⟩ ⟨i', hi', h⟩; omega)
    (by
      intro f vts c fv e1 e2 ao out a p hp
      dsimp only
      rw [(htab _).1, (htab _).2.1, axis_body_tables]
      refine foldl_mirror_frame _ _ 18 (scatter_tables out) p (fun j hj hpj => ?_)
      exact hp (j / 3) (by omega) ⟨j % 3, Nat.mod_lt _ (by omega), hpj⟩)
    (by
      intro f vts c fv e1 e2 ao out a ho
      rw [(htab _).1, (htab _).2.1, (htab _).2.2, axis_body_tables]
      have := foldl_mirror_length (fun j => sample_offset A f c a (j / 3) * 3 + j % 3)
        (fun j => scatter_entry mesh A vts c a ao bary_weights (j / 3)
          (sample_offset A f c a (j / 3)) (j % 3)) 18 (scatter_tables out)
      dsimp only at this
      rw [this.1, this.2.1, this.2.2]
      exact ho)
    (by
      intro f vts c fv e1 e2 ao out a hf hc ha ho q hq i hi
      rw [(htab _).1, (htab _).2.1, axis_body_tables]
      have := foldl_mirror_good (fun j => sample_offset A f c a (j / 3) * 3 + j % 3)
        (fun j => scatter_entry mesh A vts c a ao bary_weights (j / 3)
          (sample_offset A f c a (j / 3)) (j % 3)) 18 (fvaq_num nf A * 3) (scatter_tables out) ho
        (fun j k hj hk hjk => block_pos_inj A f c a j k hj hk hc ha hjk) (q * 3 + i) (by omega)
      have e1 : (q * 3 + i) / 3 = q := by omega
      have e2 : (q * 3 + i) % 3 = i := by omega
      simp only [e1, e2] at this
      refine this ?_
      have := sample_offset_lt nf A f c a q hf hc ha hq
      omega)
    (by
      intro f c a vts fv e1 e2 ao st st' hv hG q hq i hi
      have := hv (sample_offset A f c a q * 3 + i) q hq ⟨i, hi, rfl⟩
      simp only [Prod.mk.injEq] at this
      rw [this.1, this.2.1, this.2.2]; exact hG q hq i hi)
    nf (Nat.le_refl nf) out res hlen h
  exact ⟨this.1, this.2.2⟩

/-- Every position of the scatter containers is the position of one triple
`(sample offset, i)`. -/
theorem scatter_pos_encode (nf A k : Nat) (hk : k < fvaq_num nf A * 3) :
    ∃ f c a q i, f < nf ∧ c < 3 ∧ a < A ∧ q < 6 ∧ i < 3 ∧ k = sample_offset A f c a q * 3 + i := by
  obtain ⟨h1, h2, h3, h4, h5⟩ := sample_offset_encode nf A (k / 3) (by omega)
  exact ⟨_, _, _, _, k % 3, h1, h2, h3, h4, Nat.mod_lt _ (by omega), by rw [h5]; omega⟩

/-- After the second loop, `S_fv_index` and `S_fv_value` mirror `S_fv`. -/
theorem face_loop_mirrors (fuel : Nat) (E : Extern α) (mesh : Mesh3D α)
    (axes : List (List (vec3 α))) (uph : Bool) (rrs : List α) (A nf : Nat)
    (hf : faces_close fuel mesh) (out res : Outputs α)
    (hlen : out.S_fv.length = fvaq_num nf A * 3 ∧
      out.S_fv_index.length = fvaq_num nf A * 3 * 2 ∧
      out.S_fv_value.length = fvaq_num nf A * 3)
    (h : face_loop fuel E mesh axes uph rrs A (List.range nf) out = some res) :
    mirrors res.S_fv res.S_fv_index res.S_fv_value := by
  obtain ⟨⟨l1, l2, l3⟩, hm⟩ := face_loop_mirror fuel E mesh axes uph rrs A nf out res hlen h
  have hs := (face_loop_S_fv fuel E mesh axes uph rrs A nf out res hlen.1 h).2
  refine ⟨by omega, by omega, ?_⟩
  intro k e hk
  have hk' : k < fvaq_num nf A * 3 := by
    rw [← l1]
    by_contra hc
    rw [List.getElem?_eq_none (by omega)] at hk
    exact Option.noConfusion hk
  obtain ⟨f, c, a, q, i, hf', hc, ha, hq, hi, rfl⟩ := scatter_pos_encode nf A k hk'
  obtain ⟨vts, hv⟩ := Option.isSome_iff_exists.mp (f_corners_isSome fuel mesh hf (mesh.get_face f))
  have h1 := hs f hf' vts hv c hc a ha q hq i hi
  have h2 := hm f hf' vts hv c hc a ha q hq i hi
  rw [h1] at hk
  obtain rfl := Option.some.inj hk
  rw [Nat.mul_comm 2]
  exact h2

/-- The mirror containers are determined by the entries. -/
theorem mirrors_unique (S : List (COOEntry α)) (I I' : List Int) (V V' : List α)
    (h : mirrors S I V) (h' : mirrors S I' V') : I = I' ∧ V = V' := by
  obtain ⟨a1, a2, a3⟩ := h
  obtain ⟨b1, b2, b3⟩ := h'
  constructor
  · apply List.ext_getElem?
    intro j
    by_cases hj : j < 2 * S.length
    · have hk : j / 2 < S.length := by omega
      have ha := a3 (j / 2) _ (List.getElem?_eq_getElem hk)
      have hb := b3 (j / 2) _ (List.getElem?_eq_getElem hk)
      rcases Nat.mod_two_eq_zero_or_one j with hm | hm
      · have e : 2 * (j / 2) = j := by omega
        rw [e] at ha hb
        rw [ha.1, hb.1]
      · have e : 2 * (j / 2) + 1 = j := by omega
        rw [e] at ha hb
        rw [ha.2.1, hb.2.1]
    · rw [List.getElem?_eq_none (by omega), List.getElem?_eq_none (by omega)]
  · apply List.ext_getElem?
    intro j
    by_cases hj : j < S.length
    · have ha := a3 j _ (List.getElem?_eq_getElem hj)
      have hb := b3 j _ (List.getElem?_eq_getElem hj)
      rw [ha.2.2, hb.2.2]
    · rw [List.getElem?_eq_none (by omega), List.getElem?_eq_none (by omega)]

/-- The pushes of lines 155-159 keep `S_vf_index` and `S_vf_value` a mirror of
`S_vf`. -/
theorem mirrors_append (S : List (COOEntry α)) (I : List Int) (V : List α)
    (h : mirrors S I V) (es : List (COOEntry α)) :
    mirrors (S ++ es) (I ++ es.flatMap (fun e => [e.row, e.col])) (V ++ es.map (fun e => e.val)) := by
  induction es using List.reverseRecOn with
  | nil => simpa using h
  | append_singleton es e ih =>
    obtain ⟨a1, a2, a3⟩ := ih
    simp only [List.flatMap_append, List.map_append, List.flatMap_cons, List.flatMap_nil,
      List.append_nil, List.map_cons, List.map_nil, ← List.append_assoc]
    refine ⟨by simp only [List.length_append, List.length_cons, List.length_nil] at a1 ⊢; omega,
      by simp only [List.length_append, List.length_cons, List.length_nil] at a2 ⊢; omega, ?_⟩
    intro k x hk
    by_cases hlt : k < (S ++ es).length
    · rw [List.getElem?_append_left hlt] at hk
      obtain ⟨c1, c2, c3⟩ := a3 k x hk
      refine ⟨?_, ?_, ?_⟩
      · rw [List.getElem?_append_left (by omega)]; exact c1
      · rw [List.getElem?_append_left (by omega)]; exact c2
      · rw [List.getElem?_append_left (by omega)]; exact c3
    · have hkeq : k = (S ++ es).length := by
        by_contra hne
        rw [List.getElem?_eq_none (by simp only [List.length_append, List.length_cons,
          List.length_nil] at hlt hne ⊢; omega)] at hk
        exact Option.noConfusion hk
      subst hkeq
      rw [List.getElem?_append_right (Nat.le_refl _)] at hk
      simp only [Nat.sub_self, List.getElem?_cons_zero, Option.some.injEq] at hk
      subst hk
      refine ⟨?_, ?_, ?_⟩
      · rw [List.getElem?_append_right (by omega)]
        rw [show 2 * (S ++ es).length - (I ++ es.flatMap (fun e => [e.row, e.col])).length = 0 by
          omega]
        rfl
      · rw [List.getElem?_append_right (by omega)]
        rw [show 2 * (S ++ es).length + 1 - (I ++ es.flatMap (fun e => [e.row, e.col])).length
          = 1 by omega]
        rfl
      · rw [List.getElem?_append_right (by omega)]
        rw [show (S ++ es).length - (V ++ es.map (fun e => e.val)).length = 0 by omega]
        rfl

end MirrorLift

section MirrorConv
variable {α : Type} [LinearOrderedField α]

set_option linter.unusedSectionVars false

/-- After `polynomial_conv`, whatever the incoming buffers, `S_fv_index` and
`S_fv_value` mirror `S_fv`; `S_vf_index` and `S_vf_value` mirror `S_vf` when
they did on entry. -/
theorem polynomial_conv_mirrors (fuel : Nat) (E : Extern α) (mesh : Mesh3D α)
    (axes : List (List (vec3 α))) (uph : Bool) (out0 : Outputs α) (len : Nat → Nat)
    (hr : rings_close fuel mesh len) (hf : faces_close fuel mesh) :
    ∃ res, polynomial_conv fuel E mesh axes uph out0 = some res ∧
      mirrors res.S_fv res.S_fv_index res.S_fv_value ∧
      (mirrors out0.S_vf out0.S_vf_index out0.S_vf_value →
        mirrors res.S_vf res.S_vf_index res.S_vf_value) := by
  obtain ⟨res, h1, h2⟩ := polynomial_conv_state_eq fuel E mesh axes uph out0 len hr hf
  refine ⟨res, by simp [polynomial_conv, h1], ?_, ?_⟩
  · exact face_loop_mirrors fuel E mesh axes uph _ _ _ hf _ res
      (by simp [push_entries, resize_outputs, resize_length]) h2
  · intro hm
    obtain ⟨e1, e2, e3⟩ := face_loop_S_vf fuel E mesh axes uph _ _ _ _ res h2
    rw [e1, e2, e3]
    exact mirrors_append _ _ _ hm _

end MirrorConv

section Corners
variable {α : Type} [LinearOrderedField α]

set_option linter.unusedSectionVars false

/-- The three steps of a face cycle of exactly 3 edges. -/
theorem tri_cycle_steps (mesh : Mesh3D α) (face : Nat)
    (h : is_cycle (face_next mesh) (mesh.face face).edge 2) :
    (mesh.edge (mesh.face face).edge).next ≠ (mesh.face face).edge ∧
    (mesh.edge (mesh.edge (mesh.face face).edge).next).next ≠ (mesh.face face).edge ∧
    (mesh.edge (mesh.edge (mesh.edge (mesh.face face).edge).next).next).next
      = (mesh.face face).edge := by
  obtain ⟨h3, hne⟩ := h
  exact ⟨hne 0 (by decide), hne 1 (by decide), h3⟩

/-- On a face of exactly 3 edges `f_corners` returns the vertices of its three
half-edges, in the order of the cycle. -/
theorem f_corners_tri (fuel : Nat) (mesh : Mesh3D α) (face : Nat) (hfuel : 3 ≤ fuel)
    (h : is_cycle (face_next mesh) (mesh.face face).edge 2) :
    f_corners fuel mesh face
      = some [ (mesh.edge (mesh.face face).edge).vert,
               (mesh.edge (mesh.edge (mesh.face face).edge).next).vert,
               (mesh.edge (mesh.edge (mesh.edge (mesh.face face).edge).next).next).vert ] := by
  obtain ⟨h1, h2, h3⟩ := tri_cycle_steps mesh face h
  obtain ⟨F, rfl⟩ : ∃ F, fuel = F + 3 := ⟨fuel - 3, by omega⟩
  simp only [f_corners, f_corners_loop, h1, h2, h3, ne_eq, not_false_eq_true, not_true_eq_false,
    if_true, if_false, List.nil_append, List.cons_append]

/-- On a face of exactly 3 edges `fv_corner` returns the first corner whose
vertex is `vert`, and `-1` when there is none. -/
theorem fv_corner_tri (fuel : Nat) (mesh : Mesh3D α) (face vert : Nat) (hfuel : 3 ≤ fuel)
    (h : is_cycle (face_next mesh) (mesh.face face).edge 2) :
    fv_corner fuel mesh face vert
      = some (if (mesh.edge (mesh.face face).edge).vert = vert then 0
          else if (mesh.edge (mesh.edge (mesh.face face).edge).next).vert = vert then 1
          else if (mesh.edge (mesh.edge (mesh.edge (mesh.face face).edge).next).next).vert = vert
            then 2
          else -1) := by
  obtain ⟨h1, h2, h3⟩ := tri_cycle_steps mesh face h
  obtain ⟨F, rfl⟩ : ∃ F, fuel = F + 3 := ⟨fuel - 3, by omega⟩
  simp only [fv_corner, fv_corner_loop, h1, h2, h3, ne_eq, not_false_eq_true, not_true_eq_false,
    if_true, if_false]
  split
  · rfl
  · split
    · rfl
    · split <;> rfl

end Corners

section Corners2
variable {α : Type} [LinearOrderedField α]

set_option linter.unusedSectionVars false

/-- On a face of exactly 3 edges, `fv_corner` of a corner vertex is a corner
at which `f_corners` lists that vertex. -/
theorem fv_corner_incident (fuel : Nat) (mesh : Mesh3D α) (face v : Nat) (hfuel : 3 ≤ fuel)
    (h : is_cycle (face_next mesh) (mesh.face face).edge 2) (vts : List Nat)
    (hv : f_corners fuel mesh face = some vts) (hmem : v ∈ vts) :
    ∃ c : Nat, c < 3 ∧ fv_corner fuel mesh face v = some (c : Int) ∧ vts[c]? = some v := by
  rw [f_corners_tri fuel mesh face hfuel h] at hv
  obtain rfl := Option.some.inj hv
  rw [fv_corner_tri fuel mesh face v hfuel h]
  by_cases a0 : (mesh.edge (mesh.face face).edge).vert = v
  · exact ⟨0, by decide, by simp [a0], by simp [a0]⟩
  · by_cases a1 : (mesh.edge (mesh.edge (mesh.face face).edge).next).vert = v
    · exact ⟨1, by decide, by simp [a0, a1], by simp [a1]⟩
    · by_cases a2 :
          (mesh.edge (mesh.edge (mesh.edge (mesh.face face).edge).next).next).vert = v
      · exact ⟨2, by decide, by simp [a0, a1, a2], by simp [a2]⟩
      · exfalso
        simp only [List.mem_cons, List.mem_nil_iff, or_false] at hmem
        rcases hmem with e | e | e
        · exact a0 e.symm
        · exact a1 e.symm
        · exact a2 e.symm

end Corners2

section Slots
variable {α : Type} [LinearOrderedField α]

set_option linter.unusedSectionVars false

/-- The C++ quotient and remainder of `x * A + m` by `A`, for `0 ≤ x` and
`0 ≤ m < A`. -/
theorem slot_div_mod (A x m : Int) (hx : 0 ≤ x) (hm0 : 0 ≤ m) (hm : m < A) :
    (x * A + m).tdiv A = x ∧ (x * A + m).tmod A = m ∧ 0 ≤ x * A + m := by
  have hA : 0 < A := lt_of_le_of_lt hm0 hm
  have hnn : 0 ≤ x * A + m := add_nonneg (mul_nonneg hx hA.le) hm0
  refine ⟨?_, ?_, hnn⟩
  · rw [Int.tdiv_eq_ediv hnn hA.le, add_comm, Int.add_mul_ediv_right _ _ hA.ne',
      Int.ediv_eq_zero_of_lt hm0 hm, zero_add]
  · rw [Int.tmod_eq_emod hnn hA.le, add_comm, Int.add_mul_emod_self, Int.emod_eq_of_lt hm0 hm]

theorem slot_lt (A x m N : Int) (hxN : x < N) (hm : m < A) (hA : 0 < A) :
    x * A + m < N * A := by
  have : (x + 1) * A ≤ N * A := mul_le_mul_of_nonneg_right (by omega) hA.le
  have e : (x + 1) * A = x * A + A := by ring
  omega

end Slots

section Flatten
variable {α : Type} [LinearOrderedField α]

set_option linter.unusedSectionVars false

end Flatten

section Collect
variable {α : Type} [LinearOrderedField α]

set_option linter.unusedSectionVars false

/-- A loop whose iterations append to a list, under an invariant. -/
theorem foldl_range_collect {σ γ : Type} (proj : σ → List γ) (Inv : σ → Prop)
    (step : σ → Nat → σ) (L : Nat → List γ) (n : Nat)
    (h : ∀ j, j < n → ∀ st, Inv st → Inv (step st j) ∧ proj (step st j) = proj st ++ L j) :
    ∀ st, Inv st → Inv ((List.range n).foldl step st) ∧
      proj ((List.range n).foldl step st) = proj st ++ (List.range n).flatMap L := by
  induction n with
  | zero => intro st hst; exact ⟨hst, by simp⟩
  | succ n ih =>
    intro st hst
    rw [List.range_succ, List.foldl_append, List.foldl_cons, List.foldl_nil]
    obtain ⟨h1, h2⟩ := ih (fun j hj => h j (Nat.lt_succ_of_lt hj)) st hst
    obtain ⟨h3, h4⟩ := h n (Nat.lt_succ_self n) _ h1
    refine ⟨h3, ?_⟩
    rw [h4, h2]
    simp [List.flatMap_append]

theorem scatter_loop_cout (mesh : Mesh3D α) (A : Nat) (vts : List Nat) (c a : Nat)
    (ao : List Int) (qbw : List (vec3 α)) (q o : Nat) (out : Outputs α) :
    (scatter_loop mesh A vts c a ao qbw q o out).cout = out.cout := by
  unfold scatter_loop
  refine foldl_keep Outputs.cout _ (fun st i => ?_) _ out
  rfl

theorem patch_loop_cout (uph : Bool) (A f c a : Nat) (qbw nm : List (vec3 α)) (hg : List α)
    (out : Outputs α) : (patch_loop uph A f c a qbw nm hg out).cout = out.cout := by
  unfold patch_loop
  refine foldl_keep Outputs.cout _ (fun st i => ?_) _ out
  rfl

/-- The diagnostics of one pass of the loop of lines 212-220 over a row of 10
entries. -/
theorem dfw_loop_cout (face : Nat) (Q : QuadOut α) (q o : Nat) (out : Outputs α)
    (ho : o < out.D_fw.length) (hrows : ∀ x, x ∈ out.D_fw → x.length = 10) :
    (dfw_loop face Q.points Q.weights q o out).cout = out.cout ++ dfw_lines face Q q := by
  unfold dfw_loop dfw_lines
  refine (foldl_range_collect Outputs.cout
    (fun st => o < st.D_fw.length ∧ ∀ x, x ∈ st.D_fw → x.length = 10) _ _ 10
    (fun i hi st hst => ?_) out ⟨ho, hrows⟩).2
  obtain ⟨h1, h2⟩ := hst
  have hrow : (st.D_fw.getD o []).length = 10 := getD_length10 st.D_fw o h1 h2
  have hread : ((st.D_fw.set o ((st.D_fw.getD o []).set i
      (cubic_poly_term i ((Q.points.getD q default).get 0) ((Q.points.getD q default).get 1)
        * Q.weights.getD q 0))).getD o []).getD i 0
      = cubic_poly_term i ((Q.points.getD q default).get 0) ((Q.points.getD q default).get 1)
        * Q.weights.getD q 0 := by
    have hi' : i < (st.D_fw.getD o []).length := by omega
    simp [List.getD_eq_getElem?_getD, List.getElem?_set, h1] at hi' ⊢
    simp [hi']
  dsimp only
  rw [hread]
  constructor
  · have hI : (o < (st.D_fw.set o ((st.D_fw.getD o []).set i
          (cubic_poly_term i ((Q.points.getD q default).get 0) ((Q.points.getD q default).get 1)
            * Q.weights.getD q 0))).length) ∧
        ∀ x, x ∈ st.D_fw.set o ((st.D_fw.getD o []).set i
          (cubic_poly_term i ((Q.points.getD q default).get 0) ((Q.points.getD q default).get 1)
            * Q.weights.getD q 0)) → x.length = 10 :=
      ⟨by rw [List.length_set]; exact h1,
       rows10_set st.D_fw o _ (by rw [List.length_set]; exact hrow) h2⟩
    split
    · exact hI
    · exact hI
  · split <;> simp

end Collect

section CollectLift
variable {α : Type} [LinearOrderedField α]

set_option linter.unusedSectionVars false

theorem dfw_loop_D_fw_shape (face : Nat) (Q : QuadOut α) (q o N : Nat) (out : Outputs α)
    (h : out.D_fw.length = N ∧ ∀ x, x ∈ out.D_fw → x.length = 10) :
    (dfw_loop face Q.points Q.weights q o out).D_fw.length = N ∧
      ∀ x, x ∈ (dfw_loop face Q.points Q.weights q o out).D_fw → x.length = 10 := by
  rw [dfw_loop_D_fw]
  refine ⟨by rw [List.length_set]; exact h.1, ?_⟩
  by_cases ho : o < out.D_fw.length
  · rw [dfw_row_fold Q q _ (getD_length10 out.D_fw o ho h.2)]
    exact rows10_set out.D_fw o _ (dfw_row_length Q q) h.2
  · rw [List.set_eq_of_length_le (by omega)]
    exact h.2

/-- The diagnostics of the loop of lines 198-221 for one block. -/
theorem quad_loop_cout (mesh : Mesh3D α) (A f : Nat) (vts : List Nat) (c a : Nat)
    (ao : List Int) (Q : QuadOut α) (N : Nat) (out : Outputs α)
    (hb : ∀ q, q < 6 → sample_offset A f c a q < N)
    (h : out.D_fw.length = N ∧ ∀ x, x ∈ out.D_fw → x.length = 10) :
    (quad_loop mesh A f vts c a ao Q out).cout = out.cout ++ block_lines f Q := by
  unfold quad_loop block_lines
  refine (foldl_range_collect Outputs.cout
    (fun st => st.D_fw.length = N ∧ ∀ x, x ∈ st.D_fw → x.length = 10) _ _ 6
    (fun q hq st hst => ?_) out h).2
  have hs : (scatter_loop mesh A vts c a ao Q.baryweights q (sample_offset A f c a q)
      st).D_fw.length = N ∧ ∀ x, x ∈ (scatter_loop mesh A vts c a ao Q.baryweights q
        (sample_offset A f c a q) st).D_fw → x.length = 10 := by
    rw [scatter_loop_D_fw]; exact hst
  refine ⟨dfw_loop_D_fw_shape f Q q _ N _ hs, ?_⟩
  dsimp only
  rw [dfw_loop_cout f Q q _ _ (by rw [hs.1]; exact hb q hq) hs.2, scatter_loop_cout]

/-- The diagnostics of one axis iteration. -/
theorem axis_body_cout (E : Extern α) (mesh : Mesh3D α) (axes : List (List (vec3 α)))
    (uph : Bool) (rrs : List α) (A f : Nat) (vts : List Nat) (c fv : Nat) (e1 e2 : vec3 α)
    (ao : List Int) (out : Outputs α) (a N : Nat)
    (hb : ∀ q, q < 6 → sample_offset A f c a q < N)
    (h : out.D_fw.length = N ∧ ∀ x, x ∈ out.D_fw → x.length = 10) :
    ((axis_body E mesh axes uph rrs A f vts c fv e1 e2 ao out a).D_fw.length = N ∧
      ∀ x, x ∈ (axis_body E mesh axes uph rrs A f vts c fv e1 e2 ao out a).D_fw →
        x.length = 10) ∧
    (axis_body E mesh axes uph rrs A f vts c fv e1 e2 ao out a).cout
      = out.cout ++ block_lines f (quadrature_degree4
          ((pts_2d E (frame mesh axes fv a) e1 e2
            (rrs.getD (mesh.vert fv).id.toNat 0)).getD 0 default)
          ((pts_2d E (frame mesh axes fv a) e1 e2
            (rrs.getD (mesh.vert fv).id.toNat 0)).getD 1 default)
          ((pts_2d E (frame mesh axes fv a) e1 e2
            (rrs.getD (mesh.vert fv).id.toNat 0)).getD 2 default) []) := by
  constructor
  · rw [axis_body_D_fw _ _ _ _ _ _ _ _ _ _ _ _ _ _ _ h.2]
    exact ⟨by rw [foldl_set_length]; exact h.1,
      foldl_set_rows10 _ _ (fun j => dfw_row_length _ j) _ _ h.2⟩
  · unfold axis_body
    dsimp only
    rw [patch_loop_cout, quad_loop_cout mesh A f vts c a ao _ N out hb h]

/-- The diagnostics of the second loop. -/
theorem face_loop_cout (fuel : Nat) (E : Extern α) (mesh : Mesh3D α)
    (axes : List (List (vec3 α))) (uph : Bool) (rrs : List α) (A nf : Nat) :
    ∀ n, n ≤ nf → ∀ out res,
      (out.D_fw.length = fvaq_num nf A ∧ ∀ x, x ∈ out.D_fw → x.length = 10) →
      face_loop fuel E mesh axes uph rrs A (List.range n) out = some res →
      (res.D_fw.length = fvaq_num nf A ∧ ∀ x, x ∈ res.D_fw → x.length = 10) ∧
      res.cout = out.cout ++ cout_lines fuel E mesh axes rrs A n := by
  have hbody : ∀ f vts out, f < nf →
      (out.D_fw.length = fvaq_num nf A ∧ ∀ x, x ∈ out.D_fw → x.length = 10) →
      ((face_body E mesh axes uph rrs A f vts out).D_fw.length = fvaq_num nf A ∧
        ∀ x, x ∈ (face_body E mesh axes uph rrs A f vts out).D_fw → x.length = 10) ∧
      (face_body E mesh axes uph rrs A f vts out).cout
        = out.cout ++ (List.range 3).flatMap (fun c =>
            (List.range A).flatMap (fun a =>
              block_lines f (block_quadrature E mesh axes rrs vts c a))) := by
    intro f vts out hf ho
    unfold face_body
    refine foldl_range_collect Outputs.cout
      (fun st => st.D_fw.length = fvaq_num nf A ∧ ∀ x, x ∈ st.D_fw → x.length = 10) _ _ 3
      (fun c hc st hst => ?_) out ho
    unfold corner_body
    refine foldl_range_collect Outputs.cout
      (fun st => st.D_fw.length = fvaq_num nf A ∧ ∀ x, x ∈ st.D_fw → x.length = 10) _ _ A
      (fun a ha st hst => ?_) st hst
    exact axis_body_cout E mesh axes uph rrs A f vts c _ _ _ _ st a _
      (fun q hq => sample_offset_lt nf A f c a q hf hc ha hq) hst
  intro n
  induction n with
  | zero =>
    intro _ out res ho h
    simp only [List.range_zero, face_loop, Option.some.injEq] at h
    subst h
    exact ⟨ho, by simp [cout_lines]⟩
  | succ n ih =>
    intro hn out res ho h
    rw [List.range_succ, face_loop_append] at h
    cases hmid : face_loop fuel E mesh axes uph rrs A (List.range n) out with
    | none => rw [hmid] at h; simp at h
    | some mid =>
      rw [hmid] at h
      simp only [Option.some_bind, face_loop] at h
      cases hv : f_corners fuel mesh (mesh.get_face n) with
      | none => rw [hv] at h; simp at h
      | some vts0 =>
        rw [hv] at h
        simp only [Option.some_bind, Option.some.injEq] at h
        obtain ⟨hImid, hCmid⟩ := ih (by omega) out mid ho hmid
        subst h
        obtain ⟨h1, h2⟩ := hbody n vts0 mid (by omega) hImid
        refine ⟨h1, ?_⟩
        rw [h2, hCmid]
        simp only [cout_lines, List.range_succ, List.flatMap_append, List.flatMap_cons,
          List.flatMap_nil, List.append_nil, List.append_assoc, face_lines, hv, Option.getD_some]

/-- The diagnostics of `polynomial_conv`, from outputs whose incoming `D_fw`
rows have 10 entries. -/
theorem polynomial_conv_cout (fuel : Nat) (E : Extern α) (mesh : Mesh3D α)
    (axes : List (List (vec3 α))) (uph : Bool) (out0 : Outputs α) (len : Nat → Nat)
    (hr : rings_close fuel mesh len) (hf : faces_close fuel mesh)
    (hrows : ∀ x, x ∈ out0.D_fw → x.length = 10) :
    ∃ st, polynomial_conv_state fuel E mesh axes uph out0 = some st ∧
      st.2.cout = out0.cout
        ++ cout_lines fuel E mesh axes st.1 (axes.getD 0 []).length mesh.num_of_faces := by
  obtain ⟨res, h1, h2⟩ := polynomial_conv_state_eq fuel E mesh axes uph out0 len hr hf
  refine ⟨_, h1, ?_⟩
  exact (face_loop_cout fuel E mesh axes uph _ _ _ _ (Nat.le_refl _) _ res
    ⟨by simp [push_entries, resize_outputs, resize_length],
     by simp only [push_entries, resize_outputs]; exact resize_rows10 _ _ hrows⟩ h2).2

/-- Every diagnostic reports an entry above `1e+02`. -/
theorem cout_lines_above (fuel : Nat) (E : Extern α) (mesh : Mesh3D α)
    (axes : List (List (vec3 α))) (rrs : List α) (A nf : Nat) (l : CoutLine α)
    (hl : l ∈ cout_lines fuel E mesh axes rrs A nf) : l.poly * l.weight > 1e+02 := by
  simp only [cout_lines, face_lines, block_lines, dfw_lines, List.mem_flatMap, List.mem_range]
    at hl
  obtain ⟨f, -, c, -, a, -, q, -, i, -, hl⟩ := hl
  split at hl
  · rename_i hgt
    simp only [List.mem_singleton] at hl
    subst hl
    exact hgt
  · simp at hl

end CollectLift

section Rerun
variable {α : Type} [LinearOrderedField α]

set_option linter.unusedSectionVars false

/-- The scatter containers after `polynomial_conv` do not depend on the
incoming buffers. -/
theorem polynomial_conv_scatter_eq (fuel : Nat) (E : Extern α) (mesh : Mesh3D α)
    (axes : List (List (vec3 α))) (uph : Bool) (out0 out0' : Outputs α) (len : Nat → Nat)
    (hr : rings_close fuel mesh len) (hf : faces_close fuel mesh) :
    ∃ res res', polynomial_conv fuel E mesh axes uph out0 = some res ∧
      polynomial_conv fuel E mesh axes uph out0' = some res' ∧
      res'.S_fv = res.S_fv ∧ res'.S_fv_index = res.S_fv_index ∧
      res'.S_fv_value = res.S_fv_value := by
  obtain ⟨res, h1, h2⟩ := polynomial_conv_state_eq fuel E mesh axes uph out0 len hr hf
  obtain ⟨res', h1', h2'⟩ := polynomial_conv_state_eq fuel E mesh axes uph out0' len hr hf
  refine ⟨res, res', by simp [polynomial_conv, h1], by simp [polynomial_conv, h1'], ?_⟩
  have hl : ∀ o : Outputs α,
      (push_entries (resize_outputs uph mesh.num_of_faces (axes.getD 0 []).length o)
        (reduction_entries fuel E mesh (axes.getD 0 []).length len)).S_fv.length
        = fvaq_num mesh.num_of_faces (axes.getD 0 []).length * 3 ∧
      (push_entries (resize_outputs uph mesh.num_of_faces (axes.getD 0 []).length o)
        (reduction_entries fuel E mesh (axes.getD 0 []).length len)).S_fv_index.length
        = fvaq_num mesh.num_of_faces (axes.getD 0 []).length * 3 * 2 ∧
      (push_entries (resize_outputs uph mesh.num_of_faces (axes.getD 0 []).length o)
        (reduction_entries fuel E mesh (axes.getD 0 []).length len)).S_fv_value.length
        = fvaq_num mesh.num_of_faces (axes.getD 0 []).length * 3 := by
    intro o
    simp [push_entries, resize_outputs, resize_length]
  obtain ⟨a1, a2⟩ := face_loop_S_fv fuel E mesh axes uph _ _ _ _ res (hl out0).1 h2
  obtain ⟨b1, b2⟩ := face_loop_S_fv fuel E mesh axes uph _ _ _ _ res' (hl out0').1 h2'
  have hm := face_loop_mirrors fuel E mesh axes uph _ _ _ hf _ res (hl out0) h2
  have hm' := face_loop_mirrors fuel E mesh axes uph _ _ _ hf _ res' (hl out0') h2'
  have hS : res'.S_fv = res.S_fv := by
    apply List.ext_getElem?
    intro p
    by_cases hp : p < fvaq_num mesh.num_of_faces (axes.getD 0 []).length * 3
    · obtain ⟨f, c, a, q, i, hf', hc, ha, hq, hi, rfl⟩ := scatter_pos_encode _ _ p hp
      obtain ⟨vts, hv⟩ := Option.isSome_iff_exists.mp
        (f_corners_isSome fuel mesh hf (mesh.get_face f))
      rw [a2 f hf' vts hv c hc a ha q hq i hi, b2 f hf' vts hv c hc a ha q hq i hi]
    · rw [List.getElem?_eq_none (by omega), List.getElem?_eq_none (by omega)]
  rw [hS] at hm'
  obtain ⟨e1, e2⟩ := mirrors_unique _ _ _ _ _ hm' hm
  exact ⟨hS, e1, e2⟩

end Rerun

section RebuildLemmas
variable {α : Type} [LinearOrderedField α]

/-- The barycentric triple of sample `q` rebuilds the sample position up to
`1e-16` times the size of the coordinates, exactly for the first three samples. -/
theorem bary_rebuild (x0 x1 x2 : α) (q : Nat) (hq : q < 6) :
    |((bary_weights (α := α)).getD q default).get 0 * x0
        + ((bary_weights (α := α)).getD q default).get 1 * x1
        + ((bary_weights (α := α)).getD q default).get 2 * x2
        - (x0 + pos_blend_at q 0 * (x1 - x0) + pos_blend_at q 1 * (x2 - x0))|
      ≤ 1e-16 * (|x0| + |x1| + |x2|) ∧
    (q < 3 →
      ((bary_weights (α := α)).getD q default).get 0 * x0
        + ((bary_weights (α := α)).getD q default).get 1 * x1
        + ((bary_weights (α := α)).getD q default).get 2 * x2
        = x0 + pos_blend_at q 0 * (x1 - x0) + pos_blend_at q 1 * (x2 - x0)) := by
  have a0 := le_abs_self x0
  have a1 := le_abs_self x1
  have a2 := le_abs_self x2
  have b0 := neg_abs_le x0
  have b1 := neg_abs_le x1
  have b2 := neg_abs_le x2
  interval_cases q <;>
    (simp only [bary_weights, pos_blend_at, pos_blend, List.getD_cons_zero,
       List.getD_cons_succ, vec3.get]
     refine ⟨?_, fun h => ?_⟩
     · rw [abs_le]
       constructor <;> norm_num <;> linarith
     · first
       | (exfalso; omega)
       | ring)



theorem quadrature_point (v0 v1 v2 : vec2 α) (bw : List (vec3 α)) (q : Nat) (hq : q < 6) :
    ((quadrature_degree4 v0 v1 v2 bw).points.getD q default).x
        = v0.x + pos_blend_at q 0 * (v1.x - v0.x) + pos_blend_at q 1 * (v2.x - v0.x) ∧
    ((quadrature_degree4 v0 v1 v2 bw).points.getD q default).y
        = v0.y + pos_blend_at q 0 * (v1.y - v0.y) + pos_blend_at q 1 * (v2.y - v0.y) := by
  simp [quadrature_degree4, List.getD_eq_getElem?_getD, hq, vec2.add, vec2.smul, vec2.sub]

end RebuildLemmas

section FloatingPointLemmas
variable {α : Type} [LinearOrderedField α] [FloorRing α]

theorem round_half_even_err (y : α) : |(round_half_even y : α) - y| ≤ 1 / 2 := by
  have h1 : (⌊y⌋ : α) ≤ y := Int.floor_le y
  have h2 : y < (⌊y⌋ : α) + 1 := Int.lt_floor_add_one y
  unfold round_half_even
  split
  · rw [abs_le]; constructor <;> linarith
  · split
    · push_cast
      rw [abs_le]; constructor <;> linarith
    · have h3 : y - (⌊y⌋ : α) = 1 / 2 := le_antisymm (not_lt.mp ‹_›) (not_lt.mp ‹_›)
      split
      · rw [abs_le]; constructor <;> linarith
      · push_cast
        rw [abs_le]; constructor <;> linarith

theorem round_half_even_nonneg (y : α) (hy : 0 ≤ y) : 0 ≤ round_half_even y := by
  have h0 : 0 ≤ ⌊y⌋ := Int.floor_nonneg.mpr hy
  unfold round_half_even
  split
  · exact h0
  · split
    · omega
    · split
      · exact h0
      · omega

theorem ulp_pos (p : Nat) (x : α) : 0 < ulp p x := by
  unfold ulp
  positivity

theorem round_to_zero (p : Nat) : round_to p (0 : α) = 0 := by
  simp [round_to]

/-- The relative error of a rounding is at most `2 ^ (-p)`. -/
theorem round_to_err (p : Nat) (x : α) : |round_to p x - x| ≤ |x| / 2 ^ p := by
  by_cases hx : x = 0
  · subst hx; simp [round_to_zero]
  · have hu := ulp_pos p x
    have habs : 0 < |x| := abs_pos.mpr hx
    have hlog : ((2 : ℕ) : α) ^ Int.log 2 |x| ≤ |x| := Int.zpow_log_le_self (by decide) habs
    have hulp : ulp p x / 2 = (2 : α) ^ Int.log 2 |x| / 2 ^ p := by
      unfold ulp
      rw [zpow_add₀ (by norm_num : (2 : α) ≠ 0), zpow_sub₀ (by norm_num : (2 : α) ≠ 0),
        zpow_natCast, zpow_one]
      field_simp
      ring
    have h1 : round_to p x - x = ((round_half_even (x / ulp p x) : α) - x / ulp p x) * ulp p x := by
      simp only [round_to, hx, if_false]
      field_simp
    rw [h1, abs_mul, abs_of_pos hu]
    calc |(round_half_even (x / ulp p x) : α) - x / ulp p x| * ulp p x
        ≤ 1 / 2 * ulp p x := mul_le_mul_of_nonneg_right (round_half_even_err _) hu.le
      _ = ulp p x / 2 := by ring
      _ = (2 : α) ^ Int.log 2 |x| / 2 ^ p := hulp
      _ ≤ |x| / 2 ^ p := by
          apply div_le_div_of_nonneg_right _ (by positivity)
          simpa using hlog

theorem round_to_nonneg (p : Nat) (x : α) (hx : 0 ≤ x) : 0 ≤ round_to p x := by
  unfold round_to
  split
  · exact le_refl _
  · have hu := ulp_pos p x
    have := round_half_even_nonneg (x / ulp p x) (div_nonneg hx hu.le)
    exact mul_nonneg (by exact_mod_cast this) hu.le

/-- A number within less than half a unit in the last place of `m * 2 ^ e`,
with `m` a significand of `p` bits, is rounded to `m * 2 ^ e`. -/
theorem round_to_eq (p : Nat) (m : Int) (e : Int) (x : α)
    (hlo : (2 : α) ^ ((p : Int) - 1 + e) ≤ x) (hhi : x < (2 : α) ^ ((p : Int) + e))
    (hnear : |x - (m : α) * (2 : α) ^ e| < (2 : α) ^ e / 2) :
    round_to p x = (m : α) * (2 : α) ^ e := by
  have h2 : (0 : α) < 2 ^ e := by positivity
  have hx : 0 < x := lt_of_lt_of_le (by positivity) hlo
  have hlog : Int.log 2 |x| = (p : Int) - 1 + e := by
    rw [abs_of_pos hx]
    apply le_antisymm
    · have : Int.log 2 x < (p : Int) + e := by
        rw [← Int.lt_zpow_iff_log_lt (by decide) hx]
        simpa using hhi
      omega
    · rw [← Int.zpow_le_iff_le_log (by decide) hx]
      simpa using hlo
  have hulp : ulp p x = (2 : α) ^ e := by
    unfold ulp
    rw [hlog]
    congr 1
    ring
  have hy : |x / 2 ^ e - (m : α)| < 1 / 2 := by
    have : x / 2 ^ e - (m : α) = (x - (m : α) * 2 ^ e) / 2 ^ e := by
      field_simp
      ring
    rw [this, abs_div, abs_of_pos h2, div_lt_iff₀ h2]
    calc |x - (m : α) * 2 ^ e| < 2 ^ e / 2 := hnear
      _ = 1 / 2 * 2 ^ e := by ring
  rw [abs_lt] at hy
  have hr : round_half_even (x / 2 ^ e) = m := by
    unfold round_half_even
    by_cases hge : (m : α) ≤ x / 2 ^ e
    · have hf : ⌊x / (2 : α) ^ e⌋ = m := by
        rw [Int.floor_eq_iff]
        constructor
        · exact hge
        · linarith [hy.2]
      rw [hf, if_pos (by linarith [hy.2])]
    · have hf : ⌊x / (2 : α) ^ e⌋ = m - 1 := by
        rw [Int.floor_eq_iff]
        push_cast
        constructor
        · linarith [hy.1]
        · linarith [not_le.mp hge]
      rw [hf]
      push_cast
      rw [if_neg (by linarith [hy.1]), if_pos (by linarith [hy.1])]
      ring
  simp only [round_to, hx.ne', if_false, hulp, hr]

/-- Evaluation of a rounding: `x` lies within less than half a unit in the last
place of `y = m * 2 ^ e`. -/
theorem round_to_val (p : Nat) (m e : Int) (x y : α)
    (hlo : (2 : α) ^ ((p : Int) - 1 + e) ≤ x) (hhi : x < (2 : α) ^ ((p : Int) + e))
    (hnear : |x - (m : α) * (2 : α) ^ e| < (2 : α) ^ e / 2) (hy : (m : α) * (2 : α) ^ e = y) :
    round_to p x = y :=
  hy ▸ round_to_eq p m e x hlo hhi hnear

/-- Powers of two are not changed by rounding. -/
theorem round_to_zpow (p : Nat) (hp : 1 ≤ p) (k : Int) :
    round_to p ((2 : α) ^ k) = (2 : α) ^ k := by
  have h := round_to_eq (α := α) p (2 ^ (p - 1)) (k - ((p : Int) - 1)) ((2 : α) ^ k)
    (by
      apply le_of_eq
      congr 1
      ring)
    (by
      apply zpow_lt_zpow_right₀ (by norm_num)
      omega)
    (by
      have e1 : (((2 : Int) ^ (p - 1) : Int) : α) = (2 : α) ^ (((p - 1 : Nat) : Int)) := by
        push_cast
        rw [zpow_natCast]
      have e2 : (((p - 1 : Nat) : Int)) = (p : Int) - 1 := by omega
      rw [e1, e2, ← zpow_add₀ (by norm_num : (2 : α) ≠ 0)]
      have : (p : Int) - 1 + (k - ((p : Int) - 1)) = k := by ring
      rw [this, sub_self, abs_zero]
      positivity)
  rw [h]
  have e1 : (((2 : Int) ^ (p - 1) : Int) : α) = (2 : α) ^ (((p - 1 : Nat) : Int)) := by
    push_cast
    rw [zpow_natCast]
  have e2 : (((p - 1 : Nat) : Int)) = (p : Int) - 1 := by omega
  rw [e1, e2, ← zpow_add₀ (by norm_num : (2 : α) ≠ 0)]
  congr 1
  ring

end FloatingPointLemmas

section NearLemmas
variable {α : Type} [LinearOrderedField α] [FloorRing α]

set_option linter.unusedSectionVars false

theorem relerr_nonneg (k : Nat) : (0 : α) ≤ relerr k := by
  unfold relerr
  have : (1 : α) ≤ (1 + 1 / 2 ^ 53) ^ k := one_le_pow₀ (by norm_num)
  linarith

theorem relerr_mono {j k : Nat} (h : j ≤ k) : (relerr j : α) ≤ relerr k := by
  unfold relerr
  have : (1 + 1 / 2 ^ 53 : α) ^ j ≤ (1 + 1 / 2 ^ 53) ^ k :=
    pow_le_pow_right₀ (by norm_num) h
  linarith

theorem near_exact (M x : α) (h : |x| ≤ M) : near (relerr 0) M x x := by
  refine ⟨?_, h⟩
  simp [relerr]

theorem near_mono {ε ε' M M' x' x : α} (h : near ε M x' x) (hε : ε ≤ ε') (hM : M ≤ M')
    (h0 : 0 ≤ ε) : near ε' M' x' x := by
  have hM0 : 0 ≤ M := le_trans (abs_nonneg x) h.2
  refine ⟨le_trans h.1 ?_, le_trans h.2 hM⟩
  exact mul_le_mul hε hM hM0 (le_trans h0 hε)

theorem near_relerr_mono {j k : Nat} {M M' x' x : α} (h : near (relerr j) M x' x) (hjk : j ≤ k)
    (hM : M ≤ M') : near (relerr k) M' x' x :=
  near_mono h (relerr_mono hjk) hM (relerr_nonneg j)

/-- One more rounding to binary64. -/
theorem near_round {k : Nat} {M x' x : α} (h : near (relerr k) M x' x) :
    near (relerr (k + 1)) M (to_double x') x := by
  have hM0 : 0 ≤ M := le_trans (abs_nonneg x) h.2
  refine ⟨?_, h.2⟩
  have h1 : |to_double x' - x'| ≤ |x'| / 2 ^ 53 := round_to_err 53 x'
  have h2 : |x'| ≤ M + relerr k * M := by
    have := abs_sub_abs_le_abs_sub x' x
    linarith [h.1, h.2]
  have h3 : |to_double x' - x| ≤ |to_double x' - x'| + |x' - x| := abs_sub_le _ _ _
  have h4 : |x'| / 2 ^ 53 ≤ (M + relerr k * M) / 2 ^ 53 :=
    div_le_div_of_nonneg_right h2 (by positivity)
  have e : (relerr (k + 1) : α) * M = (M + relerr k * M) / 2 ^ 53 + relerr k * M := by
    simp only [relerr, pow_succ]
    ring
  rw [e]
  linarith [h.1]

/-- The product of two approximations. -/
theorem near_mul {j k : Nat} {M N x' x y' y : α} (hx : near (relerr j) M x' x)
    (hy : near (relerr k) N y' y) : near (relerr (j + k)) (M * N) (x' * y') (x * y) := by
  have hM0 : 0 ≤ M := le_trans (abs_nonneg x) hx.2
  have hN0 : 0 ≤ N := le_trans (abs_nonneg y) hy.2
  refine ⟨?_, by rw [abs_mul]; exact mul_le_mul hx.2 hy.2 (abs_nonneg _) hM0⟩
  have e : x' * y' - x * y = (x' - x) * y + x * (y' - y) + (x' - x) * (y' - y) := by ring
  have h1 : |(x' - x) * y| ≤ relerr j * M * N := by
    rw [abs_mul]
    exact mul_le_mul hx.1 hy.2 (abs_nonneg _) (mul_nonneg (relerr_nonneg j) hM0)
  have h2 : |x * (y' - y)| ≤ M * (relerr k * N) := by
    rw [abs_mul]
    exact mul_le_mul hx.2 hy.1 (abs_nonneg _) hM0
  have h3 : |(x' - x) * (y' - y)| ≤ relerr j * M * (relerr k * N) := by
    rw [abs_mul]
    exact mul_le_mul hx.1 hy.1 (abs_nonneg _) (mul_nonneg (relerr_nonneg j) hM0)
  have h4 : |x' * y' - x * y| ≤ |(x' - x) * y| + |x * (y' - y)| + |(x' - x) * (y' - y)| := by
    rw [e]
    exact (abs_add_three _ _ _)
  have e2 : (relerr (j + k) : α) * (M * N)
      = relerr j * M * N + M * (relerr k * N) + relerr j * M * (relerr k * N) := by
    simp only [relerr, pow_add]
    ring
  rw [e2]
  linarith

/-- The sum of two approximations. -/
theorem near_add {k : Nat} {M N x' x y' y : α} (hx : near (relerr k) M x' x)
    (hy : near (relerr k) N y' y) : near (relerr k) (M + N) (x' + y') (x + y) := by
  refine ⟨?_, le_trans (abs_add _ _) (add_le_add hx.2 hy.2)⟩
  have e : x' + y' - (x + y) = (x' - x) + (y' - y) := by ring
  rw [e, mul_add]
  exact le_trans (abs_add _ _) (add_le_add hx.1 hy.1)

/-- The difference of two approximations. -/
theorem near_sub {k : Nat} {M N x' x y' y : α} (hx : near (relerr k) M x' x)
    (hy : near (relerr k) N y' y) : near (relerr k) (M + N) (x' - y') (x - y) := by
  refine ⟨?_, le_trans (abs_sub _ _) (add_le_add hx.2 hy.2)⟩
  have e : x' - y' - (x - y) = (x' - x) - (y' - y) := by ring
  rw [e, mul_add]
  exact le_trans (abs_sub _ _) (add_le_add hx.1 hy.1)

/-- The absolute value of an approximation. -/
theorem near_abs {ε M x' x : α} (h : near ε M x' x) : near ε M |x'| |x| :=
  ⟨le_trans (abs_abs_sub_abs_le_abs_sub x' x) h.1, by rw [abs_abs]; exact h.2⟩

/-- A decimal constant of the source, rounded to binary64. -/
theorem near_const (c : α) : near (relerr 1) |c| (to_double c) c :=
  near_round (near_exact |c| c (le_refl _))

end NearLemmas

section StoredFloat
variable {α : Type} [LinearOrderedField α] [FloorRing α]

set_option linter.unusedSectionVars false

/-- The relative error of the conversion of a decimal constant to binary64 and
then to binary32. -/
theorem stored_float_err (x : α) : |stored_float x - x| ≤ 5.97e-8 * |x| := by
  have h1 : |to_float (to_double x) - to_double x| ≤ |to_double x| / 2 ^ 24 :=
    round_to_err 24 (to_double x)
  have h2 : |to_double x - x| ≤ |x| / 2 ^ 53 := round_to_err 53 x
  have h3 : |to_double x| ≤ |x| + |x| / 2 ^ 53 := by
    have := abs_sub_abs_le_abs_sub (to_double x) x
    linarith
  have h4 : |stored_float x - x| ≤ |to_float (to_double x) - to_double x| + |to_double x - x| :=
    abs_sub_le _ _ _
  have h5 : |to_double x| / 2 ^ 24 ≤ (|x| + |x| / 2 ^ 53) / 2 ^ 24 :=
    div_le_div_of_nonneg_right h3 (by positivity)
  have h6 : (|x| + |x| / 2 ^ 53) / 2 ^ 24 + |x| / 2 ^ 53 ≤ 5.97e-8 * |x| := by
    have hx : 0 ≤ |x| := abs_nonneg x
    have e : (|x| + |x| / 2 ^ 53) / 2 ^ 24 + |x| / 2 ^ 53
        = ((1 + 1 / 2 ^ 53) / 2 ^ 24 + 1 / 2 ^ 53) * |x| := by ring
    rw [e]
    exact mul_le_mul_of_nonneg_right (by norm_num) hx
  linarith

theorem stored_float_nonneg (x : α) (hx : 0 ≤ x) : 0 ≤ stored_float x :=
  round_to_nonneg 24 _ (round_to_nonneg 53 x hx)

/-- The three floats stored for a barycentric triple whose entries are not
negative and sum to 1 within `1e-15`. -/
theorem stored_triple_sum (b0 b1 b2 : α) (h0 : 0 ≤ b0) (h1 : 0 ≤ b1) (h2 : 0 ≤ b2)
    (hs : |b0 + b1 + b2 - 1| ≤ 1e-15) :
    |stored_float b0 + stored_float b1 + stored_float b2 - 1| ≤ 6e-8 := by
  have e0 := stored_float_err b0
  have e1 := stored_float_err b1
  have e2 := stored_float_err b2
  rw [abs_of_nonneg h0] at e0
  rw [abs_of_nonneg h1] at e1
  rw [abs_of_nonneg h2] at e2
  rw [abs_le] at e0 e1 e2 hs ⊢
  constructor <;> linarith [e0.1, e0.2, e1.1, e1.2, e2.1, e2.2, hs.1, hs.2]

end StoredFloat

section WeightLemmas
variable {α : Type} [LinearOrderedField α] [FloorRing α]

set_option linter.unusedSectionVars false

theorem to_double_zero : to_double (0 : α) = 0 := round_to_zero 53

theorem to_double_one : to_double (1 : α) = 1 := by
  have := round_to_zpow (α := α) 53 (by decide) 0
  simpa [to_double] using this

theorem to_double_two : to_double (2 : α) = 2 := by
  have := round_to_zpow (α := α) 53 (by decide) 1
  simpa [to_double] using this

theorem to_double_half : to_double (0.5 : α) = 0.5 := by
  have := round_to_zpow (α := α) 53 (by decide) (-1)
  have e : (2 : α) ^ (-1 : Int) = 0.5 := by norm_num
  rw [e] at this
  exact this

/-- The float stored for an approximation in binary64. -/
theorem near_float {k : Nat} {M z' z : α} (h : near (relerr k) M z' z) :
    |to_float z' - z| ≤ ((1 + relerr k) / 2 ^ 24 + relerr k) * M := by
  have h1 : |to_float z' - z'| ≤ |z'| / 2 ^ 24 := round_to_err 24 z'
  have h2 : |z'| ≤ M + relerr k * M := by
    have := abs_sub_abs_le_abs_sub z' z
    linarith [h.1, h.2]
  have h3 : |to_float z' - z| ≤ |to_float z' - z'| + |z' - z| := abs_sub_le _ _ _
  have h4 : |z'| / 2 ^ 24 ≤ (M + relerr k * M) / 2 ^ 24 :=
    div_le_div_of_nonneg_right h2 (by positivity)
  have e : ((1 + relerr k) / 2 ^ 24 + relerr k) * M
      = (M + relerr k * M) / 2 ^ 24 + relerr k * M := by ring
  rw [e]
  linarith [h.1]

/-- The binary64 area of a triangle, against the exact area. -/
theorem triarea2d_fp_near (v0 v1 v2 : vec2 α) :
    near (relerr 6)
      (|(0.5 : α)| * (|v1.x - v0.x| * |v2.y - v0.y| + |v1.y - v0.y| * |v2.x - v0.x|))
      (triarea2d_fp v0 v1 v2) (triarea2d v0 v1 v2) := by
  have ha : near (relerr 1) |v1.x - v0.x| (to_double (v1.x - v0.x)) (v1.x - v0.x) :=
    near_const _
  have hb : near (relerr 1) |v1.y - v0.y| (to_double (v1.y - v0.y)) (v1.y - v0.y) :=
    near_const _
  have hc : near (relerr 1) |v2.x - v0.x| (to_double (v2.x - v0.x)) (v2.x - v0.x) :=
    near_const _
  have hd : near (relerr 1) |v2.y - v0.y| (to_double (v2.y - v0.y)) (v2.y - v0.y) :=
    near_const _
  have h1 := near_round (near_mul ha hd)
  have h2 := near_round (near_mul hb hc)
  have h3 := near_round (near_sub h1 h2)
  have h4 := near_round (near_mul (near_const (0.5 : α)) (near_abs h3))
  exact h4

/-- A binary64 weight of the rule, against the exact product. -/
theorem weight_fp_near (c : α) (v0 v1 v2 : vec2 α) :
    near (relerr 8)
      (|c| * (|(0.5 : α)| * (|v1.x - v0.x| * |v2.y - v0.y| + |v1.y - v0.y| * |v2.x - v0.x|)))
      (to_double (to_double c * triarea2d_fp v0 v1 v2)) (c * triarea2d v0 v1 v2) :=
  near_round (near_mul (near_const c) (triarea2d_fp_near v0 v1 v2))

theorem cubic_poly_term_fp_zero (x y : α) : cubic_poly_term_fp 0 x y = 1 := by
  simp [cubic_poly_term_fp, xmap, ymap, to_double_one]

/-- The binary64 product of line 214 for the term 0, against the exact weight. -/
theorem dfw0_near (c : α) (v0 v1 v2 : vec2 α) :
    near (relerr 9)
      (|c| * (|(0.5 : α)| * (|v1.x - v0.x| * |v2.y - v0.y| + |v1.y - v0.y| * |v2.x - v0.x|)))
      (to_double (1 * to_double (to_double c * triarea2d_fp v0 v1 v2)))
      (c * triarea2d v0 v1 v2) := by
  rw [one_mul]
  exact near_round (weight_fp_near c v0 v1 v2)

end WeightLemmas

section WeightSum
variable {α : Type} [LinearOrderedField α] [FloorRing α]

set_option linter.unusedSectionVars false

/-- The 6 binary64 weights of a triangle, and the six floats that line 214
stores in `D_fw[.][0]` for it, against the exact area. -/
theorem weights_fp_sum (v0 v1 v2 : vec2 α) (bw : List (vec3 α)) :
    (quadrature_degree4_fp v0 v1 v2 bw).weights.length = 6 ∧
    |(quadrature_degree4_fp v0 v1 v2 bw).weights.sum - triarea2d v0 v1 v2|
      ≤ 1e-15 * (|(v1.x - v0.x) * (v2.y - v0.y)| + |(v1.y - v0.y) * (v2.x - v0.x)|) ∧
    |((List.range 6).map (fun q => dfw_entry_fp (quadrature_degree4_fp v0 v1 v2 bw) q 0)).sum
        - triarea2d v0 v1 v2|
      ≤ 3e-8 * (|(v1.x - v0.x) * (v2.y - v0.y)| + |(v1.y - v0.y) * (v2.x - v0.x)|) := by
  have hS : (0 : α) ≤ |v1.x - v0.x| * |v2.y - v0.y| + |v1.y - v0.y| * |v2.x - v0.x| := by
    positivity
  have hA := (triarea2d_fp_near v0 v1 v2).2
  have hA0 : (0 : α) ≤ triarea2d v0 v1 v2 := triarea2d_nonneg v0 v1 v2
  rw [abs_of_nonneg hA0, abs_of_nonneg (by norm_num : (0 : α) ≤ 0.5)] at hA
  have w1 := (weight_fp_near (0.223381589678011 : α) v0 v1 v2).1
  have w2 := (weight_fp_near (0.109951743655322 : α) v0 v1 v2).1
  have f1 := near_float (dfw0_near (0.223381589678011 : α) v0 v1 v2)
  have f2 := near_float (dfw0_near (0.109951743655322 : α) v0 v1 v2)
  rw [abs_of_nonneg (by norm_num : (0 : α) ≤ 0.223381589678011),
    abs_of_nonneg (by norm_num : (0 : α) ≤ 0.5)] at w1 f1
  rw [abs_of_nonneg (by norm_num : (0 : α) ≤ 0.109951743655322),
    abs_of_nonneg (by norm_num : (0 : α) ≤ 0.5)] at w2 f2
  have r8 : (relerr 8 : α) ≤ 8.9e-16 := by
    unfold relerr
    norm_num
  have r9 : ((1 + relerr 9) / 2 ^ 24 + relerr 9 : α) ≤ 5.97e-8 := by
    unfold relerr
    norm_num
  have r8' : (0 : α) ≤ relerr 8 := relerr_nonneg 8
  refine ⟨rfl, ?_⟩
  simp only [dfw_entry_fp, quadrature_degree4_fp, cubic_poly_term_fp_zero, List.range_succ,
    List.range_zero, List.nil_append, List.cons_append, List.map_cons, List.map_nil,
    List.sum_cons, List.sum_nil, List.getD_cons_zero, List.getD_cons_succ, abs_mul]
  generalize |v1.x - v0.x| * |v2.y - v0.y| + |v1.y - v0.y| * |v2.x - v0.x| = S at *
  generalize triarea2d v0 v1 v2 = A at *
  generalize triarea2d_fp v0 v1 v2 = A' at *
  have w1' : |to_double (to_double 0.223381589678011 * A') - 0.223381589678011 * A|
      ≤ 8.9e-16 * (0.223381589678011 * (0.5 * S)) :=
    le_trans w1 (mul_le_mul_of_nonneg_right r8 (by positivity))
  have w2' : |to_double (to_double 0.109951743655322 * A') - 0.109951743655322 * A|
      ≤ 8.9e-16 * (0.109951743655322 * (0.5 * S)) :=
    le_trans w2 (mul_le_mul_of_nonneg_right r8 (by positivity))
  have f1' : |to_float (to_double (1 * to_double (to_double 0.223381589678011 * A')))
      - 0.223381589678011 * A| ≤ 5.97e-8 * (0.223381589678011 * (0.5 * S)) :=
    le_trans f1 (mul_le_mul_of_nonneg_right r9 (by positivity))
  have f2' : |to_float (to_double (1 * to_double (to_double 0.109951743655322 * A')))
      - 0.109951743655322 * A| ≤ 5.97e-8 * (0.109951743655322 * (0.5 * S)) :=
    le_trans f2 (mul_le_mul_of_nonneg_right r9 (by positivity))
  clear w1 w2 f1 f2 r8 r9 r8'
  generalize to_float (to_double (1 * to_double (to_double 0.223381589678011 * A'))) = F1 at *
  generalize to_float (to_double (1 * to_double (to_double 0.109951743655322 * A'))) = F2 at *
  generalize to_double (to_double 0.223381589678011 * A') = W1 at *
  generalize to_double (to_double 0.109951743655322 * A') = W2 at *
  rw [abs_le] at w1' w2' f1' f2'
  obtain ⟨w1a, w1b⟩ := w1'
  obtain ⟨w2a, w2b⟩ := w2'
  obtain ⟨f1a, f1b⟩ := f1'
  obtain ⟨f2a, f2b⟩ := f2'
  constructor
  · clear f1a f1b f2a f2b
    rw [abs_le]
    constructor <;> linarith
  · clear w1a w1b w2a w2b
    rw [abs_le]
    constructor <;> linarith

theorem dfw_row_fp_get (Q : QuadOut α) (q t : Nat) (ht : t < 10) :
    (dfw_row_fp Q q).getD t 0 = dfw_entry_fp Q q t := by
  simp [dfw_row_fp, List.getD_eq_getElem?_getD, ht]

theorem resized_rows10 (uph : Bool) (nf A : Nat) :
    ∀ x, x ∈ (resize_outputs uph nf A (empty_outputs : Outputs α)).D_fw → x.length = 10 :=
  resize_rows10 _ _ (fun x hx => absurd hx (List.not_mem_nil x))

end WeightSum

section PointLemmas
variable {α : Type} [LinearOrderedField α] [FloorRing α]

set_option linter.unusedSectionVars false

/-- The entries of `pos_blend` are not negative and each row sums to at most
`0.91`. -/
theorem pos_blend_bounds (q : Nat) (hq : q < 6) :
    (0 : α) ≤ pos_blend_at q 0 ∧ (0 : α) ≤ pos_blend_at q 1 ∧
    (pos_blend_at q 0 + pos_blend_at q 1 : α) ≤ 0.91 := by
  interval_cases q <;>
    (simp only [pos_blend_at, pos_blend, List.getD_cons_zero, List.getD_cons_succ]
     refine ⟨by norm_num, by norm_num, by norm_num⟩)

/-- One coordinate of a quadrature point in binary64, against the exact
combination. -/
theorem point_coord_near (s t x0 x1 x2 : α) :
    near (relerr 5) (|x0| + |s| * (|x1| + |x0|) + |t| * (|x2| + |x0|))
      (to_double (to_double (x0 + to_double (to_double s * to_double (x1 - x0)))
        + to_double (to_double t * to_double (x2 - x0))))
      (x0 + s * (x1 - x0) + t * (x2 - x0)) := by
  have h1 : near (relerr 1) (|x1| + |x0|) (to_double (x1 - x0)) (x1 - x0) :=
    near_relerr_mono (near_const (x1 - x0)) (le_refl 1) (abs_sub x1 x0)
  have h2 : near (relerr 1) (|x2| + |x0|) (to_double (x2 - x0)) (x2 - x0) :=
    near_relerr_mono (near_const (x2 - x0)) (le_refl 1) (abs_sub x2 x0)
  have m1 := near_round (near_mul (near_const s) h1)
  have m2 := near_round (near_mul (near_const t) h2)
  have a1 := near_round (near_add
    (near_relerr_mono (near_exact |x0| x0 (le_refl _)) (Nat.zero_le 3) (le_refl _)) m1)
  have a2 := near_round (near_add a1 (near_relerr_mono m2 (by decide : 3 ≤ 4) (le_refl _)))
  exact a2

theorem point_fp_coords (v0 v1 v2 : vec2 α) (bw : List (vec3 α)) (q : Nat) (hq : q < 6) :
    ((quadrature_degree4_fp v0 v1 v2 bw).points.getD q default).x
        = to_double (to_double (v0.x + to_double (to_double (pos_blend_at q 0)
              * to_double (v1.x - v0.x)))
            + to_double (to_double (pos_blend_at q 1) * to_double (v2.x - v0.x))) ∧
    ((quadrature_degree4_fp v0 v1 v2 bw).points.getD q default).y
        = to_double (to_double (v0.y + to_double (to_double (pos_blend_at q 0)
              * to_double (v1.y - v0.y)))
            + to_double (to_double (pos_blend_at q 1) * to_double (v2.y - v0.y))) := by
  simp [quadrature_degree4_fp, List.getD_eq_getElem?_getD, hq, add_fp, smul_fp, sub_fp]

/-- The error of one coordinate of a binary64 quadrature point. -/
theorem point_coord_err (q : Nat) (hq : q < 6) (x0 x1 x2 : α) :
    |to_double (to_double (x0 + to_double (to_double (pos_blend_at q 0) * to_double (x1 - x0)))
        + to_double (to_double (pos_blend_at q 1) * to_double (x2 - x0)))
      - (x0 + pos_blend_at q 0 * (x1 - x0) + pos_blend_at q 1 * (x2 - x0))|
      ≤ 1.07e-15 * (|x0| + |x1| + |x2|) := by
  obtain ⟨hs, ht, hst⟩ := pos_blend_bounds (α := α) q hq
  have h := (point_coord_near (pos_blend_at q 0) (pos_blend_at q 1) x0 x1 x2).1
  rw [abs_of_nonneg hs, abs_of_nonneg ht] at h
  have r5 : (relerr 5 : α) ≤ 5.56e-16 := by
    unfold relerr
    norm_num
  have a0 := abs_nonneg x0
  have a1 := abs_nonneg x1
  have a2 := abs_nonneg x2
  have hM : |x0| + pos_blend_at q 0 * (|x1| + |x0|) + pos_blend_at q 1 * (|x2| + |x0|)
      ≤ 1.91 * (|x0| + |x1| + |x2|) := by
    have hs1 : (pos_blend_at q 0 : α) ≤ 0.91 := by linarith
    have ht1 : (pos_blend_at q 1 : α) ≤ 0.91 := by linarith
    have e1 : pos_blend_at q 0 * |x1| ≤ 0.91 * |x1| := mul_le_mul_of_nonneg_right hs1 a1
    have e2 : pos_blend_at q 1 * |x2| ≤ 0.91 * |x2| := mul_le_mul_of_nonneg_right ht1 a2
    have e3 : (pos_blend_at q 0 + pos_blend_at q 1) * |x0| ≤ 0.91 * |x0| :=
      mul_le_mul_of_nonneg_right hst a0
    linarith
  have hM0 : 0 ≤ |x0| + pos_blend_at q 0 * (|x1| + |x0|) + pos_blend_at q 1 * (|x2| + |x0|) := by
    positivity
  calc _ ≤ relerr 5 * (|x0| + pos_blend_at q 0 * (|x1| + |x0|)
          + pos_blend_at q 1 * (|x2| + |x0|)) := h
    _ ≤ 5.56e-16 * (1.91 * (|x0| + |x1| + |x2|)) :=
        mul_le_mul r5 hM hM0 (by norm_num)
    _ ≤ 1.07e-15 * (|x0| + |x1| + |x2|) := by
        have : (0 : α) ≤ |x0| + |x1| + |x2| := by positivity
        nlinarith

/-- The entries of `bary_weights` are between 0 and 1. -/
theorem bary_weights_unit (q : Nat) (hq : q < 6) (i : Nat) (hi : i < 3) :
    (0 : α) ≤ ((bary_weights (α := α)).getD q default).get i ∧
    ((bary_weights (α := α)).getD q default).get i ≤ 1 := by
  interval_cases q <;> interval_cases i <;>
    (simp only [bary_weights, List.getD_cons_zero, List.getD_cons_succ, vec3.get]
     constructor <;> norm_num)

/-- A combination with coefficients perturbed by a relative error `ε`. -/
theorem perturbed_combination (ε b0 b1 b2 c0 c1 c2 x0 x1 x2 : α)
    (h0 : |c0 - b0| ≤ ε * |b0|) (h1 : |c1 - b1| ≤ ε * |b1|) (h2 : |c2 - b2| ≤ ε * |b2|)
    (hε : 0 ≤ ε) (k0 : |b0| ≤ 1) (k1 : |b1| ≤ 1) (k2 : |b2| ≤ 1) :
    |(c0 * x0 + c1 * x1 + c2 * x2) - (b0 * x0 + b1 * x1 + b2 * x2)|
      ≤ ε * (|x0| + |x1| + |x2|) := by
  have e : (c0 * x0 + c1 * x1 + c2 * x2) - (b0 * x0 + b1 * x1 + b2 * x2)
      = (c0 - b0) * x0 + (c1 - b1) * x1 + (c2 - b2) * x2 := by ring
  have g : ∀ c b x : α, |c - b| ≤ ε * |b| → |b| ≤ 1 → |(c - b) * x| ≤ ε * |x| := by
    intro c b x h k
    rw [abs_mul]
    have : ε * |b| ≤ ε := by nlinarith [abs_nonneg b]
    exact mul_le_mul_of_nonneg_right (le_trans h this) (abs_nonneg x)
  rw [e]
  have := abs_add_three ((c0 - b0) * x0) ((c1 - b1) * x1) ((c2 - b2) * x2)
  linarith [g c0 b0 x0 h0 k0, g c1 b1 x1 h1 k1, g c2 b2 x2 h2 k2]

theorem to_double_err (x : α) : |to_double x - x| ≤ 1.12e-16 * |x| := by
  have h := round_to_err 53 x
  have : |x| / 2 ^ 53 ≤ 1.12e-16 * |x| := by
    have e : |x| / 2 ^ 53 = (1 / 2 ^ 53) * |x| := by ring
    rw [e]
    exact mul_le_mul_of_nonneg_right (by norm_num) (abs_nonneg x)
  exact le_trans h this

/-- The combination of three coordinates with a binary64 triple, evaluated in
binary64 from left to right. -/
theorem rebuild_fp_err (b0 b1 b2 x0 x1 x2 : α) (k0 : |b0| ≤ 1) (k1 : |b1| ≤ 1) (k2 : |b2| ≤ 1) :
    |to_double (to_double (to_double (to_double b0 * x0) + to_double (to_double b1 * x1))
        + to_double (to_double b2 * x2)) - (b0 * x0 + b1 * x1 + b2 * x2)|
      ≤ 4.45e-16 * (|x0| + |x1| + |x2|) := by
  have r0 := near_round (near_mul (near_const b0) (near_exact |x0| x0 (le_refl _)))
  have r1 := near_round (near_mul (near_const b1) (near_exact |x1| x1 (le_refl _)))
  have r2 := near_round (near_mul (near_const b2) (near_exact |x2| x2 (le_refl _)))
  have s1 := near_round (near_add r0 r1)
  have s2 := near_round (near_add s1 (near_relerr_mono r2 (by decide : 2 ≤ 3) (le_refl _)))
  have h := s2.1
  have r4 : (relerr 4 : α) ≤ 4.45e-16 := by
    unfold relerr
    norm_num
  have a0 := abs_nonneg x0
  have a1 := abs_nonneg x1
  have a2 := abs_nonneg x2
  have hM : |b0| * |x0| + |b1| * |x1| + |b2| * |x2| ≤ |x0| + |x1| + |x2| := by
    nlinarith [mul_le_mul_of_nonneg_right k0 a0, mul_le_mul_of_nonneg_right k1 a1,
      mul_le_mul_of_nonneg_right k2 a2]
  have hM0 : 0 ≤ |b0| * |x0| + |b1| * |x1| + |b2| * |x2| := by positivity
  calc _ ≤ relerr (1 + 0 + 1 + 1 + 1) * (|b0| * |x0| + |b1| * |x1| + |b2| * |x2|) := h
    _ ≤ 4.45e-16 * (|x0| + |x1| + |x2|) := mul_le_mul r4 hM hM0 (by norm_num)

/-- The round trip in one coordinate: the combination of the vertex coordinates
with the binary64 triple, in exact arithmetic and evaluated in binary64, and
with the floats stored for the triple, against the binary64 quadrature point. -/
theorem round_trip_coord (q : Nat) (hq : q < 6) (x0 x1 x2 : α) :
    |to_double (((bary_weights (α := α)).getD q default).get 0) * x0
        + to_double (((bary_weights (α := α)).getD q default).get 1) * x1
        + to_double (((bary_weights (α := α)).getD q default).get 2) * x2
      - to_double (to_double (x0 + to_double (to_double (pos_blend_at q 0)
            * to_double (x1 - x0)))
          + to_double (to_double (pos_blend_at q 1) * to_double (x2 - x0)))|
      ≤ 2e-15 * (|x0| + |x1| + |x2|) ∧
    |to_double (to_double (to_double
            (to_double (((bary_weights (α := α)).getD q default).get 0) * x0)
          + to_double (to_double (((bary_weights (α := α)).getD q default).get 1) * x1))
        + to_double (to_double (((bary_weights (α := α)).getD q default).get 2) * x2))
      - to_double (to_double (x0 + to_double (to_double (pos_blend_at q 0)
            * to_double (x1 - x0)))
          + to_double (to_double (pos_blend_at q 1) * to_double (x2 - x0)))|
      ≤ 2e-15 * (|x0| + |x1| + |x2|) ∧
    |stored_float (((bary_weights (α := α)).getD q default).get 0) * x0
        + stored_float (((bary_weights (α := α)).getD q default).get 1) * x1
        + stored_float (((bary_weights (α := α)).getD q default).get 2) * x2
      - to_double (to_double (x0 + to_double (to_double (pos_blend_at q 0)
            * to_double (x1 - x0)))
          + to_double (to_double (pos_blend_at q 1) * to_double (x2 - x0)))|
      ≤ 6e-8 * (|x0| + |x1| + |x2|) := by
  have hp := point_coord_err q hq x0 x1 x2
  have hb := (bary_rebuild x0 x1 x2 q hq).1
  obtain ⟨u0, v0⟩ := bary_weights_unit (α := α) q hq 0 (by decide)
  obtain ⟨u1, v1⟩ := bary_weights_unit (α := α) q hq 1 (by decide)
  obtain ⟨u2, v2⟩ := bary_weights_unit (α := α) q hq 2 (by decide)
  have hd := perturbed_combination (1.12e-16 : α) _ _ _ _ _ _ x0 x1 x2
    (to_double_err (((bary_weights (α := α)).getD q default).get 0))
    (to_double_err (((bary_weights (α := α)).getD q default).get 1))
    (to_double_err (((bary_weights (α := α)).getD q default).get 2))
    (by norm_num) (by rw [abs_of_nonneg u0]; exact v0) (by rw [abs_of_nonneg u1]; exact v1)
    (by rw [abs_of_nonneg u2]; exact v2)
  have he := rebuild_fp_err (((bary_weights (α := α)).getD q default).get 0)
    (((bary_weights (α := α)).getD q default).get 1)
    (((bary_weights (α := α)).getD q default).get 2) x0 x1 x2
    (by rw [abs_of_nonneg u0]; exact v0) (by rw [abs_of_nonneg u1]; exact v1)
    (by rw [abs_of_nonneg u2]; exact v2)
  have hf := perturbed_combination (5.97e-8 : α) _ _ _ _ _ _ x0 x1 x2
    (stored_float_err (((bary_weights (α := α)).getD q default).get 0))
    (stored_float_err (((bary_weights (α := α)).getD q default).get 1))
    (stored_float_err (((bary_weights (α := α)).getD q default).get 2))
    (by norm_num) (by rw [abs_of_nonneg u0]; exact v0) (by rw [abs_of_nonneg u1]; exact v1)
    (by rw [abs_of_nonneg u2]; exact v2)
  have hX : (0 : α) ≤ |x0| + |x1| + |x2| := by positivity
  generalize |x0| + |x1| + |x2| = X at *
  generalize to_double (to_double (x0 + to_double (to_double (pos_blend_at q 0)
            * to_double (x1 - x0)))
          + to_double (to_double (pos_blend_at q 1) * to_double (x2 - x0))) = P at *
  generalize x0 + pos_blend_at q 0 * (x1 - x0) + pos_blend_at q 1 * (x2 - x0) = Ex at *
  generalize to_double (to_double (to_double
            (to_double (((bary_weights (α := α)).getD q default).get 0) * x0)
          + to_double (to_double (((bary_weights (α := α)).getD q default).get 1) * x1))
        + to_double (to_double (((bary_weights (α := α)).getD q default).get 2) * x2)) = Re at *
  generalize to_double (((bary_weights (α := α)).getD q default).get 0) * x0
        + to_double (((bary_weights (α := α)).getD q default).get 1) * x1
        + to_double (((bary_weights (α := α)).getD q default).get 2) * x2 = Rd at *
  generalize stored_float (((bary_weights (α := α)).getD q default).get 0) * x0
        + stored_float (((bary_weights (α := α)).getD q default).get 1) * x1
        + stored_float (((bary_weights (α := α)).getD q default).get 2) * x2 = Rf at *
  generalize ((bary_weights (α := α)).getD q default).get 0 * x0
        + ((bary_weights (α := α)).getD q default).get 1 * x1
        + ((bary_weights (α := α)).getD q default).get 2 * x2 = R at *
  rw [abs_le] at hp hb hd hf he
  obtain ⟨hp1, hp2⟩ := hp
  obtain ⟨hb1, hb2⟩ := hb
  obtain ⟨hd1, hd2⟩ := hd
  obtain ⟨hf1, hf2⟩ := hf
  obtain ⟨he1, he2⟩ := he
  refine ⟨?_, ?_, ?_⟩
  · rw [abs_le]
    constructor <;> linarith
  · rw [abs_le]
    constructor <;> linarith
  · rw [abs_le]
    constructor <;> linarith

end PointLemmas

section LoopLemmas
variable {α : Type} [LinearOrderedField α] [FloorRing α]

set_option linter.unusedSectionVars false

theorem dfw_row_fp_length (Q : QuadOut α) (q : Nat) : (dfw_row_fp Q q).length = 10 := by
  simp [dfw_row_fp]

theorem row_fold10 (e row : List α) (he : e.length = 10) (hrow : row.length = 10) :
    (List.range 10).foldl (fun r i => r.set i (e.getD i 0)) row = e := by
  rw [foldl_set_eq_map _ 10 row hrow]
  apply List.ext_getElem?
  intro p
  by_cases hp : p < 10
  · simp [hp, List.getD_eq_getElem?_getD, List.getElem?_eq_getElem (by omega : p < e.length)]
  · rw [List.getElem?_eq_none (by simp; omega), List.getElem?_eq_none (by omega)]

theorem foldl_rows_fold (pos : Nat → Nat) (e : Nat → List α) (he : ∀ q, (e q).length = 10) :
    ∀ (qs : List Nat) (l : List (List α)), (∀ x, x ∈ l → x.length = 10) →
      qs.foldl (fun l q => l.set (pos q)
        ((List.range 10).foldl (fun r i => r.set i ((e q).getD i 0)) (l.getD (pos q) []))) l
      = qs.foldl (fun l q => l.set (pos q) (e q)) l := by
  intro qs
  induction qs with
  | nil => intro l _; rfl
  | cons q qs ih =>
    intro l hl
    simp only [List.foldl_cons]
    by_cases ho : pos q < l.length
    · rw [row_fold10 (e q) _ (he q) (getD_length10 l _ ho hl)]
      exact ih _ (rows10_set l _ _ (he q) hl)
    · rw [List.set_eq_of_length_le (by omega), List.set_eq_of_length_le (by omega)]
      exact ih l hl

theorem dfw_loop_fp_D_fw (face : Nat) (Q : QuadOut α) (q o : Nat) (out : Outputs α) :
    (dfw_loop_fp face Q.points Q.weights q o out).D_fw
      = out.D_fw.set o ((List.range 10).foldl (fun r i => r.set i ((dfw_row_fp Q q).getD i 0))
          (out.D_fw.getD o [])) := by
  unfold dfw_loop_fp
  rw [foldl_proj Outputs.D_fw _
    (fun l i => l.set o ((l.getD o []).set i
      (to_float (to_double (cubic_poly_term_fp i ((Q.points.getD q default).get 0)
        ((Q.points.getD q default).get 1) * Q.weights.getD q 0)))))
    (fun st i => by dsimp only; split <;> rfl)]
  rw [foldl_set_row o _ (List.range 10) out.D_fw, if_neg (by decide)]
  rfl

theorem dfw_loop_fp_S_fv (face : Nat) (pts : List (vec2 α)) (w : List α) (q o : Nat)
    (out : Outputs α) : (dfw_loop_fp face pts w q o out).S_fv = out.S_fv := by
  unfold dfw_loop_fp
  refine foldl_keep Outputs.S_fv _ (fun st i => ?_) _ out
  dsimp only
  split <;> rfl

theorem scatter_loop_fp_D_fw (mesh : Mesh3D α) (A : Nat) (vts : List Nat) (c a : Nat)
    (ao : List Int) (qbw : List (vec3 α)) (q o : Nat) (out : Outputs α) :
    (scatter_loop_fp mesh A vts c a ao qbw q o out).D_fw = out.D_fw := by
  unfold scatter_loop_fp
  refine foldl_keep Outputs.D_fw _ (fun st i => ?_) _ out
  rfl

theorem scatter_loop_fp_S_fv (mesh : Mesh3D α) (A : Nat) (vts : List Nat) (c a : Nat)
    (ao : List Int) (qbw : List (vec3 α)) (q o : Nat) (out : Outputs α) :
    (scatter_loop_fp mesh A vts c a ao qbw q o out).S_fv
      = (List.range 3).foldl
          (fun l i => l.set (o * 3 + i)
            { row := (o : Int)
              col := (mesh.vert (vts.getD ((c + i) % 3) 0)).id * (A : Int)
                + Int.tmod ((a : Int) + ao.getD i 0) (A : Int)
              val := to_float ((qbw.getD q default).get i) }) out.S_fv := by
  unfold scatter_loop_fp
  refine foldl_proj Outputs.S_fv _ _ (fun st i => ?_) _ out
  exact set_fields st.S_fv (o * 3 + i) _ _ _

theorem sample_offset_succ (A f c a q : Nat) :
    sample_offset A f c a q = sample_offset A f c a 0 + q := by
  simp [sample_offset]

/-- The rows of `D_fw` of a block after the loop over its samples. -/
theorem quad_loop_fp_D_fw (mesh : Mesh3D α) (A f : Nat) (vts : List Nat) (c a : Nat)
    (ao : List Int) (Q : QuadOut α) (out : Outputs α)
    (hl : ∀ x, x ∈ out.D_fw → x.length = 10)
    (hlen : sample_offset A f c a 5 < out.D_fw.length) (q : Nat) (hq : q < 6) :
    (quad_loop_fp mesh A f vts c a ao Q out).D_fw[sample_offset A f c a q]?
      = some (dfw_row_fp Q q) := by
  unfold quad_loop_fp
  rw [foldl_proj Outputs.D_fw _
    (fun l q => l.set (sample_offset A f c a q)
      ((List.range 10).foldl (fun r i => r.set i ((dfw_row_fp Q q).getD i 0))
        (l.getD (sample_offset A f c a q) [])))
    (fun st q => by simp only [dfw_loop_fp_D_fw, scatter_loop_fp_D_fw])]
  rw [foldl_rows_fold _ _ (dfw_row_fp_length Q) _ _ hl]
  refine foldl_set_good (sample_offset A f c a) (dfw_row_fp Q) 6 out.D_fw ?_ q hq ?_
  · intro j k _ _ h
    rw [sample_offset_succ A f c a j, sample_offset_succ A f c a k] at h
    omega
  · rw [sample_offset_succ] at hlen ⊢
    omega

/-- The scatter entries of a block after the loop over its samples. -/
theorem quad_loop_fp_S_fv (mesh : Mesh3D α) (A f : Nat) (vts : List Nat) (c a : Nat)
    (ao : List Int) (Q : QuadOut α) (out : Outputs α)
    (hlen : sample_offset A f c a 5 * 3 + 2 < out.S_fv.length) (q : Nat) (hq : q < 6)
    (i : Nat) (hi : i < 3) :
    (quad_loop_fp mesh A f vts c a ao Q out).S_fv[sample_offset A f c a q * 3 + i]?
      = some { row := (sample_offset A f c a q : Int)
               col := (mesh.vert (vts.getD ((c + i) % 3) 0)).id * (A : Int)
                 + Int.tmod ((a : Int) + ao.getD i 0) (A : Int)
               val := to_float ((Q.baryweights.getD q default).get i) } := by
  unfold quad_loop_fp
  rw [foldl_proj Outputs.S_fv _
    (fun l q => (List.range 3).foldl
      (fun l i => l.set (sample_offset A f c a q * 3 + i)
        { row := (sample_offset A f c a q : Int)
          col := (mesh.vert (vts.getD ((c + i) % 3) 0)).id * (A : Int)
            + Int.tmod ((a : Int) + ao.getD i 0) (A : Int)
          val := to_float ((Q.baryweights.getD q default).get i) }) l)
    (fun st q => by simp only [dfw_loop_fp_S_fv, scatter_loop_fp_S_fv])]
  have e : ∀ l : List (COOEntry α),
      (List.range 6).foldl (fun l q => (List.range 3).foldl
        (fun l i => l.set (sample_offset A f c a q * 3 + i)
          { row := (sample_offset A f c a q : Int)
            col := (mesh.vert (vts.getD ((c + i) % 3) 0)).id * (A : Int)
              + Int.tmod ((a : Int) + ao.getD i 0) (A : Int)
            val := to_float ((Q.baryweights.getD q default).get i) }) l) l
      = (List.range 18).foldl (fun l j => l.set (sample_offset A f c a (j / 3) * 3 + j % 3)
          { row := (sample_offset A f c a (j / 3) : Int)
            col := (mesh.vert (vts.getD ((c + j % 3) % 3) 0)).id * (A : Int)
              + Int.tmod ((a : Int) + ao.getD (j % 3) 0) (A : Int)
            val := to_float ((Q.baryweights.getD (j / 3) default).get (j % 3)) }) l := by
    intro l
    simp only [List.range_succ, List.range_zero, List.nil_append, List.cons_append,
      List.foldl_cons, List.foldl_nil, Nat.reduceDiv, Nat.reduceMod, Nat.zero_div, Nat.zero_mod]
  rw [e]
  have hg := foldl_set_good (fun j => sample_offset A f c a (j / 3) * 3 + j % 3)
    (fun j => ({ row := (sample_offset A f c a (j / 3) : Int)
                 col := (mesh.vert (vts.getD ((c + j % 3) % 3) 0)).id * (A : Int)
                   + Int.tmod ((a : Int) + ao.getD (j % 3) 0) (A : Int)
                 val := to_float ((Q.baryweights.getD (j / 3) default).get (j % 3)) } :
      COOEntry α)) 18 out.S_fv
    (fun j k _ _ h => by
      simp only [sample_offset_succ A f c a (j / 3), sample_offset_succ A f c a (k / 3)] at h
      omega)
    (q * 3 + i) (by omega)
    (by
      simp only [sample_offset_succ A f c a ((q * 3 + i) / 3)]
      rw [sample_offset_succ] at hlen
      omega)
  have d1 : (q * 3 + i) / 3 = q := by omega
  have d2 : (q * 3 + i) % 3 = i := by omega
  simp only [d1, d2] at hg
  exact hg

end LoopLemmas
section BlockLemmas
variable {α : Type} [LinearOrderedField α] [FloorRing α]

set_option linter.unusedSectionVars false

theorem baryweights_fp_get (v0 v1 v2 : vec2 α) (q i : Nat) (hq : q < 6) (hi : i < 3) :
    ((quadrature_degree4_fp v0 v1 v2 []).baryweights.getD q default).get i
      = to_double (((bary_weights (α := α)).getD q default).get i) := by
  simp only [quadrature_degree4_fp, List.nil_append]
  interval_cases q <;> interval_cases i <;> rfl

/-- The scatter entries that the block in floating point leaves: the row and
the column of the exact model, and the float of the constant. -/
theorem sample_block_fp_S_fv (mesh : Mesh3D α) (A f : Nat) (vts : List Nat) (c a : Nat)
    (ao : List Int) (v0 v1 v2 : vec2 α) (out : Outputs α)
    (hlen : sample_offset A f c a 5 * 3 + 2 < out.S_fv.length) (q : Nat) (hq : q < 6)
    (i : Nat) (hi : i < 3) :
    (sample_block_fp mesh A f vts c a ao v0 v1 v2 out).S_fv[sample_offset A f c a q * 3 + i]?
      = some { scatter_entry mesh A vts c a ao bary_weights q (sample_offset A f c a q) i with
          val := stored_float (((bary_weights (α := α)).getD q default).get i) } := by
  unfold sample_block_fp
  rw [quad_loop_fp_S_fv mesh A f vts c a ao _ out hlen q hq i hi,
    baryweights_fp_get v0 v1 v2 q i hq hi]
  rfl

/-- The rows of `D_fw` that the block in floating point leaves. -/
theorem sample_block_fp_D_fw (mesh : Mesh3D α) (A f : Nat) (vts : List Nat) (c a : Nat)
    (ao : List Int) (v0 v1 v2 : vec2 α) (out : Outputs α)
    (hl : ∀ x, x ∈ out.D_fw → x.length = 10)
    (hlen : sample_offset A f c a 5 < out.D_fw.length) (q : Nat) (hq : q < 6) :
    (sample_block_fp mesh A f vts c a ao v0 v1 v2 out).D_fw.getD (sample_offset A f c a q) []
      = dfw_row_fp (quadrature_degree4_fp v0 v1 v2 []) q := by
  unfold sample_block_fp
  rw [List.getD_eq_getElem?_getD, quad_loop_fp_D_fw mesh A f vts c a ao _ out hl hlen q hq]
  rfl

theorem block_offset_bound (nf A k c a : Nat) (hk : k < nf) (hc : c < 3) (ha : a < A)
    (n : Nat) (hn : fvaq_num nf A * 3 ≤ n) : sample_offset A k c a 5 * 3 + 2 < n := by
  have := sample_offset_lt nf A k c a 5 hk hc ha (by decide)
  omega

end BlockLemmas

section RuleLemmas
variable {α : Type} [LinearOrderedField α] [FloorRing α]

set_option linter.unusedSectionVars false

theorem list_sum_abs_le (l : List Nat) (f g : Nat → α) (h : ∀ t, t ∈ l → |f t| ≤ g t) :
    |(l.map f).sum| ≤ (l.map g).sum := by
  induction l with
  | nil => simp
  | cons t l ih =>
    simp only [List.map_cons, List.sum_cons]
    exact le_trans (abs_add _ _)
      (add_le_add (h t (List.mem_cons_self t l))
        (ih (fun u hu => h u (List.mem_cons_of_mem t hu))))

theorem list_sum_sub (l : List Nat) (f g : Nat → α) :
    (l.map f).sum - (l.map g).sum = (l.map (fun t => f t - g t)).sum := by
  induction l with
  | nil => simp
  | cons t l ih =>
    simp only [List.map_cons, List.sum_cons]
    rw [← ih]
    ring

theorem list_sum_mul_left (l : List Nat) (k : α) (f : Nat → α) :
    (l.map (fun t => k * f t)).sum = k * (l.map f).sum := by
  induction l with
  | nil => simp
  | cons t l ih =>
    simp only [List.map_cons, List.sum_cons]
    rw [ih]
    ring

theorem list_sum_mul_right (l : List Nat) (k : α) (f : Nat → α) :
    (l.map (fun t => f t * k)).sum = (l.map f).sum * k := by
  induction l with
  | nil => simp
  | cons t l ih =>
    simp only [List.map_cons, List.sum_cons]
    rw [ih]
    ring

/-- A monomial of `cubic_poly_term` in binary64, at coordinates that carry 5
roundings, against the exact monomial. -/
theorem cubic_poly_term_fp_near (t : Nat) (ht : t < 10) (X Y x' x y' y : α)
    (hx : near (relerr 5) X x' x) (hy : near (relerr 5) Y y' y) :
    near (relerr 19) (cubic_poly_term t X Y) (cubic_poly_term_fp t x' y')
      (cubic_poly_term t x y) := by
  have h1 : near (relerr 1) 1 (to_double (1 : α)) 1 := by
    have := near_const (1 : α)
    rwa [abs_one] at this
  interval_cases t <;>
    simp only [cubic_poly_term, cubic_poly_term_fp, xmap, ymap, List.getD_cons_zero,
      List.getD_cons_succ, List.range_succ, List.range_zero, List.nil_append, List.cons_append,
      List.foldl_cons, List.foldl_nil]
  · exact near_relerr_mono h1 (by decide) (le_refl _)
  · exact near_relerr_mono (near_round (near_mul h1 hy)) (by decide) (le_refl _)
  · exact near_relerr_mono (near_round (near_mul h1 hx)) (by decide) (le_refl _)
  · exact near_relerr_mono (near_round (near_mul (near_round (near_mul h1 hy)) hy)) (by decide)
      (le_refl _)
  · exact near_relerr_mono (near_round (near_mul (near_round (near_mul h1 hx)) hy)) (by decide)
      (le_refl _)
  · exact near_relerr_mono (near_round (near_mul (near_round (near_mul h1 hx)) hx)) (by decide)
      (le_refl _)
  · exact near_relerr_mono (near_round (near_mul (near_round (near_mul
      (near_round (near_mul h1 hy)) hy)) hy)) (by decide) (le_refl _)
  · exact near_relerr_mono (near_round (near_mul (near_round (near_mul
      (near_round (near_mul h1 hx)) hy)) hy)) (by decide) (le_refl _)
  · exact near_relerr_mono (near_round (near_mul (near_round (near_mul
      (near_round (near_mul h1 hx)) hx)) hy)) (by decide) (le_refl _)
  · exact near_relerr_mono (near_round (near_mul (near_round (near_mul
      (near_round (near_mul h1 hx)) hx)) hx)) (by decide) (le_refl _)

theorem pos_blend_abs (q : Nat) (hq : q < 6) :
    |(pos_blend_at q 0 : α)| ≤ 1 ∧ |(pos_blend_at q 1 : α)| ≤ 1 := by
  obtain ⟨hs, ht, hst⟩ := pos_blend_bounds (α := α) q hq
  rw [abs_of_nonneg hs, abs_of_nonneg ht]
  constructor <;> linarith

/-- The coordinates of a binary64 quadrature point of a triangle with first
vertex at the origin. -/
theorem point_fp_near (x1 y1 x2 y2 : α) (bw : List (vec3 α)) (q : Nat) (hq : q < 6) :
    near (relerr 5) (|x1| + |x2|)
      (((quadrature_degree4_fp (⟨0, 0⟩ : vec2 α) ⟨x1, y1⟩ ⟨x2, y2⟩ bw).points.getD q default).get 0)
      (((quadrature_degree4 (⟨0, 0⟩ : vec2 α) ⟨x1, y1⟩ ⟨x2, y2⟩ bw).points.getD q default).get 0) ∧
    near (relerr 5) (|y1| + |y2|)
      (((quadrature_degree4_fp (⟨0, 0⟩ : vec2 α) ⟨x1, y1⟩ ⟨x2, y2⟩ bw).points.getD q default).get 1)
      (((quadrature_degree4 (⟨0, 0⟩ : vec2 α) ⟨x1, y1⟩ ⟨x2, y2⟩ bw).points.getD q default).get 1) := by
  obtain ⟨px, py⟩ := point_fp_coords (⟨0, 0⟩ : vec2 α) ⟨x1, y1⟩ ⟨x2, y2⟩ bw q hq
  obtain ⟨ex, ey⟩ := quadrature_point (⟨0, 0⟩ : vec2 α) ⟨x1, y1⟩ ⟨x2, y2⟩ bw q hq
  obtain ⟨hs, ht⟩ := pos_blend_abs (α := α) q hq
  have gen : ∀ u v : α, |(0 : α)| + |(pos_blend_at q 0 : α)| * (|u| + |(0 : α)|)
      + |(pos_blend_at q 1 : α)| * (|v| + |(0 : α)|) ≤ |u| + |v| := by
    intro u v
    rw [abs_zero, zero_add, add_zero, add_zero]
    have a := mul_le_mul_of_nonneg_right hs (abs_nonneg u)
    have b := mul_le_mul_of_nonneg_right ht (abs_nonneg v)
    linarith
  simp only [vec2.get]
  constructor
  · show near _ _ (quadrature_degree4_fp _ _ _ _ |>.points.getD q default).x
      (quadrature_degree4 _ _ _ _ |>.points.getD q default).x
    rw [px, ex]
    exact near_relerr_mono (point_coord_near _ _ _ _ _) (le_refl _) (gen x1 x2)
  · show near _ _ (quadrature_degree4_fp _ _ _ _ |>.points.getD q default).y
      (quadrature_degree4 _ _ _ _ |>.points.getD q default).y
    rw [py, ey]
    exact near_relerr_mono (point_coord_near _ _ _ _ _) (le_refl _) (gen y1 y2)

theorem weights_fp_get (v0 v1 v2 : vec2 α) (bw : List (vec3 α)) (q : Nat) (hq : q < 6) :
    (quadrature_degree4_fp v0 v1 v2 bw).weights.getD q 0
        = to_double (to_double (rule_constant q) * triarea2d_fp v0 v1 v2) ∧
    (quadrature_degree4 v0 v1 v2 bw).weights.getD q 0 = rule_constant q * triarea2d v0 v1 v2 := by
  interval_cases q <;>
    exact ⟨by simp [quadrature_degree4_fp, rule_constant],
      by simp [quadrature_degree4, rule_constant]⟩

theorem rule_constant_nonneg (q : Nat) : (0 : α) ≤ rule_constant q := by
  unfold rule_constant
  split <;> norm_num

theorem rule_constant_sum :
    ((List.range 6).map (fun q => (rule_constant q : α))).sum ≤ 1 := by
  simp [rule_constant, List.range_succ]
  norm_num

/-- The float stored by line 214 against the exact product, for a triangle with
first vertex at the origin. -/
theorem dfw_entry_fp_err (x1 y1 x2 y2 : α) (q : Nat) (hq : q < 6) (t : Nat) (ht : t < 10) :
    |dfw_entry_fp (quadrature_degree4_fp (⟨0, 0⟩ : vec2 α) ⟨x1, y1⟩ ⟨x2, y2⟩ []) q t
        - (dfw_row (quadrature_degree4 (⟨0, 0⟩ : vec2 α) ⟨x1, y1⟩ ⟨x2, y2⟩ []) q).getD t 0|
      ≤ 5.97e-8 * (cubic_poly_term t (|x1| + |x2|) (|y1| + |y2|)
          * (rule_constant q * (0.5 * (|x1 * y2| + |y1 * x2|)))) := by
  obtain ⟨hx, hy⟩ := point_fp_near x1 y1 x2 y2 [] q hq
  obtain ⟨w1, w2⟩ := weights_fp_get (⟨0, 0⟩ : vec2 α) ⟨x1, y1⟩ ⟨x2, y2⟩ [] q hq
  have hm := cubic_poly_term_fp_near t ht _ _ _ _ _ _ hx hy
  have hw := weight_fp_near (rule_constant q) (⟨0, 0⟩ : vec2 α) ⟨x1, y1⟩ ⟨x2, y2⟩
  have hz := near_float (near_round (near_mul hm hw))
  have e1 : (dfw_row (quadrature_degree4 (⟨0, 0⟩ : vec2 α) ⟨x1, y1⟩ ⟨x2, y2⟩ []) q).getD t 0
      = cubic_poly_term t
          (((quadrature_degree4 (⟨0, 0⟩ : vec2 α) ⟨x1, y1⟩ ⟨x2, y2⟩ []).points.getD q default).get 0)
          (((quadrature_degree4 (⟨0, 0⟩ : vec2 α) ⟨x1, y1⟩ ⟨x2, y2⟩ []).points.getD q default).get 1)
        * (rule_constant q * triarea2d (⟨0, 0⟩ : vec2 α) ⟨x1, y1⟩ ⟨x2, y2⟩) := by
    rw [← w2]
    simp [dfw_row, List.getD_eq_getElem?_getD, ht]
  have e2 : dfw_entry_fp (quadrature_degree4_fp (⟨0, 0⟩ : vec2 α) ⟨x1, y1⟩ ⟨x2, y2⟩ []) q t
      = to_float (to_double (cubic_poly_term_fp t
          (((quadrature_degree4_fp (⟨0, 0⟩ : vec2 α) ⟨x1, y1⟩ ⟨x2, y2⟩ []).points.getD q
            default).get 0)
          (((quadrature_degree4_fp (⟨0, 0⟩ : vec2 α) ⟨x1, y1⟩ ⟨x2, y2⟩ []).points.getD q
            default).get 1)
        * to_double (to_double (rule_constant q)
            * triarea2d_fp (⟨0, 0⟩ : vec2 α) ⟨x1, y1⟩ ⟨x2, y2⟩))) := by
    rw [← w1]
    rfl
  rw [e1, e2]
  have r : ((1 + relerr (19 + 8 + 1)) / 2 ^ 24 + relerr (19 + 8 + 1) : α) ≤ 5.97e-8 := by
    unfold relerr
    norm_num
  have hM : cubic_poly_term t (|x1| + |x2|) (|y1| + |y2|)
        * (|rule_constant q| * (|(0.5 : α)| * (|x1 - 0| * |y2 - 0| + |y1 - 0| * |x2 - 0|)))
      = cubic_poly_term t (|x1| + |x2|) (|y1| + |y2|)
        * (rule_constant q * (0.5 * (|x1 * y2| + |y1 * x2|))) := by
    have a1 : |(rule_constant q : α)| = rule_constant q :=
      abs_of_nonneg (rule_constant_nonneg q)
    have a2 : |(0.5 : α)| = 0.5 := abs_of_nonneg (by norm_num)
    rw [a1, a2, sub_zero, sub_zero, sub_zero, sub_zero, abs_mul, abs_mul]
  have hM0 : 0 ≤ cubic_poly_term t (|x1| + |x2|) (|y1| + |y2|)
        * (rule_constant q * (0.5 * (|x1 * y2| + |y1 * x2|))) := by
    rw [← hM]
    exact le_trans (abs_nonneg _) (near_round (near_mul hm hw)).2
  rw [hM] at hz
  exact le_trans hz (mul_le_mul_of_nonneg_right r hM0)

/-- The six float rows of `D_fw` of a triangle with first vertex at the origin,
dotted with a coefficient vector, against the same sum over the exact rows. -/
theorem rows_fp_err (c : Nat → α) (x1 y1 x2 y2 : α) :
    |((List.range 6).map (fun q => row_dot c
          (dfw_row_fp (quadrature_degree4_fp (⟨0, 0⟩ : vec2 α) ⟨x1, y1⟩ ⟨x2, y2⟩ []) q))).sum
      - ((List.range 6).map (fun q => row_dot c
          (dfw_row (quadrature_degree4 (⟨0, 0⟩ : vec2 α) ⟨x1, y1⟩ ⟨x2, y2⟩ []) q))).sum|
      ≤ 2.985e-8 * (|x1 * y2| + |y1 * x2|)
          * cubic_poly (fun t => |c t|) (|x1| + |x2|) (|y1| + |y2|) := by
  have hS : (0 : α) ≤ |x1 * y2| + |y1 * x2| := by positivity
  have hrow : ∀ q, q ∈ List.range 6 →
      |row_dot c (dfw_row_fp (quadrature_degree4_fp (⟨0, 0⟩ : vec2 α) ⟨x1, y1⟩ ⟨x2, y2⟩ []) q)
        - row_dot c (dfw_row (quadrature_degree4 (⟨0, 0⟩ : vec2 α) ⟨x1, y1⟩ ⟨x2, y2⟩ []) q)|
      ≤ rule_constant q * (2.985e-8 * (|x1 * y2| + |y1 * x2|)
          * cubic_poly (fun t => |c t|) (|x1| + |x2|) (|y1| + |y2|)) := by
    intro q hq
    have hq6 : q < 6 := List.mem_range.mp hq
    unfold row_dot
    rw [list_sum_sub]
    have hterm : ∀ t, t ∈ List.range 10 →
        |c t * (dfw_row_fp (quadrature_degree4_fp (⟨0, 0⟩ : vec2 α) ⟨x1, y1⟩ ⟨x2, y2⟩ [])
              q).getD t 0
          - c t * (dfw_row (quadrature_degree4 (⟨0, 0⟩ : vec2 α) ⟨x1, y1⟩ ⟨x2, y2⟩ [])
              q).getD t 0|
        ≤ (rule_constant q * (2.985e-8 * (|x1 * y2| + |y1 * x2|)))
            * (|c t| * cubic_poly_term t (|x1| + |x2|) (|y1| + |y2|)) := by
      intro t ht
      have ht10 : t < 10 := List.mem_range.mp ht
      have he := dfw_entry_fp_err x1 y1 x2 y2 q hq6 t ht10
      have eg : (dfw_row_fp (quadrature_degree4_fp (⟨0, 0⟩ : vec2 α) ⟨x1, y1⟩ ⟨x2, y2⟩ [])
            q).getD t 0
          = dfw_entry_fp (quadrature_degree4_fp (⟨0, 0⟩ : vec2 α) ⟨x1, y1⟩ ⟨x2, y2⟩ []) q t := by
        simp [dfw_row_fp, List.getD_eq_getElem?_getD, ht10]
      rw [eg, ← mul_sub, abs_mul]
      calc |c t| * _ ≤ |c t| * (5.97e-8 * (cubic_poly_term t (|x1| + |x2|) (|y1| + |y2|)
              * (rule_constant q * (0.5 * (|x1 * y2| + |y1 * x2|))))) :=
            mul_le_mul_of_nonneg_left he (abs_nonneg _)
        _ = _ := by ring
    refine le_trans (list_sum_abs_le _ _ _ hterm) (le_of_eq ?_)
    rw [list_sum_mul_left]
    unfold cubic_poly
    ring
  rw [list_sum_sub]
  refine le_trans (list_sum_abs_le _ _ _ hrow) ?_
  rw [list_sum_mul_right (List.range 6) _ (fun q => (rule_constant q : α))]
  have hB : (0 : α) ≤ 2.985e-8 * (|x1 * y2| + |y1 * x2|)
      * cubic_poly (fun t => |c t|) (|x1| + |x2|) (|y1| + |y2|) := by
    have hc : (0 : α) ≤ cubic_poly (fun t => |c t|) (|x1| + |x2|) (|y1| + |y2|) := by
      unfold cubic_poly
      apply List.sum_nonneg
      intro v hv
      obtain ⟨t, ht, rfl⟩ := List.mem_map.mp hv
      have ht10 : t < 10 := List.mem_range.mp ht
      rw [cubic_poly_term_eq t ht10]
      positivity
    positivity
  calc _ ≤ 1 * (2.985e-8 * (|x1 * y2| + |y1 * x2|)
            * cubic_poly (fun t => |c t|) (|x1| + |x2|) (|y1| + |y2|)) :=
          mul_le_mul_of_nonneg_right rule_constant_sum hB
    _ = _ := one_mul _

end RuleLemmas

section Evaluation
variable {α : Type} [LinearOrderedField α] [FloorRing α]

set_option linter.unusedSectionVars false

/-- The binary64 area of the triangle `(0,0)`, `(1,0)`, `(0,2)`. -/
theorem area_fp_102 : triarea2d_fp (⟨0, 0⟩ : vec2 α) ⟨1, 0⟩ ⟨0, 2⟩ = 1 := by
  have e : (0.5 : α) * |(2 : α)| = 1 := by
    rw [abs_of_nonneg (by norm_num : (0 : α) ≤ 2)]
    norm_num
  simp only [triarea2d_fp, sub_fp, sub_zero, mul_zero, zero_mul, one_mul, mul_one,
    to_double_one, to_double_zero, to_double_two, to_double_half, e]

/-- The two binary64 weights of the triangle `(0,0)`, `(1,0)`, `(0,2)`, and the
floats stored for them in `D_fw[.][0]`. -/
theorem weights_fp_102 :
    (quadrature_degree4_fp (⟨0, 0⟩ : vec2 α) ⟨1, 0⟩ ⟨0, 2⟩ []).weights
      = [8048169952282555 / 2 ^ 55, 8048169952282555 / 2 ^ 55, 8048169952282555 / 2 ^ 55,
         7922858108077511 / 2 ^ 56, 7922858108077511 / 2 ^ 56, 7922858108077511 / 2 ^ 56] ∧
    ∀ q, q < 6 →
      dfw_entry_fp (quadrature_degree4_fp (⟨0, 0⟩ : vec2 α) ⟨1, 0⟩ ⟨0, 2⟩ []) q 0
        = if q < 3 then 14990885 / 2 ^ 26 else 14757473 / 2 ^ 27 := by
  have hC1 : to_double (0.223381589678011 : α) = 8048169952282555 / 2 ^ 55 :=
    round_to_val 53 8048169952282555 (-55) _ _ (by norm_num) (by norm_num)
      (by rw [abs_lt]; constructor <;> norm_num) (by norm_num)
  have hC2 : to_double (0.109951743655322 : α) = 7922858108077511 / 2 ^ 56 :=
    round_to_val 53 7922858108077511 (-56) _ _ (by norm_num) (by norm_num)
      (by rw [abs_lt]; constructor <;> norm_num) (by norm_num)
  have hC1i : to_double (8048169952282555 / 2 ^ 55 : α) = 8048169952282555 / 2 ^ 55 :=
    round_to_val 53 8048169952282555 (-55) _ _ (by norm_num) (by norm_num)
      (by rw [abs_lt]; constructor <;> norm_num) (by norm_num)
  have hC2i : to_double (7922858108077511 / 2 ^ 56 : α) = 7922858108077511 / 2 ^ 56 :=
    round_to_val 53 7922858108077511 (-56) _ _ (by norm_num) (by norm_num)
      (by rw [abs_lt]; constructor <;> norm_num) (by norm_num)
  have hF1 : to_float (8048169952282555 / 2 ^ 55 : α) = 14990885 / 2 ^ 26 :=
    round_to_val 24 14990885 (-26) _ _ (by norm_num) (by norm_num)
      (by rw [abs_lt]; constructor <;> norm_num) (by norm_num)
  have hF2 : to_float (7922858108077511 / 2 ^ 56 : α) = 14757473 / 2 ^ 27 :=
    round_to_val 24 14757473 (-27) _ _ (by norm_num) (by norm_num)
      (by rw [abs_lt]; constructor <;> norm_num) (by norm_num)
  have hw : (quadrature_degree4_fp (⟨0, 0⟩ : vec2 α) ⟨1, 0⟩ ⟨0, 2⟩ []).weights
      = [8048169952282555 / 2 ^ 55, 8048169952282555 / 2 ^ 55, 8048169952282555 / 2 ^ 55,
         7922858108077511 / 2 ^ 56, 7922858108077511 / 2 ^ 56, 7922858108077511 / 2 ^ 56] := by
    simp only [quadrature_degree4_fp, area_fp_102, mul_one, hC1, hC2, hC1i, hC2i]
  refine ⟨hw, fun q hq => ?_⟩
  unfold dfw_entry_fp
  rw [hw, cubic_poly_term_fp_zero, one_mul]
  interval_cases q
  · simp only [List.getD_cons_zero, List.getD_cons_succ]
    rw [hC1i, hF1, if_pos (by decide)]
  · simp only [List.getD_cons_zero, List.getD_cons_succ]
    rw [hC1i, hF1, if_pos (by decide)]
  · simp only [List.getD_cons_zero, List.getD_cons_succ]
    rw [hC1i, hF1, if_pos (by decide)]
  · simp only [List.getD_cons_zero, List.getD_cons_succ]
    rw [hC2i, hF2, if_neg (by decide)]
  · simp only [List.getD_cons_zero, List.getD_cons_succ]
    rw [hC2i, hF2, if_neg (by decide)]
  · simp only [List.getD_cons_zero, List.getD_cons_succ]
    rw [hC2i, hF2, if_neg (by decide)]

end Evaluation

/-! ## The claims -/

section Claims0

/-- C1: the sample offset `((face * 3 + corner) * axis_num + axis) * 6 + q` lies
below `face_num * 3 * axis_num * 6` for every tuple with `face < face_num`,
`corner < 3`, `axis < axis_num`, `q < 6`; it is injective on these tuples (so two
different faces never share a row); and every row below
`face_num * 3 * axis_num * 6` is the offset of exactly one such tuple. -/
theorem sample_offset_bijective (face_num axis_num : Nat) :
    (∀ face corner axis q, face < face_num → corner < 3 → axis < axis_num → q < 6 →
      sample_offset axis_num face corner axis q < fvaq_num face_num axis_num) ∧
    (∀ f c a q f' c' a' q', c < 3 → a < axis_num → q < 6 → c' < 3 → a' < axis_num → q' < 6 →
      sample_offset axis_num f c a q = sample_offset axis_num f' c' a' q' →
      f = f' ∧ c = c' ∧ a = a' ∧ q = q') ∧
    (∀ r, r < fvaq_num face_num axis_num →
      ∃! t : Nat × Nat × Nat × Nat, t.1 < face_num ∧ t.2.1 < 3 ∧ t.2.2.1 < axis_num ∧
        t.2.2.2 < 6 ∧ sample_offset axis_num t.1 t.2.1 t.2.2.1 t.2.2.2 = r) := by
  refine ⟨fun f c a q hf hc ha hq => sample_offset_lt face_num axis_num f c a q hf hc ha hq,
    fun f c a q f' c' a' q' hc ha hq hc' ha' hq' h =>
      sample_offset_inj axis_num f c a q f' c' a' q' hc ha hq hc' ha' hq' h, ?_⟩
  intro r hr
  obtain ⟨h1, h2, h3, h4, h5⟩ := sample_offset_encode face_num axis_num r hr
  refine ⟨(r / 6 / axis_num / 3, r / 6 / axis_num % 3, r / 6 % axis_num, r % 6),
    ⟨h1, h2, h3, h4, h5⟩, ?_⟩
  rintro ⟨f, c, a, q⟩ ⟨_, hc, ha, hq, h⟩
  obtain ⟨e1, e2, e3, e4⟩ := sample_offset_inj axis_num f c a q _ _ _ _ hc ha hq h2 h3 h4
    (h.trans h5.symm)
  simp only [Prod.mk.injEq]
  exact ⟨e1, e2, e3, e4⟩

theorem sample_offset_bijective_witness :
    sample_offset 2 1 2 1 5 < fvaq_num 2 2 ∧
    (sample_offset 2 1 2 1 5 = sample_offset 2 1 2 1 5 → 1 = 1 ∧ 2 = 2 ∧ 1 = 1 ∧ 5 = 5) ∧
    ∃! t : Nat × Nat × Nat × Nat, t.1 < 2 ∧ t.2.1 < 3 ∧ t.2.2.1 < 2 ∧
        t.2.2.2 < 6 ∧ sample_offset 2 t.1 t.2.1 t.2.2.1 t.2.2.2 = 71 :=
  ⟨(sample_offset_bijective 2 2).1 1 2 1 5 (by decide) (by decide) (by decide) (by decide),
   (sample_offset_bijective 2 2).2.1 1 2 1 5 1 2 1 5 (by decide) (by decide) (by decide)
     (by decide) (by decide) (by decide),
   (sample_offset_bijective 2 2).2.2 71 (by decide)⟩

end Claims0

section Claims1
variable {α : Type} [LinearOrderedField α]

theorem qsqrt_pos (x : ℚ) (hx : 0 < x) : 0 < qsqrt x := by
  unfold qsqrt
  have h1 : 0 < Nat.sqrt x.num.toNat := by
    rw [Nat.sqrt_pos]
    have : 0 < x.num := Rat.num_pos.mpr hx
    omega
  have h2 : 0 < Nat.sqrt x.den := by
    rw [Nat.sqrt_pos]; exact x.den_pos
  positivity

theorem triMesh_rings_close : rings_close 3 triMesh (fun _ => 1) := by
  intro v hv
  have hv' : v < 3 := hv
  interval_cases v <;> exact ⟨⟨rfl, fun j hj => by interval_cases j; decide⟩, by decide⟩

theorem triMesh_faces_close : faces_close 3 triMesh :=
  fun _ => ⟨2, by decide, rfl⟩

theorem triMeshIsolated_rings_close :
    rings_close 3 triMeshIsolated (fun v => if v = 3 then 0 else 1) := by
  intro v hv
  have hv' : v < 4 := hv
  interval_cases v
  · exact ⟨⟨rfl, fun j hj => by have hj1 : j < 1 := hj; interval_cases j; decide⟩, by decide⟩
  · exact ⟨⟨rfl, fun j hj => by have hj1 : j < 1 := hj; interval_cases j; decide⟩, by decide⟩
  · exact ⟨⟨rfl, fun j hj => by have hj1 : j < 1 := hj; interval_cases j; decide⟩, by decide⟩
  · exact ⟨⟨rfl, fun j hj => absurd (show j < 0 from hj) (Nat.not_lt_zero j)⟩, by decide⟩

theorem triMeshIsolated_faces_close : faces_close 3 triMeshIsolated :=
  fun _ => ⟨2, by decide, rfl⟩

/-- C7: started with empty reduction outputs, `polynomial_conv` returns, and
`S_vf` is exactly the list `reduction_entries`: for every vertex position whose
ring area is not degenerate (valid and not below `1e-10`), every axis and every
face met by the ring traversal, one entry with row `V.id * axis_num + a`,
column `(F.id * 3 + fv_corner(F, V)) * axis_num + a` and value 1; their number
is the sum over the non-degenerate vertices of the number of faces of the ring
times `axis_num`. -/
theorem reduction_entries_exact (fuel : Nat) (E : Extern α) (mesh : Mesh3D α)
    (axes : List (List (vec3 α))) (uph : Bool) (len : Nat → Nat)
    (hr : rings_close fuel mesh len) (hf : faces_close fuel mesh) :
    ∃ res, polynomial_conv fuel E mesh axes uph empty_outputs = some res ∧
      res.S_vf = reduction_entries fuel E mesh (axes.getD 0 []).length len ∧
      res.S_vf.length = ((List.range mesh.num_of_vertices).map (fun v =>
        if degenerate E (ring_area E mesh (mesh.vert (mesh.get_vertex v)).edge (len v)) then 0
        else (ring_faces mesh (mesh.vert (mesh.get_vertex v)).edge (len v)).length
          * (axes.getD 0 []).length)).sum := by
  obtain ⟨res, h1, h2⟩ := polynomial_conv_state_eq fuel E mesh axes uph empty_outputs len hr hf
  have h3 := (face_loop_S_vf fuel E mesh axes uph _ _ _ _ res h2).1
  have h4 : res.S_vf = reduction_entries fuel E mesh (axes.getD 0 []).length len := by
    rw [h3]; simp [push_entries, resize_outputs, empty_outputs]
  refine ⟨res, ?_, h4, ?_⟩
  · simp [polynomial_conv, h1]
  · rw [h4]; exact length_reduction_entries fuel E mesh _ len

theorem reduction_entries_exact_witness :
    rings_close 3 triMesh (fun _ => 1) ∧ faces_close 3 triMesh ∧
    ∃ res, polynomial_conv 3 extQ triMesh triAxes false empty_outputs = some res ∧
      res.S_vf = reduction_entries 3 extQ triMesh (triAxes.getD 0 []).length (fun _ => 1) ∧
      res.S_vf.length = ((List.range triMesh.num_of_vertices).map (fun v =>
        if degenerate extQ (ring_area extQ triMesh (triMesh.vert (triMesh.get_vertex v)).edge 1)
        then 0
        else (ring_faces triMesh (triMesh.vert (triMesh.get_vertex v)).edge 1).length
          * (triAxes.getD 0 []).length)).sum :=
  ⟨triMesh_rings_close, triMesh_faces_close,
    reduction_entries_exact 3 extQ triMesh triAxes false (fun _ => 1)
      triMesh_rings_close triMesh_faces_close⟩

/-- C8: for a vertex position whose ring area is valid and not below `1e-10`,
`polynomial_conv` returns with `ring_ref_scale` at that position equal to the
square root of the ring area (the sum of the areas of the faces met by the ring
traversal), and that value is positive, `std::sqrt` being positive on positive
numbers. -/
theorem ref_scale_nondegenerate (fuel : Nat) (E : Extern α) (mesh : Mesh3D α)
    (axes : List (List (vec3 α))) (uph : Bool) (out0 : Outputs α) (len : Nat → Nat)
    (hr : rings_close fuel mesh len) (hf : faces_close fuel mesh)
    (hsqrt : ∀ x, 0 < x → 0 < E.sqrt x) (vitr : Nat) (hv : vitr < mesh.num_of_vertices)
    (hvalid : E.is_valid (ring_area E mesh (mesh.vert (mesh.get_vertex vitr)).edge (len vitr))
      = true)
    (hge : (1e-10 : α) ≤ ring_area E mesh (mesh.vert (mesh.get_vertex vitr)).edge (len vitr)) :
    ∃ st, polynomial_conv_state fuel E mesh axes uph out0 = some st ∧
      st.1[vitr]? = some (E.sqrt
        (ring_area E mesh (mesh.vert (mesh.get_vertex vitr)).edge (len vitr))) ∧
      0 < E.sqrt (ring_area E mesh (mesh.vert (mesh.get_vertex vitr)).edge (len vitr)) := by
  obtain ⟨res, h1, _⟩ := polynomial_conv_state_eq fuel E mesh axes uph out0 len hr hf
  refine ⟨_, h1, ?_, hsqrt _ (lt_of_lt_of_le (by norm_num) hge)⟩
  have hd : degenerate E (ring_area E mesh (mesh.vert (mesh.get_vertex vitr)).edge (len vitr))
      = false := by
    simp [degenerate, hvalid, not_lt.mpr hge]
  dsimp only
  rw [scales_get]
  simp [hv, hd]

theorem ref_scale_nondegenerate_witness :
    ∃ st, polynomial_conv_state 3 extQ triMesh triAxes false empty_outputs = some st ∧
      st.1[0]? = some (extQ.sqrt
        (ring_area extQ triMesh (triMesh.vert (triMesh.get_vertex 0)).edge 1)) ∧
      0 < extQ.sqrt (ring_area extQ triMesh (triMesh.vert (triMesh.get_vertex 0)).edge 1) :=
  ref_scale_nondegenerate 3 extQ triMesh triAxes false empty_outputs (fun _ => 1)
    triMesh_rings_close triMesh_faces_close qsqrt_pos 0 (by decide) rfl
    (by
      have h64 : Nat.sqrt (Int.toNat 64) = 8 := by
        rw [show Int.toNat 64 = 64 from rfl]; norm_num
      simp [ring_area, ring_faces, ring_edges, List.range_succ, face_area, tri_area3d,
        triMesh, ring_next, vec3.length, vec3.cross, vec3.sub, extQ, qsqrt]
      norm_num [h64])

end Claims1
section Claims2
variable {α : Type} [LinearOrderedField α]

theorem row_block_inj (A a : Nat) (x y : Int) (ha : a < A)
    (h1 : x * (A : Int) ≤ y * (A : Int) + (a : Int))
    (h2 : y * (A : Int) + (a : Int) < (x + 1) * (A : Int)) : y = x := by
  have hA : (0 : Int) < (A : Int) := by omega
  have ha' : (a : Int) < (A : Int) := by omega
  have ha0 : (0 : Int) ≤ (a : Int) := by omega
  have h3 : y < x + 1 := by
    by_contra hcon
    have : (x + 1) * (A : Int) ≤ y * (A : Int) :=
      mul_le_mul_of_nonneg_right (by omega) (le_of_lt hA)
    omega
  have h4 : x < y + 1 := by
    by_contra hcon
    have : (y + 1) * (A : Int) ≤ x * (A : Int) :=
      mul_le_mul_of_nonneg_right (by omega) (le_of_lt hA)
    have e : (y + 1) * (A : Int) = y * (A : Int) + (A : Int) := by ring
    omega
  omega

/-- C9: for a vertex position whose ring area is degenerate (not valid, or
below `1e-10`), in a mesh whose vertices have pairwise different ids,
`polynomial_conv` returns with `ring_ref_scale` at that position still 1, and
none of the reduction entries it appends to `S_vf` has its row in
`[V.id * axis_num, (V.id + 1) * axis_num)`; every non-degenerate vertex still gets
the square root of its ring area as scale and all of its entries. -/
theorem degenerate_vertex_skipped (fuel : Nat) (E : Extern α) (mesh : Mesh3D α)
    (axes : List (List (vec3 α))) (uph : Bool) (out0 : Outputs α) (len : Nat → Nat)
    (hr : rings_close fuel mesh len) (hf : faces_close fuel mesh)
    (hid : ∀ v w, v < mesh.num_of_vertices → w < mesh.num_of_vertices →
      (mesh.vert (mesh.get_vertex v)).id = (mesh.vert (mesh.get_vertex w)).id → v = w)
    (vitr : Nat) (hv : vitr < mesh.num_of_vertices)
    (hdeg : degenerate E (ring_area E mesh (mesh.vert (mesh.get_vertex vitr)).edge (len vitr))
      = true) :
    ∃ st emitted, polynomial_conv_state fuel E mesh axes uph out0 = some st ∧
      st.1[vitr]? = some 1 ∧
      st.2.S_vf = out0.S_vf ++ emitted ∧
      (∀ e, e ∈ emitted →
        ¬ ((mesh.vert (mesh.get_vertex vitr)).id * ((axes.getD 0 []).length : Int) ≤ e.row ∧
           e.row < ((mesh.vert (mesh.get_vertex vitr)).id + 1) * ((axes.getD 0 []).length : Int))) ∧
      (∀ w, w < mesh.num_of_vertices →
        degenerate E (ring_area E mesh (mesh.vert (mesh.get_vertex w)).edge (len w)) = false →
        st.1[w]? = some (E.sqrt (ring_area E mesh (mesh.vert (mesh.get_vertex w)).edge (len w))) ∧
        ∀ a f, a < (axes.getD 0 []).length →
          f ∈ ring_faces mesh (mesh.vert (mesh.get_vertex w)).edge (len w) →
          reduction_entry fuel mesh (axes.getD 0 []).length (mesh.get_vertex w) a f ∈ emitted) := by
  obtain ⟨res, h1, h2⟩ := polynomial_conv_state_eq fuel E mesh axes uph out0 len hr hf
  have h3 := (face_loop_S_vf fuel E mesh axes uph _ _ _ _ res h2).1
  refine ⟨_, reduction_entries fuel E mesh (axes.getD 0 []).length len, h1, ?_, ?_, ?_, ?_⟩
  · dsimp only
    rw [scales_get]
    have h10 : (1.0 : α) = 1 := by norm_num
    simp [hv, hdeg, h10]
  · rw [h3]; simp [push_entries, resize_outputs]
  · rintro e he ⟨hlo, hhi⟩
    obtain ⟨w, a, f, hw, ha, hd, _, rfl⟩ := mem_reduction_entries fuel E mesh _ len e he
    simp only [reduction_entry] at hlo hhi
    have := row_block_inj _ a _ _ ha hlo hhi
    have := hid w vitr hw hv this
    subst this
    rw [hdeg] at hd
    exact Bool.noConfusion hd
  · intro w hw hd
    refine ⟨?_, ?_⟩
    · dsimp only
      rw [scales_get]
      simp [hw, hd]
    · intro a f ha hfm
      simp only [reduction_entries, List.mem_flatMap, List.mem_range]
      refine ⟨w, hw, ?_⟩
      simp only [vertex_entries, hd, Bool.false_eq_true, if_false, List.mem_flatMap,
        List.mem_range, List.mem_map]
      exact ⟨a, ha, f, hfm, rfl⟩

theorem degenerate_vertex_skipped_witness :
    degenerate extQ
      (ring_area extQ triMeshIsolated (triMeshIsolated.vert (triMeshIsolated.get_vertex 3)).edge 0)
      = true ∧
    ∃ st emitted,
      polynomial_conv_state 3 extQ triMeshIsolated triAxes false empty_outputs = some st ∧
      st.1[3]? = some 1 ∧
      st.2.S_vf = (empty_outputs (α := ℚ)).S_vf ++ emitted ∧
      (∀ e, e ∈ emitted →
        ¬ ((triMeshIsolated.vert (triMeshIsolated.get_vertex 3)).id
              * ((triAxes.getD 0 []).length : Int) ≤ e.row ∧
           e.row < ((triMeshIsolated.vert (triMeshIsolated.get_vertex 3)).id + 1)
              * ((triAxes.getD 0 []).length : Int))) ∧
      (∀ w, w < triMeshIsolated.num_of_vertices →
        degenerate extQ (ring_area extQ triMeshIsolated
          (triMeshIsolated.vert (triMeshIsolated.get_vertex w)).edge
          ((fun v => if v = 3 then 0 else 1) w)) = false →
        st.1[w]? = some (extQ.sqrt (ring_area extQ triMeshIsolated
          (triMeshIsolated.vert (triMeshIsolated.get_vertex w)).edge
          ((fun v => if v = 3 then 0 else 1) w))) ∧
        ∀ a f, a < (triAxes.getD 0 []).length →
          f ∈ ring_faces triMeshIsolated
            (triMeshIsolated.vert (triMeshIsolated.get_vertex w)).edge
            ((fun v => if v = 3 then 0 else 1) w) →
          reduction_entry 3 triMeshIsolated (triAxes.getD 0 []).length
            (triMeshIsolated.get_vertex w) a f ∈ emitted) :=
  ⟨by simp [degenerate, ring_area, ring_faces, ring_edges, triMeshIsolated]; right; norm_num,
   degenerate_vertex_skipped 3 extQ triMeshIsolated triAxes false empty_outputs
    (fun v => if v = 3 then 0 else 1) triMeshIsolated_rings_close triMeshIsolated_faces_close
    (by
      intro v w hv hw h
      have hv' : v < 4 := hv
      have hw' : w < 4 := hw
      interval_cases v <;> interval_cases w <;> first | rfl | exact absurd h (by decide))
    3 (by decide)
    (by simp [degenerate, ring_area, ring_faces, ring_edges, triMeshIsolated]; right; norm_num)⟩

end Claims2
section Claims3
variable {α : Type} [LinearOrderedField α]

theorem quadMesh_rings_close : rings_close 3 quadMesh quadLen := by
  intro v hv
  have hv' : v < 4 := hv
  interval_cases v
  · exact ⟨⟨rfl, fun j hj => by have hj1 : j < 2 := hj; interval_cases j <;> decide⟩, by decide⟩
  · exact ⟨⟨rfl, fun j hj => by have hj1 : j < 1 := hj; interval_cases j; decide⟩, by decide⟩
  · exact ⟨⟨rfl, fun j hj => by have hj1 : j < 2 := hj; interval_cases j <;> decide⟩, by decide⟩
  · exact ⟨⟨rfl, fun j hj => by have hj1 : j < 1 := hj; interval_cases j; decide⟩, by decide⟩

theorem quadMesh_faces_close : faces_close 3 quadMesh := by
  intro f
  rcases f with _ | f
  · exact ⟨2, by decide, rfl⟩
  · exact ⟨2, by decide, rfl⟩

end Claims3
section ScatterEntries
variable {α : Type} [LinearOrderedField α]

theorem quadMeshOrdered_rings_close : rings_close 3 quadMeshOrdered quadLen := by
  intro v hv
  have hv' : v < 4 := hv
  interval_cases v
  · exact ⟨⟨rfl, fun j hj => by have hj1 : j < 2 := hj; interval_cases j <;> decide⟩, by decide⟩
  · exact ⟨⟨rfl, fun j hj => by have hj1 : j < 1 := hj; interval_cases j; decide⟩, by decide⟩
  · exact ⟨⟨rfl, fun j hj => by have hj1 : j < 2 := hj; interval_cases j <;> decide⟩, by decide⟩
  · exact ⟨⟨rfl, fun j hj => by have hj1 : j < 1 := hj; interval_cases j; decide⟩, by decide⟩

theorem quadMeshOrdered_faces_close : faces_close 3 quadMeshOrdered := by
  intro f
  rcases f with _ | f
  · exact ⟨2, by decide, rfl⟩
  · exact ⟨2, by decide, rfl⟩

/-- C2: on a mesh whose face at position `k` has id `k` (the second loop
computes the offset from the position, lines 155 and 294 from `face->id`),
`polynomial_conv` returns, and for every face `F = get_face(k)`, corner `c`,
axis `a`, quadrature index `q` and `i` in `{0,1,2}`, with
`offset = ((F.id * 3 + c) * axis_num + a) * 6 + q`, the scatter entry at
`offset * 3 + i` has row `offset`, column
`id(vertex at corner (c + i) mod 3 of F) * axis_num + (a + axis_offset[i]) % axis_num`
and value the `i`-th barycentric weight of quadrature point `q`; `axis_offset[0]`
is 0 and `axis_offset[1]`, `axis_offset[2]` are the values of `get_axis_map_p2p`
from the corner vertex to the next and the next-but-one corner. -/
theorem scatter_entries_by_face_id (fuel : Nat) (E : Extern α) (mesh : Mesh3D α)
    (axes : List (List (vec3 α))) (uph : Bool) (out0 : Outputs α) (len : Nat → Nat)
    (hr : rings_close fuel mesh len) (hf : faces_close fuel mesh)
    (hid : ∀ k, k < mesh.num_of_faces → (mesh.face (mesh.get_face k)).id = (k : Int)) :
    ∃ res, polynomial_conv fuel E mesh axes uph out0 = some res ∧
      ∀ k, k < mesh.num_of_faces → ∃ vts, f_corners fuel mesh (mesh.get_face k) = some vts ∧
      ∀ c : Nat, c < 3 → ∀ a : Nat, a < (axes.getD 0 []).length → ∀ q : Nat, q < 6 →
        ∃ offset : Nat,
          (offset : Int) = (((mesh.face (mesh.get_face k)).id * 3 + (c : Int))
              * ((axes.getD 0 []).length : Int) + (a : Int)) * 6 + (q : Int) ∧
          ∀ i, i < 3 →
            ∃ e, res.S_fv[offset * 3 + i]? = some e ∧
              e.row = (offset : Int) ∧
              e.col = (mesh.vert (vts.getD ((c + i) % 3) 0)).id * ((axes.getD 0 []).length : Int)
                + Int.tmod ((a : Int)
                    + (axis_offset E mesh axes (axes.getD 0 []).length vts c).getD i 0)
                  ((axes.getD 0 []).length : Int) ∧
              e.val = (bary_weights.getD q default).get i ∧
              (axis_offset E mesh axes (axes.getD 0 []).length vts c).getD 0 0 = 0 ∧
              (axis_offset E mesh axes (axes.getD 0 []).length vts c).getD 1 0
                = E.get_axis_map_p2p (mesh.vert (vts.getD c 0)).normal
                    (mesh.vert (vts.getD ((c + 1) % 3) 0)).normal (axes.getD 0 []).length
                    (axes.getD (mesh.vert (vts.getD c 0)).id.toNat [])
                    (axes.getD (mesh.vert (vts.getD ((c + 1) % 3) 0)).id.toNat []) ∧
              (axis_offset E mesh axes (axes.getD 0 []).length vts c).getD 2 0
                = E.get_axis_map_p2p (mesh.vert (vts.getD c 0)).normal
                    (mesh.vert (vts.getD ((c + 2) % 3) 0)).normal (axes.getD 0 []).length
                    (axes.getD (mesh.vert (vts.getD c 0)).id.toNat [])
                    (axes.getD (mesh.vert (vts.getD ((c + 2) % 3) 0)).id.toNat []) := by
  obtain ⟨res, h1, h2⟩ := polynomial_conv_S_fv fuel E mesh axes uph out0 len hr hf
  refine ⟨res, h1, fun k hk => ?_⟩
  obtain ⟨vts, hv⟩ := Option.isSome_iff_exists.mp (f_corners_isSome fuel mesh hf (mesh.get_face k))
  refine ⟨vts, hv, fun c hc a ha q hq => ?_⟩
  refine ⟨sample_offset (axes.getD 0 []).length k c a q, ?_, fun i hi => ?_⟩
  · rw [hid k hk]
    simp only [sample_offset]
    push_cast
    ring
  · exact ⟨_, h2 k hk vts hv c hc a ha q hq i hi, rfl, rfl, rfl, rfl, rfl, rfl⟩

theorem scatter_entries_by_face_id_witness :
    ∃ res, polynomial_conv 3 extQ quadMeshOrdered quadAxes false empty_outputs = some res ∧
      ∀ k, k < quadMeshOrdered.num_of_faces → ∃ vts, f_corners 3 quadMeshOrdered (quadMeshOrdered.get_face k) = some vts ∧
      ∀ c : Nat, c < 3 → ∀ a : Nat, a < (quadAxes.getD 0 []).length → ∀ q : Nat, q < 6 →
        ∃ offset : Nat,
          (offset : Int) = (((quadMeshOrdered.face (quadMeshOrdered.get_face k)).id * 3 + (c : Int))
              * ((quadAxes.getD 0 []).length : Int) + (a : Int)) * 6 + (q : Int) ∧
          ∀ i, i < 3 →
            ∃ e, res.S_fv[offset * 3 + i]? = some e ∧
              e.row = (offset : Int) ∧
              e.col = (quadMeshOrdered.vert (vts.getD ((c + i) % 3) 0)).id
                  * ((quadAxes.getD 0 []).length : Int)
                + Int.tmod ((a : Int)
                    + (axis_offset extQ quadMeshOrdered quadAxes (quadAxes.getD 0 []).length vts c).getD i 0)
                  ((quadAxes.getD 0 []).length : Int) ∧
              e.val = (bary_weights.getD q default).get i ∧
              (axis_offset extQ quadMeshOrdered quadAxes (quadAxes.getD 0 []).length vts c).getD 0 0 = 0 ∧
              (axis_offset extQ quadMeshOrdered quadAxes (quadAxes.getD 0 []).length vts c).getD 1 0
                = extQ.get_axis_map_p2p (quadMeshOrdered.vert (vts.getD c 0)).normal
                    (quadMeshOrdered.vert (vts.getD ((c + 1) % 3) 0)).normal (quadAxes.getD 0 []).length
                    (quadAxes.getD (quadMeshOrdered.vert (vts.getD c 0)).id.toNat [])
                    (quadAxes.getD (quadMeshOrdered.vert (vts.getD ((c + 1) % 3) 0)).id.toNat []) ∧
              (axis_offset extQ quadMeshOrdered quadAxes (quadAxes.getD 0 []).length vts c).getD 2 0
                = extQ.get_axis_map_p2p (quadMeshOrdered.vert (vts.getD c 0)).normal
                    (quadMeshOrdered.vert (vts.getD ((c + 2) % 3) 0)).normal (quadAxes.getD 0 []).length
                    (quadAxes.getD (quadMeshOrdered.vert (vts.getD c 0)).id.toNat [])
                    (quadAxes.getD (quadMeshOrdered.vert (vts.getD ((c + 2) % 3) 0)).id.toNat []) :=
  scatter_entries_by_face_id 3 extQ quadMeshOrdered quadAxes false empty_outputs quadLen
    quadMeshOrdered_rings_close quadMeshOrdered_faces_close
    (fun k hk => by
      have hk1 : k < 2 := hk
      interval_cases k <;> rfl)

end ScatterEntries
section Claims4
variable {α : Type} [LinearOrderedField α]

theorem bary_weights_row (q : Nat) (hq : q < 6) :
    0 ≤ ((bary_weights (α := α)).getD q default).get 0 ∧
    0 ≤ ((bary_weights (α := α)).getD q default).get 1 ∧
    0 ≤ ((bary_weights (α := α)).getD q default).get 2 ∧
    |((bary_weights (α := α)).getD q default).get 0 + ((bary_weights (α := α)).getD q default).get 1
      + ((bary_weights (α := α)).getD q default).get 2 - 1| ≤ 1e-15 := by
  interval_cases q <;>
    (simp only [bary_weights, List.getD_cons_zero, List.getD_cons_succ, vec3.get]
     refine ⟨by norm_num, by norm_num, by norm_num, ?_⟩
     rw [abs_le]
     constructor <;> norm_num)

/-- C10: if `get_axis_map_p2p` returns 0 for all arguments, `polynomial_conv`
returns and, for every face position, corner, axis `a`, quadrature sample and
`i` in `{0,1,2}`, the column of the scatter entry is
`id(vertex at corner (c + i) mod 3) * axis_num + a`. -/
theorem scatter_column_identity_alignment (fuel : Nat) (E : Extern α) (mesh : Mesh3D α)
    (axes : List (List (vec3 α))) (uph : Bool) (out0 : Outputs α) (len : Nat → Nat)
    (hr : rings_close fuel mesh len) (hf : faces_close fuel mesh)
    (hzero : ∀ n1 n2 num ax1 ax2, E.get_axis_map_p2p n1 n2 num ax1 ax2 = 0) :
    ∃ res, polynomial_conv fuel E mesh axes uph out0 = some res ∧
      ∀ k, k < mesh.num_of_faces → ∃ vts, f_corners fuel mesh (mesh.get_face k) = some vts ∧
      ∀ c, c < 3 → ∀ a, a < (axes.getD 0 []).length → ∀ q, q < 6 → ∀ i, i < 3 →
        ∃ e, res.S_fv[sample_offset (axes.getD 0 []).length k c a q * 3 + i]? = some e ∧
          e.col = (mesh.vert (vts.getD ((c + i) % 3) 0)).id * ((axes.getD 0 []).length : Int)
            + (a : Int) := by
  obtain ⟨res, h1, h2⟩ := polynomial_conv_S_fv fuel E mesh axes uph out0 len hr hf
  refine ⟨res, h1, fun k hk => ?_⟩
  obtain ⟨vts, hv⟩ := Option.isSome_iff_exists.mp (f_corners_isSome fuel mesh hf (mesh.get_face k))
  refine ⟨vts, hv, fun c hc a ha q hq i hi => ⟨_, h2 k hk vts hv c hc a ha q hq i hi, ?_⟩⟩
  have hao : (axis_offset E mesh axes (axes.getD 0 []).length vts c).getD i 0 = 0 := by
    unfold axis_offset
    interval_cases i <;> simp [hzero]
  simp only [scatter_entry, hao, add_zero]
  rw [Int.tmod_eq_of_lt (by omega) (by omega)]

theorem scatter_column_identity_alignment_witness :
    ∃ res, polynomial_conv 3 extQ triMesh triAxes false empty_outputs = some res ∧
      ∀ k, k < triMesh.num_of_faces → ∃ vts, f_corners 3 triMesh (triMesh.get_face k) = some vts ∧
      ∀ c, c < 3 → ∀ a, a < (triAxes.getD 0 []).length → ∀ q, q < 6 → ∀ i, i < 3 →
        ∃ e, res.S_fv[sample_offset (triAxes.getD 0 []).length k c a q * 3 + i]? = some e ∧
          e.col = (triMesh.vert (vts.getD ((c + i) % 3) 0)).id
            * ((triAxes.getD 0 []).length : Int) + (a : Int) :=
  scatter_column_identity_alignment 3 extQ triMesh triAxes false empty_outputs (fun _ => 1)
    triMesh_rings_close triMesh_faces_close (fun _ _ _ _ _ => rfl)

end Claims4
section ScatterValues
variable {α : Type} [LinearOrderedField α] [FloorRing α]

/-- C3: `polynomial_conv` returns with three scatter entries for every face
position, corner, axis and quadrature sample; and the block in floating point
(`sample_block_fp`, on outputs `out` that are large enough and for every local
triangle `pts_2d`) leaves at the same positions three entries with the same row
and column, whose values are the floats of the barycentric triple of the
sample: each constant of `bary_weights` rounded to binary64 and, by the
assignment of line 206, to binary32 (rounding to nearest, with unbounded
exponent range). These three floats are non-negative and their sum is within
`6e-8` of 1, half the unit roundoff of `float` at 1. -/
theorem scatter_values_convex (fuel : Nat) (E : Extern α) (mesh : Mesh3D α)
    (axes : List (List (vec3 α))) (uph : Bool) (out0 out : Outputs α) (len : Nat → Nat)
    (hr : rings_close fuel mesh len) (hf : faces_close fuel mesh)
    (hout : fvaq_num mesh.num_of_faces (axes.getD 0 []).length * 3 ≤ out.S_fv.length) :
    ∃ res, polynomial_conv fuel E mesh axes uph out0 = some res ∧
      ∀ k, k < mesh.num_of_faces → ∃ vts, f_corners fuel mesh (mesh.get_face k) = some vts ∧
      ∀ c, c < 3 → ∀ a, a < (axes.getD 0 []).length → ∀ q, q < 6 →
        ∃ e0 e1 e2,
          res.S_fv[sample_offset (axes.getD 0 []).length k c a q * 3 + 0]? = some e0 ∧
          res.S_fv[sample_offset (axes.getD 0 []).length k c a q * 3 + 1]? = some e1 ∧
          res.S_fv[sample_offset (axes.getD 0 []).length k c a q * 3 + 2]? = some e2 ∧
          ∀ v0 v1 v2 : vec2 α, ∃ f0 f1 f2,
            (sample_block_fp mesh (axes.getD 0 []).length k vts c a
                (axis_offset E mesh axes (axes.getD 0 []).length vts c) v0 v1 v2 out).S_fv[
                sample_offset (axes.getD 0 []).length k c a q * 3 + 0]? = some f0 ∧
            (sample_block_fp mesh (axes.getD 0 []).length k vts c a
                (axis_offset E mesh axes (axes.getD 0 []).length vts c) v0 v1 v2 out).S_fv[
                sample_offset (axes.getD 0 []).length k c a q * 3 + 1]? = some f1 ∧
            (sample_block_fp mesh (axes.getD 0 []).length k vts c a
                (axis_offset E mesh axes (axes.getD 0 []).length vts c) v0 v1 v2 out).S_fv[
                sample_offset (axes.getD 0 []).length k c a q * 3 + 2]? = some f2 ∧
            f0.row = e0.row ∧ f1.row = e1.row ∧ f2.row = e2.row ∧
            f0.col = e0.col ∧ f1.col = e1.col ∧ f2.col = e2.col ∧
            f0.val = to_float (to_double ((bary_weights.getD q default).get 0)) ∧
            f1.val = to_float (to_double ((bary_weights.getD q default).get 1)) ∧
            f2.val = to_float (to_double ((bary_weights.getD q default).get 2)) ∧
            0 ≤ f0.val ∧ 0 ≤ f1.val ∧ 0 ≤ f2.val ∧
            |f0.val + f1.val + f2.val - 1| ≤ 6e-8 := by
  obtain ⟨res, h1, h2⟩ := polynomial_conv_S_fv fuel E mesh axes uph out0 len hr hf
  refine ⟨res, h1, fun k hk => ?_⟩
  obtain ⟨vts, hv⟩ := Option.isSome_iff_exists.mp (f_corners_isSome fuel mesh hf (mesh.get_face k))
  refine ⟨vts, hv, fun c hc a ha q hq => ?_⟩
  obtain ⟨b0, b1, b2, b3⟩ := bary_weights_row (α := α) q hq
  have hb := block_offset_bound _ _ k c a hk hc ha _ hout
  exact ⟨_, _, _, h2 k hk vts hv c hc a ha q hq 0 (by decide),
    h2 k hk vts hv c hc a ha q hq 1 (by decide), h2 k hk vts hv c hc a ha q hq 2 (by decide),
    fun v0 v1 v2 => ⟨_, _, _,
      sample_block_fp_S_fv mesh _ k vts c a _ v0 v1 v2 out hb q hq 0 (by decide),
      sample_block_fp_S_fv mesh _ k vts c a _ v0 v1 v2 out hb q hq 1 (by decide),
      sample_block_fp_S_fv mesh _ k vts c a _ v0 v1 v2 out hb q hq 2 (by decide),
      rfl, rfl, rfl, rfl, rfl, rfl, rfl, rfl, rfl,
      stored_float_nonneg _ b0, stored_float_nonneg _ b1, stored_float_nonneg _ b2,
      stored_triple_sum _ _ _ b0 b1 b2 b3⟩⟩

theorem scatter_values_convex_witness :
    ∃ res, polynomial_conv 3 extQ triMesh triAxes false empty_outputs = some res ∧
      ∀ k, k < triMesh.num_of_faces → ∃ vts, f_corners 3 triMesh (triMesh.get_face k) = some vts ∧
      ∀ c, c < 3 → ∀ a, a < (triAxes.getD 0 []).length → ∀ q, q < 6 →
        ∃ e0 e1 e2,
          res.S_fv[sample_offset (triAxes.getD 0 []).length k c a q * 3 + 0]? = some e0 ∧
          res.S_fv[sample_offset (triAxes.getD 0 []).length k c a q * 3 + 1]? = some e1 ∧
          res.S_fv[sample_offset (triAxes.getD 0 []).length k c a q * 3 + 2]? = some e2 ∧
          ∀ v0 v1 v2 : vec2 ℚ, ∃ f0 f1 f2,
            (sample_block_fp triMesh (triAxes.getD 0 []).length k vts c a
                (axis_offset extQ triMesh triAxes (triAxes.getD 0 []).length vts c) v0 v1 v2
                (resize_outputs false 1 1 empty_outputs)).S_fv[
                sample_offset (triAxes.getD 0 []).length k c a q * 3 + 0]? = some f0 ∧
            (sample_block_fp triMesh (triAxes.getD 0 []).length k vts c a
                (axis_offset extQ triMesh triAxes (triAxes.getD 0 []).length vts c) v0 v1 v2
                (resize_outputs false 1 1 empty_outputs)).S_fv[
                sample_offset (triAxes.getD 0 []).length k c a q * 3 + 1]? = some f1 ∧
            (sample_block_fp triMesh (triAxes.getD 0 []).length k vts c a
                (axis_offset extQ triMesh triAxes (triAxes.getD 0 []).length vts c) v0 v1 v2
                (resize_outputs false 1 1 empty_outputs)).S_fv[
                sample_offset (triAxes.getD 0 []).length k c a q * 3 + 2]? = some f2 ∧
            f0.row = e0.row ∧ f1.row = e1.row ∧ f2.row = e2.row ∧
            f0.col = e0.col ∧ f1.col = e1.col ∧ f2.col = e2.col ∧
            f0.val = to_float (to_double ((bary_weights.getD q default).get 0)) ∧
            f1.val = to_float (to_double ((bary_weights.getD q default).get 1)) ∧
            f2.val = to_float (to_double ((bary_weights.getD q default).get 2)) ∧
            0 ≤ f0.val ∧ 0 ≤ f1.val ∧ 0 ≤ f2.val ∧
            |f0.val + f1.val + f2.val - 1| ≤ 6e-8 :=
  scatter_values_convex 3 extQ triMesh triAxes false empty_outputs
    (resize_outputs false 1 1 empty_outputs) (fun _ => 1)
    triMesh_rings_close triMesh_faces_close (by decide)

end ScatterValues
section WeightsSum
variable {α : Type} [LinearOrderedField α] [FloorRing α]

/-- C5 (amended): in binary64 (rounding to nearest, with unbounded exponent
range) the 6 weights returned by `quadrature_degree4` sum to the 2D area
`0.5 * |(v1 - v0) x (v2 - v0)|` of the triangle within
`1e-15 * (|a * d| + |b * c|)`, where `(a, b) = v1 - v0` and `(c, d) = v2 - v0`; and
the six floats `D_fw[.][0]` that the block in floating point leaves for the
local triangle `(v0, v1, v2)` (in outputs whose rows of `D_fw` have 10 entries and
reach the offsets of the block) sum to the area within
`3e-8 * (|a * d| + |b * c|)`. -/
theorem quadrature_weights_sum (mesh : Mesh3D α) (axis_num face : Nat) (vts : List Nat)
    (corner axis : Nat) (axis_offset : List Int) (v0 v1 v2 : vec2 α) (out : Outputs α)
    (hrows : ∀ x, x ∈ out.D_fw → x.length = 10)
    (hlen : sample_offset axis_num face corner axis 5 < out.D_fw.length) :
    (quadrature_degree4_fp v0 v1 v2 []).weights.length = 6 ∧
    |(quadrature_degree4_fp v0 v1 v2 []).weights.sum - triarea2d v0 v1 v2|
      ≤ 1e-15 * (|(v1.x - v0.x) * (v2.y - v0.y)| + |(v1.y - v0.y) * (v2.x - v0.x)|) ∧
    |((List.range 6).map (fun q =>
          ((sample_block_fp mesh axis_num face vts corner axis axis_offset v0 v1 v2 out).D_fw.getD
            (sample_offset axis_num face corner axis q) []).getD 0 0)).sum
        - triarea2d v0 v1 v2|
      ≤ 3e-8 * (|(v1.x - v0.x) * (v2.y - v0.y)| + |(v1.y - v0.y) * (v2.x - v0.x)|) := by
  have hrow : ∀ q, q ∈ List.range 6 →
      ((sample_block_fp mesh axis_num face vts corner axis axis_offset v0 v1 v2 out).D_fw.getD
          (sample_offset axis_num face corner axis q) []).getD 0 0
        = dfw_entry_fp (quadrature_degree4_fp v0 v1 v2 []) q 0 := by
    intro q hq
    rw [sample_block_fp_D_fw mesh axis_num face vts corner axis axis_offset v0 v1 v2 out hrows
      hlen q (List.mem_range.mp hq), dfw_row_fp_get _ _ _ (by decide)]
  rw [List.map_congr_left hrow]
  exact weights_fp_sum v0 v1 v2 []

theorem quadrature_weights_sum_witness :
    (quadrature_degree4_fp (⟨0, 0⟩ : vec2 ℚ) ⟨1, 0⟩ ⟨0, 2⟩ []).weights.length = 6 ∧
    |(quadrature_degree4_fp (⟨0, 0⟩ : vec2 ℚ) ⟨1, 0⟩ ⟨0, 2⟩ []).weights.sum
        - triarea2d (⟨0, 0⟩ : vec2 ℚ) ⟨1, 0⟩ ⟨0, 2⟩|
      ≤ 1e-15 * (|((1 : ℚ) - 0) * (2 - 0)| + |((0 : ℚ) - 0) * (0 - 0)|) ∧
    |((List.range 6).map (fun q =>
          ((sample_block_fp triMesh 1 0 [0, 1, 2] 0 0 [0, 0, 0] (⟨0, 0⟩ : vec2 ℚ) ⟨1, 0⟩ ⟨0, 2⟩
            (resize_outputs false 1 1 empty_outputs)).D_fw.getD
            (sample_offset 1 0 0 0 q) []).getD 0 0)).sum
        - triarea2d (⟨0, 0⟩ : vec2 ℚ) ⟨1, 0⟩ ⟨0, 2⟩|
      ≤ 3e-8 * (|((1 : ℚ) - 0) * (2 - 0)| + |((0 : ℚ) - 0) * (0 - 0)|) :=
  quadrature_weights_sum triMesh 1 0 [0, 1, 2] 0 0 [0, 0, 0] ⟨0, 0⟩ ⟨1, 0⟩ ⟨0, 2⟩
    (resize_outputs false 1 1 empty_outputs) (resized_rows10 false 1 1) (by decide)

/-- C5 as stated fails on the triangle `(0,0)`, `(1,0)`, `(0,2)`: its area is 1,
computed exactly in binary64; the 6 binary64 weights sum to `1 - 73 / 2^56`
(the two rule constants add up to `0.999999999999999`), and the six floats
stored in `D_fw[.][0]` sum to `1 + 1 / 2^27`. -/
theorem quadrature_weights_sum_counterexample :
    triarea2d (⟨0, 0⟩ : vec2 ℚ) ⟨1, 0⟩ ⟨0, 2⟩ = 1 ∧
    triarea2d_fp (⟨0, 0⟩ : vec2 ℚ) ⟨1, 0⟩ ⟨0, 2⟩ = 1 ∧
    (quadrature_degree4_fp (⟨0, 0⟩ : vec2 ℚ) ⟨1, 0⟩ ⟨0, 2⟩ []).weights.sum = 1 - 73 / 2 ^ 56 ∧
    ((List.range 6).map (fun q =>
        ((sample_block_fp triMesh 1 0 [0, 1, 2] 0 0 [0, 0, 0] (⟨0, 0⟩ : vec2 ℚ) ⟨1, 0⟩ ⟨0, 2⟩
          (resize_outputs false 1 1 empty_outputs)).D_fw.getD
          (sample_offset 1 0 0 0 q) []).getD 0 0)).sum = 1 + 1 / 2 ^ 27 := by
  obtain ⟨hw, hd⟩ := weights_fp_102 (α := ℚ)
  refine ⟨by norm_num [triarea2d, vec2.sub], area_fp_102, ?_, ?_⟩
  · rw [hw]
    norm_num
  · have hrow : ∀ q, q ∈ List.range 6 →
        ((sample_block_fp triMesh 1 0 [0, 1, 2] 0 0 [0, 0, 0] (⟨0, 0⟩ : vec2 ℚ) ⟨1, 0⟩ ⟨0, 2⟩
            (resize_outputs false 1 1 empty_outputs)).D_fw.getD
            (sample_offset 1 0 0 0 q) []).getD 0 0
          = if q < 3 then 14990885 / 2 ^ 26 else 14757473 / 2 ^ 27 := by
      intro q hq
      rw [sample_block_fp_D_fw triMesh 1 0 [0, 1, 2] 0 0 [0, 0, 0] _ _ _ _
        (resized_rows10 false 1 1) (by decide) q (List.mem_range.mp hq),
        dfw_row_fp_get _ _ _ (by decide), hd q (List.mem_range.mp hq)]
    rw [List.map_congr_left hrow]
    simp only [List.range_succ, List.range_zero, List.nil_append, List.cons_append,
      List.map_cons, List.map_nil, List.sum_cons, List.sum_nil]
    norm_num

end WeightsSum
section RoundTrip
variable {α : Type} [LinearOrderedField α] [FloorRing α]

/-- C4 (amended): in floating point the round trip holds up to rounding
(rounding to nearest, with unbounded exponent range). For every 2D triangle and
each of the 6 quadrature points of `quadrature_degree4`, computed in binary64
as the source does, the point rebuilt from the returned barycentric triple,
`b[q][0]*v0 + b[q][1]*v1 + b[q][2]*v2`, agrees with the returned position
`points[q]` in each coordinate within `2e-15` times the sum of the absolute
values of that coordinate of the three vertices, whether the combination is
taken exactly or evaluated in binary64 from left to right. `polynomial_conv`
returns with three scatter entries for every sample, and the block in floating
point (`sample_block_fp`, on outputs `out` that are large enough and for every
local triangle `pts_2d = (v0, v1, v2)`) leaves at the same positions three
entries with the same row and column, whose float values rebuild the position
of the sample within `6e-8` times that sum. -/
theorem quadrature_round_trip (fuel : Nat) (E : Extern α) (mesh : Mesh3D α)
    (axes : List (List (vec3 α))) (uph : Bool) (out0 out : Outputs α) (len : Nat → Nat)
    (hr : rings_close fuel mesh len) (hf : faces_close fuel mesh)
    (hout : fvaq_num mesh.num_of_faces (axes.getD 0 []).length * 3 ≤ out.S_fv.length) :
    (∀ (v0 v1 v2 : vec2 α) (q : Nat), q < 6 →
      |((quadrature_degree4_fp v0 v1 v2 []).baryweights.getD q default).get 0 * v0.x
          + ((quadrature_degree4_fp v0 v1 v2 []).baryweights.getD q default).get 1 * v1.x
          + ((quadrature_degree4_fp v0 v1 v2 []).baryweights.getD q default).get 2 * v2.x
          - ((quadrature_degree4_fp v0 v1 v2 []).points.getD q default).x|
        ≤ 2e-15 * (|v0.x| + |v1.x| + |v2.x|) ∧
      |((quadrature_degree4_fp v0 v1 v2 []).baryweights.getD q default).get 0 * v0.y
          + ((quadrature_degree4_fp v0 v1 v2 []).baryweights.getD q default).get 1 * v1.y
          + ((quadrature_degree4_fp v0 v1 v2 []).baryweights.getD q default).get 2 * v2.y
          - ((quadrature_degree4_fp v0 v1 v2 []).points.getD q default).y|
        ≤ 2e-15 * (|v0.y| + |v1.y| + |v2.y|) ∧
      |to_double (to_double
            (to_double
                (((quadrature_degree4_fp v0 v1 v2 []).baryweights.getD q default).get 0 * v0.x)
              + to_double
                (((quadrature_degree4_fp v0 v1 v2 []).baryweights.getD q default).get 1 * v1.x))
            + to_double
                (((quadrature_degree4_fp v0 v1 v2 []).baryweights.getD q default).get 2 * v2.x))
          - ((quadrature_degree4_fp v0 v1 v2 []).points.getD q default).x|
        ≤ 2e-15 * (|v0.x| + |v1.x| + |v2.x|) ∧
      |to_double (to_double
            (to_double
                (((quadrature_degree4_fp v0 v1 v2 []).baryweights.getD q default).get 0 * v0.y)
              + to_double
                (((quadrature_degree4_fp v0 v1 v2 []).baryweights.getD q default).get 1 * v1.y))
            + to_double
                (((quadrature_degree4_fp v0 v1 v2 []).baryweights.getD q default).get 2 * v2.y))
          - ((quadrature_degree4_fp v0 v1 v2 []).points.getD q default).y|
        ≤ 2e-15 * (|v0.y| + |v1.y| + |v2.y|)) ∧
    ∃ res, polynomial_conv fuel E mesh axes uph out0 = some res ∧
      ∀ k, k < mesh.num_of_faces → ∃ vts, f_corners fuel mesh (mesh.get_face k) = some vts ∧
      ∀ c, c < 3 → ∀ a, a < (axes.getD 0 []).length → ∀ q, q < 6 →
        ∃ e0 e1 e2,
          res.S_fv[sample_offset (axes.getD 0 []).length k c a q * 3 + 0]? = some e0 ∧
          res.S_fv[sample_offset (axes.getD 0 []).length k c a q * 3 + 1]? = some e1 ∧
          res.S_fv[sample_offset (axes.getD 0 []).length k c a q * 3 + 2]? = some e2 ∧
          ∀ v0 v1 v2 : vec2 α, ∃ f0 f1 f2,
            (sample_block_fp mesh (axes.getD 0 []).length k vts c a
                (axis_offset E mesh axes (axes.getD 0 []).length vts c) v0 v1 v2
                out).S_fv[
                sample_offset (axes.getD 0 []).length k c a q * 3 + 0]? = some f0 ∧
            (sample_block_fp mesh (axes.getD 0 []).length k vts c a
                (axis_offset E mesh axes (axes.getD 0 []).length vts c) v0 v1 v2
                out).S_fv[
                sample_offset (axes.getD 0 []).length k c a q * 3 + 1]? = some f1 ∧
            (sample_block_fp mesh (axes.getD 0 []).length k vts c a
                (axis_offset E mesh axes (axes.getD 0 []).length vts c) v0 v1 v2
                out).S_fv[
                sample_offset (axes.getD 0 []).length k c a q * 3 + 2]? = some f2 ∧
            f0.row = e0.row ∧ f1.row = e1.row ∧ f2.row = e2.row ∧
            f0.col = e0.col ∧ f1.col = e1.col ∧ f2.col = e2.col ∧
            |f0.val * v0.x + f1.val * v1.x + f2.val * v2.x
                - ((quadrature_degree4_fp v0 v1 v2 []).points.getD q default).x|
              ≤ 6e-8 * (|v0.x| + |v1.x| + |v2.x|) ∧
            |f0.val * v0.y + f1.val * v1.y + f2.val * v2.y
                - ((quadrature_degree4_fp v0 v1 v2 []).points.getD q default).y|
              ≤ 6e-8 * (|v0.y| + |v1.y| + |v2.y|) := by
  have hb : ∀ (v0 v1 v2 : vec2 α) (q : Nat) (i : Nat), q < 6 → i < 3 →
      ((quadrature_degree4_fp v0 v1 v2 []).baryweights.getD q default).get i
        = to_double (((bary_weights (α := α)).getD q default).get i) :=
    fun v0 v1 v2 q i hq hi => baryweights_fp_get v0 v1 v2 q i hq hi
  constructor
  · intro v0 v1 v2 q hq
    obtain ⟨px, py⟩ := point_fp_coords v0 v1 v2 [] q hq
    rw [px, py, hb v0 v1 v2 q 0 hq (by decide), hb v0 v1 v2 q 1 hq (by decide),
      hb v0 v1 v2 q 2 hq (by decide)]
    exact ⟨(round_trip_coord q hq v0.x v1.x v2.x).1, (round_trip_coord q hq v0.y v1.y v2.y).1,
      (round_trip_coord q hq v0.x v1.x v2.x).2.1, (round_trip_coord q hq v0.y v1.y v2.y).2.1⟩
  · obtain ⟨res, h1, h2⟩ := polynomial_conv_S_fv fuel E mesh axes uph out0 len hr hf
    refine ⟨res, h1, fun k hk => ?_⟩
    obtain ⟨vts, hv⟩ :=
      Option.isSome_iff_exists.mp (f_corners_isSome fuel mesh hf (mesh.get_face k))
    refine ⟨vts, hv, fun c hc a ha q hq => ?_⟩
    have hbd := block_offset_bound _ _ k c a hk hc ha _ hout
    refine ⟨_, _, _, h2 k hk vts hv c hc a ha q hq 0 (by decide),
      h2 k hk vts hv c hc a ha q hq 1 (by decide), h2 k hk vts hv c hc a ha q hq 2 (by decide),
      fun v0 v1 v2 => ?_⟩
    obtain ⟨px, py⟩ := point_fp_coords v0 v1 v2 [] q hq
    rw [px, py]
    exact ⟨_, _, _, sample_block_fp_S_fv mesh _ k vts c a _ v0 v1 v2 out hbd q hq 0 (by decide),
      sample_block_fp_S_fv mesh _ k vts c a _ v0 v1 v2 out hbd q hq 1 (by decide),
      sample_block_fp_S_fv mesh _ k vts c a _ v0 v1 v2 out hbd q hq 2 (by decide),
      rfl, rfl, rfl, rfl, rfl, rfl,
      (round_trip_coord q hq v0.x v1.x v2.x).2.2, (round_trip_coord q hq v0.y v1.y v2.y).2.2⟩

theorem quadrature_round_trip_witness :
    ∃ res, polynomial_conv 3 extQ triMesh triAxes false empty_outputs = some res ∧
      ∀ k, k < triMesh.num_of_faces → ∃ vts, f_corners 3 triMesh (triMesh.get_face k) = some vts ∧
      ∀ c, c < 3 → ∀ a, a < (triAxes.getD 0 []).length → ∀ q, q < 6 →
        ∃ e0 e1 e2,
          res.S_fv[sample_offset (triAxes.getD 0 []).length k c a q * 3 + 0]? = some e0 ∧
          res.S_fv[sample_offset (triAxes.getD 0 []).length k c a q * 3 + 1]? = some e1 ∧
          res.S_fv[sample_offset (triAxes.getD 0 []).length k c a q * 3 + 2]? = some e2 ∧
          ∀ v0 v1 v2 : vec2 ℚ, ∃ f0 f1 f2,
            (sample_block_fp triMesh (triAxes.getD 0 []).length k vts c a
                (axis_offset extQ triMesh triAxes (triAxes.getD 0 []).length vts c) v0 v1 v2
                (resize_outputs false 1 1 empty_outputs)).S_fv[
                sample_offset (triAxes.getD 0 []).length k c a q * 3 + 0]? = some f0 ∧
            (sample_block_fp triMesh (triAxes.getD 0 []).length k vts c a
                (axis_offset extQ triMesh triAxes (triAxes.getD 0 []).length vts c) v0 v1 v2
                (resize_outputs false 1 1 empty_outputs)).S_fv[
                sample_offset (triAxes.getD 0 []).length k c a q * 3 + 1]? = some f1 ∧
            (sample_block_fp triMesh (triAxes.getD 0 []).length k vts c a
                (axis_offset extQ triMesh triAxes (triAxes.getD 0 []).length vts c) v0 v1 v2
                (resize_outputs false 1 1 empty_outputs)).S_fv[
                sample_offset (triAxes.getD 0 []).length k c a q * 3 + 2]? = some f2 ∧
            f0.row = e0.row ∧ f1.row = e1.row ∧ f2.row = e2.row ∧
            f0.col = e0.col ∧ f1.col = e1.col ∧ f2.col = e2.col ∧
            |f0.val * v0.x + f1.val * v1.x + f2.val * v2.x
                - ((quadrature_degree4_fp v0 v1 v2 []).points.getD q default).x|
              ≤ 6e-8 * (|v0.x| + |v1.x| + |v2.x|) ∧
            |f0.val * v0.y + f1.val * v1.y + f2.val * v2.y
                - ((quadrature_degree4_fp v0 v1 v2 []).points.getD q default).y|
              ≤ 6e-8 * (|v0.y| + |v1.y| + |v2.y|) :=
  (quadrature_round_trip 3 extQ triMesh triAxes false empty_outputs
    (resize_outputs false 1 1 empty_outputs) (fun _ => 1)
    triMesh_rings_close triMesh_faces_close (by decide)).2

/-- C4 as stated fails in floating point. On the triangle `(1,0)`, `(2,0)`,
`(2,1)` at the fourth quadrature point the returned `x` is
`8594776653702391 / 2^52`, while the returned triple rebuilds `x` as that number
less `5 / 2^56` in exact arithmetic and less `1 / 2^52` when evaluated in binary64.
On the triangle `(0,0)`, `(1,0)`, `(0,1)` at the first quadrature point the
returned `x` is the binary64 number nearest `0.10810301816807`,
`243426356169673 / 2^51`, while the three scatter entries of the sample hold
floats that rebuild the binary32 number nearest it, `14509341 / 2^27`. -/
theorem quadrature_round_trip_counterexample :
    ((quadrature_degree4_fp (⟨1, 0⟩ : vec2 ℚ) ⟨2, 0⟩ ⟨2, 1⟩ []).points.getD 3 default).x
      = 8594776653702391 / 2 ^ 52 ∧
    ((quadrature_degree4_fp (⟨1, 0⟩ : vec2 ℚ) ⟨2, 0⟩ ⟨2, 1⟩ []).baryweights.getD 3 default).get 0 * 1
      + ((quadrature_degree4_fp (⟨1, 0⟩ : vec2 ℚ) ⟨2, 0⟩ ⟨2, 1⟩ []).baryweights.getD 3 default).get 1 * 2
      + ((quadrature_degree4_fp (⟨1, 0⟩ : vec2 ℚ) ⟨2, 0⟩ ⟨2, 1⟩ []).baryweights.getD 3 default).get 2 * 2
      = 8594776653702391 / 2 ^ 52 - 5 / 2 ^ 56 ∧
    to_double (to_double
        (to_double (((quadrature_degree4_fp (⟨1, 0⟩ : vec2 ℚ) ⟨2, 0⟩ ⟨2, 1⟩ []).baryweights.getD
            3 default).get 0 * 1)
          + to_double (((quadrature_degree4_fp (⟨1, 0⟩ : vec2 ℚ) ⟨2, 0⟩ ⟨2, 1⟩ []).baryweights.getD
            3 default).get 1 * 2))
        + to_double (((quadrature_degree4_fp (⟨1, 0⟩ : vec2 ℚ) ⟨2, 0⟩ ⟨2, 1⟩ []).baryweights.getD
            3 default).get 2 * 2))
      = 8594776653702391 / 2 ^ 52 - 1 / 2 ^ 52 ∧
    ((quadrature_degree4_fp (⟨0, 0⟩ : vec2 ℚ) ⟨1, 0⟩ ⟨0, 1⟩ []).points.getD 0 default).x
      = 243426356169673 / 2 ^ 51 ∧
    ∃ f0 f1 f2,
      (sample_block_fp triMesh 1 0 [0, 1, 2] 0 0 [0, 0, 0] (⟨0, 0⟩ : vec2 ℚ) ⟨1, 0⟩ ⟨0, 1⟩
        (resize_outputs false 1 1 empty_outputs)).S_fv[0]? = some f0 ∧
      (sample_block_fp triMesh 1 0 [0, 1, 2] 0 0 [0, 0, 0] (⟨0, 0⟩ : vec2 ℚ) ⟨1, 0⟩ ⟨0, 1⟩
        (resize_outputs false 1 1 empty_outputs)).S_fv[1]? = some f1 ∧
      (sample_block_fp triMesh 1 0 [0, 1, 2] 0 0 [0, 0, 0] (⟨0, 0⟩ : vec2 ℚ) ⟨1, 0⟩ ⟨0, 1⟩
        (resize_outputs false 1 1 empty_outputs)).S_fv[2]? = some f2 ∧
      f0.val * 0 + f1.val * 1 + f2.val * 0 = 14509341 / 2 ^ 27 := by
  have hS : to_double (0.816847572980459 : ℚ) = 3678754425293289 / 2 ^ 52 :=
    round_to_val 53 7357508850586578 (-53) _ _ (by norm_num) (by norm_num)
      (by rw [abs_lt]; constructor <;> norm_num) (by norm_num)
  have hT : to_double (0.091576213509771 : ℚ) = 6598761616617691 / 2 ^ 56 :=
    round_to_val 53 6598761616617691 (-56) _ _ (by norm_num) (by norm_num)
      (by rw [abs_lt]; constructor <;> norm_num) (by norm_num)
  have hB0 : to_double (0.09157621350977004 : ℚ) = 6598761616617621 / 2 ^ 56 :=
    round_to_val 53 6598761616617621 (-56) _ _ (by norm_num) (by norm_num)
      (by rw [abs_lt]; constructor <;> norm_num) (by norm_num)
  have hB2 : to_double (0.09157621350977101 : ℚ) = 6598761616617691 / 2 ^ 56 :=
    round_to_val 53 6598761616617691 (-56) _ _ (by norm_num) (by norm_num)
      (by rw [abs_lt]; constructor <;> norm_num) (by norm_num)
  have hp1 : to_double (3678754425293289 / 2 ^ 52 * 1 : ℚ) = 3678754425293289 / 2 ^ 52 :=
    round_to_val 53 7357508850586578 (-53) _ _ (by norm_num) (by norm_num)
      (by rw [abs_lt]; constructor <;> norm_num) (by norm_num)
  have ha1 : to_double (1 + 3678754425293289 / 2 ^ 52 : ℚ) = 8182354052663785 / 2 ^ 52 :=
    round_to_val 53 8182354052663785 (-52) _ _ (by norm_num) (by norm_num)
      (by rw [abs_lt]; constructor <;> norm_num) (by norm_num)
  have hp2 : to_double (6598761616617691 / 2 ^ 56 * 1 : ℚ) = 6598761616617691 / 2 ^ 56 :=
    round_to_val 53 6598761616617691 (-56) _ _ (by norm_num) (by norm_num)
      (by rw [abs_lt]; constructor <;> norm_num) (by norm_num)
  have hP : to_double (8182354052663785 / 2 ^ 52 + 6598761616617691 / 2 ^ 56 : ℚ) = 8594776653702391 / 2 ^ 52 :=
    round_to_val 53 8594776653702391 (-52) _ _ (by norm_num) (by norm_num)
      (by rw [abs_lt]; constructor <;> norm_num) (by norm_num)
  have hr0 : to_double (6598761616617621 / 2 ^ 56 * 1 : ℚ) = 6598761616617621 / 2 ^ 56 :=
    round_to_val 53 6598761616617621 (-56) _ _ (by norm_num) (by norm_num)
      (by rw [abs_lt]; constructor <;> norm_num) (by norm_num)
  have hr1 : to_double (3678754425293289 / 2 ^ 52 * 2 : ℚ) = 3678754425293289 / 2 ^ 51 :=
    round_to_val 53 7357508850586578 (-52) _ _ (by norm_num) (by norm_num)
      (by rw [abs_lt]; constructor <;> norm_num) (by norm_num)
  have hr2 : to_double (6598761616617691 / 2 ^ 56 * 2 : ℚ) = 6598761616617691 / 2 ^ 55 :=
    round_to_val 53 6598761616617691 (-55) _ _ (by norm_num) (by norm_num)
      (by rw [abs_lt]; constructor <;> norm_num) (by norm_num)
  have hs1 : to_double (6598761616617621 / 2 ^ 56 + 3678754425293289 / 2 ^ 51 : ℚ) = 7769931451625179 / 2 ^ 52 :=
    round_to_val 53 7769931451625179 (-52) _ _ (by norm_num) (by norm_num)
      (by rw [abs_lt]; constructor <;> norm_num) (by norm_num)
  have hR : to_double (7769931451625179 / 2 ^ 52 + 6598761616617691 / 2 ^ 55 : ℚ) = 4297388326851195 / 2 ^ 51 :=
    round_to_val 53 8594776653702390 (-52) _ _ (by norm_num) (by norm_num)
      (by rw [abs_lt]; constructor <;> norm_num) (by norm_num)
  have hU : to_double (0.10810301816807 : ℚ) = 243426356169673 / 2 ^ 51 :=
    round_to_val 53 7789643397429536 (-56) _ _ (by norm_num) (by norm_num)
      (by rw [abs_lt]; constructor <;> norm_num) (by norm_num)
  have hV : to_double (0.445948490915965 : ℚ) = 2008373457515575 / 2 ^ 52 :=
    round_to_val 53 8033493830062300 (-54) _ _ (by norm_num) (by norm_num)
      (by rw [abs_lt]; constructor <;> norm_num) (by norm_num)
  have hUf : to_float (243426356169673 / 2 ^ 51 : ℚ) = 14509341 / 2 ^ 27 :=
    round_to_val 24 14509341 (-27) _ _ (by norm_num) (by norm_num)
      (by rw [abs_lt]; constructor <;> norm_num) (by norm_num)
  have hVf : to_float (2008373457515575 / 2 ^ 52 : ℚ) = 3740887 / 2 ^ 23 :=
    round_to_val 24 14963548 (-25) _ _ (by norm_num) (by norm_num)
      (by rw [abs_lt]; constructor <;> norm_num) (by norm_num)
  have hq1 : to_double (243426356169673 / 2 ^ 51 * 1 : ℚ) = 243426356169673 / 2 ^ 51 :=
    round_to_val 53 7789643397429536 (-56) _ _ (by norm_num) (by norm_num)
      (by rw [abs_lt]; constructor <;> norm_num) (by norm_num)
  have hq2 : to_double (0 + 243426356169673 / 2 ^ 51 : ℚ) = 243426356169673 / 2 ^ 51 :=
    round_to_val 53 7789643397429536 (-56) _ _ (by norm_num) (by norm_num)
      (by rw [abs_lt]; constructor <;> norm_num) (by norm_num)
  have hq3 : to_double (243426356169673 / 2 ^ 51 + 0 : ℚ) = 243426356169673 / 2 ^ 51 :=
    round_to_val 53 7789643397429536 (-56) _ _ (by norm_num) (by norm_num)
      (by rw [abs_lt]; constructor <;> norm_num) (by norm_num)
  have e21 : (2 : ℚ) - 1 = 1 := by norm_num
  have e10 : (1 : ℚ) - 0 = 1 := by norm_num
  have e00 : (0 : ℚ) - 0 = 0 := by norm_num
  have hb : ∀ i, i < 3 →
      ((quadrature_degree4_fp (⟨1, 0⟩ : vec2 ℚ) ⟨2, 0⟩ ⟨2, 1⟩ []).baryweights.getD 3 default).get i
        = to_double (((bary_weights (α := ℚ)).getD 3 default).get i) := by
    intro i hi
    simp only [quadrature_degree4_fp, List.nil_append]
    interval_cases i <;> rfl
  have kP : to_double (to_double ((1 : ℚ) + to_double (to_double 0.816847572980459
        * to_double (2 - 1))) + to_double (to_double 0.091576213509771 * to_double (2 - 1)))
      = 8594776653702391 / 2 ^ 52 := by
    rw [e21, to_double_one, hS, hT, hp1, ha1, hp2, hP]
  have kR : to_double (to_double (to_double (to_double (0.09157621350977004 : ℚ) * 1)
        + to_double (to_double (0.816847572980459 : ℚ) * 2))
        + to_double (to_double (0.09157621350977101 : ℚ) * 2))
      = 8594776653702391 / 2 ^ 52 - 1 / 2 ^ 52 := by
    rw [hB0, hS, hB2, hr0, hr1, hr2, hs1, hR]
    norm_num
  have kU : to_double (to_double ((0 : ℚ) + to_double (to_double 0.10810301816807
        * to_double (1 - 0))) + to_double (to_double 0.445948490915965 * to_double (0 - 0)))
      = 243426356169673 / 2 ^ 51 := by
    rw [e10, e00, to_double_one, to_double_zero, mul_zero, to_double_zero, hU, hq1, hq2, hq3]
  refine ⟨?_, ?_, ?_, ?_, ?_⟩
  · rw [(point_fp_coords (⟨1, 0⟩ : vec2 ℚ) ⟨2, 0⟩ ⟨2, 1⟩ [] 3 (by decide)).1]
    simp only [pos_blend_at, pos_blend, List.getD_cons_zero, List.getD_cons_succ]
    exact kP
  · rw [hb 0 (by decide), hb 1 (by decide), hb 2 (by decide)]
    simp only [bary_weights, List.getD_cons_zero, List.getD_cons_succ, vec3.get]
    rw [hB0, hS, hB2]
    norm_num
  · rw [hb 0 (by decide), hb 1 (by decide), hb 2 (by decide)]
    simp only [bary_weights, List.getD_cons_zero, List.getD_cons_succ, vec3.get]
    exact kR
  · rw [(point_fp_coords (⟨0, 0⟩ : vec2 ℚ) ⟨1, 0⟩ ⟨0, 1⟩ [] 0 (by decide)).1]
    simp only [pos_blend_at, pos_blend, List.getD_cons_zero, List.getD_cons_succ]
    exact kU
  · refine ⟨_, _, _,
      sample_block_fp_S_fv triMesh 1 0 [0, 1, 2] 0 0 [0, 0, 0] _ _ _ _ (by decide) 0 (by decide)
        0 (by decide),
      sample_block_fp_S_fv triMesh 1 0 [0, 1, 2] 0 0 [0, 0, 0] _ _ _ _ (by decide) 0 (by decide)
        1 (by decide),
      sample_block_fp_S_fv triMesh 1 0 [0, 1, 2] 0 0 [0, 0, 0] _ _ _ _ (by decide) 0 (by decide)
        2 (by decide), ?_⟩
    simp only [bary_weights, List.getD_cons_zero, List.getD_cons_succ, vec3.get, stored_float,
      mul_zero, mul_one, zero_add, add_zero]
    rw [hU, hUf]

end RoundTrip
section Claims7

theorem triMeshR_rings_close : rings_close 3 triMeshR (fun _ => 1) := by
  intro v hv
  have hv' : v < 3 := hv
  interval_cases v <;> exact ⟨⟨rfl, fun j hj => by interval_cases j; decide⟩, by decide⟩

theorem triMeshR_faces_close : faces_close 3 triMeshR :=
  fun _ => ⟨2, by decide, rfl⟩



theorem vec2_eta (v : vec2 ℝ) : v = ⟨v.x, v.y⟩ := rfl

end Claims7
section Claims8

theorem sqrt_4 : Real.sqrt 4 = 2 := by
  rw [show (4 : ℝ) = 2 ^ 2 by norm_num]; exact Real.sqrt_sq (by norm_num)

theorem sqrt_16 : Real.sqrt 16 = 4 := by
  rw [show (16 : ℝ) = 4 ^ 2 by norm_num]; exact Real.sqrt_sq (by norm_num)

theorem sqrt_64 : Real.sqrt 64 = 8 := by
  rw [show (64 : ℝ) = 8 ^ 2 by norm_num]; exact Real.sqrt_sq (by norm_num)

theorem triMeshR_ring_area : ring_area extR triMeshR 0 1 = 4 := by
  simp [ring_area, ring_faces, ring_edges, List.range_succ, face_area, tri_area3d,
    triMeshR, ring_next, vec3.length, vec3.cross, vec3.sub, extR]
  norm_num [sqrt_64]

theorem triMeshR_block_pts (rrs : List ℝ) (h : rrs.getD 0 0 = 2) :
    block_pts_2d extR triMeshR triAxesR rrs [0, 1, 2] 0 0 = [⟨0, 0⟩, ⟨1, 0⟩, ⟨0, 2⟩] := by
  simp [block_pts_2d, pts_2d, frame, corner_edge, face_pts, triMeshR, triAxesR, extR,
    robust_normalize, vec2.length, vec3.length, vec3.dot, vec3.cross, vec3.sub, vec2.smul,
    vec2.sdiv, h]
  have h' : rrs[0]?.getD 0 = 2 := by rw [← List.getD_eq_getElem?_getD]; exact h
  norm_num [sqrt_4, sqrt_16, h']

end Claims8
section RuleExactness

/-- C6 (amended): degree-4 rule exactness up to rounding (to nearest, with
unbounded exponent range). For every block whose local 2D triangle is
`T = ((0,0), (x1,y1), (x2,y2))` (line 189 puts the first vertex at the origin)
and every polynomial `p` of total degree at most 3 with coefficient vector `c`
over the 10 monomials, the sum over the 6 samples of the block of the dot
product of `c` with the row of `D_fw` of the sample, the rows being the floats
that the block in floating point leaves (in outputs whose rows of `D_fw` have 10
entries and reach the offsets of the block), differs from the integral of `p`
over `T` by at most
`3e-8 * (|x1 * y2| + |y1 * x2|) * sum_t |c_t| * (|x1| + |x2|)^ex(t) * (|y1| + |y2|)^ey(t)`. -/
theorem rule_exactness (mesh : Mesh3D ℝ) (axis_num face : Nat) (vts : List Nat)
    (corner axis : Nat) (axis_offset : List Int) (x1 y1 x2 y2 : ℝ) (out : Outputs ℝ)
    (coeff : Nat → ℝ) (hrows : ∀ x, x ∈ out.D_fw → x.length = 10)
    (hlen : sample_offset axis_num face corner axis 5 < out.D_fw.length) :
    |((List.range 6).map (fun q => row_dot coeff
          ((sample_block_fp mesh axis_num face vts corner axis axis_offset
              ⟨0, 0⟩ ⟨x1, y1⟩ ⟨x2, y2⟩ out).D_fw.getD
            (sample_offset axis_num face corner axis q) []))).sum
        - triangle_integral (cubic_poly coeff) ⟨0, 0⟩ ⟨x1, y1⟩ ⟨x2, y2⟩|
      ≤ 3e-8 * (|x1 * y2| + |y1 * x2|)
          * cubic_poly (fun t => |coeff t|) (|x1| + |x2|) (|y1| + |y2|) := by
  have hrow : ∀ q, q ∈ List.range 6 →
      row_dot coeff
          ((sample_block_fp mesh axis_num face vts corner axis axis_offset
              ⟨0, 0⟩ ⟨x1, y1⟩ ⟨x2, y2⟩ out).D_fw.getD
            (sample_offset axis_num face corner axis q) [])
        = row_dot coeff
            (dfw_row_fp (quadrature_degree4_fp (⟨0, 0⟩ : vec2 ℝ) ⟨x1, y1⟩ ⟨x2, y2⟩ []) q) := by
    intro q hq
    rw [sample_block_fp_D_fw mesh axis_num face vts corner axis axis_offset _ _ _ out hrows
      hlen q (List.mem_range.mp hq)]
  rw [List.map_congr_left hrow]
  have h1 := rows_fp_err coeff x1 y1 x2 y2
  have h2 := triangle_rule_error coeff x1 y1 x2 y2
  have hc : (0 : ℝ) ≤ cubic_poly (fun t => |coeff t|) (|x1| + |x2|) (|y1| + |y2|) := by
    unfold cubic_poly
    apply List.sum_nonneg
    intro v hv
    obtain ⟨t, ht, rfl⟩ := List.mem_map.mp hv
    rw [cubic_poly_term_eq t (List.mem_range.mp ht)]
    positivity
  have hA : triarea2d (⟨0, 0⟩ : vec2 ℝ) ⟨x1, y1⟩ ⟨x2, y2⟩ ≤ 0.5 * (|x1 * y2| + |y1 * x2|) := by
    simp only [triarea2d, vec2.sub, sub_zero]
    have := abs_sub (x1 * y2) (y1 * x2)
    linarith
  have hA0 := triarea2d_nonneg (⟨0, 0⟩ : vec2 ℝ) ⟨x1, y1⟩ ⟨x2, y2⟩
  have h3 : 1e-15 * triarea2d (⟨0, 0⟩ : vec2 ℝ) ⟨x1, y1⟩ ⟨x2, y2⟩
        * cubic_poly (fun t => |coeff t|) (|x1| + |x2|) (|y1| + |y2|)
      ≤ 1e-15 * (0.5 * (|x1 * y2| + |y1 * x2|))
        * cubic_poly (fun t => |coeff t|) (|x1| + |x2|) (|y1| + |y2|) :=
    mul_le_mul_of_nonneg_right (mul_le_mul_of_nonneg_left hA (by norm_num)) hc
  have hS : (0 : ℝ) ≤ (|x1 * y2| + |y1 * x2|)
      * cubic_poly (fun t => |coeff t|) (|x1| + |x2|) (|y1| + |y2|) :=
    mul_nonneg (by positivity) hc
  generalize ((List.range 6).map (fun q => row_dot coeff
    (dfw_row_fp (quadrature_degree4_fp (⟨0, 0⟩ : vec2 ℝ) ⟨x1, y1⟩ ⟨x2, y2⟩ []) q))).sum = F
    at h1 ⊢
  generalize ((List.range 6).map (fun q => row_dot coeff
    (dfw_row (quadrature_degree4 (⟨0, 0⟩ : vec2 ℝ) ⟨x1, y1⟩ ⟨x2, y2⟩ []) q))).sum = R at h1 h2
  generalize triangle_integral (cubic_poly coeff) ⟨0, 0⟩ ⟨x1, y1⟩ ⟨x2, y2⟩ = I at h2 ⊢
  generalize triarea2d (⟨0, 0⟩ : vec2 ℝ) ⟨x1, y1⟩ ⟨x2, y2⟩ = A at *
  generalize cubic_poly (fun t => |coeff t|) (|x1| + |x2|) (|y1| + |y2|) = C at *
  generalize |x1 * y2| + |y1 * x2| = S at *
  rw [abs_le] at h1 h2 ⊢
  constructor <;> nlinarith [h1.1, h1.2, h2.1, h2.2, h3, hS]

theorem rule_exactness_witness :
    |((List.range 6).map (fun q => row_dot (fun _ => (1 : ℝ))
          ((sample_block_fp triMeshR 1 0 [0, 1, 2] 0 0 [0, 0, 0]
              ⟨0, 0⟩ ⟨1, 0⟩ ⟨0, 2⟩ (resize_outputs false 1 1 empty_outputs)).D_fw.getD
            (sample_offset 1 0 0 0 q) []))).sum
        - triangle_integral (cubic_poly (fun _ => (1 : ℝ))) ⟨0, 0⟩ ⟨1, 0⟩ ⟨0, 2⟩|
      ≤ 3e-8 * (|(1 : ℝ) * 2| + |(0 : ℝ) * 0|)
          * cubic_poly (fun t => |(fun _ => (1 : ℝ)) t|) (|(1 : ℝ)| + |(0 : ℝ)|)
              (|(0 : ℝ)| + |(2 : ℝ)|) :=
  rule_exactness triMeshR 1 0 [0, 1, 2] 0 0 [0, 0, 0] 1 0 0 2
    (resize_outputs false 1 1 empty_outputs) (fun _ => 1) (resized_rows10 false 1 1)
    (by simp [resize_outputs, resize, fvaq_num, sample_offset, empty_outputs])

end RuleExactness
section RuleExactnessFails

/-- C6 as stated fails on the one-triangle mesh `triMeshR` for the constant
polynomial 1: the block of face 0, corner 0, axis 0 has the local triangle
`(0,0)`, `(1,0)`, `(0,2)` of area 1, the integral of 1 over it is 1, and the six
floats stored in `D_fw[.][0]` for that triangle sum to `1 + 1 / 2^27`. -/
theorem rule_exactness_counterexample :
    (∃ st, polynomial_conv_state 3 extR triMeshR triAxesR false empty_outputs = some st ∧
      f_corners 3 triMeshR (triMeshR.get_face 0) = some [0, 1, 2] ∧
      block_pts_2d extR triMeshR triAxesR st.1 [0, 1, 2] 0 0 = [⟨0, 0⟩, ⟨1, 0⟩, ⟨0, 2⟩]) ∧
    ((List.range 6).map (fun q => row_dot (fun t => if t = 0 then (1 : ℝ) else 0)
        ((sample_block_fp triMeshR 1 0 [0, 1, 2] 0 0 [0, 0, 0]
            ⟨0, 0⟩ ⟨1, 0⟩ ⟨0, 2⟩ (resize_outputs false 1 1 empty_outputs)).D_fw.getD
          (sample_offset 1 0 0 0 q) []))).sum = 1 + 1 / 2 ^ 27 ∧
    triangle_integral (cubic_poly (fun t => if t = 0 then (1 : ℝ) else 0))
        ⟨0, 0⟩ ⟨1, 0⟩ ⟨0, 2⟩ = 1 := by
  refine ⟨?_, ?_, ?_⟩
  · obtain ⟨res, h3, _⟩ := polynomial_conv_state_eq 3 extR triMeshR triAxesR false
      empty_outputs (fun _ => 1) triMeshR_rings_close triMeshR_faces_close
    refine ⟨_, h3, rfl, ?_⟩
    apply triMeshR_block_pts
    rw [List.getD_eq_getElem?_getD]
    dsimp only
    rw [scales_get]
    have hra := triMeshR_ring_area
    have hv : triMeshR.get_vertex 0 = 0 := rfl
    have he : (triMeshR.vert 0).edge = 0 := rfl
    have hn : triMeshR.num_of_vertices = 3 := rfl
    have hd : degenerate extR (4 : ℝ) = false := by
      simp [degenerate, extR]; norm_num
    simp only [hv, he, hra, hn, hd]
    simp [extR, sqrt_4]
  · obtain ⟨_, hd⟩ := weights_fp_102 (α := ℝ)
    have hrow : ∀ q, q ∈ List.range 6 →
        row_dot (fun t => if t = 0 then (1 : ℝ) else 0)
          ((sample_block_fp triMeshR 1 0 [0, 1, 2] 0 0 [0, 0, 0]
              ⟨0, 0⟩ ⟨1, 0⟩ ⟨0, 2⟩ (resize_outputs false 1 1 empty_outputs)).D_fw.getD
            (sample_offset 1 0 0 0 q) [])
          = if q < 3 then 14990885 / 2 ^ 26 else 14757473 / 2 ^ 27 := by
      intro q hq
      rw [sample_block_fp_D_fw triMeshR 1 0 [0, 1, 2] 0 0 [0, 0, 0] _ _ _ _
        (resized_rows10 false 1 1)
        (by simp [resize_outputs, resize, fvaq_num, sample_offset, empty_outputs])
        q (List.mem_range.mp hq), ← hd q (List.mem_range.mp hq),
        ← dfw_row_fp_get _ q 0 (by decide)]
      simp [row_dot, List.range_succ]
    rw [List.map_congr_left hrow]
    simp only [List.range_succ, List.range_zero, List.nil_append, List.cons_append,
      List.map_cons, List.map_nil, List.sum_cons, List.sum_nil]
    norm_num
  · rw [triangle_integral_cubic]
    norm_num [triarea2d, vec2.sub]

end RuleExactnessFails

section Claims11
variable {α : Type} [LinearOrderedField α]

theorem triMesh_reduction_count :
    (reduction_entries 3 extQ triMesh (triAxes.getD 0 []).length (fun _ => 1)).length = 3 := by
  rw [length_reduction_entries]
  have h64 : Nat.sqrt (Int.toNat 64) = 8 := by
    rw [show Int.toNat 64 = 64 from rfl]; norm_num
  have hd : ∀ v, v < 3 → degenerate extQ
      (ring_area extQ triMesh (triMesh.vert (triMesh.get_vertex v)).edge 1) = false := by
    intro v hv
    interval_cases v <;>
    · simp [degenerate, ring_area, ring_faces, ring_edges, List.range_succ, face_area,
        tri_area3d, triMesh, ring_next, vec3.length, vec3.cross, vec3.sub, extQ, qsqrt]
      norm_num [h64]
  have hl : ∀ v, v < 3 →
      (ring_faces triMesh (triMesh.vert (triMesh.get_vertex v)).edge 1).length = 1 := by
    intro v hv
    interval_cases v <;> rfl
  show ((List.range 3).map _).sum = 3
  simp only [List.range_succ, List.range_zero, List.nil_append, List.cons_append, List.map_cons,
    List.map_nil, hd 0 (by decide), hd 1 (by decide), hd 2 (by decide), hl 0 (by decide),
    hl 1 (by decide), hl 2 (by decide)]
  rfl

/-- C11: started from empty outputs on a mesh whose rings and face cycles
close, `polynomial_conv` returns with exactly `face_num * 3 * axis_num * 6 * 3`
scatter entries, `face_num * 3 * axis_num * 6` rows of 10 columns in `D_fw`,
and the same number of rows in `D_patchinput`, each of 4 columns with
`use_patch_height` and of 3 columns without; the reduction entries are the list
`reduction_entries`. -/
theorem output_sizes (fuel : Nat) (E : Extern α) (mesh : Mesh3D α)
    (axes : List (List (vec3 α))) (uph : Bool) (len : Nat → Nat)
    (hr : rings_close fuel mesh len) (hf : faces_close fuel mesh) :
    ∃ res, polynomial_conv fuel E mesh axes uph empty_outputs = some res ∧
      res.S_fv.length = mesh.num_of_faces * 3 * (axes.getD 0 []).length * 6 * 3 ∧
      res.D_fw.length = mesh.num_of_faces * 3 * (axes.getD 0 []).length * 6 ∧
      (∀ x, x ∈ res.D_fw → x.length = 10) ∧
      res.D_patchinput.length = mesh.num_of_faces * 3 * (axes.getD 0 []).length * 6 ∧
      (∀ x, x ∈ res.D_patchinput → x.length = if uph then 4 else 3) ∧
      res.S_vf.length
        = (reduction_entries fuel E mesh (axes.getD 0 []).length len).length := by
  obtain ⟨res, h, h1, h2, h3, h4, -, -⟩ := polynomial_conv_sizes fuel E mesh axes uph
    empty_outputs len hr hf (by simp [empty_outputs]) (by simp [empty_outputs])
  refine ⟨res, h, h1, h2.1, h2.2, h3.1, h3.2, ?_⟩
  rw [h4]
  simp [empty_outputs]

theorem output_sizes_witness :
    rings_close 3 triMesh (fun _ => 1) ∧ faces_close 3 triMesh ∧
    ∃ res, polynomial_conv 3 extQ triMesh triAxes false empty_outputs = some res ∧
      res.S_vf.length = 3 ∧ res.S_fv.length = 54 ∧
      res.D_fw.length = 18 ∧ (∀ x, x ∈ res.D_fw → x.length = 10) ∧
      res.D_patchinput.length = 18 ∧ (∀ x, x ∈ res.D_patchinput → x.length = 3) := by
  obtain ⟨res, h, h1, h2, h3, h4, h5, h6⟩ := output_sizes 3 extQ triMesh triAxes false
    (fun _ => 1) triMesh_rings_close triMesh_faces_close
  exact ⟨triMesh_rings_close, triMesh_faces_close, res, h,
    h6.trans triMesh_reduction_count, h1, h2, h3, h4, h5⟩

end Claims11

section Claims12
variable {α : Type} [LinearOrderedField α]

/-- C12: started from empty outputs on a mesh whose rings and face cycles
close, `polynomial_conv` returns with `S_fv_index` exactly twice and
`S_fv_value` exactly as long as `S_fv`, and for every scatter entry `S_fv[k]`:
`S_fv_index[2k]` is its row, `S_fv_index[2k+1]` its column and `S_fv_value[k]`
its value; and likewise `S_vf_index`, `S_vf_value` for the reduction entries
`S_vf`. -/
theorem mirror_consistency (fuel : Nat) (E : Extern α) (mesh : Mesh3D α)
    (axes : List (List (vec3 α))) (uph : Bool) (len : Nat → Nat)
    (hr : rings_close fuel mesh len) (hf : faces_close fuel mesh) :
    ∃ res, polynomial_conv fuel E mesh axes uph empty_outputs = some res ∧
      (res.S_fv_index.length = 2 * res.S_fv.length ∧ res.S_fv_value.length = res.S_fv.length ∧
        ∀ k e, res.S_fv[k]? = some e →
          res.S_fv_index[2 * k]? = some e.row ∧ res.S_fv_index[2 * k + 1]? = some e.col ∧
          res.S_fv_value[k]? = some e.val) ∧
      (res.S_vf_index.length = 2 * res.S_vf.length ∧ res.S_vf_value.length = res.S_vf.length ∧
        ∀ k e, res.S_vf[k]? = some e →
          res.S_vf_index[2 * k]? = some e.row ∧ res.S_vf_index[2 * k + 1]? = some e.col ∧
          res.S_vf_value[k]? = some e.val) := by
  obtain ⟨res, h, h1, h2⟩ := polynomial_conv_mirrors fuel E mesh axes uph empty_outputs len hr hf
  refine ⟨res, h, h1, h2 ?_⟩
  refine ⟨rfl, rfl, ?_⟩
  intro k e hk
  simp [empty_outputs] at hk

theorem mirror_consistency_witness :
    rings_close 3 triMesh (fun _ => 1) ∧ faces_close 3 triMesh ∧
    ∃ res, polynomial_conv 3 extQ triMesh triAxes false empty_outputs = some res ∧
      (res.S_fv_index.length = 2 * res.S_fv.length ∧ res.S_fv_value.length = res.S_fv.length ∧
        ∀ k e, res.S_fv[k]? = some e →
          res.S_fv_index[2 * k]? = some e.row ∧ res.S_fv_index[2 * k + 1]? = some e.col ∧
          res.S_fv_value[k]? = some e.val) ∧
      (res.S_vf_index.length = 2 * res.S_vf.length ∧ res.S_vf_value.length = res.S_vf.length ∧
        ∀ k e, res.S_vf[k]? = some e →
          res.S_vf_index[2 * k]? = some e.row ∧ res.S_vf_index[2 * k + 1]? = some e.col ∧
          res.S_vf_value[k]? = some e.val) :=
  ⟨triMesh_rings_close, triMesh_faces_close,
    mirror_consistency 3 extQ triMesh triAxes false (fun _ => 1)
      triMesh_rings_close triMesh_faces_close⟩

end Claims12

section Claims13
variable {α : Type} [LinearOrderedField α]

/-- C13: for every term `t < 10`, `cubic_poly_term t x y = x ^ ex * y ^ ey` with
`(ex, ey)` the `t`-th pair of `(0,0), (0,1), (1,0), (0,2), (1,1), (2,0), (0,3),
(1,2), (2,1), (3,0)`; and after `polynomial_conv` (incoming `D_fw` rows of 10
entries) the row `D_fw[offset]` of every sample has 10 entries, entry `t` being
that monomial at the 2D position of the sample times the quadrature weight of
the sample, so that entry 0 is the weight itself. -/
theorem dfw_monomial_rows (fuel : Nat) (E : Extern α) (mesh : Mesh3D α)
    (axes : List (List (vec3 α))) (uph : Bool) (out0 : Outputs α) (len : Nat → Nat)
    (hr : rings_close fuel mesh len) (hf : faces_close fuel mesh)
    (hrows : ∀ x, x ∈ out0.D_fw → x.length = 10) :
    (∀ t, t < 10 → ∀ x y : α,
      cubic_poly_term t x y
        = x ^ (monomial_exponents.getD t (0, 0)).1 * y ^ (monomial_exponents.getD t (0, 0)).2) ∧
    ∃ st, polynomial_conv_state fuel E mesh axes uph out0 = some st ∧
      ∀ k, k < mesh.num_of_faces → ∃ vts, f_corners fuel mesh (mesh.get_face k) = some vts ∧
      ∀ c, c < 3 → ∀ a, a < (axes.getD 0 []).length → ∀ q, q < 6 →
        ∃ row, st.2.D_fw[sample_offset (axes.getD 0 []).length k c a q]? = some row ∧
          row.length = 10 ∧
          (∀ t, t < 10 → row[t]? = some
            ((((block_quadrature E mesh axes st.1 vts c a).points.getD q default).get 0)
                ^ (monomial_exponents.getD t (0, 0)).1
              * (((block_quadrature E mesh axes st.1 vts c a).points.getD q default).get 1)
                ^ (monomial_exponents.getD t (0, 0)).2
              * (block_quadrature E mesh axes st.1 vts c a).weights.getD q 0)) ∧
          row[0]? = some ((block_quadrature E mesh axes st.1 vts c a).weights.getD q 0) := by
  have hterm : ∀ t, t < 10 → ∀ x y : α,
      cubic_poly_term t x y
        = x ^ (monomial_exponents.getD t (0, 0)).1
          * y ^ (monomial_exponents.getD t (0, 0)).2 := by
    intro t ht x y
    rw [cubic_poly_term_eq t ht]
    interval_cases t <;> rfl
  refine ⟨hterm, ?_⟩
  obtain ⟨st, h1, h2⟩ := polynomial_conv_D_fw fuel E mesh axes uph out0 len hr hf hrows
  refine ⟨st, h1, fun k hk => ?_⟩
  obtain ⟨vts, hv⟩ := Option.isSome_iff_exists.mp
    (f_corners_isSome fuel mesh hf (mesh.get_face k))
  refine ⟨vts, hv, fun c hc a ha q hq => ?_⟩
  have hrow : ∀ t, t < 10 → (dfw_row (block_quadrature E mesh axes st.1 vts c a) q)[t]? = some
      ((((block_quadrature E mesh axes st.1 vts c a).points.getD q default).get 0)
          ^ (monomial_exponents.getD t (0, 0)).1
        * (((block_quadrature E mesh axes st.1 vts c a).points.getD q default).get 1)
          ^ (monomial_exponents.getD t (0, 0)).2
        * (block_quadrature E mesh axes st.1 vts c a).weights.getD q 0) := by
    intro t ht
    rw [← hterm t ht]
    simp [dfw_row, ht]
  refine ⟨_, h2 k hk vts hv c hc a ha q hq, dfw_row_length _ q, hrow, ?_⟩
  rw [hrow 0 (by decide)]
  simp [monomial_exponents]

theorem dfw_monomial_rows_witness :
    (∀ t, t < 10 → ∀ x y : ℚ,
      cubic_poly_term t x y
        = x ^ (monomial_exponents.getD t (0, 0)).1 * y ^ (monomial_exponents.getD t (0, 0)).2) ∧
    ∃ st, polynomial_conv_state 3 extQ triMesh triAxes false empty_outputs = some st ∧
      ∀ k, k < triMesh.num_of_faces → ∃ vts, f_corners 3 triMesh (triMesh.get_face k) = some vts ∧
      ∀ c, c < 3 → ∀ a, a < (triAxes.getD 0 []).length → ∀ q, q < 6 →
        ∃ row, st.2.D_fw[sample_offset (triAxes.getD 0 []).length k c a q]? = some row ∧
          row.length = 10 ∧
          (∀ t, t < 10 → row[t]? = some
            ((((block_quadrature extQ triMesh triAxes st.1 vts c a).points.getD q default).get 0)
                ^ (monomial_exponents.getD t (0, 0)).1
              * (((block_quadrature extQ triMesh triAxes st.1 vts c a).points.getD q default).get 1)
                ^ (monomial_exponents.getD t (0, 0)).2
              * (block_quadrature extQ triMesh triAxes st.1 vts c a).weights.getD q 0)) ∧
          row[0]? = some ((block_quadrature extQ triMesh triAxes st.1 vts c a).weights.getD q 0) :=
  dfw_monomial_rows 3 extQ triMesh triAxes false empty_outputs (fun _ => 1)
    triMesh_rings_close triMesh_faces_close (fun x hx => absurd hx (List.not_mem_nil x))

end Claims13

section Claims14
variable {α : Type} [LinearOrderedField α]

/-- C14: after `polynomial_conv` (incoming `D_patchinput` rows of the requested
number of columns), for every block (face position `k`, corner `c` with corner
vertex `fv`, axis `a`) and every sample `q`, with `frame_x` the axis vector
`axes[fv.id][a]`, `frame_y = cross(fv.normal, frame_x)` and `n_i`, `pos_i` the
normal and position of the vertex at corner `(c + i) mod 3`: the entries 0, 1, 2
of `D_patchinput[offset]` are the sums over `i < 3` of `bary[q][i]` times
`dot(n_i, fv.normal)`, `dot(n_i, frame_x)`, `dot(n_i, frame_y)`; with
`use_patch_height` the row has 4 entries and entry 3 is the sum of `bary[q][i]`
times `dot(pos_i - fv.pos, fv.normal) / ring_ref_scale[fv.id]`; without it the
row has 3 entries. -/
theorem patch_input_rows (fuel : Nat) (E : Extern α) (mesh : Mesh3D α)
    (axes : List (List (vec3 α))) (uph : Bool) (out0 : Outputs α) (len : Nat → Nat)
    (hr : rings_close fuel mesh len) (hf : faces_close fuel mesh)
    (hrows : ∀ x, x ∈ out0.D_patchinput → x.length = if uph then 4 else 3) :
    ∃ st, polynomial_conv_state fuel E mesh axes uph out0 = some st ∧
      ∀ k, k < mesh.num_of_faces → ∃ vts, f_corners fuel mesh (mesh.get_face k) = some vts ∧
      ∀ c, c < 3 → ∀ a, a < (axes.getD 0 []).length → ∀ q, q < 6 →
        ∃ row, st.2.D_patchinput[sample_offset (axes.getD 0 []).length k c a q]? = some row ∧
          row[0]? = some (((List.range 3).map (fun i =>
            (bary_weights.getD q default).get i *
              (mesh.vert (vts.getD ((c + i) % 3) 0)).normal.dot
                (mesh.vert (vts.getD c 0)).normal)).sum) ∧
          row[1]? = some (((List.range 3).map (fun i =>
            (bary_weights.getD q default).get i *
              (mesh.vert (vts.getD ((c + i) % 3) 0)).normal.dot
                ((axes.getD (mesh.vert (vts.getD c 0)).id.toNat []).getD a default))).sum) ∧
          row[2]? = some (((List.range 3).map (fun i =>
            (bary_weights.getD q default).get i *
              (mesh.vert (vts.getD ((c + i) % 3) 0)).normal.dot
                ((mesh.vert (vts.getD c 0)).normal.cross
                  ((axes.getD (mesh.vert (vts.getD c 0)).id.toNat []).getD a default)))).sum) ∧
          (uph = true → row.length = 4 ∧
            row[3]? = some (((List.range 3).map (fun i =>
              (bary_weights.getD q default).get i *
                ((((mesh.vert (vts.getD ((c + i) % 3) 0)).pos.sub
                    (mesh.vert (vts.getD c 0)).pos).dot (mesh.vert (vts.getD c 0)).normal)
                  / st.1.getD (mesh.vert (vts.getD c 0)).id.toNat 0))).sum)) ∧
          (uph = false → row.length = 3) := by
  obtain ⟨st, h1, h2⟩ := polynomial_conv_D_patchinput fuel E mesh axes uph out0 len hr hf hrows
  refine ⟨st, h1, fun k hk => ?_⟩
  obtain ⟨vts, hv⟩ := Option.isSome_iff_exists.mp
    (f_corners_isSome fuel mesh hf (mesh.get_face k))
  refine ⟨vts, hv, fun c hc a ha q hq => ?_⟩
  refine ⟨_, h2 k hk vts hv c hc a ha q hq, ?_, ?_, ?_, ?_, ?_⟩
  · simp [patch_row, local_nmls, frame, vec3.get, List.range_succ]
  · simp [patch_row, local_nmls, frame, vec3.get, List.range_succ]
  · simp [patch_row, local_nmls, frame, vec3.get, List.range_succ]
  · intro hu
    subst hu
    simp [patch_row, local_hgts, List.range_succ]
  · intro hu
    subst hu
    simp [patch_row]

theorem patch_input_rows_witness :
    ∃ st, polynomial_conv_state 3 extQ triMesh triAxes true empty_outputs = some st ∧
      ∀ k, k < triMesh.num_of_faces → ∃ vts, f_corners 3 triMesh (triMesh.get_face k) = some vts ∧
      ∀ c, c < 3 → ∀ a, a < (triAxes.getD 0 []).length → ∀ q, q < 6 →
        ∃ row, st.2.D_patchinput[sample_offset (triAxes.getD 0 []).length k c a q]? = some row ∧
          row[0]? = some (((List.range 3).map (fun i =>
            (bary_weights.getD q default).get i *
              (triMesh.vert (vts.getD ((c + i) % 3) 0)).normal.dot
                (triMesh.vert (vts.getD c 0)).normal)).sum) ∧
          row[1]? = some (((List.range 3).map (fun i =>
            (bary_weights.getD q default).get i *
              (triMesh.vert (vts.getD ((c + i) % 3) 0)).normal.dot
                ((triAxes.getD (triMesh.vert (vts.getD c 0)).id.toNat []).getD a default))).sum) ∧
          row[2]? = some (((List.range 3).map (fun i =>
            (bary_weights.getD q default).get i *
              (triMesh.vert (vts.getD ((c + i) % 3) 0)).normal.dot
                ((triMesh.vert (vts.getD c 0)).normal.cross
                  ((triAxes.getD (triMesh.vert (vts.getD c 0)).id.toNat []).getD a default)))).sum) ∧
          (true = true → row.length = 4 ∧
            row[3]? = some (((List.range 3).map (fun i =>
              (bary_weights.getD q default).get i *
                ((((triMesh.vert (vts.getD ((c + i) % 3) 0)).pos.sub
                    (triMesh.vert (vts.getD c 0)).pos).dot (triMesh.vert (vts.getD c 0)).normal)
                  / st.1.getD (triMesh.vert (vts.getD c 0)).id.toNat 0))).sum)) ∧
          (true = false → row.length = 3) :=
  patch_input_rows 3 extQ triMesh triAxes true empty_outputs (fun _ => 1)
    triMesh_rings_close triMesh_faces_close (fun x hx => absurd hx (List.not_mem_nil x))

end Claims14

section Claims15
variable {α : Type} [LinearOrderedField α]

/-- C15: on a face whose edge cycle has exactly 3 edges (and with fuel for 3
steps), `f_corners` returns 3 vertices and `fv_corner(face, v)` returns a value
`r`: when `v` is the vertex at some corner, `r` is the smallest `c` in
`{0, 1, 2}` such that the `c`-th vertex of `f_corners(face)` is `v`; and `r` is
the sentinel `-1` exactly when `v` is none of the 3 corner vertices. -/
theorem corner_lookup (fuel : Nat) (mesh : Mesh3D α) (face v : Nat) (hfuel : 3 ≤ fuel)
    (h : is_cycle (face_next mesh) (mesh.face face).edge 2) :
    ∃ vts r, f_corners fuel mesh face = some vts ∧ vts.length = 3 ∧
      fv_corner fuel mesh face v = some r ∧
      (∀ c : Nat, c < 3 → vts[c]? = some v → (∀ c', c' < c → vts[c']? ≠ some v) → r = (c : Int)) ∧
      (v ∈ vts → ∃ c : Nat, c < 3 ∧ r = (c : Int) ∧ vts[c]? = some v ∧
        ∀ c', c' < c → vts[c']? ≠ some v) ∧
      (r = -1 ↔ v ∉ vts) := by
  refine ⟨_, _, f_corners_tri fuel mesh face hfuel h, rfl, fv_corner_tri fuel mesh face v hfuel h,
    ?_, ?_, ?_⟩
  · intro c hc hv hmin
    interval_cases c
    · simp only [List.getElem?_cons_zero, Option.some.injEq] at hv
      simp [hv]
    · have h0 := hmin 0 (by decide)
      simp only [List.getElem?_cons_zero, List.getElem?_cons_succ, Option.some.injEq, ne_eq] at hv h0
      simp [hv, h0]
    · have h0 := hmin 0 (by decide)
      have h1 := hmin 1 (by decide)
      simp only [List.getElem?_cons_zero, List.getElem?_cons_succ, Option.some.injEq, ne_eq]
        at hv h0 h1
      simp [hv, h0, h1]
  · intro hmem
    by_cases a0 : (mesh.edge (mesh.face face).edge).vert = v
    · exact ⟨0, by decide, by simp [a0], by simp [a0], fun c' hc' => absurd hc' (by omega)⟩
    · by_cases a1 : (mesh.edge (mesh.edge (mesh.face face).edge).next).vert = v
      · refine ⟨1, by decide, by simp [a0, a1], by simp [a1], fun c' hc' => ?_⟩
        obtain rfl : c' = 0 := by omega
        simpa using a0
      · by_cases a2 :
            (mesh.edge (mesh.edge (mesh.edge (mesh.face face).edge).next).next).vert = v
        · refine ⟨2, by decide, by simp [a0, a1, a2], by simp [a2], fun c' hc' => ?_⟩
          have : c' = 0 ∨ c' = 1 := by omega
          rcases this with rfl | rfl
          · simpa using a0
          · simpa using a1
        · exfalso
          simp only [List.mem_cons, List.mem_nil_iff, or_false] at hmem
          rcases hmem with e | e | e
          · exact a0 e.symm
          · exact a1 e.symm
          · exact a2 e.symm
  · by_cases a0 : (mesh.edge (mesh.face face).edge).vert = v
    · simp [a0]
    · by_cases a1 : (mesh.edge (mesh.edge (mesh.face face).edge).next).vert = v
      · simp [a0, a1]
      · by_cases a2 :
            (mesh.edge (mesh.edge (mesh.edge (mesh.face face).edge).next).next).vert = v
        · simp [a0, a1, a2]
        · simp [a0, a1, a2]
          exact ⟨fun e => a0 e.symm, fun e => a1 e.symm, fun e => a2 e.symm⟩

theorem corner_lookup_witness :
    ∃ vts r, f_corners 3 quadMesh 1 = some vts ∧ vts.length = 3 ∧
      fv_corner 3 quadMesh 1 3 = some r ∧
      (∀ c : Nat, c < 3 → vts[c]? = some 3 → (∀ c', c' < c → vts[c']? ≠ some 3) → r = (c : Int)) ∧
      (3 ∈ vts → ∃ c : Nat, c < 3 ∧ r = (c : Int) ∧ vts[c]? = some 3 ∧
        ∀ c', c' < c → vts[c']? ≠ some 3) ∧
      (r = -1 ↔ 3 ∉ vts) :=
  corner_lookup 3 quadMesh 1 3 (Nat.le_refl 3) ⟨rfl, fun j hj => by
    have hj2 : j < 2 := hj
    interval_cases j <;> decide⟩

end Claims15

section Claims16
variable {α : Type} [LinearOrderedField α]

/-- C16: with vertex ids that are not negative and alignment offsets
`get_axis_map_p2p` in `[0, axis_num)`, after `polynomial_conv` from empty
outputs the column of the scatter entry `i` of every sample, divided by
`axis_num` (C++ `/` and `%`), has quotient the id of the vertex at corner
`(c + i) mod 3` and remainder `(a + axis_offset[i]) mod axis_num`; the row of
every reduction entry has quotient `V.id` and remainder `a` for a vertex `V`
and an axis `a`; and with ids below the number of vertices all these columns
and rows lie in `[0, vertex_num * axis_num)`. -/
theorem entries_locatable (fuel : Nat) (E : Extern α) (mesh : Mesh3D α)
    (axes : List (List (vec3 α))) (uph : Bool) (len : Nat → Nat)
    (hr : rings_close fuel mesh len) (hf : faces_close fuel mesh)
    (hid : ∀ v, 0 ≤ (mesh.vert v).id)
    (hoff : ∀ n1 n2 ax1 ax2,
      0 ≤ E.get_axis_map_p2p n1 n2 (axes.getD 0 []).length ax1 ax2 ∧
      E.get_axis_map_p2p n1 n2 (axes.getD 0 []).length ax1 ax2 < ((axes.getD 0 []).length : Int)) :
    ∃ res, polynomial_conv fuel E mesh axes uph empty_outputs = some res ∧
      (∀ k, k < mesh.num_of_faces → ∃ vts, f_corners fuel mesh (mesh.get_face k) = some vts ∧
        ∀ c, c < 3 → ∀ a, a < (axes.getD 0 []).length → ∀ q, q < 6 → ∀ i, i < 3 →
          ∃ e, res.S_fv[sample_offset (axes.getD 0 []).length k c a q * 3 + i]? = some e ∧
            Int.tdiv e.col ((axes.getD 0 []).length : Int)
              = (mesh.vert (vts.getD ((c + i) % 3) 0)).id ∧
            Int.tmod e.col ((axes.getD 0 []).length : Int)
              = ((a : Int) + (axis_offset E mesh axes (axes.getD 0 []).length vts c).getD i 0)
                  % ((axes.getD 0 []).length : Int) ∧
            ((∀ v, (mesh.vert v).id < (mesh.num_of_vertices : Int)) →
              0 ≤ e.col ∧
              e.col < (mesh.num_of_vertices : Int) * ((axes.getD 0 []).length : Int))) ∧
      (∀ e, e ∈ res.S_vf → ∃ w a, w < mesh.num_of_vertices ∧ a < (axes.getD 0 []).length ∧
        Int.tdiv e.row ((axes.getD 0 []).length : Int) = (mesh.vert (mesh.get_vertex w)).id ∧
        Int.tmod e.row ((axes.getD 0 []).length : Int) = (a : Int) ∧
        ((∀ v, (mesh.vert v).id < (mesh.num_of_vertices : Int)) →
          0 ≤ e.row ∧
          e.row < (mesh.num_of_vertices : Int) * ((axes.getD 0 []).length : Int))) := by
  obtain ⟨res, h, hS⟩ := polynomial_conv_S_fv fuel E mesh axes uph empty_outputs len hr hf
  obtain ⟨res', h', -, -, -, hvf, -, -⟩ := polynomial_conv_sizes fuel E mesh axes uph
    empty_outputs len hr hf (by simp [empty_outputs]) (by simp [empty_outputs])
  obtain rfl : res = res' := Option.some.inj (h.symm.trans h')
  refine ⟨res, h, ?_, ?_⟩
  · intro k hk
    obtain ⟨vts, hv⟩ := Option.isSome_iff_exists.mp
      (f_corners_isSome fuel mesh hf (mesh.get_face k))
    refine ⟨vts, hv, fun c hc a ha q hq i hi => ?_⟩
    refine ⟨_, hS k hk vts hv c hc a ha q hq i hi, ?_⟩
    have hA : (0 : Int) < ((axes.getD 0 []).length : Int) := by omega
    have hao : 0 ≤ (axis_offset E mesh axes (axes.getD 0 []).length vts c).getD i 0 ∧
        (axis_offset E mesh axes (axes.getD 0 []).length vts c).getD i 0
          < ((axes.getD 0 []).length : Int) := by
      interval_cases i
      · exact ⟨le_refl _, hA⟩
      · exact hoff _ _ _ _
      · exact hoff _ _ _ _
    have hsum : (0 : Int) ≤ (a : Int)
        + (axis_offset E mesh axes (axes.getD 0 []).length vts c).getD i 0 := by
      have := hao.1
      omega
    have hm : Int.tmod ((a : Int)
          + (axis_offset E mesh axes (axes.getD 0 []).length vts c).getD i 0)
          ((axes.getD 0 []).length : Int)
        = ((a : Int) + (axis_offset E mesh axes (axes.getD 0 []).length vts c).getD i 0)
            % ((axes.getD 0 []).length : Int) := Int.tmod_eq_emod hsum hA.le
    obtain ⟨d1, d2, d3⟩ := slot_div_mod ((axes.getD 0 []).length : Int)
      (mesh.vert (vts.getD ((c + i) % 3) 0)).id
      (((a : Int) + (axis_offset E mesh axes (axes.getD 0 []).length vts c).getD i 0)
            % ((axes.getD 0 []).length : Int)) (hid _) (Int.emod_nonneg _ hA.ne')
      (Int.emod_lt_of_pos _ hA)
    simp only [scatter_entry, hm]
    exact ⟨d1, d2, fun hlt => ⟨d3, slot_lt _ _ _ _ (hlt _) (Int.emod_lt_of_pos _ hA) hA⟩⟩
  · intro e he
    rw [hvf] at he
    simp only [empty_outputs, List.nil_append] at he
    obtain ⟨w, a, f, hw, ha, -, -, rfl⟩ := mem_reduction_entries fuel E mesh _ len e he
    have hA : (0 : Int) < ((axes.getD 0 []).length : Int) := by omega
    obtain ⟨d1, d2, d3⟩ := slot_div_mod ((axes.getD 0 []).length : Int)
      (mesh.vert (mesh.get_vertex w)).id (a : Int) (hid _) (by omega) (by omega)
    exact ⟨w, a, hw, ha, d1, d2, fun hlt => ⟨d3, slot_lt _ _ _ _ (hlt _) (by omega) hA⟩⟩

theorem entries_locatable_witness :
    ∃ res, polynomial_conv 3 extQ quadMesh quadAxes false empty_outputs = some res ∧
      (∀ k, k < quadMesh.num_of_faces → ∃ vts, f_corners 3 quadMesh (quadMesh.get_face k) = some vts ∧
        ∀ c, c < 3 → ∀ a, a < (quadAxes.getD 0 []).length → ∀ q, q < 6 → ∀ i, i < 3 →
          ∃ e, res.S_fv[sample_offset (quadAxes.getD 0 []).length k c a q * 3 + i]? = some e ∧
            Int.tdiv e.col ((quadAxes.getD 0 []).length : Int)
              = (quadMesh.vert (vts.getD ((c + i) % 3) 0)).id ∧
            Int.tmod e.col ((quadAxes.getD 0 []).length : Int)
              = ((a : Int) + (axis_offset extQ quadMesh quadAxes (quadAxes.getD 0 []).length vts c).getD i 0)
                  % ((quadAxes.getD 0 []).length : Int) ∧
            ((∀ v, (quadMesh.vert v).id < (quadMesh.num_of_vertices : Int)) →
              0 ≤ e.col ∧
              e.col < (quadMesh.num_of_vertices : Int) * ((quadAxes.getD 0 []).length : Int))) ∧
      (∀ e, e ∈ res.S_vf → ∃ w a, w < quadMesh.num_of_vertices ∧ a < (quadAxes.getD 0 []).length ∧
        Int.tdiv e.row ((quadAxes.getD 0 []).length : Int) = (quadMesh.vert (quadMesh.get_vertex w)).id ∧
        Int.tmod e.row ((quadAxes.getD 0 []).length : Int) = (a : Int) ∧
        ((∀ v, (quadMesh.vert v).id < (quadMesh.num_of_vertices : Int)) →
          0 ≤ e.row ∧
          e.row < (quadMesh.num_of_vertices : Int) * ((quadAxes.getD 0 []).length : Int))) :=
  entries_locatable 3 extQ quadMesh quadAxes false quadLen quadMesh_rings_close
    quadMesh_faces_close
    (fun v => by
      show 0 ≤ (quadMesh.vert v).id
      unfold quadMesh
      dsimp only
      split <;> decide)
    (fun _ _ _ _ => ⟨le_refl _, show (0 : Int) < ((quadAxes.getD 0 []).length : Int) by decide⟩)

end Claims16

section Claims17
variable {α : Type} [LinearOrderedField α]

end Claims17

section Claims18
variable {α : Type} [LinearOrderedField α]

/-- C18 (amended): `polynomial_conv` (incoming `D_fw` rows of 10 entries)
returns, every entry `D_fw[offset][i]` is stored as the monomial at the sample
position times the sample weight whether it is flagged or not, and the
diagnostics written are exactly the list `cout_lines`: the diagnostic of an
entry is written if and only if the entry is above `1e+02`, without taking its
magnitude. -/
theorem flag_above_threshold (fuel : Nat) (E : Extern α) (mesh : Mesh3D α)
    (axes : List (List (vec3 α))) (uph : Bool) (out0 : Outputs α) (len : Nat → Nat)
    (hr : rings_close fuel mesh len) (hf : faces_close fuel mesh)
    (hrows : ∀ x, x ∈ out0.D_fw → x.length = 10) :
    ∃ st, polynomial_conv_state fuel E mesh axes uph out0 = some st ∧
      st.2.cout = out0.cout
        ++ cout_lines fuel E mesh axes st.1 (axes.getD 0 []).length mesh.num_of_faces ∧
      ∀ k, k < mesh.num_of_faces → ∃ vts, f_corners fuel mesh (mesh.get_face k) = some vts ∧
      ∀ c, c < 3 → ∀ a, a < (axes.getD 0 []).length → ∀ q, q < 6 →
        ∃ row, st.2.D_fw[sample_offset (axes.getD 0 []).length k c a q]? = some row ∧
          ∀ i, i < 10 →
            row[i]? = some (cubic_poly_term i
                (((block_quadrature E mesh axes st.1 vts c a).points.getD q default).get 0)
                (((block_quadrature E mesh axes st.1 vts c a).points.getD q default).get 1)
              * (block_quadrature E mesh axes st.1 vts c a).weights.getD q 0) ∧
            ((⟨k, i, (block_quadrature E mesh axes st.1 vts c a).weights.getD q 0,
                cubic_poly_term i
                  (((block_quadrature E mesh axes st.1 vts c a).points.getD q default).get 0)
                  (((block_quadrature E mesh axes st.1 vts c a).points.getD q default).get 1),
                ((block_quadrature E mesh axes st.1 vts c a).points.getD q default).get 0,
                ((block_quadrature E mesh axes st.1 vts c a).points.getD q default).get 1⟩ :
                  CoutLine α)
                ∈ cout_lines fuel E mesh axes st.1 (axes.getD 0 []).length mesh.num_of_faces
              ↔ cubic_poly_term i
                  (((block_quadrature E mesh axes st.1 vts c a).points.getD q default).get 0)
                  (((block_quadrature E mesh axes st.1 vts c a).points.getD q default).get 1)
                * (block_quadrature E mesh axes st.1 vts c a).weights.getD q 0 > 1e+02) := by
  obtain ⟨st, h1, h2⟩ := polynomial_conv_D_fw fuel E mesh axes uph out0 len hr hf hrows
  obtain ⟨st', h1', h3⟩ := polynomial_conv_cout fuel E mesh axes uph out0 len hr hf hrows
  obtain rfl : st = st' := Option.some.inj (h1.symm.trans h1')
  refine ⟨st, h1, h3, fun k hk => ?_⟩
  obtain ⟨vts, hv⟩ := Option.isSome_iff_exists.mp
    (f_corners_isSome fuel mesh hf (mesh.get_face k))
  refine ⟨vts, hv, fun c hc a ha q hq => ?_⟩
  refine ⟨_, h2 k hk vts hv c hc a ha q hq, fun i hi => ⟨?_, ?_, ?_⟩⟩
  · simp [dfw_row, hi]
  · intro hmem
    exact cout_lines_above fuel E mesh axes st.1 _ _ _ hmem
  · intro hgt
    simp only [cout_lines, face_lines, block_lines, dfw_lines, List.mem_flatMap, List.mem_range]
    refine ⟨k, hk, c, hc, a, ha, q, hq, i, hi, ?_⟩
    rw [hv, Option.getD_some, if_pos hgt]
    exact List.mem_singleton.mpr rfl

theorem flag_above_threshold_witness :
    ∃ st, polynomial_conv_state 3 extQ triMesh triAxes false empty_outputs = some st ∧
      st.2.cout = (empty_outputs (α := ℚ)).cout
        ++ cout_lines 3 extQ triMesh triAxes st.1 (triAxes.getD 0 []).length
            triMesh.num_of_faces ∧
      ∀ k, k < triMesh.num_of_faces → ∃ vts, f_corners 3 triMesh (triMesh.get_face k) = some vts ∧
      ∀ c, c < 3 → ∀ a, a < (triAxes.getD 0 []).length → ∀ q, q < 6 →
        ∃ row, st.2.D_fw[sample_offset (triAxes.getD 0 []).length k c a q]? = some row ∧
          ∀ i, i < 10 →
            row[i]? = some (cubic_poly_term i
                (((block_quadrature extQ triMesh triAxes st.1 vts c a).points.getD q default).get 0)
                (((block_quadrature extQ triMesh triAxes st.1 vts c a).points.getD q default).get 1)
              * (block_quadrature extQ triMesh triAxes st.1 vts c a).weights.getD q 0) ∧
            ((⟨k, i, (block_quadrature extQ triMesh triAxes st.1 vts c a).weights.getD q 0,
                cubic_poly_term i
                  (((block_quadrature extQ triMesh triAxes st.1 vts c a).points.getD q default).get 0)
                  (((block_quadrature extQ triMesh triAxes st.1 vts c a).points.getD q default).get 1),
                ((block_quadrature extQ triMesh triAxes st.1 vts c a).points.getD q default).get 0,
                ((block_quadrature extQ triMesh triAxes st.1 vts c a).points.getD q default).get 1⟩ :
                  CoutLine ℚ)
                ∈ cout_lines 3 extQ triMesh triAxes st.1 (triAxes.getD 0 []).length
                    triMesh.num_of_faces
              ↔ cubic_poly_term i
                  (((block_quadrature extQ triMesh triAxes st.1 vts c a).points.getD q default).get 0)
                  (((block_quadrature extQ triMesh triAxes st.1 vts c a).points.getD q default).get 1)
                * (block_quadrature extQ triMesh triAxes st.1 vts c a).weights.getD q 0 > 1e+02) :=
  flag_above_threshold 3 extQ triMesh triAxes false empty_outputs (fun _ => 1)
    triMesh_rings_close triMesh_faces_close (fun x hx => absurd hx (List.not_mem_nil x))

end Claims18

section Claims18b

theorem thinMeshR_rings_close : rings_close 3 thinMeshR (fun _ => 1) := by
  intro v hv
  have hv' : v < 3 := hv
  interval_cases v <;> exact ⟨⟨rfl, fun j hj => by interval_cases j; decide⟩, by decide⟩

theorem thinMeshR_faces_close : faces_close 3 thinMeshR :=
  fun _ => ⟨2, by decide, rfl⟩

theorem sqrt_100 : Real.sqrt 100 = 10 := by
  rw [show (100 : ℝ) = 10 ^ 2 by norm_num]; exact Real.sqrt_sq (by norm_num)

theorem sqrt_40000 : Real.sqrt 40000 = 200 := by
  rw [show (40000 : ℝ) = 200 ^ 2 by norm_num]; exact Real.sqrt_sq (by norm_num)

theorem thinMeshR_ring_area : ring_area extR thinMeshR 0 1 = 100 := by
  simp [ring_area, ring_faces, ring_edges, List.range_succ, face_area, tri_area3d,
    thinMeshR, ring_next, vec3.length, vec3.cross, vec3.sub, extR]
  norm_num [sqrt_40000]

theorem thinMeshR_block_pts (rrs : List ℝ) (h : rrs.getD 0 0 = 10) :
    block_pts_2d extR thinMeshR thinAxesR rrs [0, 1, 2] 0 0
      = [⟨0, 0⟩, ⟨-20, 0⟩, ⟨0, -(1 / 10)⟩] := by
  simp [block_pts_2d, pts_2d, frame, corner_edge, face_pts, thinMeshR, thinAxesR, extR,
    robust_normalize, vec2.length, vec3.length, vec3.dot, vec3.cross, vec3.sub, vec2.smul,
    vec2.sdiv, h]
  have h' : rrs[0]?.getD 0 = 10 := by rw [← List.getD_eq_getElem?_getD]; exact h
  norm_num [sqrt_40000, h']

/-- C18 as stated fails on the thin triangle `thinMeshR`: in the block of face
0, corner 0, axis 0 the local triangle is `(0,0)`, `(-20,0)`, `(0,-1/10)`; the
entry `D_fw[3][9]` of sample 3 is `x^3 * w` with `x = -16.33695145960918` and
`w = 0.109951743655322`, about `-479.4`, so it exceeds `1e2` in magnitude, and
its diagnostic is not written. -/
theorem flag_magnitude_counterexample :
    ∃ st row, polynomial_conv_state 3 extR thinMeshR thinAxesR false empty_outputs = some st ∧
      st.2.D_fw[sample_offset (thinAxesR.getD 0 []).length 0 0 0 3]? = some row ∧
      row[9]? = some (cubic_poly_term 9 (-16.33695145960918 : ℝ) (-0.0091576213509771)
        * 0.109951743655322) ∧
      (1e+02 : ℝ) < |cubic_poly_term 9 (-16.33695145960918 : ℝ) (-0.0091576213509771)
        * 0.109951743655322| ∧
      (⟨0, 9, 0.109951743655322,
          cubic_poly_term 9 (-16.33695145960918) (-0.0091576213509771),
          -16.33695145960918, -0.0091576213509771⟩ : CoutLine ℝ) ∉ st.2.cout := by
  obtain ⟨st, h1, h2⟩ := polynomial_conv_D_fw 3 extR thinMeshR thinAxesR false empty_outputs
    (fun _ => 1) thinMeshR_rings_close thinMeshR_faces_close
    (fun x hx => absurd hx (List.not_mem_nil x))
  obtain ⟨res, h3, _⟩ := polynomial_conv_state_eq 3 extR thinMeshR thinAxesR false
    empty_outputs (fun _ => 1) thinMeshR_rings_close thinMeshR_faces_close
  obtain ⟨st', h1', h4⟩ := polynomial_conv_cout 3 extR thinMeshR thinAxesR false empty_outputs
    (fun _ => 1) thinMeshR_rings_close thinMeshR_faces_close
    (fun x hx => absurd hx (List.not_mem_nil x))
  obtain rfl : st = st' := Option.some.inj (h1.symm.trans h1')
  have hst : st.1.getD 0 0 = 10 := by
    have e := Option.some.inj (h1.symm.trans h3)
    rw [e, List.getD_eq_getElem?_getD]
    dsimp only
    rw [scales_get]
    have hra := thinMeshR_ring_area
    have hv : thinMeshR.get_vertex 0 = 0 := rfl
    have he : (thinMeshR.vert 0).edge = 0 := rfl
    have hn : thinMeshR.num_of_vertices = 3 := rfl
    have hd : degenerate extR (100 : ℝ) = false := by
      simp [degenerate, extR]; norm_num
    simp only [hv, he, hra, hn, hd]
    simp [extR, sqrt_100]
  have hp := thinMeshR_block_pts st.1 hst
  have hval : (cubic_poly_term 9 (-16.33695145960918 : ℝ) (-0.0091576213509771)
      * 0.109951743655322) < -1e+02 := by
    rw [cubic_poly_term_eq 9 (by decide)]
    norm_num [xmap, ymap]
  have hrow : dfw_row (block_quadrature extR thinMeshR thinAxesR st.1 [0, 1, 2] 0 0) 3
      = dfw_row (quadrature_degree4 (⟨0, 0⟩ : vec2 ℝ) ⟨-20, 0⟩ ⟨0, -(1 / 10)⟩ []) 3 := by
    rw [block_quadrature, hp]
    rfl
  refine ⟨st, _, h1, h2 0 (by decide) [0, 1, 2] rfl 0 (by decide) 0 (by decide) 3 (by decide),
    ?_, ?_, ?_⟩
  · rw [hrow]
    simp only [dfw_row, List.getElem?_map, List.getElem?_range (show 9 < 10 by decide),
      Option.map_some']
    have hx : ((quadrature_degree4 (⟨0, 0⟩ : vec2 ℝ) ⟨-20, 0⟩ ⟨0, -(1 / 10)⟩ []).points.getD 3
        default).get 0 = -16.33695145960918 := by
      simp [quadrature_degree4, List.range_succ, pos_blend_at, pos_blend, vec2.add,
        vec2.sub, vec2.smul, vec2.get]
      norm_num
    have hy : ((quadrature_degree4 (⟨0, 0⟩ : vec2 ℝ) ⟨-20, 0⟩ ⟨0, -(1 / 10)⟩ []).points.getD 3
        default).get 1 = -0.0091576213509771 := by
      simp [quadrature_degree4, List.range_succ, pos_blend_at, pos_blend, vec2.add,
        vec2.sub, vec2.smul, vec2.get]
      norm_num
    have hw : (quadrature_degree4 (⟨0, 0⟩ : vec2 ℝ) ⟨-20, 0⟩ ⟨0, -(1 / 10)⟩ []).weights.getD 3 0
        = 0.109951743655322 := by
      simp [quadrature_degree4, triarea2d, vec2.sub]
      norm_num
    rw [hx, hy, hw]
  · rw [abs_of_neg (lt_trans hval (by norm_num))]
    linarith
  · intro hmem
    rw [h4] at hmem
    simp only [empty_outputs, List.nil_append] at hmem
    have := cout_lines_above 3 extR thinMeshR thinAxesR st.1 _ _ _ hmem
    dsimp only at this
    linarith

end Claims18b

section Claims19
variable {α : Type} [LinearOrderedField α]

/-- C19: on a mesh whose faces have cycles of exactly 3 edges, where the face
at position `k` has id `k`, and where every face met by the ring traversal of a
vertex is a listed face with that vertex at a corner, after `polynomial_conv`
from empty outputs every reduction entry has row `r = V.id * axis_num + a` and
column `s = (k * 3 + c) * axis_num + a` for a vertex `V`, an axis `a`, a face
position `k` and a corner `c` at which `f_corners` lists `V`; and for every
`q < 6` the number `s * 6 + q` is the sample offset of `(k, c, a, q)`, the row
of the 3 scatter entries written for that sample, the entry `i = 0` of which
has column exactly `r`. -/
theorem aggregator_sampler_agreement (fuel : Nat) (E : Extern α) (mesh : Mesh3D α)
    (axes : List (List (vec3 α))) (uph : Bool) (len : Nat → Nat)
    (hr : rings_close fuel mesh len) (hf : faces_close fuel mesh) (hfuel : 3 ≤ fuel)
    (htri : ∀ f, is_cycle (face_next mesh) (mesh.face f).edge 2)
    (hid : ∀ k, k < mesh.num_of_faces → (mesh.face (mesh.get_face k)).id = (k : Int))
    (hring : ∀ w, w < mesh.num_of_vertices →
      ∀ F, F ∈ ring_faces mesh (mesh.vert (mesh.get_vertex w)).edge (len w) →
        (∃ k, k < mesh.num_of_faces ∧ mesh.get_face k = F) ∧
        ∃ vts, f_corners fuel mesh F = some vts ∧ mesh.get_vertex w ∈ vts) :
    ∃ res, polynomial_conv fuel E mesh axes uph empty_outputs = some res ∧
      ∀ e, e ∈ res.S_vf → ∃ (w a k c : Nat) (vts : List Nat),
        w < mesh.num_of_vertices ∧ a < (axes.getD 0 []).length ∧ k < mesh.num_of_faces ∧ c < 3 ∧
        f_corners fuel mesh (mesh.get_face k) = some vts ∧
        e.row = (mesh.vert (mesh.get_vertex w)).id * ((axes.getD 0 []).length : Int) + (a : Int) ∧
        e.col = ((k : Int) * 3 + (c : Int)) * ((axes.getD 0 []).length : Int) + (a : Int) ∧
        vts[c]? = some (mesh.get_vertex w) ∧
        ∀ q : Nat, q < 6 →
          e.col * 6 + (q : Int) = (sample_offset (axes.getD 0 []).length k c a q : Int) ∧
          (∀ i, i < 3 → ∃ s,
            res.S_fv[sample_offset (axes.getD 0 []).length k c a q * 3 + i]? = some s ∧
            s.row = e.col * 6 + (q : Int)) ∧
          ∃ s, res.S_fv[sample_offset (axes.getD 0 []).length k c a q * 3 + 0]? = some s ∧
            s.col = e.row := by
  obtain ⟨res, h, hS⟩ := polynomial_conv_S_fv fuel E mesh axes uph empty_outputs len hr hf
  obtain ⟨res', h', -, -, -, hvf, -, -⟩ := polynomial_conv_sizes fuel E mesh axes uph
    empty_outputs len hr hf (by simp [empty_outputs]) (by simp [empty_outputs])
  obtain rfl : res = res' := Option.some.inj (h.symm.trans h')
  refine ⟨res, h, fun e he => ?_⟩
  rw [hvf] at he
  simp only [empty_outputs, List.nil_append] at he
  obtain ⟨w, a, F, hw, ha, -, hF, rfl⟩ := mem_reduction_entries fuel E mesh _ len e he
  obtain ⟨⟨k, hk, rfl⟩, vts, hv, hmem⟩ := hring w hw F hF
  obtain ⟨c, hc, hfc, hvc⟩ := fv_corner_incident fuel mesh (mesh.get_face k)
    (mesh.get_vertex w) hfuel (htri _) vts hv hmem
  have hcol : (reduction_entry (α := α) fuel mesh (axes.getD 0 []).length (mesh.get_vertex w) a
      (mesh.get_face k)).col
      = ((k : Int) * 3 + (c : Int)) * ((axes.getD 0 []).length : Int) + (a : Int) := by
    simp only [reduction_entry, hfc, Option.getD_some, hid k hk]
  have hoff : ∀ q : Nat, (((k : Int) * 3 + (c : Int)) * ((axes.getD 0 []).length : Int)
      + (a : Int)) * 6 + (q : Int) = (sample_offset (axes.getD 0 []).length k c a q : Int) := by
    intro q
    simp only [sample_offset]
    push_cast
    ring
  refine ⟨w, a, k, c, vts, hw, ha, hk, hc, hv, rfl, hcol, hvc, fun q hq => ?_⟩
  rw [hcol]
  refine ⟨hoff q, fun i hi => ⟨_, hS k hk vts hv c hc a ha q hq i hi, ?_⟩,
    ⟨_, hS k hk vts hv c hc a ha q hq 0 (by decide), ?_⟩⟩
  · rw [hoff q]
    rfl
  · have hget : vts.getD ((c + 0) % 3) 0 = mesh.get_vertex w := by
      rw [Nat.add_zero, Nat.mod_eq_of_lt hc, List.getD_eq_getElem?_getD, hvc]
      rfl
    have hmod : Int.tmod ((a : Int) + 0) ((axes.getD 0 []).length : Int) = (a : Int) := by
      rw [add_zero, Int.tmod_eq_emod (by omega) (by omega)]
      exact Int.emod_eq_of_lt (by omega) (by omega)
    simp only [scatter_entry, reduction_entry, hget, axis_offset, List.getD_cons_zero, hmod]

theorem aggregator_sampler_agreement_witness :
    ∃ res, polynomial_conv 3 extQ triMesh triAxes false empty_outputs = some res ∧
      ∀ e, e ∈ res.S_vf → ∃ (w a k c : Nat) (vts : List Nat),
        w < triMesh.num_of_vertices ∧ a < (triAxes.getD 0 []).length ∧
        k < triMesh.num_of_faces ∧ c < 3 ∧
        f_corners 3 triMesh (triMesh.get_face k) = some vts ∧
        e.row = (triMesh.vert (triMesh.get_vertex w)).id * ((triAxes.getD 0 []).length : Int)
          + (a : Int) ∧
        e.col = ((k : Int) * 3 + (c : Int)) * ((triAxes.getD 0 []).length : Int) + (a : Int) ∧
        vts[c]? = some (triMesh.get_vertex w) ∧
        ∀ q : Nat, q < 6 →
          e.col * 6 + (q : Int) = (sample_offset (triAxes.getD 0 []).length k c a q : Int) ∧
          (∀ i, i < 3 → ∃ s,
            res.S_fv[sample_offset (triAxes.getD 0 []).length k c a q * 3 + i]? = some s ∧
            s.row = e.col * 6 + (q : Int)) ∧
          ∃ s, res.S_fv[sample_offset (triAxes.getD 0 []).length k c a q * 3 + 0]? = some s ∧
            s.col = e.row :=
  aggregator_sampler_agreement 3 extQ triMesh triAxes false (fun _ => 1)
    triMesh_rings_close triMesh_faces_close (Nat.le_refl 3)
    (fun f => by
      show is_cycle (face_next triMesh) 0 2
      exact ⟨rfl, fun j hj => by
        have hj2 : j < 2 := hj
        interval_cases j <;> decide⟩)
    (fun k hk => by
      have hk1 : k < 1 := hk
      interval_cases k
      rfl)
    (fun w hw F hF => by
      have hw3 : w < 3 := hw
      have hF0 : F = 0 := by
        have e0 : ring_faces triMesh (triMesh.vert (triMesh.get_vertex 0)).edge 1 = [0] := rfl
        have e1 : ring_faces triMesh (triMesh.vert (triMesh.get_vertex 1)).edge 1 = [0] := rfl
        have e2 : ring_faces triMesh (triMesh.vert (triMesh.get_vertex 2)).edge 1 = [0] := rfl
        interval_cases w
        · rw [show (fun _ : Nat => 1) 0 = 1 from rfl, e0] at hF; simpa using hF
        · rw [show (fun _ : Nat => 1) 1 = 1 from rfl, e1] at hF; simpa using hF
        · rw [show (fun _ : Nat => 1) 2 = 1 from rfl, e2] at hF; simpa using hF
      subst hF0
      refine ⟨⟨0, by decide, rfl⟩, [0, 1, 2], rfl, ?_⟩
      interval_cases w <;> decide)

end Claims19

section Claims20
variable {α : Type} [LinearOrderedField α]

/-- C20: whatever the incoming buffers, `polynomial_conv` returns with the
incoming `S_vf`, `S_vf_index` and `S_vf_value` unchanged as a prefix, followed
by the reduction entries of the mesh and their mirror, and with the scatter
outputs overwritten: `S_fv` has `face_num * 3 * axis_num * 6 * 3` entries, the
entry of every sample and `i` holds the row, column and value that the second
loop assigns, `S_fv_index` and `S_fv_value` mirror `S_fv`, and the three
containers are the same whatever buffers were passed in. A second call on the
same mesh with the buffers the first call returned yields every reduction entry
twice, while `S_fv`, `S_fv_index` and `S_fv_value` are the same after the
second call as after the first. -/
theorem reinvocation_appends (fuel : Nat) (E : Extern α) (mesh : Mesh3D α)
    (axes : List (List (vec3 α))) (uph : Bool) (out0 : Outputs α) (len : Nat → Nat)
    (hr : rings_close fuel mesh len) (hf : faces_close fuel mesh) :
    ∃ res1 res2, polynomial_conv fuel E mesh axes uph out0 = some res1 ∧
      polynomial_conv fuel E mesh axes uph res1 = some res2 ∧
      res1.S_vf = out0.S_vf ++ reduction_entries fuel E mesh (axes.getD 0 []).length len ∧
      res1.S_vf_index = out0.S_vf_index ++
        (reduction_entries fuel E mesh (axes.getD 0 []).length len).flatMap
          (fun e => [e.row, e.col]) ∧
      res1.S_vf_value = out0.S_vf_value ++
        (reduction_entries fuel E mesh (axes.getD 0 []).length len).map (fun e => e.val) ∧
      res2.S_vf = out0.S_vf ++ reduction_entries fuel E mesh (axes.getD 0 []).length len
        ++ reduction_entries fuel E mesh (axes.getD 0 []).length len ∧
      res2.S_vf_index = out0.S_vf_index ++
        (reduction_entries fuel E mesh (axes.getD 0 []).length len).flatMap
          (fun e => [e.row, e.col]) ++
        (reduction_entries fuel E mesh (axes.getD 0 []).length len).flatMap
          (fun e => [e.row, e.col]) ∧
      res2.S_vf_value = out0.S_vf_value ++
        (reduction_entries fuel E mesh (axes.getD 0 []).length len).map (fun e => e.val) ++
        (reduction_entries fuel E mesh (axes.getD 0 []).length len).map (fun e => e.val) ∧
      res2.S_fv = res1.S_fv ∧ res2.S_fv_index = res1.S_fv_index ∧
      res2.S_fv_value = res1.S_fv_value ∧
      res1.S_fv.length = mesh.num_of_faces * 3 * (axes.getD 0 []).length * 6 * 3 ∧
      (∀ k, k < mesh.num_of_faces → ∃ vts, f_corners fuel mesh (mesh.get_face k) = some vts ∧
        ∀ c, c < 3 → ∀ a, a < (axes.getD 0 []).length → ∀ q, q < 6 → ∀ i, i < 3 →
          res1.S_fv[sample_offset (axes.getD 0 []).length k c a q * 3 + i]?
            = some
              { row := (sample_offset (axes.getD 0 []).length k c a q : Int)
                col := (mesh.vert (vts.getD ((c + i) % 3) 0)).id * ((axes.getD 0 []).length : Int)
                  + Int.tmod ((a : Int)
                      + (axis_offset E mesh axes (axes.getD 0 []).length vts c).getD i 0)
                    ((axes.getD 0 []).length : Int)
                val := (bary_weights.getD q default).get i }) ∧
      (res1.S_fv_index.length = 2 * res1.S_fv.length ∧
        res1.S_fv_value.length = res1.S_fv.length ∧
        ∀ k e, res1.S_fv[k]? = some e →
          res1.S_fv_index[2 * k]? = some e.row ∧ res1.S_fv_index[2 * k + 1]? = some e.col ∧
          res1.S_fv_value[k]? = some e.val) ∧
      (∀ other res, polynomial_conv fuel E mesh axes uph other = some res →
        res.S_fv = res1.S_fv ∧ res.S_fv_index = res1.S_fv_index ∧
        res.S_fv_value = res1.S_fv_value) := by
  obtain ⟨res1, h1, g1⟩ := polynomial_conv_state_eq fuel E mesh axes uph out0 len hr hf
  have p1 : polynomial_conv fuel E mesh axes uph out0 = some res1 := by
    simp [polynomial_conv, h1]
  obtain ⟨res2, h2, g2⟩ := polynomial_conv_state_eq fuel E mesh axes uph res1 len hr hf
  have p2 : polynomial_conv fuel E mesh axes uph res1 = some res2 := by
    simp [polynomial_conv, h2]
  obtain ⟨a1, a2, a3⟩ := face_loop_S_vf fuel E mesh axes uph _ _ _ _ res1 g1
  obtain ⟨b1, b2, b3⟩ := face_loop_S_vf fuel E mesh axes uph _ _ _ _ res2 g2
  obtain ⟨r, r', hr1, hr2, e1, e2, e3⟩ := polynomial_conv_scatter_eq fuel E mesh axes uph out0
    res1 len hr hf
  obtain rfl : res1 = r := Option.some.inj (p1.symm.trans hr1)
  obtain rfl : res2 = r' := Option.some.inj (p2.symm.trans hr2)
  have c1 : res1.S_vf = out0.S_vf ++ reduction_entries fuel E mesh (axes.getD 0 []).length len :=
    a1
  have c2 : res1.S_vf_index = out0.S_vf_index ++
      (reduction_entries fuel E mesh (axes.getD 0 []).length len).flatMap
        (fun e => [e.row, e.col]) := a2
  have c3 : res1.S_vf_value = out0.S_vf_value ++
      (reduction_entries fuel E mesh (axes.getD 0 []).length len).map (fun e => e.val) := a3
  obtain ⟨l1, l2⟩ := face_loop_S_fv fuel E mesh axes uph _ _ _ _ res1
    (by simp [push_entries, resize_outputs, resize_length]) g1
  obtain ⟨s, hs, hm, -⟩ := polynomial_conv_mirrors fuel E mesh axes uph out0 len hr hf
  obtain rfl : res1 = s := Option.some.inj (p1.symm.trans hs)
  refine ⟨res1, res2, p1, p2, c1, c2, c3, ?_, ?_, ?_, e1, e2, e3, l1, ?_, hm, ?_⟩
  · rw [← c1]; exact b1
  · rw [← c2]; exact b2
  · rw [← c3]; exact b3
  · intro k hk
    obtain ⟨vts, hv⟩ := Option.isSome_iff_exists.mp
      (f_corners_isSome fuel mesh hf (mesh.get_face k))
    exact ⟨vts, hv, fun c hc a ha q hq i hi => l2 k hk vts hv c hc a ha q hq i hi⟩
  · intro other res hres
    obtain ⟨t, t', ht, ht', f1, f2, f3⟩ := polynomial_conv_scatter_eq fuel E mesh axes uph out0
      other len hr hf
    obtain rfl : res1 = t := Option.some.inj (p1.symm.trans ht)
    obtain rfl : res = t' := Option.some.inj (hres.symm.trans ht')
    exact ⟨f1, f2, f3⟩

theorem reinvocation_appends_witness :
    ∃ res1 res2, polynomial_conv 3 extQ triMesh triAxes false usedOutputs = some res1 ∧
      polynomial_conv 3 extQ triMesh triAxes false res1 = some res2 ∧
      res1.S_vf = usedOutputs.S_vf
        ++ reduction_entries 3 extQ triMesh (triAxes.getD 0 []).length (fun _ => 1) ∧
      res1.S_vf_index = usedOutputs.S_vf_index ++
        (reduction_entries 3 extQ triMesh (triAxes.getD 0 []).length (fun _ => 1)).flatMap
          (fun e => [e.row, e.col]) ∧
      res1.S_vf_value = usedOutputs.S_vf_value ++
        (reduction_entries 3 extQ triMesh (triAxes.getD 0 []).length (fun _ => 1)).map
          (fun e => e.val) ∧
      res2.S_vf = usedOutputs.S_vf
        ++ reduction_entries 3 extQ triMesh (triAxes.getD 0 []).length (fun _ => 1)
        ++ reduction_entries 3 extQ triMesh (triAxes.getD 0 []).length (fun _ => 1) ∧
      res2.S_vf_index = usedOutputs.S_vf_index ++
        (reduction_entries 3 extQ triMesh (triAxes.getD 0 []).length (fun _ => 1)).flatMap
          (fun e => [e.row, e.col]) ++
        (reduction_entries 3 extQ triMesh (triAxes.getD 0 []).length (fun _ => 1)).flatMap
          (fun e => [e.row, e.col]) ∧
      res2.S_vf_value = usedOutputs.S_vf_value ++
        (reduction_entries 3 extQ triMesh (triAxes.getD 0 []).length (fun _ => 1)).map
          (fun e => e.val) ++
        (reduction_entries 3 extQ triMesh (triAxes.getD 0 []).length (fun _ => 1)).map
          (fun e => e.val) ∧
      res2.S_fv = res1.S_fv ∧ res2.S_fv_index = res1.S_fv_index ∧
      res2.S_fv_value = res1.S_fv_value ∧
      res1.S_fv.length = triMesh.num_of_faces * 3 * (triAxes.getD 0 []).length * 6 * 3 ∧
      (∀ k, k < triMesh.num_of_faces →
        ∃ vts, f_corners 3 triMesh (triMesh.get_face k) = some vts ∧
        ∀ c, c < 3 → ∀ a, a < (triAxes.getD 0 []).length → ∀ q, q < 6 → ∀ i, i < 3 →
          res1.S_fv[sample_offset (triAxes.getD 0 []).length k c a q * 3 + i]?
            = some
              { row := (sample_offset (triAxes.getD 0 []).length k c a q : Int)
                col := (triMesh.vert (vts.getD ((c + i) % 3) 0)).id
                    * ((triAxes.getD 0 []).length : Int)
                  + Int.tmod ((a : Int)
                      + (axis_offset extQ triMesh triAxes (triAxes.getD 0 []).length vts c).getD i 0)
                    ((triAxes.getD 0 []).length : Int)
                val := (bary_weights.getD q default).get i }) ∧
      (res1.S_fv_index.length = 2 * res1.S_fv.length ∧
        res1.S_fv_value.length = res1.S_fv.length ∧
        ∀ k e, res1.S_fv[k]? = some e →
          res1.S_fv_index[2 * k]? = some e.row ∧ res1.S_fv_index[2 * k + 1]? = some e.col ∧
          res1.S_fv_value[k]? = some e.val) ∧
      (∀ other res, polynomial_conv 3 extQ triMesh triAxes false other = some res →
        res.S_fv = res1.S_fv ∧ res.S_fv_index = res1.S_fv_index ∧
        res.S_fv_value = res1.S_fv_value) :=
  reinvocation_appends 3 extQ triMesh triAxes false usedOutputs (fun _ => 1)
    triMesh_rings_close triMesh_faces_close

end Claims20

end PolynomialConv
